import Mathlib

/-! Dibbler address manager (`AddrMgr/AddrMgr.cpp`): prefix delegation database.

A shallow embedding of `TAddrMgr` and of the prefix-delegation operations
`addPrefix`, `updatePrefix`, `delPrefix` and `prefixIsFree`.

Conventions of the embedding.

* A `SPtr<T>` that the code tests against null is an `Option T`.
* A `SPtr<T>` obtained by walking a `TContainer` (`first()` / `get()` until a
  match, then `break`) is the pair of the position of the element in the list
  and the element itself (`findFirst`).  Mutating the pointee is writing the
  new value back at that position (`List.set`).
* `TContainer` keeps an iteration cursor; every walk in the embedded methods
  starts with `first()`, so the cursor carries no information between calls
  and is left out of the state.
* `now()` is a parameter of the operations that read the clock.
* `unsigned long` values are only stored and compared, never computed with;
  they are natural numbers.
* Log output is not part of the state.
-/

namespace Dibbler

/-! ## Data model -/

/-- DHCP unique identifier (`TDUID`): a byte string; `operator==` is bytewise. -/
structure TDUID where
  DUID : List Nat
deriving DecidableEq, Repr

/-- IPv6 address (`TIPv6Addr`): the 16 bytes; `operator==` is bytewise. -/
structure TIPv6Addr where
  Addr : List Nat
deriving DecidableEq, Repr

/-- Tentative flag of a lease (`enum ETentative`). -/
inductive ETentative where
  | TENTATIVE_UNKNOWN
  | TENTATIVE_NO
  | TENTATIVE_YES
deriving DecidableEq, Repr

/-- State of an identity association (`enum EState`). -/
inductive EState where
  | STATE_NOTCONFIGURED
  | STATE_INPROCESS
  | STATE_CONFIGURED
  | STATE_FAILED
  | STATE_DISABLED
  | STATE_TENTATIVECHECK
  | STATE_TENTATIVE
  | STATE_CONFIRMME
deriving DecidableEq, Repr

/-- Variant of an identity association (`TAddrIA::TIAType`). -/
inductive TIAType where
  | TYPE_IA
  | TYPE_TA
  | TYPE_PD
deriving DecidableEq, Repr

/-- Modelled from the spec: the class `TAddrAddr` (AddrAddr.h/.cpp) is not part
of the sources at hand.  Spec §3, row "Address": the full 128-bit address,
preferred and valid lifetime, timestamp, tentative flag, prefix-length hint. -/
structure TAddrAddr where
  Addr : TIPv6Addr
  Prefered : Nat
  Valid : Nat
  Timestamp : Nat
  Tentative : ETentative
  PrefixLen : Int
deriving DecidableEq, Repr

/-- Modelled from the spec: the class `TAddrPrefix` (AddrPrefix.h/.cpp) is not
part of the sources at hand.  Spec §3, row "Prefix": 128-bit base, length,
preferred and valid lifetime, timestamp, tentative flag. -/
structure TAddrPrefix where
  Prefix : TIPv6Addr
  Prefered : Nat
  Valid : Nat
  Timestamp : Nat
  Tentative : ETentative
  Length : Int
deriving DecidableEq, Repr

/-- Modelled from the spec: the class `TAddrIA` (AddrIA.h/.cpp) is not part of
the sources at hand.  Spec §3, row "IA": interface index, variant, T1, T2,
state, timestamp, optional unicast hint, DUID copy, and the child list
(addresses for IA_NA / IA_TA, prefixes for IA_PD). -/
structure TAddrIA where
  Iface : Int
  IAType : TIAType
  SrvAddr : Option TIPv6Addr
  DUID : TDUID
  T1 : Nat
  T2 : Nat
  IAID : Nat
  State : EState
  Tentative : ETentative
  Timestamp : Nat
  AddrLst : List TAddrAddr
  PrefixLst : List TAddrPrefix
deriving DecidableEq, Repr

/-- Modelled from the spec: the class `TAddrClient` (AddrClient.h/.cpp) is not
part of the sources at hand.  Spec §3, row "Client": DUID, optional SPI, and
the three IA collections. -/
structure TAddrClient where
  DUID : TDUID
  SPI : Nat
  IAsLst : List TAddrIA
  TALst : List TAddrIA
  PDLst : List TAddrIA
deriving DecidableEq, Repr

/-- The address manager `TAddrMgr`: members `ClntsLst`, `DeleteEmptyClient`,
`XmlFile`, `IsDone`. -/
structure TAddrMgr where
  ClntsLst : List TAddrClient
  DeleteEmptyClient : Bool
  XmlFile : String
  IsDone : Bool
deriving DecidableEq, Repr

/-! ## Container walks -/

/-- The loop `lst.first(); while (ptr = lst.get()) { if (p ptr) break; }`:
the first element satisfying `p`, with its position, or `none` (null pointer)
when the walk runs off the end. -/
def findFirst {α : Type} (p : α → Bool) : List α → Option (Nat × α)
  | [] => none
  | x :: xs =>
    if p x then some (0, x)
    else match findFirst p xs with
      | none => none
      | some (k, y) => some (k + 1, y)

/-- The loop `lst.first(); while (ptr = lst.get()) { if (p ptr) { lst.del(); return true; } }
return false;` on the list: the first element satisfying `p` is removed. -/
def delFirst {α : Type} (p : α → Bool) (l : List α) : Bool × List α :=
  match findFirst p l with
  | none => (false, l)
  | some (k, _) => (true, l.eraseIdx k)

/-! ## Collaborator classes -/

/-- Modelled from the spec: constructor `TAddrPrefix(prefix, pref, valid, length)`,
not in the sources at hand.  Spec §4.4 `add_prefix` step 4: "Insert the Prefix
with the provided lifetimes and length; set timestamp to now; tentative=no." -/
def TAddrPrefix.new (now : Nat) (pfx : TIPv6Addr) (pref valid : Nat) (length : Int) :
    TAddrPrefix :=
  { Prefix := pfx, Prefered := pref, Valid := valid, Timestamp := now,
    Tentative := ETentative.TENTATIVE_NO, Length := length }

/-- Modelled from the spec: `TAddrPrefix::get()`, the base of the prefix. -/
def TAddrPrefix.get (x : TAddrPrefix) : TIPv6Addr := x.Prefix

/-- Modelled from the spec: `TAddrPrefix::setTimestamp()`, timestamp to now
(spec §4.4 `update_prefix` step 5). -/
def TAddrPrefix.setTimestamp (x : TAddrPrefix) (now : Nat) : TAddrPrefix :=
  { x with Timestamp := now }

/-- Modelled from the spec: `TAddrPrefix::setPref`, the preferred lifetime. -/
def TAddrPrefix.setPref (x : TAddrPrefix) (pref : Nat) : TAddrPrefix :=
  { x with Prefered := pref }

/-- Modelled from the spec: `TAddrPrefix::setValid`, the valid lifetime. -/
def TAddrPrefix.setValid (x : TAddrPrefix) (valid : Nat) : TAddrPrefix :=
  { x with Valid := valid }

/-- Modelled from the spec: constructor
`TAddrIA(iface, type, addr, duid, t1, t2, iaid)`, not in the sources at hand.
Spec §4.4 `add_prefix` step 2: the IA is created "with the provided
parameters"; it starts with no children, not configured, tentative unknown,
timestamp now. -/
def TAddrIA.new (now : Nat) (iface : Int) (type : TIAType) (addr : Option TIPv6Addr)
    (duid : TDUID) (t1 t2 iaid : Nat) : TAddrIA :=
  { Iface := iface, IAType := type, SrvAddr := addr, DUID := duid, T1 := t1, T2 := t2,
    IAID := iaid, State := EState.STATE_NOTCONFIGURED,
    Tentative := ETentative.TENTATIVE_UNKNOWN, Timestamp := now,
    AddrLst := [], PrefixLst := [] }

/-- Modelled from the spec: `TAddrIA::getIAID()`. -/
def TAddrIA.getIAID (ia : TAddrIA) : Nat := ia.IAID

/-- Modelled from the spec: `TAddrIA::setTimestamp()`, spec §4.3 `set_timestamp`
and §4.4 `update_prefix` step 3 ("Refresh IA timestamp"). -/
def TAddrIA.setTimestamp (ia : TAddrIA) (now : Nat) : TAddrIA :=
  { ia with Timestamp := now }

/-- Modelled from the spec: `TAddrIA::setT1`, spec §4.3 `set_t1`. -/
def TAddrIA.setT1 (ia : TAddrIA) (t1 : Nat) : TAddrIA := { ia with T1 := t1 }

/-- Modelled from the spec: `TAddrIA::setT2`, spec §4.3 `set_t2`. -/
def TAddrIA.setT2 (ia : TAddrIA) (t2 : Nat) : TAddrIA := { ia with T2 := t2 }

/-- Modelled from the spec: `TAddrIA::addPrefix(prefix, pref, valid, length)`,
spec §4.4 `add_prefix` step 4: a new prefix record is inserted; iteration is
in insertion order (§5), so it goes to the end of the list. -/
def TAddrIA.addPrefix (ia : TAddrIA) (now : Nat) (pfx : TIPv6Addr) (pref valid : Nat)
    (length : Int) : TAddrIA :=
  { ia with PrefixLst := ia.PrefixLst ++ [TAddrPrefix.new now pfx pref valid length] }

/-- Modelled from the spec: `TAddrIA::delPrefix(prefix)`, spec §4.4 `del_prefix`
step 2 ("Remove the Prefix from the IA"): the prefix found by base, first
match in insertion order, is removed. -/
def TAddrIA.delPrefix (ia : TAddrIA) (pfx : TIPv6Addr) : Bool × TAddrIA :=
  let r := delFirst (fun x : TAddrPrefix => decide (x.get = pfx)) ia.PrefixLst
  (r.1, { ia with PrefixLst := r.2 })

/-- Modelled from the spec: `TAddrIA::getPrefixCount()`, spec §4.3 count of the
children of an IA_PD. -/
def TAddrIA.getPrefixCount (ia : TAddrIA) : Nat := ia.PrefixLst.length

/-- Modelled from the spec: constructor `TAddrClient(duid)`: a client with the
given DUID and three empty IA collections (spec §3), SPI left zero (§9). -/
def TAddrClient.new (duid : TDUID) : TAddrClient :=
  { DUID := duid, SPI := 0, IAsLst := [], TALst := [], PDLst := [] }

/-- Modelled from the spec: `TAddrClient::getDUID()`. -/
def TAddrClient.getDUID (c : TAddrClient) : TDUID := c.DUID

/-- Modelled from the spec: `TAddrClient::addPD`, spec §4.2 `add_ia(IA_PD, ia)`
as the code uses it after its own lookup failed: the IA is appended. -/
def TAddrClient.addPD (c : TAddrClient) (pd : TAddrIA) : TAddrClient :=
  { c with PDLst := c.PDLst ++ [pd] }

/-- Modelled from the spec: `TAddrClient::delPD(IAID)`, spec §4.2
`del_ia(IA_PD, iaid)`: the IA_PD found by IAID, first match, is removed. -/
def TAddrClient.delPD (c : TAddrClient) (iaid : Nat) : Bool × TAddrClient :=
  let r := delFirst (fun pd : TAddrIA => decide (pd.getIAID = iaid)) c.PDLst
  (r.1, { c with PDLst := r.2 })

/-- Modelled from the spec: `TAddrClient::countIA()`, spec §4.2 `count(IA_NA)`. -/
def TAddrClient.countIA (c : TAddrClient) : Nat := c.IAsLst.length

/-- Modelled from the spec: `TAddrClient::countTA()`, spec §4.2 `count(IA_TA)`. -/
def TAddrClient.countTA (c : TAddrClient) : Nat := c.TALst.length

/-- Modelled from the spec: `TAddrClient::countPD()`, spec §4.2 `count(IA_PD)`. -/
def TAddrClient.countPD (c : TAddrClient) : Nat := c.PDLst.length

/-- The walk `firstPD(); while (pd = getPD()) if (pd->getIAID() == IAID) break;`. -/
def TAddrClient.findPD (c : TAddrClient) (iaid : Nat) : Option (Nat × TAddrIA) :=
  findFirst (fun pd : TAddrIA => decide (pd.getIAID = iaid)) c.PDLst

/-- The walk `firstPrefix(); while (p = getPrefix()) if (*p->get() == *prefix) break;`. -/
def TAddrIA.findPrefix (ia : TAddrIA) (pfx : TIPv6Addr) : Option (Nat × TAddrPrefix) :=
  findFirst (fun x : TAddrPrefix => decide (x.get = pfx)) ia.PrefixLst

/-! ## `TAddrMgr` -/

/-- The store `TAddrMgr(xmlFile, false)` builds: no clients, `IsDone = false`,
`DeleteEmptyClient = true` (AddrMgr.cpp:25-36). -/
def TAddrMgr.new (xmlFile : String) : TAddrMgr :=
  { ClntsLst := [], DeleteEmptyClient := true, XmlFile := xmlFile, IsDone := false }

/-- `TAddrMgr::addClient` (AddrMgr.cpp:91-94): `ClntsLst.append(x)`. -/
def TAddrMgr.addClient (m : TAddrMgr) (x : TAddrClient) : TAddrMgr :=
  { m with ClntsLst := m.ClntsLst ++ [x] }

/-- The walk `firstClient(); while (c = getClient()) if (*c->getDUID() == *duid) break;`,
also the body of `TAddrMgr::getClient(SPtr<TDUID>)` (AddrMgr.cpp:115-125). -/
def TAddrMgr.findClient (m : TAddrMgr) (duid : TDUID) : Option (Nat × TAddrClient) :=
  findFirst (fun c : TAddrClient => decide (c.getDUID = duid)) m.ClntsLst

/-- `TAddrMgr::countClient` (AddrMgr.cpp:174-177). -/
def TAddrMgr.countClient (m : TAddrMgr) : Nat := m.ClntsLst.length

/-- `TAddrMgr::delClient` (AddrMgr.cpp:179-193): the first client with the DUID
is deleted. -/
def TAddrMgr.delClient (m : TAddrMgr) (duid : TDUID) : Bool × TAddrMgr :=
  let r := delFirst (fun c : TAddrClient => decide (c.getDUID = duid)) m.ClntsLst
  (r.1, { m with ClntsLst := r.2 })

/-- `TAddrMgr::addPrefix(SPtr<TAddrClient> client, ...)` (AddrMgr.cpp:288-339),
as a function on the client record the pointer refers to: the result is the
return value and the record after the call. -/
def TAddrMgr.addPrefixClient (now : Nat) (client : Option TAddrClient) (duid : TDUID)
    (addr : Option TIPv6Addr) (iface : Int) (IAID T1 T2 : Nat) (pfx : Option TIPv6Addr)
    (pref valid : Nat) (length : Int) (_quiet : Bool) : Bool × Option TAddrClient :=
  match pfx with
  | none => (false, client)
  | some px =>
    match client with
    | none => (false, none)
    | some c =>
      -- find this PD; have we found this PD?
      let found : TAddrClient × Nat × TAddrIA :=
        match c.findPD IAID with
        | some (k, pd) => (c, k, pd)
        | none =>
          let pd := TAddrIA.new now iface TIAType.TYPE_PD addr duid T1 T2 IAID
          (c.addPD pd, c.PDLst.length, pd)
      let c1 := found.1
      let k := found.2.1
      let ptrPD := found.2.2
      match ptrPD.findPrefix px with
      | some _ => (false, some c1)
      | none =>
        (true, some { c1 with PDLst := c1.PDLst.set k (ptrPD.addPrefix now px pref valid length) })

/-- `TAddrMgr::addPrefix(SPtr<TDUID> clntDuid, ...)` (AddrMgr.cpp:266-286). -/
def TAddrMgr.addPrefix (m : TAddrMgr) (now : Nat) (clntDuid : TDUID)
    (clntAddr : Option TIPv6Addr) (iface : Int) (IAID T1 T2 : Nat) (pfx : Option TIPv6Addr)
    (pref valid : Nat) (length : Int) (quiet : Bool) : Bool × TAddrMgr :=
  -- find this client; have we found this client?
  let found : TAddrMgr × Nat × TAddrClient :=
    match m.findClient clntDuid with
    | some (k, c) => (m, k, c)
    | none =>
      let c := TAddrClient.new clntDuid
      (m.addClient c, m.ClntsLst.length, c)
  let m1 := found.1
  let k := found.2.1
  let r := TAddrMgr.addPrefixClient now (some found.2.2) clntDuid clntAddr iface IAID T1 T2
    pfx pref valid length quiet
  match r.2 with
  | none => (r.1, m1)
  | some c1 => (r.1, { m1 with ClntsLst := m1.ClntsLst.set k c1 })

/-- `TAddrMgr::updatePrefix(SPtr<TAddrClient> client, ...)` (AddrMgr.cpp:361-409),
as a function on the client record the pointer refers to. -/
def TAddrMgr.updatePrefixClient (now : Nat) (client : Option TAddrClient) (_duid : TDUID)
    (_clntAddr : Option TIPv6Addr) (_iface : Int) (IAID T1 T2 : Nat)
    (pfx : Option TIPv6Addr) (pref _valid : Nat) (_length : Int) (_quiet : Bool) :
    Bool × Option TAddrClient :=
  match pfx with
  | none => (false, client)
  | some px =>
    match client with
    | none => (false, none)
    | some c =>
      -- for that client, find IA
      match c.findPD IAID with
      | none => (false, some c)
      | some (k, pd) =>
        let pd1 := ((pd.setTimestamp now).setT1 T1).setT2 T2
        match pd1.findPrefix px with
        | none => (false, some { c with PDLst := c.PDLst.set k pd1 })
        | some (j, ptrPrefix) =>
          let p1 := ((ptrPrefix.setTimestamp now).setPref pref).setValid pref
          (true, some { c with
            PDLst := c.PDLst.set k { pd1 with PrefixLst := pd1.PrefixLst.set j p1 } })

/-- `TAddrMgr::updatePrefix(SPtr<TDUID> duid, ...)` (AddrMgr.cpp:341-359).  The
result is `none` when the code dereferences a null pointer: the error message
for an unknown client calls `prefix->getPlain()` before any null check. -/
def TAddrMgr.updatePrefix (m : TAddrMgr) (now : Nat) (duid : TDUID)
    (addr : Option TIPv6Addr) (iface : Int) (IAID T1 T2 : Nat) (pfx : Option TIPv6Addr)
    (pref valid : Nat) (length : Int) (quiet : Bool) : Option (Bool × TAddrMgr) :=
  match m.findClient duid with
  | none =>
    match pfx with
    | none => none
    | some _ => some (false, m)
  | some (k, c) =>
    let r := TAddrMgr.updatePrefixClient now (some c) duid addr iface IAID T1 T2 pfx pref valid
      length quiet
    match r.2 with
    | none => some (r.1, m)
    | some c1 => some (r.1, { m with ClntsLst := m.ClntsLst.set k c1 })

/-- `TAddrMgr::delPrefix` (AddrMgr.cpp:414-482).  The prefix is dereferenced
unconditionally by the first statement, so it is taken non-null. -/
def TAddrMgr.delPrefix (m : TAddrMgr) (clntDuid : TDUID) (IAID : Nat) (pfx : TIPv6Addr)
    (_quiet : Bool) : Bool × TAddrMgr :=
  -- find this client
  match m.findClient clntDuid with
  | none => (false, m)
  | some (k, ptrClient) =>
    -- find this IA
    match ptrClient.findPD IAID with
    | none => (false, m)
    | some (kpd, ptrPD) =>
      match ptrPD.findPrefix pfx with
      | none => (false, m)
      | some _ =>
        let pd1 := (ptrPD.delPrefix pfx).2
        let c1 : TAddrClient := { ptrClient with PDLst := ptrClient.PDLst.set kpd pd1 }
        let c2 := if pd1.getPrefixCount = 0 then (c1.delPD IAID).2 else c1
        let m1 : TAddrMgr := { m with ClntsLst := m.ClntsLst.set k c2 }
        if c2.countIA = 0 ∧ c2.countTA = 0 ∧ c2.countPD = 0 ∧ m.DeleteEmptyClient = true then
          (true, (m1.delClient clntDuid).2)
        else
          (true, m1)

/-- `TAddrMgr::prefixIsFree` (AddrMgr.cpp:492-512): walks every client, every
PD of it and every prefix of the PD; `false` at the first prefix whose base
equals `x`. -/
def TAddrMgr.prefixIsFree (m : TAddrMgr) (x : TIPv6Addr) : Bool :=
  !(m.ClntsLst.any fun client =>
      client.PDLst.any fun pd =>
        pd.PrefixLst.any fun p => decide (p.get = x))

/-- The lookup chain of the three prefix operations, first level: the client
`getClient(duid)` resolves to (first match in insertion order). -/
def TAddrMgr.getClient (m : TAddrMgr) (duid : TDUID) : Option TAddrClient :=
  match m.findClient duid with
  | none => none
  | some (_, c) => some c

/-- The lookup chain, second level: the IA_PD with the IAID in the resolved
client (first match). -/
def TAddrMgr.getPD (m : TAddrMgr) (duid : TDUID) (iaid : Nat) : Option TAddrIA :=
  match m.getClient duid with
  | none => none
  | some c =>
    match c.findPD iaid with
    | none => none
    | some (_, pd) => some pd

/-- The lookup chain, third level: the prefix with the given base in the
resolved IA_PD (first match). -/
def TAddrMgr.getPrefix (m : TAddrMgr) (duid : TDUID) (iaid : Nat) (pfx : TIPv6Addr) :
    Option TAddrPrefix :=
  match m.getPD duid iaid with
  | none => none
  | some pd =>
    match pd.findPrefix pfx with
    | none => none
    | some (_, x) => some x

/-- Some IA_PD of the client holds a prefix record with base `x`. -/
def TAddrClient.holdsPrefix (c : TAddrClient) (x : TIPv6Addr) : Bool :=
  c.PDLst.any fun pd => pd.PrefixLst.any fun p => decide (p.get = x)

/-- Some client with DUID `d` holds a prefix record with base `x` in one of its
IA_PDs. -/
def TAddrMgr.clientHolds (m : TAddrMgr) (d : TDUID) (x : TIPv6Addr) : Bool :=
  m.ClntsLst.any fun c => decide (c.getDUID = d) && c.holdsPrefix x

/-- The shape of the store that `update_prefix` must not touch: per client the
number of IA_NA and IA_TA records, and per IA_PD the (base, length) of each
prefix, in order.  Its length is the number of clients. -/
def TAddrMgr.skeleton (m : TAddrMgr) : List (Nat × Nat × List (List (TIPv6Addr × Int))) :=
  m.ClntsLst.map fun c =>
    (c.IAsLst.length, c.TALst.length,
      c.PDLst.map fun pd => pd.PrefixLst.map fun x => (x.Prefix, x.Length))

/-! ## Leases held, well-formedness, call sequences -/

/-- A delegated prefix as the operations address it: DUID, IAID, base. -/
abbrev PKey := TDUID × Nat × TIPv6Addr

/-- The leases of one IA_PD of the client with DUID `d`, in order. -/
def TAddrIA.keys (d : TDUID) (pd : TAddrIA) : List PKey :=
  pd.PrefixLst.map fun x => (d, pd.IAID, x.Prefix)

/-- The leases of a list of IA_PDs of the client with DUID `d`. -/
def pdsKeys (d : TDUID) (l : List TAddrIA) : List PKey := (l.map (TAddrIA.keys d)).flatten

/-- The prefix leases of one client. -/
def TAddrClient.keys (c : TAddrClient) : List PKey := pdsKeys c.DUID c.PDLst

/-- The prefix leases of a list of clients. -/
def clientsKeys (l : List TAddrClient) : List PKey := (l.map TAddrClient.keys).flatten

/-- Every prefix lease in the store, in iteration order. -/
def TAddrMgr.keys (m : TAddrMgr) : List PKey := clientsKeys m.ClntsLst

/-- Bases are pairwise distinct within the IA_PD. -/
def TAddrIA.WF (pd : TAddrIA) : Prop := (pd.PrefixLst.map fun x => x.Prefix).Nodup

/-- IAIDs are pairwise distinct among the client's IA_PDs, each of which is
well-formed. -/
def TAddrClient.WF (c : TAddrClient) : Prop :=
  (c.PDLst.map fun pd => pd.IAID).Nodup ∧ ∀ pd ∈ c.PDLst, pd.WF

/-- DUIDs are pairwise distinct across clients, each of which is well-formed
(spec §3, invariants 1, 2 and 4 for IA_PD). -/
def TAddrMgr.WF (m : TAddrMgr) : Prop :=
  (m.ClntsLst.map fun c => c.DUID).Nodup ∧ ∀ c ∈ m.ClntsLst, c.WF

/-- The client holds nothing but IA_PDs, has at least one, and each of them has
at least one prefix. -/
def TAddrClient.onlyLivePD (c : TAddrClient) : Prop :=
  c.IAsLst = [] ∧ c.TALst = [] ∧ c.PDLst ≠ [] ∧ ∀ pd ∈ c.PDLst, pd.PrefixLst ≠ []

/-- Every client of the store holds nothing but non-empty IA_PDs, and at least
one. -/
def TAddrMgr.onlyLivePD (m : TAddrMgr) : Prop := ∀ c ∈ m.ClntsLst, c.onlyLivePD

/-- The arguments of one `addPrefix(clntDuid, ...)` call with a non-null prefix,
and the clock reading during the call. -/
structure AddCall where
  now : Nat
  duid : TDUID
  addr : Option TIPv6Addr
  iface : Int
  IAID : Nat
  T1 : Nat
  T2 : Nat
  pfx : TIPv6Addr
  pref : Nat
  valid : Nat
  length : Int
  quiet : Bool
deriving DecidableEq, Repr

/-- The lease an `addPrefix` call is about. -/
def AddCall.key (a : AddCall) : PKey := (a.duid, a.IAID, a.pfx)

/-- The arguments of one `delPrefix` call. -/
structure DelCall where
  duid : TDUID
  IAID : Nat
  pfx : TIPv6Addr
  quiet : Bool
deriving DecidableEq, Repr

/-- The lease a `delPrefix` call is about. -/
def DelCall.key (a : DelCall) : PKey := (a.duid, a.IAID, a.pfx)

/-- A sequence of `addPrefix` calls: whether all of them returned true, and the
store after the last. -/
def runAdds : TAddrMgr → List AddCall → Bool × TAddrMgr
  | m, [] => (true, m)
  | m, a :: rest =>
    let r := m.addPrefix a.now a.duid a.addr a.iface a.IAID a.T1 a.T2 (some a.pfx) a.pref
      a.valid a.length a.quiet
    let r2 := runAdds r.2 rest
    (r.1 && r2.1, r2.2)

/-- A sequence of `delPrefix` calls: whether all of them returned true, and the
store after the last. -/
def runDels : TAddrMgr → List DelCall → Bool × TAddrMgr
  | m, [] => (true, m)
  | m, a :: rest =>
    let r := m.delPrefix a.duid a.IAID a.pfx a.quiet
    let r2 := runDels r.2 rest
    (r.1 && r2.1, r2.2)

/-- The store a fresh `TAddrMgr` is, with the `DeleteEmptyClient` member set to
`flag` (the constructor sets it; a derived manager may clear it). -/
def emptyStore (flag : Bool) (xmlFile : String) : TAddrMgr :=
  { TAddrMgr.new xmlFile with DeleteEmptyClient := flag }

/-! ## Lemmas on container walks -/

theorem findFirst_eq_none {α : Type} {p : α → Bool} {l : List α} :
    findFirst p l = none ↔ ∀ y ∈ l, p y = false := by
  induction l with
  | nil => simp [findFirst]
  | cons x xs ih =>
    by_cases hx : p x = true
    · simp [findFirst, hx]
    · cases hxs : findFirst p xs with
      | none =>
        have := ih.mp hxs
        simp [findFirst, hx, hxs]
        simpa using this
      | some r =>
        have hne : ¬ ∀ y ∈ xs, p y = false := fun h => by
          rw [ih.mpr h] at hxs
          cases hxs
        simp [findFirst, hx, hxs]
        simpa using hne

theorem findFirst_eq_some {α : Type} {p : α → Bool} {l : List α} {k : Nat} {x : α} :
    findFirst p l = some (k, x) ↔
      ∃ pre post, l = pre ++ x :: post ∧ k = pre.length ∧ p x = true ∧
        ∀ y ∈ pre, p y = false := by
  induction l generalizing k with
  | nil => simp [findFirst]
  | cons a as ih =>
    by_cases ha : p a = true
    · simp only [findFirst, ha, if_true, Option.some.injEq, Prod.mk.injEq]
      constructor
      · rintro ⟨rfl, rfl⟩
        exact ⟨[], as, rfl, rfl, ha, by simp⟩
      · rintro ⟨pre, post, hl, hk, _, hpre⟩
        cases pre with
        | nil =>
          simp at hl
          exact ⟨by simp [hk], hl.1⟩
        | cons b bs =>
          simp at hl
          have := hpre b (by simp)
          rw [← hl.1, ha] at this
          cases this
    · have ha' : p a = false := by simpa using ha
      constructor
      · intro h
        cases hxs : findFirst p as with
        | none => simp [findFirst, ha', hxs] at h
        | some r =>
          obtain ⟨j, y⟩ := r
          simp [findFirst, ha', hxs] at h
          obtain ⟨hj, hy⟩ := h
          subst hj; subst hy
          obtain ⟨pre, post, hl, hk, hp, hpre⟩ := ih.mp hxs
          refine ⟨a :: pre, post, by simp [hl], by simp [hk], hp, ?_⟩
          intro z hz
          rcases List.mem_cons.mp hz with rfl | hz
          · exact ha'
          · exact hpre z hz
      · rintro ⟨pre, post, hl, hk, hp, hpre⟩
        cases pre with
        | nil =>
          simp at hl
          rw [hl.1, hp] at ha'
          cases ha'
        | cons b bs =>
          simp at hl
          obtain ⟨rfl, hl⟩ := hl
          have : findFirst p as = some (bs.length, x) :=
            ih.mpr ⟨bs, post, hl, rfl, hp, fun z hz => hpre z (by simp [hz])⟩
          simp [findFirst, ha', this, hk]

theorem set_mid {α : Type} (pre post : List α) (x y : α) :
    (pre ++ x :: post).set pre.length y = pre ++ y :: post := by
  induction pre with
  | nil => rfl
  | cons a as ih => simp [List.set, ih]

theorem eraseIdx_mid {α : Type} (pre post : List α) (x : α) :
    (pre ++ x :: post).eraseIdx pre.length = pre ++ post := by
  induction pre with
  | nil => rfl
  | cons a as ih => simp [List.eraseIdx, ih]

theorem any_map_fun {α β : Type} (f : α → β) (p : β → Bool) (l : List α) :
    (l.map f).any p = l.any (fun a => p (f a)) := by
  induction l with
  | nil => rfl
  | cons a as ih => simp [List.any, ih]

theorem set_last {α : Type} (l : List α) (x y : α) :
    (l ++ [x]).set l.length y = l ++ [y] := set_mid l [] x y

/-! ## `addPrefix` -/

theorem findClient_eq_none {m : TAddrMgr} {d : TDUID} :
    m.findClient d = none ↔ ∀ y ∈ m.ClntsLst, y.DUID ≠ d := by
  simp [TAddrMgr.findClient, findFirst_eq_none, TAddrClient.getDUID]

theorem findClient_eq_some {m : TAddrMgr} {d : TDUID} {k : Nat} {c : TAddrClient} :
    m.findClient d = some (k, c) ↔
      ∃ pre post, m.ClntsLst = pre ++ c :: post ∧ k = pre.length ∧ c.DUID = d ∧
        ∀ y ∈ pre, y.DUID ≠ d := by
  simp [TAddrMgr.findClient, findFirst_eq_some, TAddrClient.getDUID]

theorem findPD_eq_none {c : TAddrClient} {i : Nat} :
    c.findPD i = none ↔ ∀ y ∈ c.PDLst, y.IAID ≠ i := by
  simp [TAddrClient.findPD, findFirst_eq_none, TAddrIA.getIAID]

theorem findPD_eq_some {c : TAddrClient} {i : Nat} {k : Nat} {pd : TAddrIA} :
    c.findPD i = some (k, pd) ↔
      ∃ pre post, c.PDLst = pre ++ pd :: post ∧ k = pre.length ∧ pd.IAID = i ∧
        ∀ y ∈ pre, y.IAID ≠ i := by
  simp [TAddrClient.findPD, findFirst_eq_some, TAddrIA.getIAID]

theorem findPrefix_eq_none {pd : TAddrIA} {p : TIPv6Addr} :
    pd.findPrefix p = none ↔ ∀ y ∈ pd.PrefixLst, y.Prefix ≠ p := by
  simp [TAddrIA.findPrefix, findFirst_eq_none, TAddrPrefix.get]

theorem findPrefix_eq_some {pd : TAddrIA} {p : TIPv6Addr} {k : Nat} {x : TAddrPrefix} :
    pd.findPrefix p = some (k, x) ↔
      ∃ pre post, pd.PrefixLst = pre ++ x :: post ∧ k = pre.length ∧ x.Prefix = p ∧
        ∀ y ∈ pre, y.Prefix ≠ p := by
  simp [TAddrIA.findPrefix, findFirst_eq_some, TAddrPrefix.get]

/-- The inner `addPrefix` on a client whose IA_PD `IAID` is absent: the IA_PD is
created and appended, holding the one new prefix. -/
theorem addPrefixClient_newPD (now : Nat) (c : TAddrClient) (d : TDUID)
    (addr : Option TIPv6Addr) (iface : Int) (i T1 T2 : Nat) (p : TIPv6Addr) (pref valid : Nat)
    (len : Int) (quiet : Bool) (h : c.findPD i = none) :
    TAddrMgr.addPrefixClient now (some c) d addr iface i T1 T2 (some p) pref valid len quiet =
      (true, some { c with PDLst := c.PDLst ++
        [{ TAddrIA.new now iface TIAType.TYPE_PD addr d T1 T2 i with
            PrefixLst := [TAddrPrefix.new now p pref valid len] }] }) := by
  simp [TAddrMgr.addPrefixClient, h, TAddrClient.addPD, TAddrIA.findPrefix, TAddrIA.new,
    findFirst, set_last, TAddrIA.addPrefix]

/-- The inner `addPrefix` on a client whose IA_PD `IAID` exists and does not
hold the base: the prefix is appended to that IA_PD. -/
theorem addPrefixClient_oldPD (now : Nat) (c : TAddrClient) (d : TDUID)
    (addr : Option TIPv6Addr) (iface : Int) (i T1 T2 : Nat) (p : TIPv6Addr) (pref valid : Nat)
    (len : Int) (quiet : Bool) (ppre ppost : List TAddrIA) (pd : TAddrIA)
    (hl : c.PDLst = ppre ++ pd :: ppost) (hi : pd.IAID = i) (hpre : ∀ y ∈ ppre, y.IAID ≠ i)
    (hp : pd.findPrefix p = none) :
    TAddrMgr.addPrefixClient now (some c) d addr iface i T1 T2 (some p) pref valid len quiet =
      (true, some { c with PDLst := ppre ++
        { pd with PrefixLst := pd.PrefixLst ++ [TAddrPrefix.new now p pref valid len] }
          :: ppost }) := by
  have hf : c.findPD i = some (ppre.length, pd) :=
    findPD_eq_some.mpr ⟨ppre, ppost, hl, rfl, hi, hpre⟩
  simp [TAddrMgr.addPrefixClient, hf, hp, hl, set_mid, TAddrIA.addPrefix]

/-- The inner `addPrefix` on a client whose IA_PD `IAID` already holds the
base: failure, the client record is not touched. -/
theorem addPrefixClient_dup (now : Nat) (c : TAddrClient) (d : TDUID)
    (addr : Option TIPv6Addr) (iface : Int) (i T1 T2 : Nat) (p : TIPv6Addr) (pref valid : Nat)
    (len : Int) (quiet : Bool) (k j : Nat) (pd : TAddrIA) (x : TAddrPrefix)
    (hf : c.findPD i = some (k, pd)) (hp : pd.findPrefix p = some (j, x)) :
    TAddrMgr.addPrefixClient now (some c) d addr iface i T1 T2 (some p) pref valid len quiet =
      (false, some c) := by
  simp [TAddrMgr.addPrefixClient, hf, hp]

/-- What `addPrefix` with a non-null prefix does, by the outcome of its three
walks: client absent; client found, IA_PD absent; IA_PD found, base absent;
base found. -/
theorem addPrefix_cases (m : TAddrMgr) (now : Nat) (d : TDUID) (addr : Option TIPv6Addr)
    (iface : Int) (i T1 T2 : Nat) (p : TIPv6Addr) (pref valid : Nat) (len : Int) (quiet : Bool) :
    ((∀ y ∈ m.ClntsLst, y.DUID ≠ d) ∧
        m.addPrefix now d addr iface i T1 T2 (some p) pref valid len quiet =
          (true, { m with ClntsLst := m.ClntsLst ++ [{ TAddrClient.new d with
            PDLst := [{ TAddrIA.new now iface TIAType.TYPE_PD addr d T1 T2 i with
              PrefixLst := [TAddrPrefix.new now p pref valid len] }] }] })) ∨
    (∃ pre c post, m.ClntsLst = pre ++ c :: post ∧ (∀ y ∈ pre, y.DUID ≠ d) ∧ c.DUID = d ∧
        (((∀ y ∈ c.PDLst, y.IAID ≠ i) ∧
            m.addPrefix now d addr iface i T1 T2 (some p) pref valid len quiet =
              (true, { m with ClntsLst := pre ++ { c with PDLst := c.PDLst ++
                [{ TAddrIA.new now iface TIAType.TYPE_PD addr d T1 T2 i with
                    PrefixLst := [TAddrPrefix.new now p pref valid len] }] } :: post })) ∨
         (∃ ppre pd ppost, c.PDLst = ppre ++ pd :: ppost ∧ (∀ y ∈ ppre, y.IAID ≠ i) ∧
            pd.IAID = i ∧
            (((∀ y ∈ pd.PrefixLst, y.Prefix ≠ p) ∧
              m.addPrefix now d addr iface i T1 T2 (some p) pref valid len quiet =
                (true, { m with ClntsLst := pre ++ { c with PDLst := ppre ++
                  { pd with
                    PrefixLst := pd.PrefixLst ++ [TAddrPrefix.new now p pref valid len] }
                    :: ppost } :: post })) ∨
             ((∃ x ∈ pd.PrefixLst, x.Prefix = p) ∧
              m.addPrefix now d addr iface i T1 T2 (some p) pref valid len quiet =
                (false, m)))))) := by
  cases hfc : m.findClient d with
  | none =>
    have hnew : (TAddrClient.new d).findPD i = none := by
      simp [TAddrClient.findPD, TAddrClient.new, findFirst]
    have hin := addPrefixClient_newPD now (TAddrClient.new d) d addr iface i T1 T2 p pref valid
      len quiet hnew
    refine Or.inl ⟨findClient_eq_none.mp hfc, ?_⟩
    simp only [TAddrMgr.addPrefix, hfc, hin, TAddrMgr.addClient, set_last]
    simp [TAddrClient.new]
  | some r =>
    obtain ⟨k, c⟩ := r
    obtain ⟨pre, post, hl, hk, hd, hpre⟩ := findClient_eq_some.mp hfc
    subst hk
    refine Or.inr ⟨pre, c, post, hl, hpre, hd, ?_⟩
    cases hfp : c.findPD i with
    | none =>
      have hin := addPrefixClient_newPD now c d addr iface i T1 T2 p pref valid len quiet hfp
      refine Or.inl ⟨findPD_eq_none.mp hfp, ?_⟩
      simp [TAddrMgr.addPrefix, hfc, hin, hl, set_mid]
    | some r2 =>
      obtain ⟨j, pd⟩ := r2
      obtain ⟨ppre, ppost, hl2, hj, hi, hppre⟩ := findPD_eq_some.mp hfp
      refine Or.inr ⟨ppre, pd, ppost, hl2, hppre, hi, ?_⟩
      cases hpp : pd.findPrefix p with
      | none =>
        have hin := addPrefixClient_oldPD now c d addr iface i T1 T2 p pref valid len quiet
          ppre ppost pd hl2 hi hppre hpp
        refine Or.inl ⟨findPrefix_eq_none.mp hpp, ?_⟩
        simp [TAddrMgr.addPrefix, hfc, hin, hl, set_mid]
      | some r3 =>
        obtain ⟨n, x⟩ := r3
        have hin := addPrefixClient_dup now c d addr iface i T1 T2 p pref valid len quiet
          j n pd x hfp hpp
        obtain ⟨xpre, xpost, hx, _, hxp, _⟩ := findPrefix_eq_some.mp hpp
        refine Or.inr ⟨⟨x, by simp [hx], hxp⟩, ?_⟩
        simp only [TAddrMgr.addPrefix, hfc, hin, hl, set_mid]
        rw [← hl]

/-! ## The lookup chain on a store split at the resolved records -/

theorem getClient_split {m : TAddrMgr} {d : TDUID} {pre post : List TAddrClient}
    {c : TAddrClient} (hl : m.ClntsLst = pre ++ c :: post) (hpre : ∀ y ∈ pre, y.DUID ≠ d)
    (hd : c.DUID = d) : m.getClient d = some c := by
  have : m.findClient d = some (pre.length, c) :=
    findClient_eq_some.mpr ⟨pre, post, hl, rfl, hd, hpre⟩
  simp [TAddrMgr.getClient, this]

theorem getClient_eq_none {m : TAddrMgr} {d : TDUID} :
    m.getClient d = none ↔ ∀ y ∈ m.ClntsLst, y.DUID ≠ d := by
  rw [← findClient_eq_none]
  cases h : m.findClient d <;> simp [TAddrMgr.getClient, h]

theorem getPD_split {m : TAddrMgr} {d : TDUID} {i : Nat} {pre post : List TAddrClient}
    {c : TAddrClient} {ppre ppost : List TAddrIA} {pd : TAddrIA}
    (hl : m.ClntsLst = pre ++ c :: post) (hpre : ∀ y ∈ pre, y.DUID ≠ d) (hd : c.DUID = d)
    (hl2 : c.PDLst = ppre ++ pd :: ppost) (hppre : ∀ y ∈ ppre, y.IAID ≠ i) (hi : pd.IAID = i) :
    m.getPD d i = some pd := by
  have : c.findPD i = some (ppre.length, pd) :=
    findPD_eq_some.mpr ⟨ppre, ppost, hl2, rfl, hi, hppre⟩
  simp [TAddrMgr.getPD, getClient_split hl hpre hd, this]

theorem getPD_noPD {m : TAddrMgr} {d : TDUID} {i : Nat} {pre post : List TAddrClient}
    {c : TAddrClient} (hl : m.ClntsLst = pre ++ c :: post) (hpre : ∀ y ∈ pre, y.DUID ≠ d)
    (hd : c.DUID = d) (hno : ∀ y ∈ c.PDLst, y.IAID ≠ i) : m.getPD d i = none := by
  simp [TAddrMgr.getPD, getClient_split hl hpre hd, findPD_eq_none.mpr hno]

theorem getPrefix_of_getPD {m : TAddrMgr} {d : TDUID} {i : Nat} {p : TIPv6Addr} {pd : TAddrIA}
    (h : m.getPD d i = some pd) :
    m.getPrefix d i p = (pd.findPrefix p).map Prod.snd := by
  cases hp : pd.findPrefix p <;> simp [TAddrMgr.getPrefix, h, hp]

theorem getPrefix_of_getPD_none {m : TAddrMgr} {d : TDUID} {i : Nat} {p : TIPv6Addr}
    (h : m.getPD d i = none) : m.getPrefix d i p = none := by
  simp [TAddrMgr.getPrefix, h]

theorem getPD_of_getClient_none {m : TAddrMgr} {d : TDUID} {i : Nat}
    (h : m.getClient d = none) : m.getPD d i = none := by
  simp [TAddrMgr.getPD, h]

theorem findPrefix_isSome_iff {pd : TAddrIA} {p : TIPv6Addr} :
    (pd.findPrefix p).isSome = true ↔ ∃ x ∈ pd.PrefixLst, x.Prefix = p := by
  cases h : pd.findPrefix p with
  | none =>
    have := findPrefix_eq_none.mp h
    simp
    exact this
  | some r =>
    obtain ⟨k, x⟩ := r
    obtain ⟨xpre, xpost, hx, _, hxp, _⟩ := findPrefix_eq_some.mp h
    simp
    exact ⟨x, by simp [hx], hxp⟩

/-! ## Example stores -/

/-- DUID `00:01:00:01:aa`. -/
def duidA : TDUID := ⟨[0x00, 0x01, 0x00, 0x01, 0xaa]⟩

/-- DUID `00:01:00:01:bb`. -/
def duidB : TDUID := ⟨[0x00, 0x01, 0x00, 0x01, 0xbb]⟩

/-- Base of `2001:db8:1::/48`. -/
def pfx1 : TIPv6Addr := ⟨[0x20, 0x01, 0x0d, 0xb8, 0x00, 0x01, 0, 0, 0, 0, 0, 0, 0, 0, 0, 0]⟩

/-- Base of `2001:db8:2::/48`. -/
def pfx2 : TIPv6Addr := ⟨[0x20, 0x01, 0x0d, 0xb8, 0x00, 0x02, 0, 0, 0, 0, 0, 0, 0, 0, 0, 0]⟩

/-- The empty store, as the constructor leaves it. -/
def store0 : TAddrMgr := TAddrMgr.new "db.xml"

/-- Client A holds `2001:db8:1::/48` in IA_PD 7 (iface 2, T1 1000, T2 1600,
pref 1800, valid 3600), added at time 100 to the empty store. -/
def storeA : TAddrMgr :=
  { ClntsLst := [
      { DUID := duidA, SPI := 0, IAsLst := [], TALst := [],
        PDLst := [
          { Iface := 2, IAType := TIAType.TYPE_PD, SrvAddr := none, DUID := duidA,
            T1 := 1000, T2 := 1600, IAID := 7, State := EState.STATE_NOTCONFIGURED,
            Tentative := ETentative.TENTATIVE_UNKNOWN, Timestamp := 100, AddrLst := [],
            PrefixLst := [
              { Prefix := pfx1, Prefered := 1800, Valid := 3600, Timestamp := 100,
                Tentative := ETentative.TENTATIVE_NO, Length := 48 }] }] }],
    DeleteEmptyClient := true, XmlFile := "db.xml", IsDone := false }

/-- C1. `add_prefix` with a non-null prefix whose base is not yet in the IA_PD
the pair (DUID, IAID) resolves to returns true, and the store changes in
exactly one place.  If no client has the DUID, a client holding one new IA_PD
(given iface, T1, T2, IAID) with the one new prefix is appended to the client
list.  Otherwise the first client with the DUID is rewritten in place: if it
has no IA_PD with the IAID, a new IA_PD holding the new prefix is appended to
its IA_PD list; otherwise its first IA_PD with the IAID keeps every field
(T1, T2 included) and gets the new prefix (base, pref, valid, length) appended
to its prefix list.  Every other client, IA and prefix, and the other members
of the store, are as before. -/
theorem addPrefix_success (m : TAddrMgr) (now : Nat) (d : TDUID) (addr : Option TIPv6Addr)
    (iface : Int) (i T1 T2 : Nat) (p : TIPv6Addr) (pref valid : Nat) (len : Int) (quiet : Bool)
    (h : m.getPrefix d i p = none) :
    (m.addPrefix now d addr iface i T1 T2 (some p) pref valid len quiet).1 = true ∧
    (m.addPrefix now d addr iface i T1 T2 (some p) pref valid len quiet).2.DeleteEmptyClient
      = m.DeleteEmptyClient ∧
    (m.addPrefix now d addr iface i T1 T2 (some p) pref valid len quiet).2.XmlFile
      = m.XmlFile ∧
    (m.addPrefix now d addr iface i T1 T2 (some p) pref valid len quiet).2.IsDone
      = m.IsDone ∧
    (((∀ y ∈ m.ClntsLst, y.DUID ≠ d) ∧
        (m.addPrefix now d addr iface i T1 T2 (some p) pref valid len quiet).2.ClntsLst =
          m.ClntsLst ++ [{ TAddrClient.new d with
            PDLst := [{ TAddrIA.new now iface TIAType.TYPE_PD addr d T1 T2 i with
              PrefixLst := [TAddrPrefix.new now p pref valid len] }] }]) ∨
     (∃ pre c post, m.ClntsLst = pre ++ c :: post ∧ (∀ y ∈ pre, y.DUID ≠ d) ∧ c.DUID = d ∧
        (((∀ y ∈ c.PDLst, y.IAID ≠ i) ∧
            (m.addPrefix now d addr iface i T1 T2 (some p) pref valid len quiet).2.ClntsLst =
              pre ++ { c with PDLst := c.PDLst ++
                [{ TAddrIA.new now iface TIAType.TYPE_PD addr d T1 T2 i with
                    PrefixLst := [TAddrPrefix.new now p pref valid len] }] } :: post) ∨
         (∃ ppre pd ppost, c.PDLst = ppre ++ pd :: ppost ∧ (∀ y ∈ ppre, y.IAID ≠ i) ∧
            pd.IAID = i ∧ (∀ y ∈ pd.PrefixLst, y.Prefix ≠ p) ∧
            (m.addPrefix now d addr iface i T1 T2 (some p) pref valid len quiet).2.ClntsLst =
              pre ++ { c with PDLst := ppre ++
                { pd with PrefixLst := pd.PrefixLst ++ [TAddrPrefix.new now p pref valid len] }
                  :: ppost } :: post)))) := by
  rcases addPrefix_cases m now d addr iface i T1 T2 p pref valid len quiet with
    ⟨hall, hr⟩ | ⟨pre, c, post, hl, hpre, hd, ⟨hno, hr⟩ |
      ⟨ppre, pd, ppost, hl2, hppre, hi, ⟨hnop, hr⟩ | ⟨hex, hr⟩⟩⟩
  · rw [hr]
    exact ⟨rfl, rfl, rfl, rfl, Or.inl ⟨hall, rfl⟩⟩
  · rw [hr]
    exact ⟨rfl, rfl, rfl, rfl, Or.inr ⟨pre, c, post, hl, hpre, hd, Or.inl ⟨hno, rfl⟩⟩⟩
  · rw [hr]
    exact ⟨rfl, rfl, rfl, rfl, Or.inr ⟨pre, c, post, hl, hpre, hd,
      Or.inr ⟨ppre, pd, ppost, hl2, hppre, hi, hnop, rfl⟩⟩⟩
  · exfalso
    have hg := getPrefix_of_getPD (p := p) (getPD_split hl hpre hd hl2 hppre hi)
    rw [h] at hg
    have hs := findPrefix_isSome_iff.mpr hex
    cases hfp : pd.findPrefix p with
    | none => simp [hfp] at hs
    | some r => simp [hfp] at hg

/-- Witness for C1: on the store where client A holds `2001:db8:1::/48` in
IA_PD 7, adding `2001:db8:2::/48` to the same IA_PD succeeds. -/
theorem addPrefix_success_witness :
    storeA.getPrefix duidA 7 pfx2 = none ∧
    (storeA.addPrefix 150 duidA none 2 7 5 6 (some pfx2) 300 600 48 false).1 = true :=
  ⟨by decide, (addPrefix_success storeA 150 duidA none 2 7 5 6 pfx2 300 600 48 false
    (by decide)).1⟩

/-- C2. When the IA_PD the pair (DUID, IAID) resolves to already holds a prefix
with the base of `p`, `add_prefix` returns false and the store after the call
is the store before it. -/
theorem addPrefix_already_assigned (m : TAddrMgr) (now : Nat) (d : TDUID)
    (addr : Option TIPv6Addr) (iface : Int) (i T1 T2 : Nat) (p : TIPv6Addr) (pref valid : Nat)
    (len : Int) (quiet : Bool) (h : (m.getPrefix d i p).isSome = true) :
    m.addPrefix now d addr iface i T1 T2 (some p) pref valid len quiet = (false, m) := by
  rcases addPrefix_cases m now d addr iface i T1 T2 p pref valid len quiet with
    ⟨hall, _⟩ | ⟨pre, c, post, hl, hpre, hd, ⟨hno, _⟩ |
      ⟨ppre, pd, ppost, hl2, hppre, hi, ⟨hnop, _⟩ | ⟨_, hr⟩⟩⟩
  · rw [getPrefix_of_getPD_none (getPD_of_getClient_none (getClient_eq_none.mpr hall))] at h
    cases h
  · rw [getPrefix_of_getPD_none (getPD_noPD hl hpre hd hno)] at h
    cases h
  · rw [getPrefix_of_getPD (getPD_split hl hpre hd hl2 hppre hi),
      findPrefix_eq_none.mpr hnop] at h
    cases h
  · exact hr

/-- Witness for C2: client A already holds `2001:db8:1::/48` in IA_PD 7; adding
it again to the same IA_PD fails and leaves the store as it was. -/
theorem addPrefix_already_assigned_witness :
    (storeA.getPrefix duidA 7 pfx1).isSome = true ∧
    storeA.addPrefix 150 duidA none 2 7 5 6 (some pfx1) 300 600 56 false = (false, storeA) :=
  ⟨by decide, addPrefix_already_assigned storeA 150 duidA none 2 7 5 6 pfx1 300 600 56 false
    (by decide)⟩

/-- C4. `prefix_is_free(x)` is true exactly when no prefix record in any IA_PD of
any client has a base equal to `x`.  The answer is a function of the bases
held in the IA_PD lists alone: two stores with the same bases in the same
places agree, whatever the prefix lengths and the IA_NA / IA_TA lists are. -/
theorem prefixIsFree_iff (m : TAddrMgr) (x : TIPv6Addr) :
    (m.prefixIsFree x = true ↔
      ∀ c ∈ m.ClntsLst, ∀ pd ∈ c.PDLst, ∀ y ∈ pd.PrefixLst, y.Prefix ≠ x) ∧
    (∀ m2 : TAddrMgr,
      m2.ClntsLst.map (fun c => c.PDLst.map (fun pd => pd.PrefixLst.map (fun y => y.Prefix))) =
        m.ClntsLst.map (fun c => c.PDLst.map (fun pd => pd.PrefixLst.map (fun y => y.Prefix))) →
      m2.prefixIsFree x = m.prefixIsFree x) := by
  have key : ∀ n : TAddrMgr, n.prefixIsFree x =
      !((n.ClntsLst.map (fun c => c.PDLst.map
          (fun pd => pd.PrefixLst.map (fun y => y.Prefix)))).any
        (fun pds => pds.any (fun ps => ps.any (fun b => decide (b = x))))) := by
    intro n
    simp only [TAddrMgr.prefixIsFree, TAddrPrefix.get, any_map_fun]
  constructor
  · simp [TAddrMgr.prefixIsFree, TAddrPrefix.get]
  · intro m2 h
    rw [key m2, key m, h]

theorem clientHolds_iff {m : TAddrMgr} {d : TDUID} {x : TIPv6Addr} :
    m.clientHolds d x = true ↔ ∃ c ∈ m.ClntsLst, c.DUID = d ∧ c.holdsPrefix x = true := by
  simp [TAddrMgr.clientHolds, TAddrClient.getDUID]

theorem holdsPrefix_iff {c : TAddrClient} {x : TIPv6Addr} :
    c.holdsPrefix x = true ↔ ∃ pd ∈ c.PDLst, ∃ y ∈ pd.PrefixLst, y.Prefix = x := by
  simp [TAddrClient.holdsPrefix, TAddrPrefix.get]

theorem getPrefix_split {m : TAddrMgr} {d : TDUID} {i : Nat} {p : TIPv6Addr}
    {pre post : List TAddrClient} {c : TAddrClient} {ppre ppost : List TAddrIA} {pd : TAddrIA}
    {xpre xpost : List TAddrPrefix} {x : TAddrPrefix}
    (hl : m.ClntsLst = pre ++ c :: post) (hpre : ∀ y ∈ pre, y.DUID ≠ d) (hd : c.DUID = d)
    (hl2 : c.PDLst = ppre ++ pd :: ppost) (hppre : ∀ y ∈ ppre, y.IAID ≠ i) (hi : pd.IAID = i)
    (hl3 : pd.PrefixLst = xpre ++ x :: xpost) (hxpre : ∀ y ∈ xpre, y.Prefix ≠ p)
    (hx : x.Prefix = p) : m.getPrefix d i p = some x := by
  rw [getPrefix_of_getPD (getPD_split hl hpre hd hl2 hppre hi),
    findPrefix_eq_some.mpr ⟨xpre, xpost, hl3, rfl, hx, hxpre⟩]
  rfl

/-- C3 (amended). In every store in which a client with DUID `A` holds base `P`
(so `prefix_is_free(P)` is false), and for every DUID `B` different from `A`:
`add_prefix` of `P` for `B` looks at `B`'s own IA_PD only.  It returns true
exactly when the IA_PD (B, IAID) does not already hold the base, and then `P`
is inserted under `B` while `A` keeps it, so `P` is held by both clients.
The only guard against that is the caller asking `prefix_is_free` first. -/
theorem addPrefix_ignores_other_clients (m : TAddrMgr) (now : Nat) (A B : TDUID)
    (addr : Option TIPv6Addr) (iface : Int) (i T1 T2 : Nat) (P : TIPv6Addr) (pref valid : Nat)
    (len : Int) (quiet : Bool) (hA : m.clientHolds A P = true) (hAB : B ≠ A) :
    m.prefixIsFree P = false ∧
    ((m.addPrefix now B addr iface i T1 T2 (some P) pref valid len quiet).1 = true ↔
      m.getPrefix B i P = none) ∧
    ((m.addPrefix now B addr iface i T1 T2 (some P) pref valid len quiet).1 = true →
      (m.addPrefix now B addr iface i T1 T2 (some P) pref valid len quiet).2.getPrefix B i P =
        some (TAddrPrefix.new now P pref valid len) ∧
      (m.addPrefix now B addr iface i T1 T2 (some P) pref valid len quiet).2.clientHolds A P
        = true ∧
      (m.addPrefix now B addr iface i T1 T2 (some P) pref valid len quiet).2.clientHolds B P
        = true) := by
  obtain ⟨c0, hc0, hc0d, hc0h⟩ := clientHolds_iff.mp hA
  have hfree : m.prefixIsFree P = false := by
    simp only [TAddrMgr.prefixIsFree, Bool.not_eq_false', List.any_eq_true]
    exact ⟨c0, hc0, by simpa [TAddrClient.holdsPrefix] using hc0h⟩
  have hnew : (TAddrPrefix.new now P pref valid len).Prefix = P := rfl
  refine ⟨hfree, ?_⟩
  rcases addPrefix_cases m now B addr iface i T1 T2 P pref valid len quiet with
    ⟨hall, hr⟩ | ⟨pre, c, post, hl, hpre, hd, ⟨hno, hr⟩ |
      ⟨ppre, pd, ppost, hl2, hppre, hi, ⟨hnop, hr⟩ | ⟨hex, hr⟩⟩⟩
  · rw [hr]
    have hg : m.getPrefix B i P = none :=
      getPrefix_of_getPD_none (getPD_of_getClient_none (getClient_eq_none.mpr hall))
    refine ⟨by simp [hg], fun _ => ⟨?_, ?_, ?_⟩⟩
    · exact @getPrefix_split _ _ _ _ m.ClntsLst [] _ [] [] _ [] [] _
        rfl hall rfl rfl (by simp) rfl rfl (by simp) hnew
    · exact clientHolds_iff.mpr ⟨c0, by simp [hc0], hc0d, hc0h⟩
    · refine clientHolds_iff.mpr ⟨_, List.mem_append_right _ (List.mem_singleton.mpr rfl), rfl, ?_⟩
      exact holdsPrefix_iff.mpr ⟨_, List.mem_singleton.mpr rfl, _, List.mem_singleton.mpr rfl,
        hnew⟩
  · rw [hr]
    have hg : m.getPrefix B i P = none := getPrefix_of_getPD_none (getPD_noPD hl hpre hd hno)
    have hc0' : c0 ∈ pre ∨ c0 ∈ post := by
      rw [hl] at hc0
      rcases List.mem_append.mp hc0 with h | h
      · exact Or.inl h
      · rcases List.mem_cons.mp h with h | h
        · exact absurd (by rw [← hd, ← h, hc0d]) hAB
        · exact Or.inr h
    refine ⟨by simp [hg], fun _ => ⟨?_, ?_, ?_⟩⟩
    · exact @getPrefix_split _ _ _ _ pre post _ c.PDLst [] _ [] [] _
        rfl hpre hd rfl hno rfl rfl (by simp) hnew
    · refine clientHolds_iff.mpr ⟨c0, ?_, hc0d, hc0h⟩
      rcases hc0' with h | h <;> simp [h]
    · refine clientHolds_iff.mpr ⟨_, List.mem_append_right _ (List.mem_cons_self _ _), hd, ?_⟩
      exact holdsPrefix_iff.mpr ⟨_, List.mem_append_right _ (List.mem_singleton.mpr rfl), _,
        List.mem_singleton.mpr rfl, hnew⟩
  · rw [hr]
    have hg : m.getPrefix B i P = none := by
      rw [getPrefix_of_getPD (getPD_split hl hpre hd hl2 hppre hi),
        findPrefix_eq_none.mpr hnop]
      rfl
    have hc0' : c0 ∈ pre ∨ c0 ∈ post := by
      rw [hl] at hc0
      rcases List.mem_append.mp hc0 with h | h
      · exact Or.inl h
      · rcases List.mem_cons.mp h with h | h
        · exact absurd (by rw [← hd, ← h, hc0d]) hAB
        · exact Or.inr h
    refine ⟨by simp [hg], fun _ => ⟨?_, ?_, ?_⟩⟩
    · exact @getPrefix_split _ _ _ _ pre post _ ppre ppost _ pd.PrefixLst [] _
        rfl hpre hd rfl hppre hi rfl hnop hnew
    · refine clientHolds_iff.mpr ⟨c0, ?_, hc0d, hc0h⟩
      rcases hc0' with h | h <;> simp [h]
    · refine clientHolds_iff.mpr ⟨_, List.mem_append_right _ (List.mem_cons_self _ _), hd, ?_⟩
      exact holdsPrefix_iff.mpr ⟨_, List.mem_append_right _ (List.mem_cons_self _ _), _,
        List.mem_append_right _ (List.mem_singleton.mpr rfl), hnew⟩
  · rw [hr]
    have hg : (m.getPrefix B i P).isSome = true := by
      rw [getPrefix_of_getPD (getPD_split hl hpre hd hl2 hppre hi)]
      have := findPrefix_isSome_iff.mpr hex
      cases hfp : pd.findPrefix P with
      | none => simp [hfp] at this
      | some r => rfl
    constructor
    · constructor
      · intro h
        cases h
      · intro h
        rw [h] at hg
        cases hg
    · intro h
      cases h

/-- Witness for C3 (amended): client A holds `2001:db8:1::/48`, B is another
DUID; the prefix is reported as not free. -/
theorem addPrefix_ignores_other_clients_witness :
    storeA.clientHolds duidA pfx1 = true ∧ duidB ≠ duidA ∧
    storeA.prefixIsFree pfx1 = false :=
  ⟨by decide, by decide,
    (addPrefix_ignores_other_clients storeA 150 duidA duidB none 2 7 1000 1600 pfx1 1800 3600
      48 false (by decide) (by decide)).1⟩

/-- Counterexample to C3 as stated: client A holds `2001:db8:1::/48` in IA_PD 7;
`add_prefix` of the same prefix for client B returns true (not
AlreadyAssigned), and afterwards both A and B hold the prefix. -/
theorem addPrefix_other_client_counterexample :
    storeA.clientHolds duidA pfx1 = true ∧ duidB ≠ duidA ∧
    (storeA.addPrefix 150 duidB none 2 7 1000 1600 (some pfx1) 1800 3600 48 false).1 = true ∧
    (storeA.addPrefix 150 duidB none 2 7 1000 1600 (some pfx1) 1800 3600 48 false).2.clientHolds
      duidA pfx1 = true ∧
    (storeA.addPrefix 150 duidB none 2 7 1000 1600 (some pfx1) 1800 3600 48 false).2.clientHolds
      duidB pfx1 = true := by
  decide

/-! ## `updatePrefix` -/

/-- C5 (the code at the failing input). Client A holds `2001:db8:1::/48` with
pref 1800, valid 3600.  `update_prefix` with pref 300 and valid 600 succeeds,
and the stored prefix then has preferred lifetime 300 and valid lifetime 300:
`setValid` is called with `pref`. -/
theorem updatePrefix_valid_gets_pref :
    (storeA.updatePrefix 150 duidA none 2 7 1000 1600 (some pfx1) 300 600 48 false).map
        (fun r => (r.1, (r.2.getPrefix duidA 7 pfx1).map fun x => (x.Prefered, x.Valid))) =
      some (true, some (300, 300)) := by
  decide

/-- What `updatePrefix` with a non-null prefix does, by the outcome of its three
walks. -/
theorem updatePrefix_cases (m : TAddrMgr) (now : Nat) (d : TDUID) (addr : Option TIPv6Addr)
    (iface : Int) (i T1 T2 : Nat) (p : TIPv6Addr) (pref valid : Nat) (len : Int) (quiet : Bool) :
    ((∀ y ∈ m.ClntsLst, y.DUID ≠ d) ∧
        m.updatePrefix now d addr iface i T1 T2 (some p) pref valid len quiet =
          some (false, m)) ∨
    (∃ pre c post, m.ClntsLst = pre ++ c :: post ∧ (∀ y ∈ pre, y.DUID ≠ d) ∧ c.DUID = d ∧
        (((∀ y ∈ c.PDLst, y.IAID ≠ i) ∧
            m.updatePrefix now d addr iface i T1 T2 (some p) pref valid len quiet =
              some (false, m)) ∨
         (∃ ppre pd ppost, c.PDLst = ppre ++ pd :: ppost ∧ (∀ y ∈ ppre, y.IAID ≠ i) ∧
            pd.IAID = i ∧
            (((∀ y ∈ pd.PrefixLst, y.Prefix ≠ p) ∧
              m.updatePrefix now d addr iface i T1 T2 (some p) pref valid len quiet =
                some (false, { m with ClntsLst := pre ++ { c with PDLst := ppre ++
                  { pd with Timestamp := now, T1 := T1, T2 := T2 } :: ppost } :: post })) ∨
             (∃ xpre x xpost, pd.PrefixLst = xpre ++ x :: xpost ∧
                (∀ y ∈ xpre, y.Prefix ≠ p) ∧ x.Prefix = p ∧
              m.updatePrefix now d addr iface i T1 T2 (some p) pref valid len quiet =
                some (true, { m with ClntsLst := pre ++ { c with PDLst := ppre ++
                  { pd with
                      Timestamp := now
                      T1 := T1
                      T2 := T2
                      PrefixLst := xpre ++
                        { x with Timestamp := now, Prefered := pref, Valid := pref } :: xpost }
                    :: ppost } :: post })))))) := by
  cases hfc : m.findClient d with
  | none =>
    refine Or.inl ⟨findClient_eq_none.mp hfc, ?_⟩
    simp [TAddrMgr.updatePrefix, hfc]
  | some r =>
    obtain ⟨k, c⟩ := r
    obtain ⟨pre, post, hl, hk, hd, hpre⟩ := findClient_eq_some.mp hfc
    subst hk
    refine Or.inr ⟨pre, c, post, hl, hpre, hd, ?_⟩
    cases hfp : c.findPD i with
    | none =>
      refine Or.inl ⟨findPD_eq_none.mp hfp, ?_⟩
      simp only [TAddrMgr.updatePrefix, hfc, TAddrMgr.updatePrefixClient, hfp, hl, set_mid]
      rw [← hl]
    | some r2 =>
      obtain ⟨j, pd⟩ := r2
      obtain ⟨ppre, ppost, hl2, hj, hi, hppre⟩ := findPD_eq_some.mp hfp
      subst hj
      refine Or.inr ⟨ppre, pd, ppost, hl2, hppre, hi, ?_⟩
      have hfind : (((pd.setTimestamp now).setT1 T1).setT2 T2).findPrefix p = pd.findPrefix p :=
        rfl
      cases hpp : pd.findPrefix p with
      | none =>
        refine Or.inl ⟨findPrefix_eq_none.mp hpp, ?_⟩
        simp only [TAddrMgr.updatePrefix, hfc, TAddrMgr.updatePrefixClient, hfp, hfind, hpp, hl,
          hl2, set_mid]
        rfl
      | some r3 =>
        obtain ⟨n, x⟩ := r3
        obtain ⟨xpre, xpost, hx, hn, hxp, hxpre⟩ := findPrefix_eq_some.mp hpp
        subst hn
        refine Or.inr ⟨xpre, x, xpost, hx, hxpre, hxp, ?_⟩
        have hlst : (((pd.setTimestamp now).setT1 T1).setT2 T2).PrefixLst = xpre ++ x :: xpost :=
          hx
        simp only [TAddrMgr.updatePrefix, hfc, TAddrMgr.updatePrefixClient, hfp, hfind, hpp, hl,
          hl2, set_mid, hlst]
        rfl

/-- C6. With a non-null prefix `update_prefix` returns a value, and that value
is true exactly when the lookup chain resolves at all three levels: a client
with the DUID exists, that client has an IA_PD with the IAID, and that IA_PD
holds a prefix with the base.  On success the IA_PD (DUID, IAID) has the
supplied T1 and T2.  The number of clients, of IAs per client and of prefixes
per IA_PD, and every prefix's base and length, are the same after the call. -/
theorem updatePrefix_result (m : TAddrMgr) (now : Nat) (d : TDUID) (addr : Option TIPv6Addr)
    (iface : Int) (i T1 T2 : Nat) (p : TIPv6Addr) (pref valid : Nat) (len : Int) (quiet : Bool) :
    ∃ r, m.updatePrefix now d addr iface i T1 T2 (some p) pref valid len quiet = some r ∧
      (r.1 = true ↔
        ((m.getClient d).isSome = true ∧ (m.getPD d i).isSome = true ∧
          (m.getPrefix d i p).isSome = true)) ∧
      (r.1 = true → ∃ pd, r.2.getPD d i = some pd ∧ pd.T1 = T1 ∧ pd.T2 = T2) ∧
      r.2.skeleton = m.skeleton ∧ r.2.countClient = m.countClient := by
  rcases updatePrefix_cases m now d addr iface i T1 T2 p pref valid len quiet with
    ⟨hall, hr⟩ | ⟨pre, c, post, hl, hpre, hd, ⟨hno, hr⟩ |
      ⟨ppre, pd, ppost, hl2, hppre, hi, ⟨hnop, hr⟩ | ⟨xpre, x, xpost, hl3, hxpre, hx, hr⟩⟩⟩
  · refine ⟨_, hr, ?_, ?_, rfl, rfl⟩
    · simp [getClient_eq_none.mpr hall]
    · intro h
      cases h
  · refine ⟨_, hr, ?_, ?_, rfl, rfl⟩
    · simp [getPD_noPD hl hpre hd hno]
    · intro h
      cases h
  · refine ⟨_, hr, ?_, ?_, ?_, ?_⟩
    · have : m.getPrefix d i p = none := by
        rw [getPrefix_of_getPD (getPD_split hl hpre hd hl2 hppre hi),
          findPrefix_eq_none.mpr hnop]
        rfl
      simp [this]
    · intro h
      cases h
    · simp [TAddrMgr.skeleton, hl, hl2]
    · simp [TAddrMgr.countClient, hl]
  · refine ⟨_, hr, ?_, ?_, ?_, ?_⟩
    · simp [getClient_split hl hpre hd, getPD_split hl hpre hd hl2 hppre hi,
        getPrefix_split hl hpre hd hl2 hppre hi hl3 hxpre hx]
    · intro _
      exact ⟨_, @getPD_split _ _ _ pre post _ ppre ppost _ rfl hpre hd rfl hppre hi, rfl, rfl⟩
    · simp [TAddrMgr.skeleton, hl, hl2, hl3]
    · simp [TAddrMgr.countClient, hl]

/-- C7 (amended). When `update_prefix` returns false, the store is the one before
the call if the prefix is null, the client is unknown or the IA_PD is unknown.
If client and IA_PD resolve and only the prefix is unknown, the store is the
old one except for that IA_PD, whose timestamp, T1 and T2 have been set to
the current time and the supplied T1 and T2; its prefixes and every other
client and IA are as before. -/
theorem updatePrefix_failure (m : TAddrMgr) (now : Nat) (d : TDUID) (addr : Option TIPv6Addr)
    (iface : Int) (i T1 T2 : Nat) (pfx : Option TIPv6Addr) (pref valid : Nat) (len : Int)
    (quiet : Bool) (m2 : TAddrMgr)
    (h : m.updatePrefix now d addr iface i T1 T2 pfx pref valid len quiet = some (false, m2)) :
    ((pfx = none ∨ m.getPD d i = none) ∧ m2 = m) ∨
    (∃ p pre c post ppre pd ppost, pfx = some p ∧
      m.ClntsLst = pre ++ c :: post ∧ (∀ y ∈ pre, y.DUID ≠ d) ∧ c.DUID = d ∧
      c.PDLst = ppre ++ pd :: ppost ∧ (∀ y ∈ ppre, y.IAID ≠ i) ∧ pd.IAID = i ∧
      (∀ y ∈ pd.PrefixLst, y.Prefix ≠ p) ∧
      m2 = { m with ClntsLst := pre ++ { c with PDLst := ppre ++
              { pd with Timestamp := now, T1 := T1, T2 := T2 } :: ppost } :: post }) := by
  cases pfx with
  | none =>
    refine Or.inl ⟨Or.inl rfl, ?_⟩
    cases hfc : m.findClient d with
    | none => simp [TAddrMgr.updatePrefix, hfc] at h
    | some r =>
      obtain ⟨k, c⟩ := r
      obtain ⟨pre, post, hl, hk, hd, hpre⟩ := findClient_eq_some.mp hfc
      simp [TAddrMgr.updatePrefix, hfc, TAddrMgr.updatePrefixClient, hl, hk, set_mid] at h
      rw [← h, ← hl]
  | some p =>
    rcases updatePrefix_cases m now d addr iface i T1 T2 p pref valid len quiet with
      ⟨hall, hr⟩ | ⟨pre, c, post, hl, hpre, hd, ⟨hno, hr⟩ |
        ⟨ppre, pd, ppost, hl2, hppre, hi, ⟨hnop, hr⟩ | ⟨xpre, x, xpost, hl3, hxpre, hx, hr⟩⟩⟩
    · rw [hr] at h
      simp at h
      exact Or.inl ⟨Or.inr (getPD_of_getClient_none (getClient_eq_none.mpr hall)), h.symm⟩
    · rw [hr] at h
      simp at h
      exact Or.inl ⟨Or.inr (getPD_noPD hl hpre hd hno), h.symm⟩
    · rw [hr] at h
      simp at h
      exact Or.inr ⟨p, pre, c, post, ppre, pd, ppost, rfl, hl, hpre, hd, hl2, hppre, hi, hnop,
        h.symm⟩
    · rw [hr] at h
      simp at h

/-- Witness for C7 (amended): on the store where client A holds only
`2001:db8:1::/48` in IA_PD 7, updating the unknown `2001:db8:2::/48` in that
IA_PD fails; the theorem applies to the store the call leaves. -/
theorem updatePrefix_failure_witness :
    ∃ m2, storeA.updatePrefix 150 duidA none 2 7 5 6 (some pfx2) 300 600 48 false =
        some (false, m2) ∧
      (((some pfx2 = none ∨ storeA.getPD duidA 7 = none) ∧ m2 = storeA) ∨
       (∃ p pre c post ppre pd ppost, some pfx2 = some p ∧
        storeA.ClntsLst = pre ++ c :: post ∧ (∀ y ∈ pre, y.DUID ≠ duidA) ∧ c.DUID = duidA ∧
        c.PDLst = ppre ++ pd :: ppost ∧ (∀ y ∈ ppre, y.IAID ≠ 7) ∧ pd.IAID = 7 ∧
        (∀ y ∈ pd.PrefixLst, y.Prefix ≠ p) ∧
        m2 = { storeA with ClntsLst := pre ++ { c with PDLst := ppre ++
                { pd with Timestamp := 150, T1 := 5, T2 := 6 } :: ppost } :: post })) :=
  ⟨(storeA.updatePrefix 150 duidA none 2 7 5 6 (some pfx2) 300 600 48 false).get
      (by decide) |>.2,
    by decide,
    updatePrefix_failure storeA 150 duidA none 2 7 5 6 (some pfx2) 300 600 48 false _
      (by decide)⟩

/-- Counterexample to C7 as stated: client A holds only `2001:db8:1::/48` in
IA_PD 7 (T1 1000, T2 1600, timestamp 100).  `update_prefix` at time 150 with
T1 5, T2 6 for the unknown `2001:db8:2::/48` returns false (UnknownPrefix),
yet the store has changed: the IA_PD now has T1 5, T2 6, timestamp 150. -/
theorem updatePrefix_failure_counterexample :
    (storeA.getPD duidA 7).map (fun pd => (pd.T1, pd.T2, pd.Timestamp)) =
      some (1000, 1600, 100) ∧
    (storeA.updatePrefix 150 duidA none 2 7 5 6 (some pfx2) 300 600 48 false).map
        (fun r => (r.1, decide (r.2 = storeA),
          (r.2.getPD duidA 7).map fun pd => (pd.T1, pd.T2, pd.Timestamp))) =
      some (false, false, some (5, 6, 150)) := by
  decide

/-! ## `delPrefix` -/

theorem delFirst_split {α : Type} (q : α → Bool) (pre post : List α) (x : α)
    (hx : q x = true) (hpre : ∀ y ∈ pre, q y = false) :
    delFirst q (pre ++ x :: post) = (true, pre ++ post) := by
  have : findFirst q (pre ++ x :: post) = some (pre.length, x) :=
    findFirst_eq_some.mpr ⟨pre, post, rfl, rfl, hx, hpre⟩
  simp [delFirst, this, eraseIdx_mid]

/-- The IA_PD list of the resolved client after `delPrefix` removed the resolved
prefix record: the IA_PD goes when that record was its only one. -/
def pdLstAfterDel (ppre ppost : List TAddrIA) (pd : TAddrIA) (xpre xpost : List TAddrPrefix) :
    List TAddrIA :=
  if xpre ++ xpost = [] then ppre ++ ppost
  else ppre ++ { pd with PrefixLst := xpre ++ xpost } :: ppost

/-- The client list after `delPrefix` removed the resolved prefix record: the
client goes when its three IA collections are then empty and
`DeleteEmptyClient` is set. -/
def clntsLstAfterDel (flag : Bool) (pre post : List TAddrClient) (c : TAddrClient)
    (pds : List TAddrIA) : List TAddrClient :=
  if c.IAsLst = [] ∧ c.TALst = [] ∧ pds = [] ∧ flag = true then pre ++ post
  else pre ++ { c with PDLst := pds } :: post

/-- What `delPrefix` does, by the outcome of its three walks. -/
theorem delPrefix_cases (m : TAddrMgr) (d : TDUID) (i : Nat) (p : TIPv6Addr) (quiet : Bool) :
    ((∀ y ∈ m.ClntsLst, y.DUID ≠ d) ∧ m.delPrefix d i p quiet = (false, m)) ∨
    (∃ pre c post, m.ClntsLst = pre ++ c :: post ∧ (∀ y ∈ pre, y.DUID ≠ d) ∧ c.DUID = d ∧
        (((∀ y ∈ c.PDLst, y.IAID ≠ i) ∧ m.delPrefix d i p quiet = (false, m)) ∨
         (∃ ppre pd ppost, c.PDLst = ppre ++ pd :: ppost ∧ (∀ y ∈ ppre, y.IAID ≠ i) ∧
            pd.IAID = i ∧
            (((∀ y ∈ pd.PrefixLst, y.Prefix ≠ p) ∧ m.delPrefix d i p quiet = (false, m)) ∨
             (∃ xpre x xpost, pd.PrefixLst = xpre ++ x :: xpost ∧
                (∀ y ∈ xpre, y.Prefix ≠ p) ∧ x.Prefix = p ∧
              m.delPrefix d i p quiet =
                (true, { m with ClntsLst := (clntsLstAfterDel m.DeleteEmptyClient pre post c
                  (pdLstAfterDel ppre ppost pd xpre xpost)) })))))) := by
  cases hfc : m.findClient d with
  | none =>
    refine Or.inl ⟨findClient_eq_none.mp hfc, ?_⟩
    simp [TAddrMgr.delPrefix, hfc]
  | some r =>
    obtain ⟨k, c⟩ := r
    obtain ⟨pre, post, hl, hk, hd, hpre⟩ := findClient_eq_some.mp hfc
    subst hk
    refine Or.inr ⟨pre, c, post, hl, hpre, hd, ?_⟩
    cases hfp : c.findPD i with
    | none =>
      refine Or.inl ⟨findPD_eq_none.mp hfp, ?_⟩
      simp [TAddrMgr.delPrefix, hfc, hfp]
    | some r2 =>
      obtain ⟨j, pd⟩ := r2
      obtain ⟨ppre, ppost, hl2, hj, hi, hppre⟩ := findPD_eq_some.mp hfp
      subst hj
      refine Or.inr ⟨ppre, pd, ppost, hl2, hppre, hi, ?_⟩
      cases hpp : pd.findPrefix p with
      | none =>
        refine Or.inl ⟨findPrefix_eq_none.mp hpp, ?_⟩
        simp [TAddrMgr.delPrefix, hfc, hfp, hpp]
      | some r3 =>
        obtain ⟨n, x⟩ := r3
        obtain ⟨xpre, xpost, hx, hn, hxp, hxpre⟩ := findPrefix_eq_some.mp hpp
        subst hn
        refine Or.inr ⟨xpre, x, xpost, hx, hxpre, hxp, ?_⟩
        have hdel : (pd.delPrefix p).2 = { pd with PrefixLst := xpre ++ xpost } := by
          simp only [TAddrIA.delPrefix, hx]
          rw [delFirst_split _ xpre xpost x (by simp [TAddrPrefix.get, hxp])
            (by simpa [TAddrPrefix.get] using hxpre)]
        have hset : ∀ X : TAddrIA, c.PDLst.set ppre.length X = ppre ++ X :: ppost := by
          intro X
          rw [hl2, set_mid]
        have hdelPD : ∀ X : TAddrIA, X.IAID = i →
            (({ c with PDLst := ppre ++ X :: ppost } : TAddrClient).delPD i).2 =
              { c with PDLst := ppre ++ ppost } := by
          intro X hX
          simp only [TAddrClient.delPD]
          rw [delFirst_split _ ppre ppost X (by simp [TAddrIA.getIAID, hX])
            (by simpa [TAddrIA.getIAID] using hppre)]
        have hdelC : ∀ X : TAddrClient, X.DUID = d →
            (({ m with ClntsLst := pre ++ X :: post } : TAddrMgr).delClient d).2 =
              { m with ClntsLst := pre ++ post } := by
          intro X hX
          simp only [TAddrMgr.delClient]
          rw [delFirst_split _ pre post X (by simp [TAddrClient.getDUID, hX])
            (by simpa [TAddrClient.getDUID] using hpre)]
        have hsetC : ∀ X : TAddrClient, m.ClntsLst.set pre.length X = pre ++ X :: post := by
          intro X
          rw [hl, set_mid]
        simp only [TAddrMgr.delPrefix, hfc, hfp, hpp, hset, hsetC, hdel, TAddrIA.getPrefixCount,
          TAddrClient.countIA, TAddrClient.countTA, TAddrClient.countPD, List.length_eq_zero,
          clntsLstAfterDel, pdLstAfterDel]
        by_cases hempty : xpre ++ xpost = []
        · simp only [hempty, if_true]
          rw [hdelPD { pd with PrefixLst := [] } hi]
          dsimp only
          by_cases hgone : c.IAsLst = [] ∧ c.TALst = [] ∧ ppre ++ ppost = [] ∧
              m.DeleteEmptyClient = true
          · rw [if_pos hgone, if_pos hgone, hdelC { c with PDLst := ppre ++ ppost } hd]
          · rw [if_neg hgone, if_neg hgone]
        · simp only [hempty, if_false]
          have hgone : ¬ (c.IAsLst = [] ∧ c.TALst = [] ∧
              ppre ++ { pd with PrefixLst := xpre ++ xpost } :: ppost = [] ∧
              m.DeleteEmptyClient = true) := fun hh => by simp at hh
          rw [if_neg hgone, if_neg hgone]

/-- C8. If the client is absent, or it has no IA_PD with the IAID, or that
IA_PD does not hold the base, `del_prefix` returns false and the store is
unchanged; and `del_prefix` returns true only when all three levels of the
lookup chain resolve. -/
theorem delPrefix_failure (m : TAddrMgr) (d : TDUID) (i : Nat) (p : TIPv6Addr) (quiet : Bool) :
    ((m.getClient d = none ∨ m.getPD d i = none ∨ m.getPrefix d i p = none) →
      m.delPrefix d i p quiet = (false, m)) ∧
    ((m.delPrefix d i p quiet).1 = true →
      (m.getClient d).isSome = true ∧ (m.getPD d i).isSome = true ∧
        (m.getPrefix d i p).isSome = true) := by
  rcases delPrefix_cases m d i p quiet with
    ⟨_, hr⟩ | ⟨pre, c, post, hl, hpre, hd, ⟨_, hr⟩ |
      ⟨ppre, pd, ppost, hl2, hppre, hi, ⟨_, hr⟩ | ⟨xpre, x, xpost, hl3, hxpre, hx, hr⟩⟩⟩
  · rw [hr]
    exact ⟨fun _ => rfl, fun h => by cases h⟩
  · rw [hr]
    exact ⟨fun _ => rfl, fun h => by cases h⟩
  · rw [hr]
    exact ⟨fun _ => rfl, fun h => by cases h⟩
  · have h1 := getClient_split hl hpre hd
    have h2 := getPD_split hl hpre hd hl2 hppre hi
    have h3 := getPrefix_split hl hpre hd hl2 hppre hi hl3 hxpre hx
    constructor
    · intro h
      rcases h with h | h | h
      · rw [h1] at h
        cases h
      · rw [h2] at h
        cases h
      · rw [h3] at h
        cases h
    · intro _
      simp [h1, h2, h3]

/-- Witness for C8: client A has no IA_PD 9, so deleting from it fails and
leaves the store alone. -/
theorem delPrefix_failure_witness :
    storeA.getPD duidA 9 = none ∧ storeA.delPrefix duidA 9 pfx1 false = (false, storeA) :=
  ⟨by decide, (delPrefix_failure storeA duidA 9 pfx1 false).1 (Or.inr (Or.inl (by decide)))⟩

/-- C9. When the lookup chain resolves to the prefix record `x` (client first
with the DUID, its first IA_PD with the IAID, that IA_PD's first record with
the base), `del_prefix` returns true and the store changes in exactly one
place.  The record `x` is taken out of the IA_PD, the other records keeping
their order; where the bases of the IA_PD are pairwise distinct no record with
the base remains.  The IA_PD is taken out of the client exactly when `x` was
its only record.  The client is taken out of the store exactly when, after
that, its IA_NA, IA_TA and IA_PD lists are all empty and `DeleteEmptyClient`
is set.  All other clients, IAs and prefixes are as before, in the same
order, and so are the other members of the store. -/
theorem delPrefix_success (m : TAddrMgr) (d : TDUID) (i : Nat) (p : TIPv6Addr) (quiet : Bool)
    (x : TAddrPrefix) (h : m.getPrefix d i p = some x) :
    (m.delPrefix d i p quiet).1 = true ∧
    (m.delPrefix d i p quiet).2.DeleteEmptyClient = m.DeleteEmptyClient ∧
    (m.delPrefix d i p quiet).2.XmlFile = m.XmlFile ∧
    (m.delPrefix d i p quiet).2.IsDone = m.IsDone ∧
    ∃ pre c post ppre pd ppost xpre xpost pds,
      m.ClntsLst = pre ++ c :: post ∧ (∀ y ∈ pre, y.DUID ≠ d) ∧ c.DUID = d ∧
      c.PDLst = ppre ++ pd :: ppost ∧ (∀ y ∈ ppre, y.IAID ≠ i) ∧ pd.IAID = i ∧
      pd.PrefixLst = xpre ++ x :: xpost ∧ (∀ y ∈ xpre, y.Prefix ≠ p) ∧ x.Prefix = p ∧
      ((pd.PrefixLst.map fun y => y.Prefix).Nodup → ∀ y ∈ xpre ++ xpost, y.Prefix ≠ p) ∧
      ((xpre ++ xpost = [] ∧ pds = ppre ++ ppost) ∨
       (xpre ++ xpost ≠ [] ∧
        pds = ppre ++ { pd with PrefixLst := xpre ++ xpost } :: ppost)) ∧
      (((c.IAsLst = [] ∧ c.TALst = [] ∧ pds = [] ∧ m.DeleteEmptyClient = true) ∧
        (m.delPrefix d i p quiet).2.ClntsLst = pre ++ post) ∨
       (¬ (c.IAsLst = [] ∧ c.TALst = [] ∧ pds = [] ∧ m.DeleteEmptyClient = true) ∧
        (m.delPrefix d i p quiet).2.ClntsLst = pre ++ { c with PDLst := pds } :: post)) := by
  rcases delPrefix_cases m d i p quiet with
    ⟨hall, _⟩ | ⟨pre, c, post, hl, hpre, hd, ⟨hno, _⟩ |
      ⟨ppre, pd, ppost, hl2, hppre, hi, ⟨hnop, _⟩ | ⟨xpre, x2, xpost, hl3, hxpre, hx, hr⟩⟩⟩
  · rw [getPrefix_of_getPD_none (getPD_of_getClient_none (getClient_eq_none.mpr hall))] at h
    cases h
  · rw [getPrefix_of_getPD_none (getPD_noPD hl hpre hd hno)] at h
    cases h
  · rw [getPrefix_of_getPD (getPD_split hl hpre hd hl2 hppre hi),
      findPrefix_eq_none.mpr hnop] at h
    cases h
  · have h3 := getPrefix_split hl hpre hd hl2 hppre hi hl3 hxpre hx
    rw [h3] at h
    cases h
    rw [hr]
    refine ⟨rfl, rfl, rfl, rfl, pre, c, post, ppre, pd, ppost, xpre, xpost,
      pdLstAfterDel ppre ppost pd xpre xpost, hl, hpre, hd, hl2, hppre, hi, hl3, hxpre, hx,
      ?_, ?_, ?_⟩
    · intro hnd y hy
      rw [hl3, List.map_append, List.map_cons] at hnd
      rcases List.mem_append.mp hy with hy | hy
      · exact hxpre y hy
      · have := (List.nodup_cons.mp (List.nodup_append.mp hnd).2.1).1
        intro hyp
        apply this
        rw [hx, ← hyp]
        exact List.mem_map_of_mem _ hy
    · by_cases hempty : xpre ++ xpost = []
      · exact Or.inl ⟨hempty, by simp [pdLstAfterDel, hempty]⟩
      · exact Or.inr ⟨hempty, by simp [pdLstAfterDel, hempty]⟩
    · by_cases hgone : c.IAsLst = [] ∧ c.TALst = [] ∧
          pdLstAfterDel ppre ppost pd xpre xpost = [] ∧ m.DeleteEmptyClient = true
      · exact Or.inl ⟨hgone, by simp only [clntsLstAfterDel, if_pos hgone]⟩
      · exact Or.inr ⟨hgone, by simp only [clntsLstAfterDel, if_neg hgone]⟩

/-- Witness for C9: client A holds only `2001:db8:1::/48`, in IA_PD 7, and
`DeleteEmptyClient` is set; deleting the prefix succeeds. -/
theorem delPrefix_success_witness :
    (storeA.getPrefix duidA 7 pfx1).isSome = true ∧
    (storeA.delPrefix duidA 7 pfx1 false).1 = true :=
  ⟨by decide,
    (delPrefix_success storeA duidA 7 pfx1 false
      ((storeA.getPrefix duidA 7 pfx1).get (by decide)) (by decide)).1⟩

/-! ## Leases across `addPrefix` and `delPrefix` -/

theorem clientsKeys_split (pre post : List TAddrClient) (c : TAddrClient) :
    clientsKeys (pre ++ c :: post) = clientsKeys pre ++ (c.keys ++ clientsKeys post) := by
  simp [clientsKeys]

theorem pdsKeys_split (d : TDUID) (ppre ppost : List TAddrIA) (pd : TAddrIA) :
    pdsKeys d (ppre ++ pd :: ppost) = pdsKeys d ppre ++ (pd.keys d ++ pdsKeys d ppost) := by
  simp [pdsKeys]

/-- A successful `addPrefix` inserts exactly the lease (DUID, IAID, base) into
the leases of the store. -/
theorem addPrefix_keys (m : TAddrMgr) (now : Nat) (d : TDUID) (addr : Option TIPv6Addr)
    (iface : Int) (i T1 T2 : Nat) (p : TIPv6Addr) (pref valid : Nat) (len : Int) (quiet : Bool)
    (h : (m.addPrefix now d addr iface i T1 T2 (some p) pref valid len quiet).1 = true) :
    ∃ A B, m.keys = A ++ B ∧
      (m.addPrefix now d addr iface i T1 T2 (some p) pref valid len quiet).2.keys =
        A ++ (d, i, p) :: B := by
  rcases addPrefix_cases m now d addr iface i T1 T2 p pref valid len quiet with
    ⟨hall, hr⟩ | ⟨pre, c, post, hl, hpre, hd, ⟨hno, hr⟩ |
      ⟨ppre, pd, ppost, hl2, hppre, hi, ⟨hnop, hr⟩ | ⟨hex, hr⟩⟩⟩
  · refine ⟨m.keys, [], by simp, ?_⟩
    rw [hr]
    simp [TAddrMgr.keys, clientsKeys, TAddrClient.keys, pdsKeys, TAddrIA.keys, TAddrClient.new,
      TAddrIA.new, TAddrPrefix.new]
  · refine ⟨clientsKeys pre ++ c.keys, clientsKeys post, ?_, ?_⟩
    · simp [TAddrMgr.keys, hl, clientsKeys_split]
    · rw [hr]
      simp [TAddrMgr.keys, clientsKeys_split, TAddrClient.keys, pdsKeys, TAddrIA.keys,
        TAddrIA.new, TAddrPrefix.new, hd]
  · refine ⟨clientsKeys pre ++ (pdsKeys c.DUID ppre ++ pd.keys c.DUID),
      pdsKeys c.DUID ppost ++ clientsKeys post, ?_, ?_⟩
    · simp [TAddrMgr.keys, hl, clientsKeys_split, TAddrClient.keys, hl2, pdsKeys_split]
    · rw [hr]
      simp [TAddrMgr.keys, clientsKeys_split, TAddrClient.keys, pdsKeys_split, TAddrIA.keys,
        TAddrPrefix.new, hd, hi]
  · rw [hr] at h
    cases h

theorem mem_clientsKeys {k : PKey} {l : List TAddrClient} :
    k ∈ clientsKeys l ↔ ∃ c ∈ l, k ∈ c.keys := by
  simp [clientsKeys]

theorem mem_pdsKeys {k : PKey} {d : TDUID} {l : List TAddrIA} :
    k ∈ pdsKeys d l ↔ ∃ pd ∈ l, k ∈ pd.keys d := by
  simp [pdsKeys]

theorem mem_pdKeys {d0 d : TDUID} {i : Nat} {p : TIPv6Addr} {pd : TAddrIA} :
    (d0, i, p) ∈ pd.keys d ↔ d = d0 ∧ pd.IAID = i ∧ ∃ x ∈ pd.PrefixLst, x.Prefix = p := by
  simp only [TAddrIA.keys, List.mem_map, Prod.mk.injEq]
  constructor
  · rintro ⟨x, hx, h1, h2, h3⟩
    exact ⟨h1, h2, x, hx, h3⟩
  · rintro ⟨h1, h2, x, hx, h3⟩
    exact ⟨x, hx, h1, h2, h3⟩

theorem mem_keys_iff {m : TAddrMgr} {d : TDUID} {i : Nat} {p : TIPv6Addr} :
    (d, i, p) ∈ m.keys ↔
      ∃ c ∈ m.ClntsLst, c.DUID = d ∧ ∃ pd ∈ c.PDLst, pd.IAID = i ∧
        ∃ x ∈ pd.PrefixLst, x.Prefix = p := by
  rw [TAddrMgr.keys, mem_clientsKeys]
  constructor
  · rintro ⟨c, hc, hk⟩
    rw [TAddrClient.keys, mem_pdsKeys] at hk
    obtain ⟨pd, hpd, hk⟩ := hk
    obtain ⟨h1, h2, h3⟩ := mem_pdKeys.mp hk
    exact ⟨c, hc, h1, pd, hpd, h2, h3⟩
  · rintro ⟨c, hc, hd, pd, hpd, hi, hx⟩
    refine ⟨c, hc, ?_⟩
    rw [TAddrClient.keys, mem_pdsKeys]
    exact ⟨pd, hpd, mem_pdKeys.mpr ⟨hd, hi, hx⟩⟩

/-- The leases of the client list `delPrefix` leaves: the removed lease is gone
from its place, the rest is as before. -/
theorem keys_after_del (flag : Bool) (pre post : List TAddrClient) (c : TAddrClient)
    (ppre ppost : List TAddrIA) (pd : TAddrIA) (xpre xpost : List TAddrPrefix) (x : TAddrPrefix)
    (hl2 : c.PDLst = ppre ++ pd :: ppost) (hl3 : pd.PrefixLst = xpre ++ x :: xpost) :
    clientsKeys (pre ++ c :: post) =
      (clientsKeys pre ++ (pdsKeys c.DUID ppre ++
        xpre.map fun y => (c.DUID, pd.IAID, y.Prefix))) ++
      (c.DUID, pd.IAID, x.Prefix) ::
        ((xpost.map fun y => (c.DUID, pd.IAID, y.Prefix)) ++
          (pdsKeys c.DUID ppost ++ clientsKeys post)) ∧
    clientsKeys (clntsLstAfterDel flag pre post c (pdLstAfterDel ppre ppost pd xpre xpost)) =
      (clientsKeys pre ++ (pdsKeys c.DUID ppre ++
        xpre.map fun y => (c.DUID, pd.IAID, y.Prefix))) ++
        ((xpost.map fun y => (c.DUID, pd.IAID, y.Prefix)) ++
          (pdsKeys c.DUID ppost ++ clientsKeys post)) := by
  constructor
  · simp [clientsKeys_split, TAddrClient.keys, hl2, pdsKeys_split, TAddrIA.keys, hl3]
  · by_cases hempty : xpre ++ xpost = []
    · obtain ⟨h1, h2⟩ := List.append_eq_nil.mp hempty
      subst h1; subst h2
      by_cases hgone : c.IAsLst = [] ∧ c.TALst = [] ∧ ppre ++ ppost = [] ∧ flag = true
      · obtain ⟨h3, h4⟩ := List.append_eq_nil.mp hgone.2.2.1
        subst h3; subst h4
        simp [clntsLstAfterDel, pdLstAfterDel, hgone.1, hgone.2.1, hgone.2.2.2, pdsKeys,
          clientsKeys]
      · simp only [clntsLstAfterDel, pdLstAfterDel, List.append_nil, if_true, if_neg hgone]
        simp [clientsKeys_split, TAddrClient.keys, pdsKeys]
    · have hne : ppre ++ { pd with PrefixLst := xpre ++ xpost } :: ppost ≠ [] := by simp
      have hgone : ¬ (c.IAsLst = [] ∧ c.TALst = [] ∧
          ppre ++ { pd with PrefixLst := xpre ++ xpost } :: ppost = [] ∧ flag = true) :=
        fun hh => hne hh.2.2.1
      simp only [clntsLstAfterDel, pdLstAfterDel, if_neg hempty, if_neg hgone]
      simp [clientsKeys_split, TAddrClient.keys, pdsKeys_split, TAddrIA.keys]

/-- In a well-formed store a lease that is among the leases is what the lookup
chain of `delPrefix` resolves: the call takes its success branch. -/
theorem delPrefix_of_mem_keys (m : TAddrMgr) (hwf : m.WF) (d : TDUID) (i : Nat)
    (p : TIPv6Addr) (quiet : Bool) (hk : (d, i, p) ∈ m.keys) :
    ∃ pre c post ppre pd ppost xpre x xpost,
      m.ClntsLst = pre ++ c :: post ∧ (∀ y ∈ pre, y.DUID ≠ d) ∧ c.DUID = d ∧
      c.PDLst = ppre ++ pd :: ppost ∧ (∀ y ∈ ppre, y.IAID ≠ i) ∧ pd.IAID = i ∧
      pd.PrefixLst = xpre ++ x :: xpost ∧ (∀ y ∈ xpre, y.Prefix ≠ p) ∧ x.Prefix = p ∧
      m.delPrefix d i p quiet =
        (true, { m with ClntsLst := (clntsLstAfterDel m.DeleteEmptyClient pre post c
          (pdLstAfterDel ppre ppost pd xpre xpost)) }) := by
  obtain ⟨c0, hc0, hc0d, pd0, hpd0, hpd0i, x0, hx0, hx0p⟩ := mem_keys_iff.mp hk
  rcases delPrefix_cases m d i p quiet with
    ⟨hall, _⟩ | ⟨pre, c, post, hl, hpre, hd, ⟨hno, _⟩ |
      ⟨ppre, pd, ppost, hl2, hppre, hi, ⟨hnop, _⟩ | ⟨xpre, x, xpost, hl3, hxpre, hx, hr⟩⟩⟩
  · exact absurd hc0d (hall c0 hc0)
  · have hc : c ∈ m.ClntsLst := by simp [hl]
    have : c0 = c := List.inj_on_of_nodup_map hwf.1 hc0 hc (by rw [hc0d, hd])
    subst this
    exact absurd hpd0i (hno pd0 hpd0)
  · have hc : c ∈ m.ClntsLst := by simp [hl]
    have : c0 = c := List.inj_on_of_nodup_map hwf.1 hc0 hc (by rw [hc0d, hd])
    subst this
    have hpd : pd ∈ c0.PDLst := by simp [hl2]
    have : pd0 = pd := List.inj_on_of_nodup_map (hwf.2 c0 hc0).1 hpd0 hpd (by rw [hpd0i, hi])
    subst this
    exact absurd hx0p (hnop x0 hx0)
  · exact ⟨pre, c, post, ppre, pd, ppost, xpre, x, xpost, hl, hpre, hd, hl2, hppre, hi, hl3,
      hxpre, hx, hr⟩

/-! ## Well-formedness across `addPrefix` and `delPrefix` -/

theorem nodup_map_snoc {α β : Type} {f : α → β} {l : List α} {a : α}
    (h : (l.map f).Nodup) (ha : ∀ y ∈ l, f y ≠ f a) : ((l ++ [a]).map f).Nodup := by
  rw [List.map_append, List.nodup_append]
  refine ⟨h, by simp, ?_⟩
  intro b hb hb2
  simp only [List.map_cons, List.map_nil, List.mem_singleton] at hb2
  obtain ⟨y, hy, hyb⟩ := List.mem_map.mp hb
  exact ha y hy (by rw [hyb, hb2])

theorem nodup_map_mid_congr {α β : Type} {f : α → β} {pre post : List α} {x x2 : α}
    (h : ((pre ++ x :: post).map f).Nodup) (hx : f x2 = f x) :
    ((pre ++ x2 :: post).map f).Nodup := by
  simpa [List.map_append, hx] using h

theorem nodup_map_mid_erase {α β : Type} {f : α → β} {pre post : List α} {x : α}
    (h : ((pre ++ x :: post).map f).Nodup) : ((pre ++ post).map f).Nodup := by
  rw [List.map_append] at h ⊢
  rw [List.map_cons] at h
  exact h.sublist ((List.Sublist.refl _).append (List.sublist_cons_self _ _))

theorem forall_mem_mid {α : Type} {P : α → Prop} {pre post : List α} {x x2 : α}
    (h : ∀ y ∈ pre ++ x :: post, P y) (hx : P x2) : ∀ y ∈ pre ++ x2 :: post, P y := by
  intro y hy
  rcases List.mem_append.mp hy with hy | hy
  · exact h y (by simp [hy])
  · rcases List.mem_cons.mp hy with hy | hy
    · rw [hy]
      exact hx
    · exact h y (by simp [hy])

theorem forall_mem_erase {α : Type} {P : α → Prop} {pre post : List α} {x : α}
    (h : ∀ y ∈ pre ++ x :: post, P y) : ∀ y ∈ pre ++ post, P y := by
  intro y hy
  rcases List.mem_append.mp hy with hy | hy
  · exact h y (by simp [hy])
  · exact h y (by simp [hy])

theorem forall_mem_snoc {α : Type} {P : α → Prop} {l : List α} {a : α}
    (h : ∀ y ∈ l, P y) (ha : P a) : ∀ y ∈ l ++ [a], P y := by
  intro y hy
  rcases List.mem_append.mp hy with hy | hy
  · exact h y hy
  · rw [List.mem_singleton.mp hy]
    exact ha

/-- The IA_PD `addPrefix` creates for a prefix is well-formed. -/
theorem newPD_WF (now : Nat) (iface : Int) (addr : Option TIPv6Addr) (d : TDUID)
    (T1 T2 i : Nat) (x : TAddrPrefix) :
    ({ TAddrIA.new now iface TIAType.TYPE_PD addr d T1 T2 i with PrefixLst := [x] } :
      TAddrIA).WF := by
  simp [TAddrIA.WF]

/-- `addPrefix` keeps DUIDs, IAIDs and bases pairwise distinct. -/
theorem addPrefix_WF (m : TAddrMgr) (now : Nat) (d : TDUID) (addr : Option TIPv6Addr)
    (iface : Int) (i T1 T2 : Nat) (p : TIPv6Addr) (pref valid : Nat) (len : Int) (quiet : Bool)
    (hwf : m.WF) :
    (m.addPrefix now d addr iface i T1 T2 (some p) pref valid len quiet).2.WF := by
  rcases addPrefix_cases m now d addr iface i T1 T2 p pref valid len quiet with
    ⟨hall, hr⟩ | ⟨pre, c, post, hl, hpre, hd, ⟨hno, hr⟩ |
      ⟨ppre, pd, ppost, hl2, hppre, hi, ⟨hnop, hr⟩ | ⟨hex, hr⟩⟩⟩
  · rw [hr]
    refine ⟨nodup_map_snoc hwf.1 (fun y hy => hall y hy), forall_mem_snoc hwf.2 ?_⟩
    refine ⟨by simp, ?_⟩
    intro pd hpd
    rw [List.mem_singleton.mp hpd]
    exact newPD_WF _ _ _ _ _ _ _ _
  · rw [hr]
    have hcwf : c.WF := hwf.2 c (by simp [hl])
    obtain ⟨h1, h2⟩ := hwf
    rw [hl] at h1 h2
    refine ⟨nodup_map_mid_congr h1 rfl, forall_mem_mid h2 ?_⟩
    refine ⟨nodup_map_snoc hcwf.1 (fun y hy => hno y hy), forall_mem_snoc hcwf.2 ?_⟩
    exact newPD_WF _ _ _ _ _ _ _ _
  · rw [hr]
    have hcwf : c.WF := hwf.2 c (by simp [hl])
    obtain ⟨h1, h2⟩ := hwf
    rw [hl] at h1 h2
    obtain ⟨h3, h4⟩ := hcwf
    rw [hl2] at h3 h4
    refine ⟨nodup_map_mid_congr h1 rfl, forall_mem_mid h2 ?_⟩
    refine ⟨nodup_map_mid_congr h3 rfl, forall_mem_mid h4 ?_⟩
    have hpd : pd.WF := h4 pd (by simp)
    exact nodup_map_snoc hpd (fun y hy => hnop y hy)
  · rw [hr]
    exact hwf

/-- The IA_PD list `delPrefix` leaves in the resolved client keeps IAIDs and
bases pairwise distinct. -/
theorem pdLstAfterDel_WF {ppre ppost : List TAddrIA} {pd : TAddrIA}
    {xpre xpost : List TAddrPrefix} {x : TAddrPrefix}
    (h3 : ((ppre ++ pd :: ppost).map fun q => q.IAID).Nodup)
    (h4 : ∀ q ∈ ppre ++ pd :: ppost, q.WF) (hl3 : pd.PrefixLst = xpre ++ x :: xpost) :
    ((pdLstAfterDel ppre ppost pd xpre xpost).map fun q => q.IAID).Nodup ∧
    ∀ q ∈ pdLstAfterDel ppre ppost pd xpre xpost, q.WF := by
  by_cases hempty : xpre ++ xpost = []
  · simp only [pdLstAfterDel, if_pos hempty]
    exact ⟨nodup_map_mid_erase h3, forall_mem_erase h4⟩
  · simp only [pdLstAfterDel, if_neg hempty]
    refine ⟨nodup_map_mid_congr h3 rfl, forall_mem_mid h4 ?_⟩
    have hpd : pd.WF := h4 pd (by simp)
    rw [TAddrIA.WF, hl3] at hpd
    exact nodup_map_mid_erase hpd

/-- `delPrefix` keeps DUIDs, IAIDs and bases pairwise distinct. -/
theorem delPrefix_WF (m : TAddrMgr) (d : TDUID) (i : Nat) (p : TIPv6Addr) (quiet : Bool)
    (hwf : m.WF) : (m.delPrefix d i p quiet).2.WF := by
  rcases delPrefix_cases m d i p quiet with
    ⟨_, hr⟩ | ⟨pre, c, post, hl, hpre, hd, ⟨_, hr⟩ |
      ⟨ppre, pd, ppost, hl2, hppre, hi, ⟨_, hr⟩ | ⟨xpre, x, xpost, hl3, hxpre, hx, hr⟩⟩⟩
  · rw [hr]
    exact hwf
  · rw [hr]
    exact hwf
  · rw [hr]
    exact hwf
  · rw [hr]
    have hcwf : c.WF := hwf.2 c (by simp [hl])
    obtain ⟨h1, h2⟩ := hwf
    rw [hl] at h1 h2
    obtain ⟨h3, h4⟩ := hcwf
    rw [hl2] at h3 h4
    have hpds := pdLstAfterDel_WF h3 h4 hl3
    by_cases hgone : c.IAsLst = [] ∧ c.TALst = [] ∧
        pdLstAfterDel ppre ppost pd xpre xpost = [] ∧ m.DeleteEmptyClient = true
    · simp only [TAddrMgr.WF, clntsLstAfterDel, if_pos hgone]
      exact ⟨nodup_map_mid_erase h1, forall_mem_erase h2⟩
    · simp only [TAddrMgr.WF, clntsLstAfterDel, if_neg hgone]
      exact ⟨nodup_map_mid_congr h1 rfl, forall_mem_mid h2 hpds⟩

/-! ## Live IA_PDs, the flag and the client count across the calls -/

theorem addPrefix_flag (m : TAddrMgr) (now : Nat) (d : TDUID) (addr : Option TIPv6Addr)
    (iface : Int) (i T1 T2 : Nat) (p : TIPv6Addr) (pref valid : Nat) (len : Int) (quiet : Bool) :
    (m.addPrefix now d addr iface i T1 T2 (some p) pref valid len quiet).2.DeleteEmptyClient =
      m.DeleteEmptyClient := by
  rcases addPrefix_cases m now d addr iface i T1 T2 p pref valid len quiet with
    ⟨_, hr⟩ | ⟨pre, c, post, _, _, _, ⟨_, hr⟩ |
      ⟨ppre, pd, ppost, _, _, _, ⟨_, hr⟩ | ⟨_, hr⟩⟩⟩ <;> rw [hr]

theorem delPrefix_flag (m : TAddrMgr) (d : TDUID) (i : Nat) (p : TIPv6Addr) (quiet : Bool) :
    (m.delPrefix d i p quiet).2.DeleteEmptyClient = m.DeleteEmptyClient := by
  rcases delPrefix_cases m d i p quiet with
    ⟨_, hr⟩ | ⟨pre, c, post, _, _, _, ⟨_, hr⟩ |
      ⟨ppre, pd, ppost, _, _, _, ⟨_, hr⟩ | ⟨xpre, x, xpost, _, _, _, hr⟩⟩⟩ <;> rw [hr]

/-- `addPrefix` never removes a client, and after a successful call the store
has at least one. -/
theorem addPrefix_count (m : TAddrMgr) (now : Nat) (d : TDUID) (addr : Option TIPv6Addr)
    (iface : Int) (i T1 T2 : Nat) (p : TIPv6Addr) (pref valid : Nat) (len : Int) (quiet : Bool) :
    m.countClient ≤
      (m.addPrefix now d addr iface i T1 T2 (some p) pref valid len quiet).2.countClient ∧
    ((m.addPrefix now d addr iface i T1 T2 (some p) pref valid len quiet).1 = true →
      1 ≤ (m.addPrefix now d addr iface i T1 T2 (some p) pref valid len quiet).2.countClient) := by
  rcases addPrefix_cases m now d addr iface i T1 T2 p pref valid len quiet with
    ⟨_, hr⟩ | ⟨pre, c, post, hl, _, _, ⟨_, hr⟩ |
      ⟨ppre, pd, ppost, _, _, _, ⟨_, hr⟩ | ⟨_, hr⟩⟩⟩
  · rw [hr]
    simp [TAddrMgr.countClient]
  · rw [hr]
    simp only [TAddrMgr.countClient, hl, List.length_append, List.length_cons]
    omega
  · rw [hr]
    simp only [TAddrMgr.countClient, hl, List.length_append, List.length_cons]
    omega
  · rw [hr]
    simp

/-- With `DeleteEmptyClient` clear `delPrefix` never removes a client. -/
theorem delPrefix_count_noflag (m : TAddrMgr) (d : TDUID) (i : Nat) (p : TIPv6Addr)
    (quiet : Bool) (hflag : m.DeleteEmptyClient = false) :
    (m.delPrefix d i p quiet).2.countClient = m.countClient := by
  rcases delPrefix_cases m d i p quiet with
    ⟨_, hr⟩ | ⟨pre, c, post, hl, _, _, ⟨_, hr⟩ |
      ⟨ppre, pd, ppost, _, _, _, ⟨_, hr⟩ | ⟨xpre, x, xpost, _, _, _, hr⟩⟩⟩
  · rw [hr]
  · rw [hr]
  · rw [hr]
  · rw [hr]
    simp [TAddrMgr.countClient, clntsLstAfterDel, hflag, hl]

/-- `addPrefix` leaves no client without IA_PD and no IA_PD without prefix when
there was none before. -/
theorem addPrefix_onlyLivePD (m : TAddrMgr) (now : Nat) (d : TDUID) (addr : Option TIPv6Addr)
    (iface : Int) (i T1 T2 : Nat) (p : TIPv6Addr) (pref valid : Nat) (len : Int) (quiet : Bool)
    (h : m.onlyLivePD) :
    (m.addPrefix now d addr iface i T1 T2 (some p) pref valid len quiet).2.onlyLivePD := by
  rcases addPrefix_cases m now d addr iface i T1 T2 p pref valid len quiet with
    ⟨hall, hr⟩ | ⟨pre, c, post, hl, hpre, hd, ⟨hno, hr⟩ |
      ⟨ppre, pd, ppost, hl2, hppre, hi, ⟨hnop, hr⟩ | ⟨hex, hr⟩⟩⟩
  · rw [hr]
    refine forall_mem_snoc h ?_
    simp [TAddrClient.onlyLivePD, TAddrClient.new]
  · rw [hr]
    have hc : c.onlyLivePD := h c (by simp [hl])
    rw [TAddrMgr.onlyLivePD, hl] at h
    refine forall_mem_mid h ⟨hc.1, hc.2.1, by simp, forall_mem_snoc hc.2.2.2 (by simp)⟩
  · rw [hr]
    have hc : c.onlyLivePD := h c (by simp [hl])
    rw [TAddrMgr.onlyLivePD, hl] at h
    obtain ⟨h1, h2, _, h4⟩ := hc
    rw [hl2] at h4
    exact forall_mem_mid h ⟨h1, h2, by simp, forall_mem_mid h4 (by simp)⟩
  · rw [hr]
    exact h

/-- With `DeleteEmptyClient` set `delPrefix` leaves no client without IA_PD and
no IA_PD without prefix when there was none before. -/
theorem delPrefix_onlyLivePD (m : TAddrMgr) (d : TDUID) (i : Nat) (p : TIPv6Addr)
    (quiet : Bool) (hflag : m.DeleteEmptyClient = true) (h : m.onlyLivePD) :
    (m.delPrefix d i p quiet).2.onlyLivePD := by
  rcases delPrefix_cases m d i p quiet with
    ⟨_, hr⟩ | ⟨pre, c, post, hl, hpre, hd, ⟨_, hr⟩ |
      ⟨ppre, pd, ppost, hl2, hppre, hi, ⟨_, hr⟩ | ⟨xpre, x, xpost, hl3, hxpre, hx, hr⟩⟩⟩
  · rw [hr]
    exact h
  · rw [hr]
    exact h
  · rw [hr]
    exact h
  · rw [hr]
    have hc : c.onlyLivePD := h c (by simp [hl])
    rw [TAddrMgr.onlyLivePD, hl] at h
    obtain ⟨h1, h2, _, h4⟩ := hc
    rw [hl2] at h4
    have hpds : ∀ q ∈ pdLstAfterDel ppre ppost pd xpre xpost, q.PrefixLst ≠ [] := by
      by_cases hempty : xpre ++ xpost = []
      · simp only [pdLstAfterDel, if_pos hempty]
        exact forall_mem_erase h4
      · simp only [pdLstAfterDel, if_neg hempty]
        exact forall_mem_mid h4 hempty
    by_cases hgone : c.IAsLst = [] ∧ c.TALst = [] ∧
        pdLstAfterDel ppre ppost pd xpre xpost = [] ∧ m.DeleteEmptyClient = true
    · simp only [TAddrMgr.onlyLivePD, clntsLstAfterDel, if_pos hgone]
      exact forall_mem_erase h
    · simp only [TAddrMgr.onlyLivePD, clntsLstAfterDel, if_neg hgone]
      refine forall_mem_mid h ⟨h1, h2, ?_, hpds⟩
      intro hnil
      exact hgone ⟨h1, h2, hnil, hflag⟩

/-- A store without leases in which every client has a live IA_PD has no
client. -/
theorem no_clients_of_no_keys (m : TAddrMgr) (h : m.onlyLivePD) (hk : m.keys = []) :
    m.ClntsLst = [] := by
  cases hc : m.ClntsLst with
  | nil => rfl
  | cons c rest =>
    exfalso
    have hcm : c ∈ m.ClntsLst := by simp [hc]
    obtain ⟨_, _, h3, h4⟩ := h c hcm
    cases hpd : c.PDLst with
    | nil => exact h3 hpd
    | cons pd pds =>
      have hpdm : pd ∈ c.PDLst := by simp [hpd]
      cases hx : pd.PrefixLst with
      | nil => exact h4 pd hpdm hx
      | cons x xs =>
        have : (c.DUID, pd.IAID, x.Prefix) ∈ m.keys :=
          mem_keys_iff.mpr ⟨c, hcm, rfl, pd, hpdm, rfl, x, by simp [hx], rfl⟩
        rw [hk] at this
        cases this

/-! ## Sequences of calls -/

/-- A sequence of `addPrefix` calls that all succeed, run on a well-formed store
with live IA_PDs only: the store stays so, keeps its flag, holds the old
leases and the added ones, and loses no client. -/
theorem runAdds_spec (adds : List AddCall) :
    ∀ m : TAddrMgr, (runAdds m adds).1 = true → m.WF → m.onlyLivePD →
      (runAdds m adds).2.WF ∧ (runAdds m adds).2.onlyLivePD ∧
      (runAdds m adds).2.DeleteEmptyClient = m.DeleteEmptyClient ∧
      (runAdds m adds).2.keys.Perm (m.keys ++ adds.map AddCall.key) ∧
      m.countClient ≤ (runAdds m adds).2.countClient ∧
      (adds ≠ [] → 1 ≤ (runAdds m adds).2.countClient) := by
  induction adds with
  | nil =>
    intro m _ hwf hlive
    rw [List.map_nil, List.append_nil]
    exact ⟨hwf, hlive, rfl, List.Perm.refl _, Nat.le_refl _, fun h => absurd rfl h⟩
  | cons a rest ih =>
    intro m hok hwf hlive
    simp only [runAdds, Bool.and_eq_true] at hok ⊢
    obtain ⟨hok1, hok2⟩ := hok
    have hwf1 := addPrefix_WF m a.now a.duid a.addr a.iface a.IAID a.T1 a.T2 a.pfx a.pref
      a.valid a.length a.quiet hwf
    have hlive1 := addPrefix_onlyLivePD m a.now a.duid a.addr a.iface a.IAID a.T1 a.T2 a.pfx
      a.pref a.valid a.length a.quiet hlive
    have hflag1 := addPrefix_flag m a.now a.duid a.addr a.iface a.IAID a.T1 a.T2 a.pfx a.pref
      a.valid a.length a.quiet
    have hcnt1 := addPrefix_count m a.now a.duid a.addr a.iface a.IAID a.T1 a.T2 a.pfx a.pref
      a.valid a.length a.quiet
    obtain ⟨A, B, hA, hB⟩ := addPrefix_keys m a.now a.duid a.addr a.iface a.IAID a.T1 a.T2
      a.pfx a.pref a.valid a.length a.quiet hok1
    obtain ⟨i1, i2, i3, i4, i5, _⟩ := ih _ hok2 hwf1 hlive1
    refine ⟨i1, i2, i3.trans hflag1, ?_, Nat.le_trans hcnt1.1 i5, fun _ =>
      Nat.le_trans (hcnt1.2 hok1) i5⟩
    refine i4.trans ?_
    rw [hB, hA, List.map_cons]
    have h1 : (A ++ (a.duid, a.IAID, a.pfx) :: B).Perm ((a.duid, a.IAID, a.pfx) :: (A ++ B)) :=
      List.perm_middle
    have h2 : ((A ++ B) ++ a.key :: rest.map AddCall.key).Perm
        (a.key :: ((A ++ B) ++ rest.map AddCall.key)) := List.perm_middle
    exact (h1.append_right _).trans h2.symm

/-- The matching `delPrefix` calls, in any order, run on a well-formed store
whose leases they are: every call succeeds and no lease is left; the flag is
kept; with the flag set live IA_PDs stay the only ones, with the flag clear
the number of clients does not change. -/
theorem runDels_spec (dels : List DelCall) :
    ∀ m : TAddrMgr, m.WF → (dels.map DelCall.key).Perm m.keys →
      (runDels m dels).1 = true ∧ (runDels m dels).2.keys = [] ∧
      (runDels m dels).2.DeleteEmptyClient = m.DeleteEmptyClient ∧
      (m.DeleteEmptyClient = true → m.onlyLivePD → (runDels m dels).2.onlyLivePD) ∧
      (m.DeleteEmptyClient = false → (runDels m dels).2.countClient = m.countClient) := by
  induction dels with
  | nil =>
    intro m _ hperm
    rw [List.map_nil] at hperm
    exact ⟨rfl, hperm.symm.eq_nil, rfl, fun _ h => h, fun _ => rfl⟩
  | cons a rest ih =>
    intro m hwf hperm
    rw [List.map_cons] at hperm
    have hmem : (a.duid, a.IAID, a.pfx) ∈ m.keys :=
      hperm.subset (List.mem_cons_self _ _)
    obtain ⟨pre, c, post, ppre, pd, ppost, xpre, x, xpost, hl, _, hd, hl2, _, hi, hl3, _, hx,
      hr⟩ := delPrefix_of_mem_keys m hwf a.duid a.IAID a.pfx a.quiet hmem
    have hwf1 := delPrefix_WF m a.duid a.IAID a.pfx a.quiet hwf
    have hflag1 := delPrefix_flag m a.duid a.IAID a.pfx a.quiet
    have hkeys := keys_after_del m.DeleteEmptyClient pre post c ppre ppost pd xpre xpost x
      hl2 hl3
    rw [hd, hi, hx] at hkeys
    obtain ⟨hk0, hk1⟩ := hkeys
    rw [← hl] at hk0
    have e1 : (m.delPrefix a.duid a.IAID a.pfx a.quiet).2.keys =
        clientsKeys (clntsLstAfterDel m.DeleteEmptyClient pre post c
          (pdLstAfterDel ppre ppost pd xpre xpost)) := by
      rw [hr]
      rfl
    have hperm1 : (rest.map DelCall.key).Perm
        (m.delPrefix a.duid a.IAID a.pfx a.quiet).2.keys := by
      rw [e1, hk1]
      rw [TAddrMgr.keys, hk0] at hperm
      exact (hperm.trans List.perm_middle).cons_inv
    obtain ⟨j1, j2, j3, j4, j5⟩ := ih _ hwf1 hperm1
    have hok1 : (m.delPrefix a.duid a.IAID a.pfx a.quiet).1 = true := by rw [hr]
    simp only [runDels, Bool.and_eq_true]
    refine ⟨⟨hok1, j1⟩, j2, j3.trans hflag1, ?_, ?_⟩
    · intro hf hlive
      exact j4 (hflag1.trans hf)
        (delPrefix_onlyLivePD m a.duid a.IAID a.pfx a.quiet hf hlive)
    · intro hf
      rw [j5 (hflag1.trans hf)]
      exact delPrefix_count_noflag m a.duid a.IAID a.pfx a.quiet hf

/-- C10 (amended). Start from the empty store with `DeleteEmptyClient` set or
clear.  For every non-empty sequence of `add_prefix` calls that all succeed,
followed by the matching `del_prefix` calls (one per added lease, same DUID,
IAID and base, in any order): every `del_prefix` succeeds, and the final
`count_clients()` is 0 if and only if `DeleteEmptyClient` is set. -/
theorem reap_after_matching_dels (flag : Bool) (xmlFile : String) (adds : List AddCall)
    (dels : List DelCall) (hne : adds ≠ [])
    (hadds : (runAdds (emptyStore flag xmlFile) adds).1 = true)
    (hmatch : (dels.map DelCall.key).Perm (adds.map AddCall.key)) :
    (runDels (runAdds (emptyStore flag xmlFile) adds).2 dels).1 = true ∧
    ((runDels (runAdds (emptyStore flag xmlFile) adds).2 dels).2.countClient = 0 ↔
      flag = true) := by
  have hwf0 : (emptyStore flag xmlFile).WF := by
    simp [emptyStore, TAddrMgr.new, TAddrMgr.WF]
  have hlive0 : (emptyStore flag xmlFile).onlyLivePD := by
    simp [emptyStore, TAddrMgr.new, TAddrMgr.onlyLivePD]
  have hk0 : (emptyStore flag xmlFile).keys = [] := by
    simp [emptyStore, TAddrMgr.new, TAddrMgr.keys, clientsKeys]
  obtain ⟨a1, a2, a3, a4, _, a6⟩ := runAdds_spec adds _ hadds hwf0 hlive0
  rw [hk0, List.nil_append] at a4
  have hflag : (runAdds (emptyStore flag xmlFile) adds).2.DeleteEmptyClient = flag := a3
  obtain ⟨d1, d2, _, d4, d5⟩ := runDels_spec dels _ a1 (hmatch.trans a4.symm)
  refine ⟨d1, ?_⟩
  cases flag with
  | true =>
    have := no_clients_of_no_keys _ (d4 hflag a2) d2
    simp [TAddrMgr.countClient, this]
  | false =>
    have h1 := a6 hne
    rw [d5 hflag]
    constructor
    · intro h0
      omega
    · intro h
      cases h

/-- Witness for C10 (amended): one `add_prefix` on the empty store with the flag
set, followed by the matching `del_prefix`. -/
theorem reap_after_matching_dels_witness :
    (runAdds (emptyStore true "db.xml")
      [{ now := 100, duid := duidA, addr := none, iface := 2, IAID := 7, T1 := 1000,
         T2 := 1600, pfx := pfx1, pref := 1800, valid := 3600, length := 48,
         quiet := false }]).1 = true ∧
    (runDels (runAdds (emptyStore true "db.xml")
      [{ now := 100, duid := duidA, addr := none, iface := 2, IAID := 7, T1 := 1000,
         T2 := 1600, pfx := pfx1, pref := 1800, valid := 3600, length := 48,
         quiet := false }]).2
      [{ duid := duidA, IAID := 7, pfx := pfx1, quiet := false }]).2.countClient = 0 :=
  ⟨by decide,
    (reap_after_matching_dels true "db.xml"
      [{ now := 100, duid := duidA, addr := none, iface := 2, IAID := 7, T1 := 1000,
         T2 := 1600, pfx := pfx1, pref := 1800, valid := 3600, length := 48,
         quiet := false }]
      [{ duid := duidA, IAID := 7, pfx := pfx1, quiet := false }]
      (by simp) (by decide) (List.Perm.refl _)).2.mpr rfl⟩

/-- Counterexample to C10 as stated: the empty sequence of calls on the empty
store with `DeleteEmptyClient` clear.  All (zero) adds succeed, all (zero)
matching dels are run, the final `count_clients()` is 0, and the flag is not
set. -/
theorem reap_empty_sequence_counterexample :
    (runAdds (emptyStore false "db.xml") []).1 = true ∧
    (runDels (runAdds (emptyStore false "db.xml") []).2 []).1 = true ∧
    ¬ ((runDels (runAdds (emptyStore false "db.xml") []).2 []).2.countClient = 0 ↔
        false = true) := by
  decide

/-! ## Client list: `addClient`, `getClient`, `delClient`, timeouts -/

/-- Modelled from the spec: `TContainer<T>` (Container.h) is not part of the
sources at hand.  Spec §4.1 and §9 describe its legacy stateful cursor:
`first()` rewinds, `get()` returns the element under the cursor and advances,
or null at the end. -/
structure TContainer (α : Type) where
  items : List α
  cursor : Nat

/-- Modelled from the spec: `TContainer::first()`. -/
def TContainer.first {α : Type} (c : TContainer α) : TContainer α := { c with cursor := 0 }

/-- Modelled from the spec: `TContainer::get()`. -/
def TContainer.get {α : Type} (c : TContainer α) : Option α × TContainer α :=
  match c.items.drop c.cursor with
  | [] => (none, c)
  | x :: _ => (some x, { c with cursor := c.cursor + 1 })

/-- The loop `while (ptr = lst.get()) { if (p ptr) return ptr; } return 0;` on
the elements not yet visited: the result and the cursor it leaves. -/
def scanFrom {α : Type} (p : α → Bool) : List α → Nat → Option α × Nat
  | [], k => (none, k)
  | x :: xs, k => if p x then (some x, k + 1) else scanFrom p xs (k + 1)

/-- `TAddrMgr::getClient(SPtr<TDUID> duid)` (AddrMgr.cpp:115-125) on the client
container with its cursor: `first()`, then `get()` until the DUID matches. -/
def getClientWalk (lst : TContainer TAddrClient) (duid : TDUID) :
    Option TAddrClient × TContainer TAddrClient :=
  let r := scanFrom (fun ptr : TAddrClient => decide (ptr.getDUID = duid))
    (lst.first.items.drop lst.first.cursor) lst.first.cursor
  (r.1, { lst with cursor := r.2 })

/-- Modelled from the spec: `TAddrIA::getAddr(addr)`, spec §4.3 `get_addr(addr)`:
the address record of the IA equal to `addr`, first match. -/
def TAddrIA.getAddr (ia : TAddrIA) (addr : TIPv6Addr) : Option TAddrAddr :=
  match findFirst (fun a : TAddrAddr => decide (a.Addr = addr)) ia.AddrLst with
  | none => none
  | some (_, a) => some a

/-- The inner walk of `getClient(leasedAddr)`:
`cli->firstIA(); while (ia = cli->getIA()) if (ia->getAddr(leasedAddr)) ...`
over the client's IA list (`firstIA` / `getIA`, spec §4.2 `iter(IA_NA)`). -/
def TAddrClient.leases (cli : TAddrClient) (leasedAddr : TIPv6Addr) : Bool :=
  (findFirst (fun ia : TAddrIA => (ia.getAddr leasedAddr).isSome) cli.IAsLst).isSome

/-- `TAddrMgr::getClient(SPtr<TIPv6Addr> leasedAddr)` (AddrMgr.cpp:158-172). -/
def TAddrMgr.getClientByLeasedAddr (m : TAddrMgr) (leasedAddr : TIPv6Addr) :
    Option TAddrClient :=
  match findFirst (fun cli : TAddrClient => cli.leases leasedAddr) m.ClntsLst with
  | none => none
  | some (_, cli) => some cli

/-- The largest `unsigned long` (LP64: 64 bits). -/
def ULONG_MAX : Nat := 2 ^ 64 - 1

/-- The four per-client timeouts `TAddrClient::getT1Timeout()`,
`getT2Timeout()`, `getPrefTimeout()`, `getValidTimeout()`.  The class is not
part of the sources at hand; the methods are taken as parameters, with the one
fact their return type gives: the value is an `unsigned long`. -/
structure ClientTimeouts where
  T1 : TAddrClient → Nat
  T2 : TAddrClient → Nat
  Pref : TAddrClient → Nat
  Valid : TAddrClient → Nat
  T1_le : ∀ c, T1 c ≤ ULONG_MAX
  T2_le : ∀ c, T2 c ≤ ULONG_MAX
  Pref_le : ∀ c, Pref c ≤ ULONG_MAX
  Valid_le : ∀ c, Valid c ≤ ULONG_MAX

/-- The loop shared by the four timeout methods:
`ts = ULONG_MAX; while (ptr = get()) if (ts > f(ptr)) ts = f(ptr); return ts;`. -/
def minTimeout (f : TAddrClient → Nat) (l : List TAddrClient) : Nat :=
  l.foldl (fun ts ptr => if ts > f ptr then f ptr else ts) ULONG_MAX

/-- `TAddrMgr::getT1Timeout` (AddrMgr.cpp:199-209). -/
def TAddrMgr.getT1Timeout (tm : ClientTimeouts) (m : TAddrMgr) : Nat :=
  minTimeout tm.T1 m.ClntsLst

/-- `TAddrMgr::getT2Timeout` (AddrMgr.cpp:211-221). -/
def TAddrMgr.getT2Timeout (tm : ClientTimeouts) (m : TAddrMgr) : Nat :=
  minTimeout tm.T2 m.ClntsLst

/-- `TAddrMgr::getPrefTimeout` (AddrMgr.cpp:223-233). -/
def TAddrMgr.getPrefTimeout (tm : ClientTimeouts) (m : TAddrMgr) : Nat :=
  minTimeout tm.Pref m.ClntsLst

/-- `TAddrMgr::getValidTimeout` (AddrMgr.cpp:235-245). -/
def TAddrMgr.getValidTimeout (tm : ClientTimeouts) (m : TAddrMgr) : Nat :=
  minTimeout tm.Valid m.ClntsLst

/-- C11 (amended). `add_client` has no failure case: it appends the client at the
end of the list whatever its DUID, `count_clients()` grows by one, and the
other members of the store are untouched.  DUIDs stay pairwise distinct
exactly when the new DUID was not in the store, so uniqueness is the caller's
duty (look the DUID up first, as `add_prefix` does). -/
theorem addClient_appends (m : TAddrMgr) (x : TAddrClient) :
    (m.addClient x).ClntsLst = m.ClntsLst ++ [x] ∧
    (m.addClient x).countClient = m.countClient + 1 ∧
    (m.addClient x).DeleteEmptyClient = m.DeleteEmptyClient ∧
    (m.addClient x).XmlFile = m.XmlFile ∧ (m.addClient x).IsDone = m.IsDone ∧
    ((m.ClntsLst.map fun c => c.DUID).Nodup →
      (((m.addClient x).ClntsLst.map fun c => c.DUID).Nodup ↔ m.getClient x.DUID = none)) := by
  refine ⟨rfl, by simp [TAddrMgr.addClient, TAddrMgr.countClient], rfl, rfl, rfl, ?_⟩
  intro hnd
  rw [getClient_eq_none]
  simp only [TAddrMgr.addClient, List.map_append, List.map_cons, List.map_nil]
  rw [List.nodup_append]
  constructor
  · rintro ⟨_, _, hdis⟩ y hy hyd
    exact hdis (List.mem_map_of_mem (fun c => c.DUID) hy) (by simp [hyd])
  · intro h
    refine ⟨hnd, by simp, ?_⟩
    intro b hb hb2
    obtain ⟨y, hy, hyb⟩ := List.mem_map.mp hb
    simp only [List.mem_singleton] at hb2
    exact h y hy (by rw [hyb, hb2])

/-- Counterexample to C11 as stated: the store already holds a client with DUID
`00:01:00:01:aa`; `add_client` of another client with that DUID does not
fail: the count goes from 1 to 2 and two clients share the DUID. -/
theorem addClient_duplicate_counterexample :
    (storeA.getClient duidA).isSome = true ∧ storeA.countClient = 1 ∧
    (storeA.addClient (TAddrClient.new duidA)).countClient = 2 ∧
    (storeA.addClient (TAddrClient.new duidA)).ClntsLst.map (fun c => c.DUID) =
      [duidA, duidA] := by
  decide

theorem scanFrom_fst {α : Type} (p : α → Bool) (l : List α) (k : Nat) :
    (scanFrom p l k).1 = (findFirst p l).map Prod.snd := by
  induction l generalizing k with
  | nil => rfl
  | cons x xs ih =>
    by_cases hx : p x = true
    · simp [scanFrom, findFirst, hx]
    · have := ih (k + 1)
      cases hf : findFirst p xs with
      | none => simp [scanFrom, findFirst, hx, this, hf]
      | some r => simp [scanFrom, findFirst, hx, this, hf]

theorem getClientWalk_fst (items : List TAddrClient) (k : Nat) (d : TDUID) :
    (getClientWalk ⟨items, k⟩ d).1 =
      (findFirst (fun c : TAddrClient => decide (c.getDUID = d)) items).map Prod.snd := by
  simp [getClientWalk, TContainer.first, scanFrom_fst]

/-- C12. `get_client_by_duid(d)` returns the first client, in insertion order,
whose DUID equals `d`; it returns none exactly when no client has the DUID.
Run on the client container with any cursor position, the walk returns that
same client, leaves the elements of the container as they were (only the
cursor moves), and a second call right after it returns the same client
again. -/
theorem getClient_first_match (m : TAddrMgr) (d : TDUID) (k : Nat) :
    (m.getClient d = none ↔ ∀ c ∈ m.ClntsLst, c.DUID ≠ d) ∧
    (∀ c, m.getClient d = some c →
      ∃ pre post, m.ClntsLst = pre ++ c :: post ∧ c.DUID = d ∧ ∀ y ∈ pre, y.DUID ≠ d) ∧
    (getClientWalk ⟨m.ClntsLst, k⟩ d).1 = m.getClient d ∧
    (getClientWalk ⟨m.ClntsLst, k⟩ d).2.items = m.ClntsLst ∧
    (getClientWalk (getClientWalk ⟨m.ClntsLst, k⟩ d).2 d).1 =
      (getClientWalk ⟨m.ClntsLst, k⟩ d).1 := by
  refine ⟨getClient_eq_none, ?_, ?_, rfl, ?_⟩
  · intro c hc
    cases hf : m.findClient d with
    | none => simp [TAddrMgr.getClient, hf] at hc
    | some r =>
      obtain ⟨j, c2⟩ := r
      simp [TAddrMgr.getClient, hf] at hc
      subst hc
      obtain ⟨pre, post, hl, _, hd, hpre⟩ := findClient_eq_some.mp hf
      exact ⟨pre, post, hl, hd, hpre⟩
  · rw [getClientWalk_fst]
    cases hf : m.findClient d with
    | none =>
      have hf2 : findFirst (fun c : TAddrClient => decide (c.getDUID = d)) m.ClntsLst = none := hf
      simp [TAddrMgr.getClient, hf, hf2]
    | some r =>
      have hf2 : findFirst (fun c : TAddrClient => decide (c.getDUID = d)) m.ClntsLst =
        some r := hf
      simp [TAddrMgr.getClient, hf, hf2]
  · have h1 := getClientWalk_fst m.ClntsLst k d
    have h2 := getClientWalk_fst m.ClntsLst (getClientWalk ⟨m.ClntsLst, k⟩ d).2.cursor d
    rw [h1]
    exact h2

/-- C13. `del_client(d)` returns true exactly when some client has DUID `d`.
When it returns true the first such client is removed, the others keep their
order and `count_clients()` drops by one; when it returns false the store is
unchanged.  The other members of the store are never touched.  In a store
with pairwise distinct DUIDs, a second `del_client(d)` right after a successful
one returns false, and `get_client_by_duid(d)` returns none. -/
theorem delClient_spec (m : TAddrMgr) (d : TDUID) :
    ((m.delClient d).1 = true ↔ ∃ c ∈ m.ClntsLst, c.DUID = d) ∧
    ((m.delClient d).1 = true →
      ∃ pre c post, m.ClntsLst = pre ++ c :: post ∧ (∀ y ∈ pre, y.DUID ≠ d) ∧ c.DUID = d ∧
        (m.delClient d).2.ClntsLst = pre ++ post ∧
        (m.delClient d).2.countClient + 1 = m.countClient) ∧
    ((m.delClient d).1 = false → (m.delClient d).2 = m) ∧
    (m.delClient d).2.DeleteEmptyClient = m.DeleteEmptyClient ∧
    (m.delClient d).2.XmlFile = m.XmlFile ∧ (m.delClient d).2.IsDone = m.IsDone ∧
    ((m.ClntsLst.map fun c => c.DUID).Nodup → (m.delClient d).1 = true →
      ((m.delClient d).2.delClient d).1 = false ∧ (m.delClient d).2.getClient d = none) := by
  cases hf : m.findClient d with
  | none =>
    have hall := findClient_eq_none.mp hf
    have hf2 : findFirst (fun c : TAddrClient => decide (c.getDUID = d)) m.ClntsLst = none := hf
    have hr : m.delClient d = (false, m) := by
      simp [TAddrMgr.delClient, delFirst, hf2]
    rw [hr]
    refine ⟨?_, ?_, fun _ => rfl, rfl, rfl, rfl, ?_⟩
    · constructor
      · intro h
        cases h
      · rintro ⟨c, hc, hcd⟩
        exact absurd hcd (hall c hc)
    · intro h
      cases h
    · intro _ h
      cases h
  | some r =>
    obtain ⟨k, c⟩ := r
    obtain ⟨pre, post, hl, hk, hd, hpre⟩ := findClient_eq_some.mp hf
    have hr : m.delClient d = (true, { m with ClntsLst := pre ++ post }) := by
      simp only [TAddrMgr.delClient, hl]
      rw [delFirst_split _ pre post c (by simp [TAddrClient.getDUID, hd])
        (by simpa [TAddrClient.getDUID] using hpre)]
    rw [hr]
    refine ⟨?_, ?_, ?_, rfl, rfl, rfl, ?_⟩
    · constructor
      · intro _
        exact ⟨c, by simp [hl], hd⟩
      · intro _
        rfl
    · intro _
      refine ⟨pre, c, post, hl, hpre, hd, rfl, ?_⟩
      simp only [TAddrMgr.countClient, hl, List.length_append, List.length_cons]
      omega
    · intro h
      cases h
    · intro hnd _
      rw [hl, List.map_append, List.map_cons] at hnd
      have hnotin : ∀ y ∈ pre ++ post, y.DUID ≠ d := by
        intro y hy hyd
        rcases List.mem_append.mp hy with hy | hy
        · exact hpre y hy hyd
        · have h1 := (List.nodup_cons.mp (List.nodup_append.mp hnd).2.1).1
          apply h1
          rw [hd, ← hyd]
          exact List.mem_map_of_mem (fun c => c.DUID) hy
      have hg : ({ m with ClntsLst := pre ++ post } : TAddrMgr).getClient d = none :=
        getClient_eq_none.mpr hnotin
      have hf3 : findFirst (fun c : TAddrClient => decide (c.getDUID = d)) (pre ++ post) =
          none := by
        rw [findFirst_eq_none]
        intro y hy
        simpa [TAddrClient.getDUID] using hnotin y hy
      refine ⟨?_, hg⟩
      simp [TAddrMgr.delClient, delFirst, hf3]

theorem leases_iff {cli : TAddrClient} {a : TIPv6Addr} :
    cli.leases a = true ↔ ∃ ia ∈ cli.IAsLst, ∃ x ∈ ia.AddrLst, x.Addr = a := by
  have hget : ∀ ia : TAddrIA, (ia.getAddr a).isSome = true ↔ ∃ x ∈ ia.AddrLst, x.Addr = a := by
    intro ia
    cases hf : findFirst (fun x : TAddrAddr => decide (x.Addr = a)) ia.AddrLst with
    | none =>
      have := findFirst_eq_none.mp hf
      simp only [TAddrIA.getAddr, hf, Option.isSome_none]
      constructor
      · intro h
        cases h
      · rintro ⟨x, hx, hxa⟩
        have := this x hx
        simp [hxa] at this
    | some r =>
      obtain ⟨k, x⟩ := r
      obtain ⟨pre, post, hl, _, hx, _⟩ := findFirst_eq_some.mp hf
      simp only [TAddrIA.getAddr, hf, Option.isSome_some, true_iff]
      exact ⟨x, by simp [hl], by simpa using hx⟩
  cases hf : findFirst (fun ia : TAddrIA => (ia.getAddr a).isSome) cli.IAsLst with
  | none =>
    have := findFirst_eq_none.mp hf
    simp only [TAddrClient.leases, hf, Option.isSome_none]
    constructor
    · intro h
      cases h
    · rintro ⟨ia, hia, hx⟩
      have h1 := this ia hia
      rw [(hget ia).mpr hx] at h1
      cases h1
  | some r =>
    obtain ⟨k, ia⟩ := r
    obtain ⟨pre, post, hl, _, hia, _⟩ := findFirst_eq_some.mp hf
    simp only [TAddrClient.leases, hf, Option.isSome_some, true_iff]
    exact ⟨ia, by simp [hl], (hget ia).mp hia⟩

/-- C14. `get_client_by_leased_addr(a)` returns the first client, in insertion
order, that has an identity association in its IA list (the list `firstIA` /
`getIA` walk, i.e. IA_NA) holding an address equal to `a`; it returns none
exactly when no client has such an IA.  The IA_TA and IA_PD lists are not
walked. -/
theorem getClientByLeasedAddr_first_match (m : TAddrMgr) (a : TIPv6Addr) :
    (m.getClientByLeasedAddr a = none ↔
      ∀ c ∈ m.ClntsLst, ∀ ia ∈ c.IAsLst, ∀ x ∈ ia.AddrLst, x.Addr ≠ a) ∧
    (∀ c, m.getClientByLeasedAddr a = some c →
      ∃ pre post, m.ClntsLst = pre ++ c :: post ∧
        (∃ ia ∈ c.IAsLst, ∃ x ∈ ia.AddrLst, x.Addr = a) ∧
        ∀ y ∈ pre, ∀ ia ∈ y.IAsLst, ∀ x ∈ ia.AddrLst, x.Addr ≠ a) := by
  have hno : ∀ y : TAddrClient, y.leases a = false ↔
      ∀ ia ∈ y.IAsLst, ∀ x ∈ ia.AddrLst, x.Addr ≠ a := by
    intro y
    constructor
    · intro h ia hia x hx hxa
      have := leases_iff.mpr ⟨ia, hia, x, hx, hxa⟩
      rw [h] at this
      cases this
    · intro h
      cases hl : y.leases a with
      | false => rfl
      | true =>
        obtain ⟨ia, hia, x, hx, hxa⟩ := leases_iff.mp hl
        exact absurd hxa (h ia hia x hx)
  cases hf : findFirst (fun cli : TAddrClient => cli.leases a) m.ClntsLst with
  | none =>
    have hall := findFirst_eq_none.mp hf
    simp only [TAddrMgr.getClientByLeasedAddr, hf, true_iff]
    refine ⟨fun c hc => (hno c).mp (hall c hc), ?_⟩
    intro c h
    cases h
  | some r =>
    obtain ⟨k, c⟩ := r
    obtain ⟨pre, post, hl, _, hc, hpre⟩ := findFirst_eq_some.mp hf
    simp only [TAddrMgr.getClientByLeasedAddr, hf]
    constructor
    · constructor
      · intro h
        cases h
      · intro h
        have := (hno c).mpr (h c (by simp [hl]))
        rw [hc] at this
        cases this
    · intro c2 h
      cases h
      exact ⟨pre, post, hl, leases_iff.mp hc, fun y hy => (hno y).mp (hpre y hy)⟩

theorem foldl_min_spec (f : TAddrClient → Nat) (l : List TAddrClient) :
    ∀ init : Nat,
      l.foldl (fun ts ptr => if ts > f ptr then f ptr else ts) init ≤ init ∧
      (∀ c ∈ l, l.foldl (fun ts ptr => if ts > f ptr then f ptr else ts) init ≤ f c) ∧
      (l.foldl (fun ts ptr => if ts > f ptr then f ptr else ts) init = init ∨
        ∃ c ∈ l, l.foldl (fun ts ptr => if ts > f ptr then f ptr else ts) init = f c) := by
  induction l with
  | nil =>
    intro init
    simp
  | cons x xs ih =>
    intro init
    simp only [List.foldl_cons]
    obtain ⟨h1, h2, h3⟩ := ih (if init > f x then f x else init)
    have hstep : (if init > f x then f x else init) ≤ init ∧
        (if init > f x then f x else init) ≤ f x := by
      split <;> omega
    refine ⟨Nat.le_trans h1 hstep.1, ?_, ?_⟩
    · intro c hc
      rcases List.mem_cons.mp hc with hc | hc
      · rw [hc]
        exact Nat.le_trans h1 hstep.2
      · exact h2 c hc
    · rcases h3 with h3 | ⟨c, hc, h3⟩
      · by_cases hgt : init > f x
        · right
          exact ⟨x, by simp, by rw [h3, if_pos hgt]⟩
        · left
          rw [h3, if_neg hgt]
      · right
        exact ⟨c, by simp [hc], h3⟩

/-- The fold of the four timeout methods: the sentinel on the empty list, else
the least of the clients' values. -/
theorem minTimeout_spec (f : TAddrClient → Nat) (hf : ∀ c, f c ≤ ULONG_MAX)
    (l : List TAddrClient) :
    (l = [] → minTimeout f l = ULONG_MAX) ∧
    (∀ c ∈ l, minTimeout f l ≤ f c) ∧
    (l ≠ [] → ∃ c ∈ l, minTimeout f l = f c) := by
  obtain ⟨h1, h2, h3⟩ := foldl_min_spec f l ULONG_MAX
  refine ⟨?_, h2, ?_⟩
  · intro hl
    subst hl
    rfl
  · intro hne
    rcases h3 with h3 | h3
    · cases l with
      | nil => exact absurd rfl hne
      | cons x xs =>
        refine ⟨x, by simp, ?_⟩
        have hx := h2 x (by simp)
        have := hf x
        unfold minTimeout
        omega
    · exact h3

/-- C15. Each of `getT1Timeout`, `getT2Timeout`, `getPrefTimeout` and
`getValidTimeout` returns `ULONG_MAX` when the store has no clients; otherwise
it returns the minimum over all clients of that client's corresponding
timeout: it is at most every client's timeout and it is the timeout of one
of the clients. -/
theorem timeouts_are_minima (tm : ClientTimeouts) (m : TAddrMgr) :
    ((m.ClntsLst = [] → m.getT1Timeout tm = ULONG_MAX) ∧
      (∀ c ∈ m.ClntsLst, m.getT1Timeout tm ≤ tm.T1 c) ∧
      (m.ClntsLst ≠ [] → ∃ c ∈ m.ClntsLst, m.getT1Timeout tm = tm.T1 c)) ∧
    ((m.ClntsLst = [] → m.getT2Timeout tm = ULONG_MAX) ∧
      (∀ c ∈ m.ClntsLst, m.getT2Timeout tm ≤ tm.T2 c) ∧
      (m.ClntsLst ≠ [] → ∃ c ∈ m.ClntsLst, m.getT2Timeout tm = tm.T2 c)) ∧
    ((m.ClntsLst = [] → m.getPrefTimeout tm = ULONG_MAX) ∧
      (∀ c ∈ m.ClntsLst, m.getPrefTimeout tm ≤ tm.Pref c) ∧
      (m.ClntsLst ≠ [] → ∃ c ∈ m.ClntsLst, m.getPrefTimeout tm = tm.Pref c)) ∧
    ((m.ClntsLst = [] → m.getValidTimeout tm = ULONG_MAX) ∧
      (∀ c ∈ m.ClntsLst, m.getValidTimeout tm ≤ tm.Valid c) ∧
      (m.ClntsLst ≠ [] → ∃ c ∈ m.ClntsLst, m.getValidTimeout tm = tm.Valid c)) :=
  ⟨minTimeout_spec tm.T1 tm.T1_le m.ClntsLst, minTimeout_spec tm.T2 tm.T2_le m.ClntsLst,
    minTimeout_spec tm.Pref tm.Pref_le m.ClntsLst,
    minTimeout_spec tm.Valid tm.Valid_le m.ClntsLst⟩

/-! ## The built-in snapshot reader: C strings and the file -/

/-- The C string a `char buf[256]` holds. -/
abbrev Line := List Char

/-- Ways the reader leaves defined behaviour. -/
inductive Fault where
  /-- A null pointer is dereferenced: `->` on a null `SPtr`, or `strstr` on
  `NULL + 1`. -/
  | nullDeref
  /-- The string functions read a buffer no `fgets` has filled yet. -/
  | uninitBuf
  /-- The pointer `x + k` lies beyond the terminator of the string. -/
  | pastEnd
  /-- The number `atoi` reads does not fit an `int`. -/
  | intOverflow
  /-- The model ran out of fuel (never with the fuel the entry points give). -/
  | outOfFuel
deriving DecidableEq, Repr

/-- `strstr(hay, needle)`: the string starting at the first occurrence of
`needle` in `hay` (a pointer into `hay`), or `none` for `NULL`. -/
def strstr : List Char → List Char → Option (List Char)
  | [], needle => if needle.isEmpty then some [] else none
  | c :: cs, needle =>
    if needle.isPrefixOf (c :: cs) then some (c :: cs) else strstr cs needle

/-- The tests `if (strstr(buf, "tag"))`. -/
def hasTag (buf : Line) (tag : String) : Bool := (strstr buf tag.toList).isSome

/-- The pointer `x + k`. -/
def ptrAdd (x : List Char) (k : Nat) : Except Fault (List Char) :=
  if k ≤ x.length then .ok (x.drop k) else .error Fault.pastEnd

/-- The buffer after `*x = 0`, for `x` a pointer into `buf`. -/
def truncateAt (buf x : List Char) : List Char := buf.take (buf.length - x.length)

/-- `isspace` in the C locale. -/
def isspace (c : Char) : Bool :=
  c == ' ' || c == '\t' || c == '\n' || c == '\x0b' || c == '\x0c' || c == '\r'

/-- The digits `atoi` reads, accumulated in base ten. -/
def atoiDigits : List Char → Nat → Nat
  | [], acc => acc
  | c :: cs, acc => if c.isDigit then atoiDigits cs (acc * 10 + (c.toNat - 48)) else acc

/-- `atoi`: leading white space, an optional sign, decimal digits.  A value
outside `int` is undefined behaviour in C and a fault here. -/
def atoi (s : List Char) : Except Fault Int :=
  match s.dropWhile isspace with
  | '-' :: r =>
    if atoiDigits r 0 ≤ 2 ^ 31 then .ok (-(atoiDigits r 0 : Int)) else .error Fault.intOverflow
  | '+' :: r =>
    if atoiDigits r 0 < 2 ^ 31 then .ok (atoiDigits r 0 : Int) else .error Fault.intOverflow
  | r =>
    if atoiDigits r 0 < 2 ^ 31 then .ok (atoiDigits r 0 : Int) else .error Fault.intOverflow

/-- Conversion of an `int` to `unsigned long`. -/
def toULong (i : Int) : Nat := (i % ((ULONG_MAX : Int) + 1)).toNat

/-- `if ((x = strstr(buf, name))) v = atoi(x + off);` for an `int v` whose value
before the statement is `dflt`. -/
def attrInt (buf : Line) (name : String) (off : Nat) (dflt : Int) : Except Fault Int :=
  match strstr buf name.toList with
  | none => .ok dflt
  | some x => do
    let y ← ptrAdd x off
    atoi y

/-- The same statement for an `unsigned long v`. -/
def attrULong (buf : Line) (name : String) (off : Nat) (dflt : Nat) : Except Fault Nat :=
  match strstr buf name.toList with
  | none => .ok dflt
  | some x => do
    let y ← ptrAdd x off
    let v ← atoi y
    pure (toULong v)

/-- An open `FILE*`: the strings the successive `fgets(buf, 255, f)` calls will
put into `buf`, whether reading the last of them hits the end of the file
(it has fewer than 254 characters and no newline), and the end-of-file
indicator `feof` tests. -/
structure FILE where
  lines : List Line
  endsAtEOF : Bool
  eof : Bool
deriving DecidableEq, Repr

/-- `fgets(buf, 255, f)`: the new content of `buf` (`none`: nothing read, `buf`
is left alone) and the file after the call. -/
def fgets (f : FILE) : Option Line × FILE :=
  match f.lines with
  | [] => (none, { f with eof := true })
  | l :: ls => (some l, { f with lines := ls, eof := f.eof || (ls.isEmpty && f.endsAtEOF) })

/-- The pieces `fgets(buf, 255, f)` cuts a text into: a piece ends after a
newline or after 254 characters.  `acc` is the piece being read, reversed. -/
def chunks : List Char → List Char → List (List Char)
  | [], acc => if acc.isEmpty then [] else [acc.reverse]
  | c :: cs, acc =>
    if c == '\n' || acc.length + 1 == 254 then (c :: acc).reverse :: chunks cs []
    else chunks cs (c :: acc)

/-- The C string in a buffer: the characters before the first NUL. -/
def cstr (l : List Char) : Line := l.takeWhile (fun c => c != '\x00')

/-- `fopen(xmlFile, "r")` on a file with the given content. -/
def fopen (text : List Char) : FILE :=
  { lines := (chunks text []).map cstr,
    endsAtEOF :=
      match (chunks text []).getLast? with
      | none => false
      | some l => decide (l.length < 254) && l.getLast? != some '\n',
    eof := false }

/-- How the body of a loop ends: at the loop test (`continue` or the end of
the body) or with `break`. -/
inductive Ctl where
  | next
  | brk
deriving DecidableEq, Repr

/-- The loop `while (!feof(f)) { fgets(buf, 255, f); body }` of the five reader
functions.  `st` are the locals the body changes, `buf` the buffer (`none`
before the first successful `fgets`).  The body gets the fuel that is left,
for the reader functions it calls. -/
def feofLoop {σ : Type}
    (body : Nat → σ → Line → FILE → Except Fault (Ctl × σ × Line × FILE)) :
    Nat → σ → Option Line → FILE → Except Fault (σ × FILE)
  | 0, _, _, _ => .error Fault.outOfFuel
  | n + 1, st, buf, f =>
    if f.eof then .ok (st, f)
    else
      match (fgets f).1 <|> buf with
      | none => .error Fault.uninitBuf
      | some b =>
        match body n st b (fgets f).2 with
        | .error e => .error e
        | .ok (Ctl.brk, st1, _, f1) => .ok (st1, f1)
        | .ok (Ctl.next, st1, b1, f1) => feofLoop body n st1 (some b1) f1

/-! ## The reader functions -/

/-- What the reader takes from code that is not part of the sources at hand:
the clock, the constructors `TDUID(const char*)` and
`TIPv6Addr(const char*, true)`, and the constant
`CLIENT_DEFAULT_PREFIX_LENGTH`. -/
structure ReaderEnv where
  now : Nat
  parseDUID : List Char → TDUID
  parseAddr : List Char → TIPv6Addr
  CLIENT_DEFAULT_PREFIX_LENGTH : Int

/-- Modelled from the spec: `DHCPV6_INFINITY` (DHCPConst.h), spec §3 and §6:
"the sentinel INFINITY = 0xFFFFFFFF". -/
def DHCPV6_INFINITY : Nat := 0xFFFFFFFF

/-- Modelled from the spec: constructor `TAddrAddr(addr, pref, valid, prefix)`,
not in the sources at hand; spec §4.4, "symmetric `add_address`": given
lifetimes, timestamp now, tentative=no. -/
def TAddrAddr.new (now : Nat) (addr : TIPv6Addr) (pref valid : Nat) (pfxLen : Int) :
    TAddrAddr :=
  { Addr := addr, Prefered := pref, Valid := valid, Timestamp := now,
    Tentative := ETentative.TENTATIVE_NO, PrefixLen := pfxLen }

/-- Modelled from the spec: `TAddrAddr::setTimestamp(ts)`. -/
def TAddrAddr.setTimestamp (a : TAddrAddr) (ts : Nat) : TAddrAddr := { a with Timestamp := ts }

/-- Modelled from the spec: `TAddrAddr::setTentative(state)`. -/
def TAddrAddr.setTentative (a : TAddrAddr) (t : ETentative) : TAddrAddr :=
  { a with Tentative := t }

/-- Modelled from the spec: `TAddrPrefix::setTentative(state)`. -/
def TAddrPrefix.setTentative (x : TAddrPrefix) (t : ETentative) : TAddrPrefix :=
  { x with Tentative := t }

/-- Modelled from the spec: `TAddrIA::setState`, spec §4.3 `set_state`. -/
def TAddrIA.setState (ia : TAddrIA) (s : EState) : TAddrIA := { ia with State := s }

/-- Modelled from the spec: `TAddrIA::addAddr(addr)`, spec §4.3 `add_addr`:
the record goes to the end of the address list. -/
def TAddrIA.addAddr (ia : TAddrIA) (a : TAddrAddr) : TAddrIA :=
  { ia with AddrLst := ia.AddrLst ++ [a] }

/-- Modelled from the spec: `TAddrIA::addPrefix(SPtr<TAddrPrefix>)`: the record
goes to the end of the prefix list. -/
def TAddrIA.addPrefixRecord (ia : TAddrIA) (x : TAddrPrefix) : TAddrIA :=
  { ia with PrefixLst := ia.PrefixLst ++ [x] }

/-- Modelled from the spec: `TAddrIA::setTentative()`, spec §4.3: "recompute
'tentative' flag from children: IA is tentative if any child is tentative". -/
def TAddrIA.recomputeTentative (ia : TAddrIA) : TAddrIA :=
  { ia with
    Tentative :=
      if ia.AddrLst.any (fun a => a.Tentative == ETentative.TENTATIVE_YES) ||
          ia.PrefixLst.any (fun x => x.Tentative == ETentative.TENTATIVE_YES)
      then ETentative.TENTATIVE_YES else ETentative.TENTATIVE_NO }

/-- Modelled from the spec: `TAddrClient::addIA`, spec §4.2 `add_ia(IA_NA, ia)`
as the reader uses it: the IA is appended. -/
def TAddrClient.addIA (c : TAddrClient) (ia : TAddrIA) : TAddrClient :=
  { c with IAsLst := c.IAsLst ++ [ia] }

/-- The four statements that read a DUID, the same in `parseAddrClient`,
`parseAddrIA` and `parseAddrPD`:
`x = strstr(buf,">")+1; x = strstr(x,"</duid>"); if (x) *x = 0;
duid = new TDUID(strstr(buf,">")+1);`.  The result is the DUID and the buffer
after the cut.  Without a `>` the second `strstr` gets `NULL + 1`. -/
def readDuid (env : ReaderEnv) (buf : Line) : Except Fault (TDUID × Line) :=
  match strstr buf ">".toList with
  | none => .error Fault.nullDeref
  | some p =>
    let buf1 :=
      match strstr (p.drop 1) "</duid>".toList with
      | some x => truncateAt buf x
      | none => buf
    match strstr buf1 ">".toList with
    | none => .error Fault.nullDeref
    | some q => .ok (env.parseDUID (q.drop 1), buf1)

/-- The part of `parseAddrAddr` and `parseAddrPrefix` that reads the address
(AddrMgr.cpp:1027-1037 and 1077-1087): the address, or null without a `>`,
and the buffer after the cut at the closing tag. -/
def readAddr (env : ReaderEnv) (buf : Line) (closing : String) :
    Except Fault (Option TIPv6Addr × Line) :=
  match strstr buf ">".toList with
  | none => .ok (none, buf)
  | some x =>
    let buf1 :=
      match strstr x closing.toList with
      | some y => truncateAt buf y
      | none => buf
    match strstr buf1 ">".toList with
    | none => .error Fault.nullDeref
    | some q => .ok (some (env.parseAddr (q.drop 1)), buf1)

/-- `TAddrMgr::parseAddrAddr(char* buf, bool pd)` (AddrMgr.cpp:996-1044): the
address record or null, and the buffer as the function leaves it. -/
def parseAddrAddr (env : ReaderEnv) (buf : Line) (pd : Bool) :
    Except Fault (Option TAddrAddr × Line) :=
  if hasTag buf "<AddrAddr" || hasTag buf "<AddrPrefix" then do
    -- timestamp=pref=valid=0;
    let timestamp ← attrULong buf "timestamp" 11 0
    let pref ← attrULong buf "pref=" 6 0
    let valid ← attrULong buf "valid" 7 0
    let pfxLen ←
      (if pd == false then attrInt buf "prefix=" 8 env.CLIENT_DEFAULT_PREFIX_LENGTH
       else attrInt buf "length=" 8 env.CLIENT_DEFAULT_PREFIX_LENGTH)
    let r ← readAddr env buf (if pd == false then "</AddrAddr>" else "</AddrPrefix>")
    match r.1 with
    | some addr =>
      if timestamp != 0 && pref != 0 && valid != 0 && pd == false then
        pure (some ((TAddrAddr.new env.now addr pref valid pfxLen).setTimestamp timestamp), r.2)
      else pure (none, r.2)
    | none => pure (none, r.2)
  else pure (none, buf)

/-- `TAddrMgr::parseAddrPrefix(char* buf, bool pd)` (AddrMgr.cpp:1046-1095). -/
def parseAddrPrefix (env : ReaderEnv) (buf : Line) (pd : Bool) :
    Except Fault (Option TAddrPrefix × Line) :=
  if hasTag buf "<AddrAddr" || hasTag buf "<AddrPrefix" then do
    let timestamp ← attrULong buf "timestamp" 11 0
    let pref ← attrULong buf "pref=" 6 0
    let valid ← attrULong buf "valid" 7 0
    let pfxLen ←
      (if pd == true then attrInt buf "length=" 8 env.CLIENT_DEFAULT_PREFIX_LENGTH
       else attrInt buf "prefix=" 8 env.CLIENT_DEFAULT_PREFIX_LENGTH)
    let r ← readAddr env buf (if pd == true then "</AddrPrefix>" else "</AddrAddr>")
    match r.1 with
    | some addr =>
      if timestamp != 0 && pref != 0 && valid != 0 && pd == true then
        pure (some ((TAddrPrefix.new env.now addr pref valid pfxLen).setTimestamp timestamp),
          r.2)
      else pure (none, r.2)
    | none => pure (none, r.2)
  else pure (none, buf)

/-- The body of the loop of `parseAddrTA` (AddrMgr.cpp:861-866). -/
def taBody : Nat → Unit → Line → FILE → Except Fault (Ctl × Unit × Line × FILE) :=
  fun _ st buf f =>
    if hasTag buf "</AddrTA>" then .ok (Ctl.brk, st, buf, f) else .ok (Ctl.next, st, buf, f)

/-- `TAddrMgr::parseAddrTA` (AddrMgr.cpp:859-868): always returns null. -/
def parseAddrTA (fuel : Nat) (f : FILE) : Except Fault (Option TAddrIA × FILE) := do
  let r ← feofLoop taBody fuel () none f
  pure (none, r.2)

/-- The body of the loop of `parseAddrIA` (AddrMgr.cpp:953-980); the local that
changes is `ia`. -/
def iaBody (env : ReaderEnv) (t1 t2 iaid iface : Int) :
    Nat → Option TAddrIA → Line → FILE → Except Fault (Ctl × Option TAddrIA × Line × FILE) :=
  fun _ ia buf f =>
    if hasTag buf "duid" then do
      let r ← readDuid env buf
      let ia1 := (TAddrIA.new env.now iface TIAType.TYPE_IA none r.1 (toULong t1) (toULong t2)
        (toULong iaid)).setState EState.STATE_CONFIRMME
      pure (Ctl.next, some ia1, r.2, f)
    else do
      let r ←
        if hasTag buf "<AddrAddr" then do
          let a ← parseAddrAddr env buf false
          match ia, a.1 with
          | some i, some addr =>
            pure (some (i.addAddr (addr.setTentative ETentative.TENTATIVE_NO)), a.2)
          | _, _ => pure (ia, a.2)
        else pure (ia, buf)
      if hasTag r.2 "</AddrIA>" then pure (Ctl.brk, r.1, r.2, f)
      else pure (Ctl.next, r.1, r.2, f)

/-- `TAddrMgr::parseAddrIA` (AddrMgr.cpp:943-985). -/
def parseAddrIA (env : ReaderEnv) (fuel : Nat) (f : FILE) (_AddrIA : Bool)
    (t1 t2 iaid iface : Int) : Except Fault (Option TAddrIA × FILE) := do
  let r ← feofLoop (iaBody env t1 t2 iaid iface) fuel none none f
  pure (r.1.map TAddrIA.recomputeTentative, r.2)

/-- The body of the loop of `parseAddrPD` (AddrMgr.cpp:894-921); the local that
changes is `ptrpd`. -/
def pdBody (env : ReaderEnv) (AddrPD : Bool) (t1 t2 iaid iface : Int) :
    Nat → Option TAddrIA → Line → FILE → Except Fault (Ctl × Option TAddrIA × Line × FILE) :=
  fun _ ptrpd buf f =>
    if hasTag buf "duid" then do
      let r ← readDuid env buf
      let pd1 := (TAddrIA.new env.now iface TIAType.TYPE_PD none r.1 (toULong t1) (toULong t2)
        (toULong iaid)).setState EState.STATE_CONFIRMME
      pure (Ctl.next, some pd1, r.2, f)
    else do
      let r ←
        if hasTag buf "<AddrPrefix" then do
          let a ← parseAddrPrefix env buf AddrPD
          match ptrpd, a.1 with
          | some i, some pr =>
            pure (some (i.addPrefixRecord (pr.setTentative ETentative.TENTATIVE_NO)), a.2)
          | _, _ => pure (ptrpd, a.2)
        else pure (ptrpd, buf)
      if hasTag r.2 "</AddrPD>" then pure (Ctl.brk, r.1, r.2, f)
      else pure (Ctl.next, r.1, r.2, f)

/-- `TAddrMgr::parseAddrPD` (AddrMgr.cpp:884-926).  The loop test is
`!feof(f) && AddrPD`: with `AddrPD` false the loop does not run. -/
def parseAddrPD (env : ReaderEnv) (fuel : Nat) (f : FILE) (AddrPD : Bool)
    (t1 t2 iaid iface : Int) : Except Fault (Option TAddrIA × FILE) :=
  if AddrPD then do
    let r ← feofLoop (pdBody env AddrPD t1 t2 iaid iface) fuel none none f
    pure (r.1.map TAddrIA.recomputeTentative, r.2)
  else pure (none, f)

/-- The `<AddrIA ` branch of the loop of `parseAddrClient`
(AddrMgr.cpp:790-813). -/
def clientIA (env : ReaderEnv) (fuel : Nat) (clnt : Option TAddrClient) (buf : Line)
    (f : FILE) : Except Fault (Option TAddrClient × FILE) :=
  if hasTag buf "<AddrIA " then do
    let t1 ← attrInt buf "T1" 4 0
    let t2 ← attrInt buf "T2" 4 0
    let iaid ← attrInt buf "IAID" 6 0
    let iface ← attrInt buf "iface" 7 0
    let r ← parseAddrIA env fuel f true t1 t2 iaid iface
    match r.1 with
    | none => pure (clnt, r.2)
    | some ia =>
      match clnt with
      | none => throw Fault.nullDeref
      | some c => pure (some (c.addIA ia), r.2)
  else pure (clnt, f)

/-- The `<AddrTA ` branch of the loop of `parseAddrClient`
(AddrMgr.cpp:814-817). -/
def clientTA (fuel : Nat) (buf : Line) (f : FILE) : Except Fault FILE :=
  if hasTag buf "<AddrTA " then do
    let r ← parseAddrTA fuel f
    pure r.2
  else pure f

/-- The `<AddrPD ` branch of the loop of `parseAddrClient`
(AddrMgr.cpp:818-841). -/
def clientPD (env : ReaderEnv) (fuel : Nat) (clnt : Option TAddrClient) (buf : Line)
    (f : FILE) : Except Fault (Option TAddrClient × FILE) :=
  if hasTag buf "<AddrPD " then do
    let t1 ← attrInt buf "T1" 4 0
    let t2 ← attrInt buf "T2" 4 0
    let pdid ← attrInt buf "PDID" 6 0
    let iface ← attrInt buf "iface" 7 0
    let r ← parseAddrPD env fuel f true t1 t2 pdid iface
    match r.1 with
    | none => pure (clnt, r.2)
    | some pd =>
      match clnt with
      | none => throw Fault.nullDeref
      | some c => pure (some (c.addPD pd), r.2)
  else pure (clnt, f)

/-- The body of the loop of `parseAddrClient` (AddrMgr.cpp:775-843); the local
that changes is `clnt`. -/
def clientBody (env : ReaderEnv) :
    Nat → Option TAddrClient → Line → FILE →
      Except Fault (Ctl × Option TAddrClient × Line × FILE) :=
  fun fuel clnt buf f =>
    if hasTag buf "<duid" then do
      let r ← readDuid env buf
      pure (Ctl.next, some (TAddrClient.new r.1), r.2, f)
    else do
      let r1 ← clientIA env fuel clnt buf f
      let f2 ← clientTA fuel buf r1.2
      let r3 ← clientPD env fuel r1.1 buf f2
      if hasTag buf "</AddrClient>" then pure (Ctl.brk, r3.1, buf, r3.2)
      else pure (Ctl.next, r3.1, buf, r3.2)

/-- `TAddrMgr::parseAddrClient(FILE* f)` (AddrMgr.cpp:759-848). -/
def parseAddrClient (env : ReaderEnv) (fuel : Nat) (f : FILE) :
    Except Fault (Option TAddrClient × FILE) :=
  feofLoop (clientBody env) fuel none none f

/-- The locals of `xmlLoadBuiltIn` that its loop changes, and the client list. -/
structure LoadState where
  clnt : Option TAddrClient
  AddrClient : Bool
  mgr : TAddrMgr
deriving DecidableEq, Repr

/-- The body of the loop of `xmlLoadBuiltIn` (AddrMgr.cpp:725-739).  A null
`clnt` is appended and then dereferenced for the log line. -/
def loadBody (env : ReaderEnv) :
    Nat → LoadState → Line → FILE → Except Fault (Ctl × LoadState × Line × FILE) :=
  fun fuel st buf f =>
    if hasTag buf "<AddrMgr>" then pure (Ctl.next, { st with AddrClient := true }, buf, f)
    else if st.AddrClient && hasTag buf "<AddrClient" then do
      let r ← parseAddrClient env fuel f
      match r.1 with
      | none => throw Fault.nullDeref
      | some c => pure (Ctl.next, { st with clnt := some c, mgr := st.mgr.addClient c }, buf, r.2)
    else if hasTag buf "</AddrMgr>" then pure (Ctl.brk, st, buf, f)
    else pure (Ctl.next, st, buf, f)

/-- `TAddrMgr::xmlLoadBuiltIn` (AddrMgr.cpp:711-747) on a file with the given
content (`none`: `fopen` fails): the return value and the manager after the
call. -/
def TAddrMgr.xmlLoadBuiltIn (env : ReaderEnv) (m : TAddrMgr) (file : Option (List Char)) :
    Except Fault (Bool × TAddrMgr) :=
  match file with
  | none => pure (false, m)
  | some text => do
    let r ← feofLoop (loadBody env) ((fopen text).lines.length + 2)
      { clnt := none, AddrClient := false, mgr := m } none (fopen text)
    pure (r.1.clnt.isSome, r.1.mgr)

/-! ## Example snapshots -/

/-- Value of a hexadecimal digit. -/
def hexVal (c : Char) : Option Nat :=
  if c.isDigit then some (c.toNat - 48)
  else if 'a'.toNat ≤ c.toNat ∧ c.toNat ≤ 'f'.toNat then some (c.toNat - 87)
  else if 'A'.toNat ≤ c.toNat ∧ c.toNat ≤ 'F'.toNat then some (c.toNat - 55)
  else none

/-- The numbers written in a text as groups of hexadecimal digits, any other
character separating two groups; `acc` is the value of the group being read.
An example of what the constructors `TDUID(const char*)` and
`TIPv6Addr(const char*, true)` may do with a text. -/
def hexGroups : List Char → Nat → List Nat
  | [], acc => [acc]
  | c :: cs, acc =>
    match hexVal c with
    | some v => hexGroups cs (acc * 16 + v)
    | none => acc :: hexGroups cs 0

/-- An example environment: the clock shows 500, both constructors read groups
of hexadecimal digits, the default prefix length is 128. -/
def exEnv : ReaderEnv :=
  { now := 500,
    parseDUID := fun s => ⟨hexGroups s 0⟩,
    parseAddr := fun s => ⟨hexGroups s 0⟩,
    CLIENT_DEFAULT_PREFIX_LENGTH := 128 }

/-- An address line with timestamp, valid lifetime and address, without `pref`. -/
def lineNoPref : Line :=
  "<AddrAddr timestamp=\"100\" valid=\"3600\" prefix=\"64\">2001:db8::1</AddrAddr>\n".toList

/-- An address line with timestamp, preferred lifetime and address, without
`valid`. -/
def lineNoValid : Line :=
  "<AddrAddr timestamp=\"100\" pref=\"1800\" prefix=\"64\">2001:db8::1</AddrAddr>\n".toList

/-- A prefix line with timestamp, valid lifetime and prefix, without `pref`. -/
def prefixLineNoPref : Line :=
  "<AddrPrefix timestamp=\"100\" valid=\"3600\" length=\"48\">2001:db8:1::</AddrPrefix>\n".toList

/-- A snapshot of two client sections: the first is complete, the second has
no `<duid>` line. -/
def snapLastFails : List Char :=
  ("<AddrMgr>\n" ++
   "  <timestamp>100</timestamp>\n" ++
   "  <AddrClient>\n" ++
   "    <duid>00:01:00:01:aa</duid>\n" ++
   "  </AddrClient>\n" ++
   "  <AddrClient>\n" ++
   "  </AddrClient>\n" ++
   "</AddrMgr>\n").toList

/-- The same snapshot without the second section. -/
def snapFirstOnly : List Char :=
  ("<AddrMgr>\n" ++
   "  <timestamp>100</timestamp>\n" ++
   "  <AddrClient>\n" ++
   "    <duid>00:01:00:01:aa</duid>\n" ++
   "  </AddrClient>\n" ++
   "</AddrMgr>\n").toList

/-- C16 (code at the failing input): on a snapshot whose first client section
parses and whose last one has no `<duid>` line the reader does not return
true: the null client of the last section is appended and dereferenced
(AddrMgr.cpp:731-733); without that section the same snapshot loads and
returns true. -/
theorem xmlLoadBuiltIn_last_section_fails :
    store0.xmlLoadBuiltIn exEnv (some snapLastFails) = .error Fault.nullDeref ∧
    store0.xmlLoadBuiltIn exEnv (some snapFirstOnly) =
      .ok (true, { store0 with ClntsLst := [TAddrClient.new duidA] }) :=
  ⟨rfl, rfl⟩

/-- C19 (code at the failing input): an address line with timestamp, valid
lifetime and address but no `pref` restores no record at all, not one with
preferred lifetime `DHCPV6_INFINITY`; the same for a line without `valid` and
for a prefix line without `pref`. -/
theorem parseAddrAddr_without_pref :
    (parseAddrAddr exEnv lineNoPref false).map Prod.fst = .ok none ∧
    (parseAddrAddr exEnv lineNoValid false).map Prod.fst = .ok none ∧
    (parseAddrPrefix exEnv prefixLineNoPref true).map Prod.fst = .ok none :=
  ⟨rfl, rfl, rfl⟩

/-! ## `strstr` and cutting a buffer -/

theorem strstr_cons (c : Char) (cs needle : List Char) :
    strstr (c :: cs) needle =
      if needle.isPrefixOf (c :: cs) then some (c :: cs) else strstr cs needle := by
  rw [strstr]

theorem strstr_isSome_iff (hay needle : List Char) :
    (strstr hay needle).isSome = true ↔ needle <:+: hay := by
  induction hay with
  | nil =>
    cases needle <;> simp [strstr]
  | cons c cs ih =>
    rw [List.infix_cons_iff, ← ih, strstr_cons]
    by_cases h : needle.isPrefixOf (c :: cs) = true
    · rw [if_pos h]
      simp only [Option.isSome_some, true_iff]
      exact Or.inl (List.isPrefixOf_iff_prefix.mp h)
    · rw [if_neg h]
      constructor
      · exact Or.inr
      · rintro (hp | hs)
        · exact absurd (List.isPrefixOf_iff_prefix.mpr hp) h
        · exact hs

/-- A tag found in the buffer after a cut was in the buffer before the cut. -/
theorem hasTag_take (buf : Line) (k : Nat) (tag : String) (h : hasTag buf tag = false) :
    hasTag (buf.take k) tag = false := by
  cases hc : hasTag (buf.take k) tag with
  | false => rfl
  | true =>
    have h1 := (strstr_isSome_iff _ _).mp hc
    have h2 : tag.toList <:+: buf := List.IsInfix.trans h1 (List.take_prefix k buf).isInfix
    have h3 := (strstr_isSome_iff _ _).mpr h2
    unfold hasTag at h
    rw [h] at h3
    cases h3

theorem hasTag_truncateAt (buf x : Line) (tag : String) (h : hasTag buf tag = false) :
    hasTag (truncateAt buf x) tag = false := hasTag_take buf _ tag h

/-! ## Loops whose body does not read the file -/

/-- The state after the bodies of successive iterations on the given strings,
for a body `pb` that reads nothing from the file. -/
def foldLines {σ : Type} (pb : σ → Line → Except Fault (Ctl × σ × Line)) :
    σ → List Line → Except Fault σ
  | st, [] => .ok st
  | st, l :: ls =>
    match pb st l with
    | .error e => .error e
    | .ok r => foldLines pb r.2.1 ls

theorem fgets_cons (l : Line) (ls : List Line) (eaf : Bool) :
    fgets ⟨l :: ls, eaf, false⟩ = (some l, ⟨ls, eaf, ls.isEmpty && eaf⟩) := by
  simp [fgets]

theorem feofLoop_cons {σ : Type}
    (body : Nat → σ → Line → FILE → Except Fault (Ctl × σ × Line × FILE))
    (n : Nat) (st : σ) (buf : Option Line) (l : Line) (ls : List Line) (eaf : Bool) :
    feofLoop body (n + 1) st buf ⟨l :: ls, eaf, false⟩ =
      match body n st l ⟨ls, eaf, ls.isEmpty && eaf⟩ with
      | .error e => .error e
      | .ok (Ctl.brk, st1, _, f1) => .ok (st1, f1)
      | .ok (Ctl.next, st1, b1, f1) => feofLoop body n st1 (some b1) f1 := by
  rw [feofLoop]
  simp only [Bool.false_eq_true, if_false, fgets_cons]
  rfl

/-- A loop whose body reads nothing from the file, on a file that starts with
strings on which the body does not break, followed by one on which it does:
the loop consumes exactly these strings. -/
theorem feofLoop_block {σ : Type}
    (body : Nat → σ → Line → FILE → Except Fault (Ctl × σ × Line × FILE))
    (pb : σ → Line → Except Fault (Ctl × σ × Line))
    (hpure : ∀ n st b f, body n st b f = (pb st b).map (fun r => (r.1, r.2.1, r.2.2, f)))
    (close : Line) (tail : List Line) (eaf : Bool)
    (hclose : ∀ st r, pb st close = .ok r → r.1 = Ctl.brk) :
    ∀ (blk : List Line), (∀ l ∈ blk, ∀ st r, pb st l = .ok r → r.1 = Ctl.next) →
    ∀ fuel st buf, blk.length + 1 ≤ fuel →
      feofLoop body fuel st buf ⟨blk ++ close :: tail, eaf, false⟩ =
        (foldLines pb st (blk ++ [close])).map
          (fun s => (s, (⟨tail, eaf, tail.isEmpty && eaf⟩ : FILE))) := by
  intro blk
  induction blk with
  | nil =>
    intro _ fuel st buf hfuel
    obtain ⟨n, rfl⟩ : ∃ n, fuel = n + 1 := ⟨fuel - 1, by omega⟩
    rw [List.nil_append, feofLoop_cons, hpure]
    simp only [List.nil_append, foldLines]
    cases hp : pb st close with
    | error e => rfl
    | ok r =>
      obtain ⟨c, s, b⟩ := r
      have := hclose st _ hp
      dsimp only at this
      subst this
      rfl
  | cons l blk ih =>
    intro hblk fuel st buf hfuel
    obtain ⟨n, rfl⟩ : ∃ n, fuel = n + 1 := ⟨fuel - 1, by omega⟩
    rw [List.cons_append, feofLoop_cons, hpure]
    simp only [List.cons_append, foldLines]
    cases hp : pb st l with
    | error e => rfl
    | ok r =>
      obtain ⟨c, s, b⟩ := r
      have := hblk l (List.mem_cons_self _ _) st _ hp
      dsimp only at this
      subst this
      have hne : ((blk ++ close :: tail).isEmpty && eaf) = false := by
        cases blk <;> simp
      simp only [Except.map, hne]
      have := ih (fun l hl => hblk l (List.mem_cons_of_mem _ hl)) n s (some b)
        (by simp only [List.length_cons] at hfuel; omega)
      rw [this]
      rfl

/-- What a loop body does with the state and the buffer, observed on an empty
file; for a body that reads nothing from the file this is all it does. -/
def pureOf {σ : Type} (body : Nat → σ → Line → FILE → Except Fault (Ctl × σ × Line × FILE)) :
    σ → Line → Except Fault (Ctl × σ × Line) :=
  fun st b => (body 0 st b ⟨[], false, false⟩).map (fun r => (r.1, r.2.1, r.2.2.1))

/-- The body neither reads the file nor uses the fuel. -/
def FileFree {σ : Type} (body : Nat → σ → Line → FILE → Except Fault (Ctl × σ × Line × FILE)) :
    Prop :=
  ∀ n st b f, body n st b f = (pureOf body st b).map (fun r => (r.1, r.2.1, r.2.2, f))

theorem taBody_fileFree : FileFree taBody := by
  intro n st b f
  unfold pureOf taBody
  split <;> rfl

theorem iaBody_fileFree (env : ReaderEnv) (t1 t2 iaid iface : Int) :
    FileFree (iaBody env t1 t2 iaid iface) := by
  intro n st b f
  unfold pureOf iaBody
  split
  · cases readDuid env b <;> rfl
  · split
    · cases parseAddrAddr env b false with
      | error e => rfl
      | ok a =>
        cases st <;> cases h : a.1 <;>
          simp only [bind, Except.bind, pure, Except.pure, h, Except.map] <;> split <;> rfl
    · simp only [bind, Except.bind, pure, Except.pure, Except.map]
      split <;> rfl

theorem pdBody_fileFree (env : ReaderEnv) (AddrPD : Bool) (t1 t2 iaid iface : Int) :
    FileFree (pdBody env AddrPD t1 t2 iaid iface) := by
  intro n st b f
  unfold pureOf pdBody
  split
  · cases readDuid env b <;> rfl
  · split
    · cases parseAddrPrefix env b AddrPD with
      | error e => rfl
      | ok a =>
        cases st <;> cases h : a.1 <;>
          simp only [bind, Except.bind, pure, Except.pure, h, Except.map] <;> split <;> rfl
    · simp only [bind, Except.bind, pure, Except.pure, Except.map]
      split <;> rfl

theorem bind_ok {α β : Type} (x : Except Fault α) (f : α → Except Fault β) (r : β)
    (h : (x >>= f) = .ok r) : ∃ a, x = .ok a ∧ f a = .ok r := by
  cases x with
  | error e => cases h
  | ok a => exact ⟨a, rfl, h⟩

theorem readAddr_take (env : ReaderEnv) (buf : Line) (closing : String)
    (r : Option TIPv6Addr × Line) (h : readAddr env buf closing = .ok r) :
    ∃ k, r.2 = buf.take k := by
  unfold readAddr at h
  cases hs : strstr buf ">".toList with
  | none =>
    rw [hs] at h
    cases h
    exact ⟨buf.length, (List.take_length buf).symm⟩
  | some x =>
    rw [hs] at h
    dsimp only at h
    cases hc : strstr x closing.toList with
    | none =>
      rw [hc] at h
      dsimp only at h
      cases hq : strstr buf ">".toList with
      | none => rw [hq] at hs; cases hs
      | some q =>
        rw [hq] at h
        cases h
        exact ⟨buf.length, (List.take_length buf).symm⟩
    | some y =>
      rw [hc] at h
      dsimp only at h
      cases hq : strstr (truncateAt buf y) ">".toList with
      | none => rw [hq] at h; cases h
      | some q =>
        rw [hq] at h
        cases h
        exact ⟨_, rfl⟩

theorem parseAddrAddr_take (env : ReaderEnv) (buf : Line) (pd : Bool)
    (r : Option TAddrAddr × Line) (h : parseAddrAddr env buf pd = .ok r) :
    ∃ k, r.2 = buf.take k := by
  unfold parseAddrAddr at h
  split at h
  · obtain ⟨ts, -, h⟩ := bind_ok _ _ _ h
    obtain ⟨p, -, h⟩ := bind_ok _ _ _ h
    obtain ⟨v, -, h⟩ := bind_ok _ _ _ h
    obtain ⟨n, -, h⟩ := bind_ok _ _ _ h
    obtain ⟨ra, hra, h⟩ := bind_ok _ _ _ h
    have := readAddr_take _ _ _ _ hra
    repeat (split at h)
    all_goals (cases h; exact this)
  · cases h
    exact ⟨buf.length, (List.take_length buf).symm⟩

theorem parseAddrPrefix_take (env : ReaderEnv) (buf : Line) (pd : Bool)
    (r : Option TAddrPrefix × Line) (h : parseAddrPrefix env buf pd = .ok r) :
    ∃ k, r.2 = buf.take k := by
  unfold parseAddrPrefix at h
  split at h
  · obtain ⟨ts, -, h⟩ := bind_ok _ _ _ h
    obtain ⟨p, -, h⟩ := bind_ok _ _ _ h
    obtain ⟨v, -, h⟩ := bind_ok _ _ _ h
    obtain ⟨n, -, h⟩ := bind_ok _ _ _ h
    obtain ⟨ra, hra, h⟩ := bind_ok _ _ _ h
    have := readAddr_take _ _ _ _ hra
    repeat (split at h)
    all_goals (cases h; exact this)
  · cases h
    exact ⟨buf.length, (List.take_length buf).symm⟩

theorem feofLoop_fileFree_block {σ : Type}
    (body : Nat → σ → Line → FILE → Except Fault (Ctl × σ × Line × FILE))
    (hff : FileFree body) (close : Line) (tail : List Line) (eaf : Bool)
    (hclose : ∀ n st f r, body n st close f = .ok r → r.1 = Ctl.brk)
    (blk : List Line) (hblk : ∀ l ∈ blk, ∀ n st f r, body n st l f = .ok r → r.1 = Ctl.next)
    (fuel : Nat) (st : σ) (buf : Option Line) (hfuel : blk.length + 1 ≤ fuel) :
    feofLoop body fuel st buf ⟨blk ++ close :: tail, eaf, false⟩ =
      (foldLines (pureOf body) st (blk ++ [close])).map
        (fun s => (s, (⟨tail, eaf, tail.isEmpty && eaf⟩ : FILE))) := by
  have key : ∀ (c : Ctl) (l : Line), (∀ n st f r, body n st l f = .ok r → r.1 = c) →
      ∀ st r, pureOf body st l = .ok r → r.1 = c := by
    intro c l hl st r hr
    unfold pureOf at hr
    cases hb : body 0 st l ⟨[], false, false⟩ with
    | error e => rw [hb] at hr; cases hr
    | ok r0 =>
      rw [hb] at hr
      cases hr
      exact hl _ _ _ _ hb
  exact feofLoop_block body (pureOf body) hff close tail eaf (key _ _ hclose) blk
    (fun l hl => key _ _ (hblk l hl)) fuel st buf hfuel

theorem taBody_next (l : Line) (h : hasTag l "</AddrTA>" = false) (n : Nat) (st : Unit)
    (f : FILE) (r : Ctl × Unit × Line × FILE) (hr : taBody n st l f = .ok r) :
    r.1 = Ctl.next := by
  unfold taBody at hr
  rw [h] at hr
  cases hr
  rfl

theorem taBody_brk (l : Line) (h : hasTag l "</AddrTA>" = true) (n : Nat) (st : Unit)
    (f : FILE) (r : Ctl × Unit × Line × FILE) (hr : taBody n st l f = .ok r) :
    r.1 = Ctl.brk := by
  unfold taBody at hr
  rw [h] at hr
  cases hr
  rfl

theorem iaBody_next (env : ReaderEnv) (t1 t2 iaid iface : Int) (l : Line)
    (h : hasTag l "</AddrIA>" = false) (n : Nat) (st : Option TAddrIA) (f : FILE)
    (r : Ctl × Option TAddrIA × Line × FILE) (hr : iaBody env t1 t2 iaid iface n st l f = .ok r) :
    r.1 = Ctl.next := by
  unfold iaBody at hr
  split at hr
  · obtain ⟨d, -, hr⟩ := bind_ok _ _ _ hr
    cases hr
    rfl
  · dsimp only at hr
    split at hr
    · obtain ⟨a, ha, hr⟩ := bind_ok _ _ _ hr
      obtain ⟨k, hk⟩ := parseAddrAddr_take _ _ _ _ ha
      split at hr <;>
        (simp only [pure, Except.pure, bind, Except.bind, hk, hasTag_take l k _ h] at hr
         cases hr
         rfl)
    · simp only [pure, Except.pure, bind, Except.bind, h] at hr
      cases hr
      rfl

theorem pdBody_next (env : ReaderEnv) (AddrPD : Bool) (t1 t2 iaid iface : Int) (l : Line)
    (h : hasTag l "</AddrPD>" = false) (n : Nat) (st : Option TAddrIA) (f : FILE)
    (r : Ctl × Option TAddrIA × Line × FILE)
    (hr : pdBody env AddrPD t1 t2 iaid iface n st l f = .ok r) :
    r.1 = Ctl.next := by
  unfold pdBody at hr
  split at hr
  · obtain ⟨d, -, hr⟩ := bind_ok _ _ _ hr
    cases hr
    rfl
  · dsimp only at hr
    split at hr
    · obtain ⟨a, ha, hr⟩ := bind_ok _ _ _ hr
      obtain ⟨k, hk⟩ := parseAddrPrefix_take _ _ _ _ ha
      split at hr <;>
        (simp only [pure, Except.pure, bind, Except.bind, hk, hasTag_take l k _ h] at hr
         cases hr
         rfl)
    · simp only [pure, Except.pure, bind, Except.bind, h] at hr
      cases hr
      rfl

theorem iaBody_brk (env : ReaderEnv) (t1 t2 iaid iface : Int) (l : Line)
    (h1 : hasTag l "duid" = false) (h2 : hasTag l "<AddrAddr" = false)
    (h3 : hasTag l "</AddrIA>" = true) (n : Nat) (st : Option TAddrIA) (f : FILE) :
    iaBody env t1 t2 iaid iface n st l f = .ok (Ctl.brk, st, l, f) := by
  unfold iaBody
  simp [h1, h2, h3, bind, Except.bind, pure, Except.pure]

theorem pdBody_brk (env : ReaderEnv) (AddrPD : Bool) (t1 t2 iaid iface : Int) (l : Line)
    (h1 : hasTag l "duid" = false) (h2 : hasTag l "<AddrPrefix" = false)
    (h3 : hasTag l "</AddrPD>" = true) (n : Nat) (st : Option TAddrIA) (f : FILE) :
    pdBody env AddrPD t1 t2 iaid iface n st l f = .ok (Ctl.brk, st, l, f) := by
  unfold pdBody
  simp [h1, h2, h3, bind, Except.bind, pure, Except.pure]

/-! ## The nested reader functions on a block of strings -/

/-- The file after a block has been read from it: `tail` is what is left. -/
def fileAfter (tail : List Line) (eaf : Bool) : FILE := ⟨tail, eaf, tail.isEmpty && eaf⟩

theorem foldLines_taBody (ls : List Line) : foldLines (pureOf taBody) () ls = .ok () := by
  induction ls with
  | nil => rfl
  | cons l ls ih =>
    unfold foldLines
    have : ∃ r, pureOf taBody () l = .ok r := by
      unfold pureOf taBody
      split <;> exact ⟨_, rfl⟩
    obtain ⟨r, hr⟩ := this
    rw [hr]
    exact ih

/-- `parseAddrTA` on a file that starts with strings without `</AddrTA>`
followed by one with it reads exactly these and returns null. -/
theorem parseAddrTA_block (blk : List Line) (close : Line) (tail : List Line) (eaf : Bool)
    (hblk : ∀ l ∈ blk, hasTag l "</AddrTA>" = false) (hclose : hasTag close "</AddrTA>" = true)
    (fuel : Nat) (hfuel : blk.length + 1 ≤ fuel) :
    parseAddrTA fuel ⟨blk ++ close :: tail, eaf, false⟩ = .ok (none, fileAfter tail eaf) := by
  unfold parseAddrTA
  rw [feofLoop_fileFree_block taBody taBody_fileFree close tail eaf
    (fun n st f r => taBody_brk close hclose n st f r) blk
    (fun l hl n st f r => taBody_next l (hblk l hl) n st f r) fuel () none hfuel,
    foldLines_taBody]
  rfl

/-- The IA (or null) `parseAddrIA` returns for a block of strings. -/
def iaOfBlock (env : ReaderEnv) (t1 t2 iaid iface : Int) (ls : List Line) :
    Except Fault (Option TAddrIA) :=
  (foldLines (pureOf (iaBody env t1 t2 iaid iface)) none ls).map
    (fun s => s.map TAddrIA.recomputeTentative)

/-- The IA_PD (or null) `parseAddrPD` returns for a block of strings. -/
def pdOfBlock (env : ReaderEnv) (t1 t2 iaid iface : Int) (ls : List Line) :
    Except Fault (Option TAddrIA) :=
  (foldLines (pureOf (pdBody env true t1 t2 iaid iface)) none ls).map
    (fun s => s.map TAddrIA.recomputeTentative)

theorem parseAddrIA_block (env : ReaderEnv) (t1 t2 iaid iface : Int)
    (blk : List Line) (close : Line) (tail : List Line) (eaf : Bool)
    (hblk : ∀ l ∈ blk, hasTag l "</AddrIA>" = false)
    (h1 : hasTag close "duid" = false) (h2 : hasTag close "<AddrAddr" = false)
    (h3 : hasTag close "</AddrIA>" = true)
    (fuel : Nat) (hfuel : blk.length + 1 ≤ fuel) :
    parseAddrIA env fuel ⟨blk ++ close :: tail, eaf, false⟩ true t1 t2 iaid iface =
      (iaOfBlock env t1 t2 iaid iface (blk ++ [close])).map (fun s => (s, fileAfter tail eaf)) := by
  unfold parseAddrIA iaOfBlock
  rw [feofLoop_fileFree_block _ (iaBody_fileFree env t1 t2 iaid iface) close tail eaf
    (fun n st f r hr => by rw [iaBody_brk env t1 t2 iaid iface close h1 h2 h3] at hr; cases hr; rfl)
    blk (fun l hl n st f r => iaBody_next env t1 t2 iaid iface l (hblk l hl) n st f r)
    fuel none none hfuel]
  cases foldLines (pureOf (iaBody env t1 t2 iaid iface)) none (blk ++ [close]) <;> rfl

theorem parseAddrPD_block (env : ReaderEnv) (t1 t2 iaid iface : Int)
    (blk : List Line) (close : Line) (tail : List Line) (eaf : Bool)
    (hblk : ∀ l ∈ blk, hasTag l "</AddrPD>" = false)
    (h1 : hasTag close "duid" = false) (h2 : hasTag close "<AddrPrefix" = false)
    (h3 : hasTag close "</AddrPD>" = true)
    (fuel : Nat) (hfuel : blk.length + 1 ≤ fuel) :
    parseAddrPD env fuel ⟨blk ++ close :: tail, eaf, false⟩ true t1 t2 iaid iface =
      (pdOfBlock env t1 t2 iaid iface (blk ++ [close])).map (fun s => (s, fileAfter tail eaf)) := by
  unfold parseAddrPD pdOfBlock
  rw [if_pos rfl, feofLoop_fileFree_block _ (pdBody_fileFree env true t1 t2 iaid iface) close
    tail eaf
    (fun n st f r hr => by
      rw [pdBody_brk env true t1 t2 iaid iface close h1 h2 h3] at hr; cases hr; rfl)
    blk (fun l hl n st f r => pdBody_next env true t1 t2 iaid iface l (hblk l hl) n st f r)
    fuel none none hfuel]
  cases foldLines (pureOf (pdBody env true t1 t2 iaid iface)) none (blk ++ [close]) <;> rfl

/-! ## A client section written one element per line -/

/-- An element of a client section: a single string (the `<duid>` line, or one
the client loop passes over), or the strings of an `<AddrIA ...>`,
`<AddrPD ...>` or `<AddrTA ...>` block: the opening one, those inside, the
closing one. -/
inductive Item where
  | line (l : Line)
  | ia (opening : Line) (body : List Line) (closing : Line)
  | pd (opening : Line) (body : List Line) (closing : Line)
  | ta (opening : Line) (body : List Line) (closing : Line)
deriving DecidableEq, Repr

/-- The first string of an element. -/
def Item.head : Item → Line
  | .line l => l
  | .ia o _ _ => o
  | .pd o _ _ => o
  | .ta o _ _ => o

/-- The strings of an element after the first. -/
def Item.rest : Item → List Line
  | .line _ => []
  | .ia _ b c => b ++ [c]
  | .pd _ b c => b ++ [c]
  | .ta _ b c => b ++ [c]

/-- The strings of a list of elements, in order. -/
def linesOf (items : List Item) : List Line := (items.map (fun i => i.head :: i.rest)).flatten

/-- The element is an `<AddrTA ...>` block. -/
def Item.isTA : Item → Bool
  | .ta _ _ _ => true
  | _ => false

/-- The element is written one element per line: the opening string of a block
carries the tag of its block and no other tag the client loop looks for, the
closing tag of the block is on the closing string and on none before it, and
the closing string carries nothing the loop of the block reads. -/
def Item.wellFormed : Item → Bool
  | .line l =>
    hasTag l "<duid" ||
      (!hasTag l "<AddrIA " && !hasTag l "<AddrTA " && !hasTag l "<AddrPD " &&
        !hasTag l "</AddrClient>")
  | .ia o b c =>
    !hasTag o "<duid" && hasTag o "<AddrIA " && !hasTag o "<AddrTA " && !hasTag o "<AddrPD " &&
      !hasTag o "</AddrClient>" && b.all (fun l => !hasTag l "</AddrIA>") &&
      !hasTag c "duid" && !hasTag c "<AddrAddr" && hasTag c "</AddrIA>"
  | .pd o b c =>
    !hasTag o "<duid" && !hasTag o "<AddrIA " && !hasTag o "<AddrTA " && hasTag o "<AddrPD " &&
      !hasTag o "</AddrClient>" && b.all (fun l => !hasTag l "</AddrPD>") &&
      !hasTag c "duid" && !hasTag c "<AddrPrefix" && hasTag c "</AddrPD>"
  | .ta o b c =>
    !hasTag o "<duid" && !hasTag o "<AddrIA " && hasTag o "<AddrTA " && !hasTag o "<AddrPD " &&
      !hasTag o "</AddrClient>" && b.all (fun l => !hasTag l "</AddrTA>") &&
      hasTag c "</AddrTA>"

/-- The string that ends a client section: `</AddrClient>` and no other tag the
client loop looks for. -/
def endsSection (l : Line) : Bool :=
  !hasTag l "<duid" && !hasTag l "<AddrIA " && !hasTag l "<AddrTA " && !hasTag l "<AddrPD " &&
    hasTag l "</AddrClient>"

/-- What one element does to the client being read (`clnt` of
`parseAddrClient`): the statements of the loop body for the element, with the
nested loops run on the strings of the block. -/
def itemStep (env : ReaderEnv) (clnt : Option TAddrClient) : Item →
    Except Fault (Option TAddrClient)
  | .line l =>
    if hasTag l "<duid" then (readDuid env l).map (fun r => some (TAddrClient.new r.1))
    else .ok clnt
  | .ia o b c => do
    let t1 ← attrInt o "T1" 4 0
    let t2 ← attrInt o "T2" 4 0
    let iaid ← attrInt o "IAID" 6 0
    let iface ← attrInt o "iface" 7 0
    let s ← iaOfBlock env t1 t2 iaid iface (b ++ [c])
    match s, clnt with
    | none, _ => pure clnt
    | some _, none => throw Fault.nullDeref
    | some ia, some cl => pure (some (cl.addIA ia))
  | .pd o b c => do
    let t1 ← attrInt o "T1" 4 0
    let t2 ← attrInt o "T2" 4 0
    let pdid ← attrInt o "PDID" 6 0
    let iface ← attrInt o "iface" 7 0
    let s ← pdOfBlock env t1 t2 pdid iface (b ++ [c])
    match s, clnt with
    | none, _ => pure clnt
    | some _, none => throw Fault.nullDeref
    | some pd, some cl => pure (some (cl.addPD pd))
  | .ta _ _ _ => .ok clnt

/-- The client after the elements of a section, in order. -/
def foldItems (env : ReaderEnv) : Option TAddrClient → List Item →
    Except Fault (Option TAddrClient)
  | clnt, [] => .ok clnt
  | clnt, i :: is =>
    match itemStep env clnt i with
    | .error e => .error e
    | .ok c => foldItems env c is

theorem fileAfter_ne (tail : List Line) (eaf : Bool) (h : tail ≠ []) :
    fileAfter tail eaf = ⟨tail, eaf, false⟩ := by
  cases tail with
  | nil => exact absurd rfl h
  | cons l ls => rfl

/-- The body of the client loop on the first string of a well-formed element,
the file holding the rest of the element and then `tail`: the body reads the
element and nothing more, and changes the client as `itemStep` says. -/
theorem clientBody_item (env : ReaderEnv) (clnt : Option TAddrClient) (i : Item)
    (hw : i.wellFormed = true) (tail : List Line) (htail : tail ≠ []) (eaf : Bool)
    (fuel : Nat) (hfuel : i.rest.length ≤ fuel) :
    (∀ e, itemStep env clnt i = .error e →
      clientBody env fuel clnt i.head ⟨i.rest ++ tail, eaf, false⟩ = .error e) ∧
    (∀ c, itemStep env clnt i = .ok c →
      ∃ b, clientBody env fuel clnt i.head ⟨i.rest ++ tail, eaf, false⟩ =
        .ok (Ctl.next, c, b, ⟨tail, eaf, false⟩)) := by
  cases i with
  | line l =>
    simp only [Item.head, Item.rest, List.nil_append, itemStep]
    by_cases hd : hasTag l "<duid" = true
    · simp only [clientBody, hd, if_true]
      cases readDuid env l with
      | error e => exact ⟨fun e h => by simpa [Except.map, throw, throwThe, MonadExceptOf.throw] using h, fun c h => by simp [Except.map, throw, throwThe, MonadExceptOf.throw] at h⟩
      | ok r => exact ⟨fun e h => by simp [Except.map] at h, fun c h => by simp [Except.map] at h; subst h; exact ⟨_, rfl⟩⟩
    · simp only [Item.wellFormed, hd, Bool.false_or, Bool.and_eq_true, Bool.not_eq_true'] at hw
      obtain ⟨⟨⟨h1, h2⟩, h3⟩, h4⟩ := hw
      simp only [clientBody, clientIA, clientTA, clientPD, hd, h1, h2, h3, h4, if_false,
        Bool.false_eq_true, bind, Except.bind, pure, Except.pure]
      exact ⟨fun e h => by simp [Except.map] at h, fun c h => by simp [Except.map] at h; subst h; exact ⟨_, rfl⟩⟩
  | ia o b c =>
    simp only [Item.wellFormed, Bool.and_eq_true, Bool.not_eq_true', List.all_eq_true] at hw
    obtain ⟨⟨⟨⟨⟨⟨⟨⟨h0, h1⟩, h2⟩, h3⟩, h4⟩, hb⟩, c1⟩, c2⟩, c3⟩ := hw
    simp only [Item.rest, List.length_append, List.length_singleton] at hfuel
    simp only [Item.head, Item.rest, List.append_assoc, List.singleton_append, itemStep,
      clientBody, clientIA, clientTA, clientPD, h0, h1, h2, h3, h4, if_false, if_true,
      Bool.false_eq_true, bind, Except.bind, pure, Except.pure]
    cases attrInt o "T1" 4 0 with
    | error e => exact ⟨fun e h => by simpa [Except.map, throw, throwThe, MonadExceptOf.throw] using h, fun c h => by simp [Except.map, throw, throwThe, MonadExceptOf.throw] at h⟩
    | ok t1 =>
    cases attrInt o "T2" 4 0 with
    | error e => exact ⟨fun e h => by simpa [Except.map, throw, throwThe, MonadExceptOf.throw] using h, fun c h => by simp [Except.map, throw, throwThe, MonadExceptOf.throw] at h⟩
    | ok t2 =>
    cases attrInt o "IAID" 6 0 with
    | error e => exact ⟨fun e h => by simpa [Except.map, throw, throwThe, MonadExceptOf.throw] using h, fun c h => by simp [Except.map, throw, throwThe, MonadExceptOf.throw] at h⟩
    | ok iaid =>
    cases attrInt o "iface" 7 0 with
    | error e => exact ⟨fun e h => by simpa [Except.map, throw, throwThe, MonadExceptOf.throw] using h, fun c h => by simp [Except.map, throw, throwThe, MonadExceptOf.throw] at h⟩
    | ok iface =>
    dsimp only
    rw [parseAddrIA_block env t1 t2 iaid iface b c tail eaf hb c1 c2 c3 fuel hfuel,
      fileAfter_ne tail eaf htail]
    cases iaOfBlock env t1 t2 iaid iface (b ++ [c]) with
    | error e => exact ⟨fun e h => by simpa [Except.map, throw, throwThe, MonadExceptOf.throw] using h, fun c h => by simp [Except.map, throw, throwThe, MonadExceptOf.throw] at h⟩
    | ok s =>
      cases s with
      | none => exact ⟨fun e h => by simp [Except.map] at h, fun c h => by simp [Except.map] at h; subst h; exact ⟨_, rfl⟩⟩
      | some ia =>
        cases clnt with
        | none => exact ⟨fun e h => by simpa [Except.map, throw, throwThe, MonadExceptOf.throw] using h, fun c h => by simp [Except.map, throw, throwThe, MonadExceptOf.throw] at h⟩
        | some cl => exact ⟨fun e h => by simp [Except.map] at h, fun c h => by simp [Except.map] at h; subst h; exact ⟨_, rfl⟩⟩
  | pd o b c =>
    simp only [Item.wellFormed, Bool.and_eq_true, Bool.not_eq_true', List.all_eq_true] at hw
    obtain ⟨⟨⟨⟨⟨⟨⟨⟨h0, h1⟩, h2⟩, h3⟩, h4⟩, hb⟩, c1⟩, c2⟩, c3⟩ := hw
    simp only [Item.rest, List.length_append, List.length_singleton] at hfuel
    simp only [Item.head, Item.rest, List.append_assoc, List.singleton_append, itemStep,
      clientBody, clientIA, clientTA, clientPD, h0, h1, h2, h3, h4, if_false, if_true,
      Bool.false_eq_true, bind, Except.bind, pure, Except.pure]
    cases attrInt o "T1" 4 0 with
    | error e => exact ⟨fun e h => by simpa [Except.map, throw, throwThe, MonadExceptOf.throw] using h, fun c h => by simp [Except.map, throw, throwThe, MonadExceptOf.throw] at h⟩
    | ok t1 =>
    cases attrInt o "T2" 4 0 with
    | error e => exact ⟨fun e h => by simpa [Except.map, throw, throwThe, MonadExceptOf.throw] using h, fun c h => by simp [Except.map, throw, throwThe, MonadExceptOf.throw] at h⟩
    | ok t2 =>
    cases attrInt o "PDID" 6 0 with
    | error e => exact ⟨fun e h => by simpa [Except.map, throw, throwThe, MonadExceptOf.throw] using h, fun c h => by simp [Except.map, throw, throwThe, MonadExceptOf.throw] at h⟩
    | ok iaid =>
    cases attrInt o "iface" 7 0 with
    | error e => exact ⟨fun e h => by simpa [Except.map, throw, throwThe, MonadExceptOf.throw] using h, fun c h => by simp [Except.map, throw, throwThe, MonadExceptOf.throw] at h⟩
    | ok iface =>
    dsimp only
    rw [parseAddrPD_block env t1 t2 iaid iface b c tail eaf hb c1 c2 c3 fuel hfuel,
      fileAfter_ne tail eaf htail]
    cases pdOfBlock env t1 t2 iaid iface (b ++ [c]) with
    | error e => exact ⟨fun e h => by simpa [Except.map, throw, throwThe, MonadExceptOf.throw] using h, fun c h => by simp [Except.map, throw, throwThe, MonadExceptOf.throw] at h⟩
    | ok s =>
      cases s with
      | none => exact ⟨fun e h => by simp [Except.map] at h, fun c h => by simp [Except.map] at h; subst h; exact ⟨_, rfl⟩⟩
      | some ia =>
        cases clnt with
        | none => exact ⟨fun e h => by simpa [Except.map, throw, throwThe, MonadExceptOf.throw] using h, fun c h => by simp [Except.map, throw, throwThe, MonadExceptOf.throw] at h⟩
        | some cl => exact ⟨fun e h => by simp [Except.map] at h, fun c h => by simp [Except.map] at h; subst h; exact ⟨_, rfl⟩⟩
  | ta o b c =>
    simp only [Item.wellFormed, Bool.and_eq_true, Bool.not_eq_true', List.all_eq_true] at hw
    obtain ⟨⟨⟨⟨⟨⟨h0, h1⟩, h2⟩, h3⟩, h4⟩, hb⟩, c1⟩ := hw
    simp only [Item.rest, List.length_append, List.length_singleton] at hfuel
    simp only [Item.head, Item.rest, List.append_assoc, List.singleton_append, itemStep,
      clientBody, clientIA, clientTA, clientPD, h0, h1, h2, h3, h4, if_false, if_true,
      Bool.false_eq_true, bind, Except.bind, pure, Except.pure]
    rw [parseAddrTA_block b c tail eaf hb c1 fuel hfuel, fileAfter_ne tail eaf htail]
    exact ⟨fun e h => by simp [Except.map] at h, fun c h => by simp [Except.map] at h; subst h; exact ⟨_, rfl⟩⟩

theorem linesOf_cons (i : Item) (items : List Item) :
    linesOf (i :: items) = i.head :: (i.rest ++ linesOf items) := by
  simp [linesOf]

theorem clientBody_end (env : ReaderEnv) (l : Line) (he : endsSection l = true) (fuel : Nat)
    (clnt : Option TAddrClient) (f : FILE) :
    clientBody env fuel clnt l f = .ok (Ctl.brk, clnt, l, f) := by
  simp only [endsSection, Bool.and_eq_true, Bool.not_eq_true'] at he
  obtain ⟨⟨⟨⟨h0, h1⟩, h2⟩, h3⟩, h4⟩ := he
  simp [clientBody, clientIA, clientTA, clientPD, h0, h1, h2, h3, h4, bind, Except.bind, pure,
    Except.pure]

/-- The client loop on a file that starts with well-formed elements followed
by the string that ends the section: the loop reads exactly these, and the
client is the one the elements build. -/
theorem clientLoop_section (env : ReaderEnv) (endLine : Line) (rest : List Line) (eaf : Bool)
    (he : endsSection endLine = true) :
    ∀ items : List Item, (∀ i ∈ items, i.wellFormed = true) →
    ∀ fuel clnt buf, (linesOf items).length + 1 ≤ fuel →
      feofLoop (clientBody env) fuel clnt buf ⟨linesOf items ++ endLine :: rest, eaf, false⟩ =
        (foldItems env clnt items).map (fun c => (c, fileAfter rest eaf)) := by
  intro items
  induction items with
  | nil =>
    intro _ fuel clnt buf hfuel
    obtain ⟨n, rfl⟩ : ∃ n, fuel = n + 1 := ⟨fuel - 1, by omega⟩
    simp only [linesOf, List.map_nil, List.flatten_nil, List.nil_append]
    rw [feofLoop_cons, clientBody_end env endLine he]
    rfl
  | cons i items ih =>
    intro hw fuel clnt buf hfuel
    obtain ⟨n, rfl⟩ : ∃ n, fuel = n + 1 := ⟨fuel - 1, by omega⟩
    rw [linesOf_cons] at hfuel ⊢
    simp only [List.length_cons, List.length_append] at hfuel
    rw [List.cons_append, feofLoop_cons, List.append_assoc]
    have hne : linesOf items ++ endLine :: rest ≠ [] := by simp
    have hflag : ((i.rest ++ (linesOf items ++ endLine :: rest)).isEmpty && eaf) = false := by
      cases h : i.rest ++ (linesOf items ++ endLine :: rest) with
      | nil => simp at h
      | cons a b => rfl
    rw [hflag]
    obtain ⟨herr, hok⟩ := clientBody_item env clnt i (hw i (List.mem_cons_self _ _))
      (linesOf items ++ endLine :: rest) hne eaf n (by omega)
    unfold foldItems
    cases hs : itemStep env clnt i with
    | error e =>
      rw [herr e hs]
      rfl
    | ok c =>
      obtain ⟨b, hb⟩ := hok c hs
      rw [hb]
      exact ih (fun j hj => hw j (List.mem_cons_of_mem _ hj)) n c (some b) (by omega)

/-- Blocks of temporary addresses change nothing in the client being read. -/
theorem foldItems_filter_TA (env : ReaderEnv) (items : List Item) :
    ∀ clnt, foldItems env clnt (items.filter (fun i => !i.isTA)) = foldItems env clnt items := by
  induction items with
  | nil => intro clnt; rfl
  | cons i items ih =>
    intro clnt
    cases i with
    | ta o b c =>
      rw [List.filter_cons_of_neg (by simp [Item.isTA]), ih]
      rfl
    | line l =>
      rw [List.filter_cons_of_pos (by simp [Item.isTA])]
      simp only [foldItems]
      cases itemStep env clnt (Item.line l) with
      | error e => rfl
      | ok c => exact ih c
    | ia o b c =>
      rw [List.filter_cons_of_pos (by simp [Item.isTA])]
      simp only [foldItems]
      cases itemStep env clnt (Item.ia o b c) with
      | error e => rfl
      | ok c => exact ih c
    | pd o b c =>
      rw [List.filter_cons_of_pos (by simp [Item.isTA])]
      simp only [foldItems]
      cases itemStep env clnt (Item.pd o b c) with
      | error e => rfl
      | ok c => exact ih c

theorem itemStep_TALst (env : ReaderEnv) (clnt : Option TAddrClient) (i : Item)
    (h : ∀ x, clnt = some x → x.TALst = []) (c : Option TAddrClient)
    (hs : itemStep env clnt i = .ok c) : ∀ x, c = some x → x.TALst = [] := by
  cases i with
  | line l =>
    rw [itemStep] at hs
    split at hs
    · cases hr : readDuid env l with
      | error e => rw [hr] at hs; cases hs
      | ok r =>
        rw [hr] at hs
        cases hs
        intro x hx
        cases hx
        rfl
    · cases hs
      exact h
  | ia o b cl =>
    rw [itemStep] at hs
    obtain ⟨t1, -, hs⟩ := bind_ok _ _ _ hs
    obtain ⟨t2, -, hs⟩ := bind_ok _ _ _ hs
    obtain ⟨iaid, -, hs⟩ := bind_ok _ _ _ hs
    obtain ⟨iface, -, hs⟩ := bind_ok _ _ _ hs
    obtain ⟨s, -, hs⟩ := bind_ok _ _ _ hs
    split at hs
    · cases hs
      exact h
    · cases hs
    · cases hs
      intro x hx
      cases hx
      have hcl := h _ rfl
      exact hcl
  | pd o b cl =>
    rw [itemStep] at hs
    obtain ⟨t1, -, hs⟩ := bind_ok _ _ _ hs
    obtain ⟨t2, -, hs⟩ := bind_ok _ _ _ hs
    obtain ⟨iaid, -, hs⟩ := bind_ok _ _ _ hs
    obtain ⟨iface, -, hs⟩ := bind_ok _ _ _ hs
    obtain ⟨s, -, hs⟩ := bind_ok _ _ _ hs
    split at hs
    · cases hs
      exact h
    · cases hs
    · cases hs
      intro x hx
      cases hx
      have hcl := h _ rfl
      exact hcl
  | ta o b cl =>
    cases hs
    exact h

theorem foldItems_TALst (env : ReaderEnv) (items : List Item) :
    ∀ clnt, (∀ x, clnt = some x → x.TALst = []) → ∀ c, foldItems env clnt items = .ok c →
      ∀ x, c = some x → x.TALst = [] := by
  induction items with
  | nil =>
    intro clnt h c hc
    cases hc
    exact h
  | cons i items ih =>
    intro clnt h c hc
    unfold foldItems at hc
    cases hs : itemStep env clnt i with
    | error e => rw [hs] at hc; cases hc
    | ok c1 =>
      rw [hs] at hc
      exact ih c1 (itemStep_TALst env clnt i h c1 hs) c hc

/-- A client section: the `<duid>` line, an IA block with one address, a block
of temporary addresses with its own `<duid>` and address lines, and an IA_PD
block with one prefix. -/
def exItems : List Item :=
  [ Item.line "    <duid>00:01:00:01:aa</duid>\n".toList,
    Item.ia "    <AddrIA T1=\"1000\" T2=\"1600\" IAID=\"5\" iface=\"2\">\n".toList
      [ "      <duid>00:01:00:01:bb</duid>\n".toList,
        ("      <AddrAddr timestamp=\"100\" pref=\"1800\" valid=\"3600\" prefix=\"64\">" ++
          "2001:db8::1</AddrAddr>\n").toList ]
      "    </AddrIA>\n".toList,
    Item.ta "    <AddrTA T1=\"1\" T2=\"2\" IAID=\"9\" iface=\"2\">\n".toList
      [ "      <duid>00:01:00:01:cc</duid>\n".toList,
        ("      <AddrAddr timestamp=\"100\" pref=\"1800\" valid=\"3600\" prefix=\"64\">" ++
          "2001:db8::2</AddrAddr>\n").toList ]
      "    </AddrTA>\n".toList,
    Item.pd "    <AddrPD T1=\"1000\" T2=\"1600\" PDID=\"7\" iface=\"2\">\n".toList
      [ "      <duid>00:01:00:01:bb</duid>\n".toList,
        ("      <AddrPrefix timestamp=\"100\" pref=\"1800\" valid=\"3600\" length=\"48\">" ++
          "2001:db8:1::</AddrPrefix>\n").toList ]
      "    </AddrPD>\n".toList ]

/-- C20: for a client section written one element per line (well-formed
elements, then the `</AddrClient>` line), `parseAddrClient` gives the same
outcome, client and file position, as on the section with every
`<AddrTA ...>` block removed, and a client it returns has no IA_TA records. -/
theorem parseAddrClient_discards_TA (env : ReaderEnv) (items : List Item) (endLine : Line)
    (rest : List Line) (eaf : Bool) (fuel fuel2 : Nat)
    (hw : ∀ i ∈ items, i.wellFormed = true) (he : endsSection endLine = true)
    (hfuel : (linesOf items).length + 1 ≤ fuel)
    (hfuel2 : (linesOf (items.filter (fun i => !i.isTA))).length + 1 ≤ fuel2) :
    parseAddrClient env fuel ⟨linesOf items ++ endLine :: rest, eaf, false⟩ =
        parseAddrClient env fuel2
          ⟨linesOf (items.filter (fun i => !i.isTA)) ++ endLine :: rest, eaf, false⟩ ∧
      ∀ c f, parseAddrClient env fuel ⟨linesOf items ++ endLine :: rest, eaf, false⟩ =
        .ok (some c, f) → c.TALst = [] := by
  unfold parseAddrClient
  rw [clientLoop_section env endLine rest eaf he items hw fuel none none hfuel,
    clientLoop_section env endLine rest eaf he _
      (fun i hi => hw i (List.mem_of_mem_filter hi)) fuel2 none none hfuel2,
    foldItems_filter_TA]
  refine ⟨rfl, ?_⟩
  intro c f h
  cases hf : foldItems env none items with
  | error e => rw [hf] at h; cases h
  | ok c1 =>
    rw [hf] at h
    cases h
    exact foldItems_TALst env items none (fun x hx => by cases hx) _ hf c rfl

theorem parseAddrClient_discards_TA_witness :
    (parseAddrClient exEnv 20
        ⟨linesOf exItems ++ ["  </AddrClient>\n".toList, "</AddrMgr>\n".toList], false, false⟩ =
      parseAddrClient exEnv 20
        ⟨linesOf (exItems.filter (fun i => !i.isTA)) ++
          ["  </AddrClient>\n".toList, "</AddrMgr>\n".toList], false, false⟩ ∧
      ∀ c f, parseAddrClient exEnv 20
        ⟨linesOf exItems ++ ["  </AddrClient>\n".toList, "</AddrMgr>\n".toList], false, false⟩ =
          .ok (some c, f) → c.TALst = []) ∧
    (parseAddrClient exEnv 20
        ⟨linesOf exItems ++ ["  </AddrClient>\n".toList, "</AddrMgr>\n".toList], false,
          false⟩).map
      (fun r => r.1.map (fun c => (c.DUID, c.IAsLst.length, c.TALst.length, c.PDLst.length))) =
      .ok (some (duidA, 1, 0, 1)) :=
  ⟨parseAddrClient_discards_TA exEnv exItems _ _ false 20 20 (by decide) (by decide)
    (by decide) (by decide), rfl⟩

/-! ## Decimal numbers in the snapshot -/

/-- Modelled from the spec: `uint` of the snapshot grammar (spec §6), the
decimal digits `ostream << unsigned` writes. -/
def dec (n : Nat) : List Char := Nat.toDigits 10 n

/-- The value of a string of decimal digits read after the value `a`. -/
def digitsVal (a : Nat) (ds : List Char) : Nat :=
  ds.foldl (fun a c => a * 10 + (c.toNat - 48)) a

theorem digitsVal_shift (ds : List Char) :
    ∀ a, digitsVal a ds = a * 10 ^ ds.length + digitsVal 0 ds := by
  induction ds with
  | nil => intro a; simp [digitsVal]
  | cons c cs ih =>
    intro a
    have h1 : digitsVal a (c :: cs) = digitsVal (a * 10 + (c.toNat - 48)) cs := rfl
    have h2 : digitsVal 0 (c :: cs) = digitsVal (0 * 10 + (c.toNat - 48)) cs := rfl
    rw [h1, h2, ih (a * 10 + (c.toNat - 48)), ih (0 * 10 + (c.toNat - 48))]
    simp only [List.length_cons]
    ring

theorem digitChar_isDigit (k : Nat) (h : k < 10) : (Nat.digitChar k).isDigit = true := by
  interval_cases k <;> rfl

theorem digitChar_val (k : Nat) (h : k < 10) : (Nat.digitChar k).toNat - 48 = k := by
  interval_cases k <;> rfl

theorem toDigitsCore_spec : ∀ (fuel n : Nat) (acc : List Char), n < fuel →
    (∀ c ∈ acc, c.isDigit = true) →
    (∀ c ∈ Nat.toDigitsCore 10 fuel n acc, c.isDigit = true) ∧
    Nat.toDigitsCore 10 fuel n acc ≠ [] ∧
    digitsVal 0 (Nat.toDigitsCore 10 fuel n acc) = n * 10 ^ acc.length + digitsVal 0 acc := by
  intro fuel
  induction fuel with
  | zero => intro n acc h; omega
  | succ f ih =>
    intro n acc hn hacc
    have hd : ∀ c ∈ Nat.digitChar (n % 10) :: acc, c.isDigit = true := by
      intro c hc
      rcases List.mem_cons.mp hc with rfl | hc
      · exact digitChar_isDigit _ (Nat.mod_lt _ (by decide))
      · exact hacc c hc
    have hv : digitsVal 0 (Nat.digitChar (n % 10) :: acc) =
        (n % 10) * 10 ^ acc.length + digitsVal 0 acc := by
      have : digitsVal 0 (Nat.digitChar (n % 10) :: acc) =
          digitsVal (0 * 10 + ((Nat.digitChar (n % 10)).toNat - 48)) acc := rfl
      rw [this, digitChar_val _ (Nat.mod_lt _ (by decide)), digitsVal_shift]
      simp
    rw [Nat.toDigitsCore]
    by_cases h0 : n / 10 = 0
    · simp only [h0, if_true]
      refine ⟨hd, by simp, ?_⟩
      rw [hv]
      have : n % 10 = n := Nat.mod_eq_of_lt (by omega)
      rw [this]
    · simp only [h0, if_false]
      obtain ⟨i1, i2, i3⟩ := ih (n / 10) (Nat.digitChar (n % 10) :: acc) (by omega) hd
      refine ⟨i1, i2, ?_⟩
      rw [i3, hv, List.length_cons, pow_succ]
      have hdm : n = 10 * (n / 10) + n % 10 := (Nat.div_add_mod n 10).symm
      generalize n / 10 = q at hdm ⊢
      generalize n % 10 = r at hdm ⊢
      rw [hdm]
      ring

theorem dec_isDigit (n : Nat) : ∀ c ∈ dec n, c.isDigit = true :=
  (toDigitsCore_spec (n + 1) n [] (by omega) (by simp)).1

theorem dec_ne_nil (n : Nat) : dec n ≠ [] :=
  (toDigitsCore_spec (n + 1) n [] (by omega) (by simp)).2.1

theorem dec_val (n : Nat) : digitsVal 0 (dec n) = n := by
  have := (toDigitsCore_spec (n + 1) n [] (by omega) (by simp)).2.2
  simpa [digitsVal] using this

theorem atoiDigits_digits (ds : List Char) (h : ∀ c ∈ ds, c.isDigit = true) (r : List Char) :
    ∀ a, atoiDigits (ds ++ r) a = atoiDigits r (digitsVal a ds) := by
  induction ds with
  | nil => intro a; rfl
  | cons c cs ih =>
    intro a
    have hc : c.isDigit = true := h c (List.mem_cons_self _ _)
    rw [List.cons_append, atoiDigits, if_pos hc, ih (fun x hx => h x (List.mem_cons_of_mem _ hx))]
    rfl

theorem atoiDigits_stop (c : Char) (r : List Char) (a : Nat) (h : c.isDigit = false) :
    atoiDigits (c :: r) a = a := by
  rw [atoiDigits, h]
  rfl

theorem isDigit_facts (d : Char) (h : d.isDigit = true) :
    d ≠ '-' ∧ d ≠ '+' ∧ isspace d = false := by
  refine ⟨?_, ?_, ?_⟩
  · rintro rfl; exact absurd h (by decide)
  · rintro rfl; exact absurd h (by decide)
  · unfold isspace
    simp only [Bool.or_eq_false_iff, beq_eq_false_iff_ne, ne_eq]
    refine ⟨⟨⟨⟨⟨?_, ?_⟩, ?_⟩, ?_⟩, ?_⟩, ?_⟩ <;> (rintro rfl; exact absurd h (by decide))

/-- `atoi` reads back a decimal number that fits an `int` and is followed by
a character that is no digit. -/
theorem atoi_dec (n : Nat) (c : Char) (r : List Char) (hn : n < 2 ^ 31)
    (hc : c.isDigit = false) : atoi (dec n ++ c :: r) = .ok (n : Int) := by
  have hval : atoiDigits (dec n ++ c :: r) 0 = n := by
    rw [atoiDigits_digits _ (dec_isDigit n), atoiDigits_stop _ _ _ hc, dec_val]
  cases hd : dec n with
  | nil => exact absurd hd (dec_ne_nil n)
  | cons d ds =>
    rw [hd] at hval
    obtain ⟨h1, h2, h3⟩ := isDigit_facts d (dec_isDigit n d (by rw [hd]; exact List.mem_cons_self _ _))
    unfold atoi
    have hdrop : (d :: ds ++ c :: r).dropWhile isspace = d :: (ds ++ c :: r) := by
      rw [List.cons_append, List.dropWhile_cons, h3]
      rfl
    rw [hdrop]
    split
    · rename_i heq
      exact absurd (List.cons.inj heq).1 h1
    · rename_i heq
      exact absurd (List.cons.inj heq).1 h2
    · rw [← List.cons_append, hval, if_pos hn]

theorem toULong_natCast (n : Nat) (h : n ≤ ULONG_MAX) : toULong (n : Int) = n := by
  unfold toULong
  have h2 : ((n : Int) % ((ULONG_MAX : Int) + 1)) = n := by
    apply Int.emod_eq_of_lt
    · exact Int.natCast_nonneg n
    · omega
  rw [h2]
  rfl

theorem strstr_skip_head (seg rest : List Char) (a : Char) (as : List Char)
    (h : ∀ c ∈ seg, c ≠ a) : strstr (seg ++ rest) (a :: as) = strstr rest (a :: as) := by
  induction seg with
  | nil => rfl
  | cons c cs ih =>
    have hc : a ≠ c := fun e => h c (List.mem_cons_self _ _) e.symm
    rw [List.cons_append, strstr]
    have : (a :: as).isPrefixOf (c :: (cs ++ rest)) = false := by
      simp [List.isPrefixOf, hc]
    rw [this]
    exact ih (fun x hx => h x (List.mem_cons_of_mem _ hx))

theorem strstr_skip_dec (n : Nat) (rest : List Char) (a : Char) (as : List Char)
    (h : a.isDigit = false) : strstr (dec n ++ rest) (a :: as) = strstr rest (a :: as) := by
  apply strstr_skip_head
  intro c hc e
  rw [e] at hc
  rw [dec_isDigit n a hc] at h
  cases h

theorem strstr_skip_second (t rest : List Char) (a b : Char) (as : List Char)
    (h : ∀ c ∈ t, c ≠ b) (hr : rest.head? ≠ some b) :
    strstr (t ++ rest) (a :: b :: as) = strstr rest (a :: b :: as) := by
  induction t with
  | nil => rfl
  | cons c cs ih =>
    rw [List.cons_append, strstr]
    have : (a :: b :: as).isPrefixOf (c :: (cs ++ rest)) = false := by
      cases cs with
      | nil =>
        cases rest with
        | nil => simp [List.isPrefixOf]
        | cons x xs =>
          have hx : b ≠ x := fun e => hr (by rw [e]; rfl)
          simp [List.isPrefixOf, hx]
      | cons x xs =>
        have hx : b ≠ x := fun e => h x (by simp) e.symm
        simp [List.isPrefixOf, hx]
    rw [this]
    exact ih (fun x hx => h x (List.mem_cons_of_mem _ hx))

/-! ## The snapshot writer -/

/-- What the writer takes from code that is not part of the sources at hand:
how a DUID and an address are written (`getPlain()`). -/
structure WriterEnv where
  printDUID : TDUID → List Char
  printAddr : TIPv6Addr → List Char

/-- Modelled from the spec: the line `"<duid>" hex "</duid>" NL` of the
snapshot grammar (spec §6), for the text of a DUID. -/
def duidLine (txt : List Char) : Line := "<duid>".toList ++ txt ++ "</duid>\n".toList

/-- Modelled from the spec: the `addr` line of the snapshot grammar (spec §6),
written by `operator<<` for `TAddrAddr`, which is not in the sources at
hand. -/
def addrLine (w : WriterEnv) (a : TAddrAddr) : Line :=
  "<AddrAddr timestamp=\"".toList ++ dec a.Timestamp ++ "\" pref=\"".toList ++ dec a.Prefered ++
    "\" valid=\"".toList ++ dec a.Valid ++ "\" prefix=\"".toList ++ dec a.PrefixLen.toNat ++
    "\">".toList ++ w.printAddr a.Addr ++ "</AddrAddr>\n".toList

/-- Modelled from the spec: the `prefix` line of the snapshot grammar (spec §6),
written by `operator<<` for `TAddrPrefix`, which is not in the sources at
hand. -/
def prefixLine (w : WriterEnv) (p : TAddrPrefix) : Line :=
  "<AddrPrefix timestamp=\"".toList ++ dec p.Timestamp ++ "\" pref=\"".toList ++
    dec p.Prefered ++ "\" valid=\"".toList ++ dec p.Valid ++ "\" length=\"".toList ++
    dec p.Length.toNat ++ "\">".toList ++ w.printAddr p.Prefix ++ "</AddrPrefix>\n".toList

/-- A text the reader can take between two tags: no `<` and no `u`. -/
def plainText (t : List Char) : Prop := (∀ c ∈ t, c ≠ '<') ∧ (∀ c ∈ t, c ≠ 'u')

theorem isPrefixOf_cons_cons (a b : Char) (as bs : List Char) :
    (a :: as).isPrefixOf (b :: bs) = (a == b && as.isPrefixOf bs) := rfl

theorem strstr_nil (needle : List Char) :
    strstr [] needle = if needle.isEmpty then some [] else none := by
  rw [strstr]

theorem addrLine_no_duid (w : WriterEnv) (a : TAddrAddr) (h : plainText (w.printAddr a.Addr)) :
    hasTag (addrLine w a) "duid" = false := by
  simp [hasTag, addrLine, strstr_cons, strstr_nil, isPrefixOf_cons_cons, strstr_skip_dec,
    strstr_skip_second _ _ _ _ _ h.2]

theorem strstr_gt (pre rest : List Char) (h : ∀ c ∈ pre, c ≠ '>') :
    strstr (pre ++ '>' :: rest) ['>'] = some ('>' :: rest) := by
  rw [strstr_skip_head _ _ _ _ h]
  simp [strstr_cons, isPrefixOf_cons_cons]

theorem truncateAt_append (pre x : List Char) : truncateAt (pre ++ x) x = pre := by
  unfold truncateAt
  simp

/-- The address part of a resource line `pre > txt closing post`, where the
first `>` of the line is the one that ends the opening tag and the closing
tag is found after it right behind the text. -/
theorem readAddr_line (env : ReaderEnv) (pre txt post : List Char) (closing : String)
    (hpre : ∀ c ∈ pre, c ≠ '>')
    (hfind : strstr ('>' :: (txt ++ (closing.toList ++ post))) closing.toList =
      some (closing.toList ++ post)) :
    readAddr env (pre ++ '>' :: (txt ++ (closing.toList ++ post))) closing =
      .ok (some (env.parseAddr txt), pre ++ '>' :: txt) := by
  unfold readAddr
  rw [show ">".toList = ['>'] from rfl, strstr_gt pre _ hpre]
  dsimp only
  rw [hfind]
  dsimp only
  have e : pre ++ '>' :: (txt ++ (closing.toList ++ post)) =
      (pre ++ '>' :: txt) ++ (closing.toList ++ post) := by simp
  rw [e, truncateAt_append, strstr_gt pre _ hpre]
  rfl

/-- The DUID of a line `pre > txt </duid> post`, the same way. -/
theorem readDuid_line (env : ReaderEnv) (pre txt post : List Char)
    (hpre : ∀ c ∈ pre, c ≠ '>')
    (hfind : strstr (txt ++ ("</duid>".toList ++ post)) "</duid>".toList =
      some ("</duid>".toList ++ post)) :
    readDuid env (pre ++ '>' :: (txt ++ ("</duid>".toList ++ post))) =
      .ok (env.parseDUID txt, pre ++ '>' :: txt) := by
  unfold readDuid
  rw [show ">".toList = ['>'] from rfl, strstr_gt pre _ hpre]
  dsimp only
  rw [List.drop_one, List.tail_cons, hfind]
  dsimp only
  have e : pre ++ '>' :: (txt ++ ("</duid>".toList ++ post)) =
      (pre ++ '>' :: txt) ++ ("</duid>".toList ++ post) := by simp
  rw [e, truncateAt_append, strstr_gt pre _ hpre]
  rfl

theorem dec_ne (n : Nat) (x : Char) (hx : x.isDigit = false) : ∀ c ∈ dec n, c ≠ x := by
  intro c hc e
  rw [e] at hc
  rw [dec_isDigit n x hc] at hx
  cases hx

/-- The line `<duid>txt</duid>` gives the DUID made from `txt`. -/
theorem readDuid_duidLine (env : ReaderEnv) (txt : List Char) (h : ∀ c ∈ txt, c ≠ '<') :
    readDuid env (duidLine txt) = .ok (env.parseDUID txt, "<duid>".toList ++ txt) := by
  have e : duidLine txt = "<duid".toList ++ '>' :: (txt ++ ("</duid>".toList ++ "\n".toList)) := by
    simp [duidLine]
  have e2 : "<duid>".toList ++ txt = "<duid".toList ++ '>' :: txt := by simp
  rw [e, e2]
  apply readDuid_line
  · simp
  · rw [show "</duid>".toList = '<' :: "/duid>".toList from rfl, strstr_skip_head _ _ _ _ h]
    simp [strstr_cons, isPrefixOf_cons_cons]

/-! ## The reader on the lines the writer emits -/

/-- An address record the snapshot can carry: the numbers fit an `int`, and
time stamp and lifetimes are not zero. -/
def TAddrAddr.storable (a : TAddrAddr) : Prop :=
  0 < a.Timestamp ∧ a.Timestamp < 2 ^ 31 ∧ 0 < a.Prefered ∧ a.Prefered < 2 ^ 31 ∧
    0 < a.Valid ∧ a.Valid < 2 ^ 31 ∧ 0 ≤ a.PrefixLen ∧ a.PrefixLen < 2 ^ 31

/-- The address record the reader makes from the line of `a`. -/
def TAddrAddr.restored (env : ReaderEnv) (w : WriterEnv) (a : TAddrAddr) : TAddrAddr :=
  { Addr := env.parseAddr (w.printAddr a.Addr), Prefered := a.Prefered, Valid := a.Valid,
    Timestamp := a.Timestamp, Tentative := ETentative.TENTATIVE_NO, PrefixLen := a.PrefixLen }

theorem addrLine_has_AddrAddr (w : WriterEnv) (a : TAddrAddr) :
    hasTag (addrLine w a) "<AddrAddr" = true := by
  simp [hasTag, addrLine, strstr_cons, isPrefixOf_cons_cons]

theorem addrLine_no_close (w : WriterEnv) (a : TAddrAddr) (h : plainText (w.printAddr a.Addr)) :
    hasTag (addrLine w a) "</AddrIA>" = false := by
  simp [hasTag, addrLine, strstr_cons, strstr_nil, isPrefixOf_cons_cons, strstr_skip_dec,
    strstr_skip_head _ _ _ _ h.1]

theorem addrLine_ts (w : WriterEnv) (a : TAddrAddr) (hts : a.Timestamp < 2 ^ 31) :
    attrULong (addrLine w a) "timestamp" 11 0 = .ok a.Timestamp := by
  have hu : a.Timestamp ≤ ULONG_MAX := by unfold ULONG_MAX; omega
  simp [attrULong, addrLine, strstr_cons, strstr_nil, isPrefixOf_cons_cons, strstr_skip_dec,
    ptrAdd, atoi_dec _ _ _ hts, toULong_natCast _ hu, bind, Except.bind, pure, Except.pure]

theorem addrLine_pref (w : WriterEnv) (a : TAddrAddr) (hts : a.Prefered < 2 ^ 31) :
    attrULong (addrLine w a) "pref=" 6 0 = .ok a.Prefered := by
  have hu : a.Prefered ≤ ULONG_MAX := by unfold ULONG_MAX; omega
  simp [attrULong, addrLine, strstr_cons, strstr_nil, isPrefixOf_cons_cons, strstr_skip_dec,
    ptrAdd, atoi_dec _ _ _ hts, toULong_natCast _ hu, bind, Except.bind, pure, Except.pure]

theorem addrLine_valid (w : WriterEnv) (a : TAddrAddr) (hts : a.Valid < 2 ^ 31) :
    attrULong (addrLine w a) "valid" 7 0 = .ok a.Valid := by
  have hu : a.Valid ≤ ULONG_MAX := by unfold ULONG_MAX; omega
  simp [attrULong, addrLine, strstr_cons, strstr_nil, isPrefixOf_cons_cons, strstr_skip_dec,
    ptrAdd, atoi_dec _ _ _ hts, toULong_natCast _ hu, bind, Except.bind, pure, Except.pure]

theorem addrLine_prefix (w : WriterEnv) (a : TAddrAddr) (d : Int) (h0 : 0 ≤ a.PrefixLen)
    (h1 : a.PrefixLen < 2 ^ 31) : attrInt (addrLine w a) "prefix=" 8 d = .ok a.PrefixLen := by
  have hn : a.PrefixLen.toNat < 2 ^ 31 := by omega
  have he : (a.PrefixLen.toNat : Int) = a.PrefixLen := Int.toNat_of_nonneg h0
  simp [attrInt, addrLine, strstr_cons, strstr_nil, isPrefixOf_cons_cons, strstr_skip_dec,
    ptrAdd, atoi_dec _ _ _ hn, he, bind, Except.bind, pure, Except.pure]

theorem addrLine_readAddr (env : ReaderEnv) (w : WriterEnv) (a : TAddrAddr)
    (h : plainText (w.printAddr a.Addr)) :
    ∃ b, readAddr env (addrLine w a) "</AddrAddr>" =
      .ok (some (env.parseAddr (w.printAddr a.Addr)), b) := by
  have e : addrLine w a =
      ("<AddrAddr timestamp=\"".toList ++ dec a.Timestamp ++ "\" pref=\"".toList ++
        dec a.Prefered ++ "\" valid=\"".toList ++ dec a.Valid ++ "\" prefix=\"".toList ++
        dec a.PrefixLen.toNat ++ "\"".toList) ++
      '>' :: (w.printAddr a.Addr ++ ("</AddrAddr>".toList ++ "\n".toList)) := by
    simp [addrLine]
  rw [e]
  refine ⟨_, readAddr_line env _ _ _ _ ?_ ?_⟩
  · intro c hc
    simp only [List.mem_append] at hc
    rcases hc with ((((((((hc | hc) | hc) | hc) | hc) | hc) | hc) | hc) | hc)
    all_goals first
      | exact dec_ne _ '>' (by decide) c hc
      | (rintro rfl; revert hc; decide)
  · rw [strstr_cons]
    simp only [isPrefixOf_cons_cons, show "</AddrAddr>".toList = '<' :: "/AddrAddr>".toList from rfl]
    rw [if_neg (by simp), strstr_skip_head _ _ _ _ h.1]
    simp [strstr_cons, isPrefixOf_cons_cons]

theorem parseAddrAddr_addrLine (env : ReaderEnv) (w : WriterEnv) (a : TAddrAddr)
    (h : plainText (w.printAddr a.Addr)) (hs : a.storable) :
    ∃ b, parseAddrAddr env (addrLine w a) false = .ok (some (a.restored env w), b) := by
  obtain ⟨t0, t1, p0, p1, v0, v1, n0, n1⟩ := hs
  obtain ⟨b, hb⟩ := addrLine_readAddr env w a h
  refine ⟨b, ?_⟩
  unfold parseAddrAddr
  simp only [addrLine_has_AddrAddr, Bool.true_or, if_true, addrLine_ts w a t1,
    addrLine_pref w a p1, addrLine_valid w a v1, bind, Except.bind, beq_self_eq_true,
    addrLine_prefix w a _ n0 n1, hb]
  have : (a.Timestamp != 0 && a.Prefered != 0 && a.Valid != 0 && true) = true := by
    simp
    omega
  rw [if_pos this]
  rfl

/-- A prefix record the snapshot can carry: the numbers fit an `int`, and
time stamp and lifetimes are not zero. -/
def TAddrPrefix.storable (a : TAddrPrefix) : Prop :=
  0 < a.Timestamp ∧ a.Timestamp < 2 ^ 31 ∧ 0 < a.Prefered ∧ a.Prefered < 2 ^ 31 ∧
    0 < a.Valid ∧ a.Valid < 2 ^ 31 ∧ 0 ≤ a.Length ∧ a.Length < 2 ^ 31

/-- The prefix record the reader makes from the line of `a`. -/
def TAddrPrefix.restored (env : ReaderEnv) (w : WriterEnv) (a : TAddrPrefix) : TAddrPrefix :=
  { Prefix := env.parseAddr (w.printAddr a.Prefix), Prefered := a.Prefered, Valid := a.Valid,
    Timestamp := a.Timestamp, Tentative := ETentative.TENTATIVE_NO, Length := a.Length }

theorem prefixLine_has_AddrPrefix (w : WriterEnv) (a : TAddrPrefix) :
    hasTag (prefixLine w a) "<AddrPrefix" = true := by
  simp [hasTag, prefixLine, strstr_cons, isPrefixOf_cons_cons]

theorem prefixLine_no_close (w : WriterEnv) (a : TAddrPrefix) (h : plainText (w.printAddr a.Prefix)) :
    hasTag (prefixLine w a) "</AddrPD>" = false := by
  simp [hasTag, prefixLine, strstr_cons, strstr_nil, isPrefixOf_cons_cons, strstr_skip_dec,
    strstr_skip_head _ _ _ _ h.1]

theorem prefixLine_ts (w : WriterEnv) (a : TAddrPrefix) (hts : a.Timestamp < 2 ^ 31) :
    attrULong (prefixLine w a) "timestamp" 11 0 = .ok a.Timestamp := by
  have hu : a.Timestamp ≤ ULONG_MAX := by unfold ULONG_MAX; omega
  simp [attrULong, prefixLine, strstr_cons, strstr_nil, isPrefixOf_cons_cons, strstr_skip_dec,
    ptrAdd, atoi_dec _ _ _ hts, toULong_natCast _ hu, bind, Except.bind, pure, Except.pure]

theorem prefixLine_pref (w : WriterEnv) (a : TAddrPrefix) (hts : a.Prefered < 2 ^ 31) :
    attrULong (prefixLine w a) "pref=" 6 0 = .ok a.Prefered := by
  have hu : a.Prefered ≤ ULONG_MAX := by unfold ULONG_MAX; omega
  simp [attrULong, prefixLine, strstr_cons, strstr_nil, isPrefixOf_cons_cons, strstr_skip_dec,
    ptrAdd, atoi_dec _ _ _ hts, toULong_natCast _ hu, bind, Except.bind, pure, Except.pure]

theorem prefixLine_valid (w : WriterEnv) (a : TAddrPrefix) (hts : a.Valid < 2 ^ 31) :
    attrULong (prefixLine w a) "valid" 7 0 = .ok a.Valid := by
  have hu : a.Valid ≤ ULONG_MAX := by unfold ULONG_MAX; omega
  simp [attrULong, prefixLine, strstr_cons, strstr_nil, isPrefixOf_cons_cons, strstr_skip_dec,
    ptrAdd, atoi_dec _ _ _ hts, toULong_natCast _ hu, bind, Except.bind, pure, Except.pure]

theorem prefixLine_length (w : WriterEnv) (a : TAddrPrefix) (d : Int) (h0 : 0 ≤ a.Length)
    (h1 : a.Length < 2 ^ 31) : attrInt (prefixLine w a) "length=" 8 d = .ok a.Length := by
  have hn : a.Length.toNat < 2 ^ 31 := by omega
  have he : (a.Length.toNat : Int) = a.Length := Int.toNat_of_nonneg h0
  simp [attrInt, prefixLine, strstr_cons, strstr_nil, isPrefixOf_cons_cons, strstr_skip_dec,
    ptrAdd, atoi_dec _ _ _ hn, he, bind, Except.bind, pure, Except.pure]

theorem prefixLine_readAddr (env : ReaderEnv) (w : WriterEnv) (a : TAddrPrefix)
    (h : plainText (w.printAddr a.Prefix)) :
    ∃ b, readAddr env (prefixLine w a) "</AddrPrefix>" =
      .ok (some (env.parseAddr (w.printAddr a.Prefix)), b) := by
  have e : prefixLine w a =
      ("<AddrPrefix timestamp=\"".toList ++ dec a.Timestamp ++ "\" pref=\"".toList ++
        dec a.Prefered ++ "\" valid=\"".toList ++ dec a.Valid ++ "\" length=\"".toList ++
        dec a.Length.toNat ++ "\"".toList) ++
      '>' :: (w.printAddr a.Prefix ++ ("</AddrPrefix>".toList ++ "\n".toList)) := by
    simp [prefixLine]
  rw [e]
  refine ⟨_, readAddr_line env _ _ _ _ ?_ ?_⟩
  · intro c hc
    simp only [List.mem_append] at hc
    rcases hc with ((((((((hc | hc) | hc) | hc) | hc) | hc) | hc) | hc) | hc)
    all_goals first
      | exact dec_ne _ '>' (by decide) c hc
      | (rintro rfl; revert hc; decide)
  · rw [strstr_cons]
    simp only [isPrefixOf_cons_cons, show "</AddrPrefix>".toList = '<' :: "/AddrPrefix>".toList from rfl]
    rw [if_neg (by simp), strstr_skip_head _ _ _ _ h.1]
    simp [strstr_cons, isPrefixOf_cons_cons]

theorem parseAddrPrefix_prefixLine (env : ReaderEnv) (w : WriterEnv) (a : TAddrPrefix)
    (h : plainText (w.printAddr a.Prefix)) (hs : a.storable) :
    ∃ b, parseAddrPrefix env (prefixLine w a) true = .ok (some (a.restored env w), b) := by
  obtain ⟨t0, t1, p0, p1, v0, v1, n0, n1⟩ := hs
  obtain ⟨b, hb⟩ := prefixLine_readAddr env w a h
  refine ⟨b, ?_⟩
  unfold parseAddrPrefix
  simp only [prefixLine_has_AddrPrefix, Bool.or_true, if_true, prefixLine_ts w a t1,
    prefixLine_pref w a p1, prefixLine_valid w a v1, bind, Except.bind, beq_self_eq_true,
    prefixLine_length w a _ n0 n1, hb]
  have : (a.Timestamp != 0 && a.Prefered != 0 && a.Valid != 0 && true) = true := by
    simp
    omega
  rw [if_pos this]
  rfl

theorem foldLines_cons_ok {σ : Type} (pb : σ → Line → Except Fault (Ctl × σ × Line)) (st : σ)
    (l : Line) (ls : List Line) (r : Ctl × σ × Line) (h : pb st l = .ok r) :
    foldLines pb st (l :: ls) = foldLines pb r.2.1 ls := by
  rw [foldLines, h]

theorem duidLine_has_duid (txt : List Char) : hasTag (duidLine txt) "duid" = true := by
  simp [hasTag, duidLine, strstr_cons, isPrefixOf_cons_cons]

theorem duidLine_has_lt_duid (txt : List Char) : hasTag (duidLine txt) "<duid" = true := by
  simp [hasTag, duidLine, strstr_cons, isPrefixOf_cons_cons]

theorem duidLine_no_closeIA (txt : List Char) (h : ∀ c ∈ txt, c ≠ '<') :
    hasTag (duidLine txt) "</AddrIA>" = false := by
  simp [hasTag, duidLine, strstr_cons, strstr_nil, isPrefixOf_cons_cons,
    strstr_skip_head _ _ _ _ h]

theorem duidLine_no_closePD (txt : List Char) (h : ∀ c ∈ txt, c ≠ '<') :
    hasTag (duidLine txt) "</AddrPD>" = false := by
  simp [hasTag, duidLine, strstr_cons, strstr_nil, isPrefixOf_cons_cons,
    strstr_skip_head _ _ _ _ h]

/-- The IA loop on a `<duid>` line: a new IA replaces the one being read. -/
theorem iaBody_duidLine (env : ReaderEnv) (t1 t2 iaid iface : Int) (st : Option TAddrIA)
    (txt : List Char) (h : ∀ c ∈ txt, c ≠ '<') :
    pureOf (iaBody env t1 t2 iaid iface) st (duidLine txt) =
      .ok (Ctl.next, some ((TAddrIA.new env.now iface TIAType.TYPE_IA none (env.parseDUID txt)
        (toULong t1) (toULong t2) (toULong iaid)).setState EState.STATE_CONFIRMME),
        "<duid>".toList ++ txt) := by
  unfold pureOf iaBody
  rw [if_pos (duidLine_has_duid txt), readDuid_duidLine env txt h]
  rfl

/-- The IA loop on an address line: the record is appended to the IA. -/
theorem iaBody_addrLine (env : ReaderEnv) (w : WriterEnv) (t1 t2 iaid iface : Int)
    (i : TAddrIA) (a : TAddrAddr) (h : plainText (w.printAddr a.Addr)) (hs : a.storable) :
    ∃ b, pureOf (iaBody env t1 t2 iaid iface) (some i) (addrLine w a) =
      .ok (Ctl.next, some (i.addAddr (a.restored env w)), b) := by
  obtain ⟨b, hb⟩ := parseAddrAddr_addrLine env w a h hs
  obtain ⟨k, hk⟩ := parseAddrAddr_take _ _ _ _ hb
  have hc : hasTag b "</AddrIA>" = false := by
    have hk2 : b = (addrLine w a).take k := hk
    rw [hk2]
    exact hasTag_take _ _ _ (addrLine_no_close w a h)
  refine ⟨b, ?_⟩
  have h1 := addrLine_no_duid w a h
  have h2 : (a.restored env w).setTentative ETentative.TENTATIVE_NO = a.restored env w := rfl
  have h3 := addrLine_has_AddrAddr w a
  generalize addrLine w a = l at *
  simp only [pureOf, iaBody, h1, h3, if_true, hb, bind, Except.bind, pure,
    Except.pure, hc, Bool.false_eq_true, if_false, Except.map, h2]
theorem foldLines_addrLines (env : ReaderEnv) (w : WriterEnv) (t1 t2 iaid iface : Int)
    (close : Line) (addrs : List TAddrAddr) :
    (∀ a ∈ addrs, plainText (w.printAddr a.Addr) ∧ a.storable) →
    ∀ i : TAddrIA, foldLines (pureOf (iaBody env t1 t2 iaid iface)) (some i)
        (addrs.map (addrLine w) ++ [close]) =
      foldLines (pureOf (iaBody env t1 t2 iaid iface))
        (some { i with AddrLst := i.AddrLst ++ addrs.map (TAddrAddr.restored env w) }) [close] := by
  induction addrs with
  | nil =>
    intro _ i
    simp
  | cons a as ih =>
    intro h i
    obtain ⟨b, hb⟩ := iaBody_addrLine env w t1 t2 iaid iface i a (h a (List.mem_cons_self _ _)).1
      (h a (List.mem_cons_self _ _)).2
    rw [List.map_cons, List.cons_append, foldLines_cons_ok _ _ _ _ _ hb]
    dsimp only
    rw [ih (fun x hx => h x (List.mem_cons_of_mem _ hx))]
    simp [TAddrIA.addAddr]

/-- Modelled from the spec: the opening line of `ia` in the snapshot grammar
(spec §6), written by `operator<<` for `TAddrIA`, which is not in the sources
at hand. -/
def iaOpenLine (ia : TAddrIA) : Line :=
  "<AddrIA T1=\"".toList ++ dec ia.T1 ++ "\" T2=\"".toList ++ dec ia.T2 ++
    "\" IAID=\"".toList ++ dec ia.IAID ++ "\" iface=\"".toList ++ dec ia.Iface.toNat ++
    "\">\n".toList

/-- The element of a client section the writer emits for an IA: opening line,
`<duid>` line, one line per address, closing line. -/
def iaItem (w : WriterEnv) (ia : TAddrIA) : Item :=
  Item.ia (iaOpenLine ia) (duidLine (w.printDUID ia.DUID) :: ia.AddrLst.map (addrLine w))
    "</AddrIA>\n".toList

/-- The header of an IA the snapshot can carry: the numbers fit an `int` and
the text of the DUID has no `<`. -/
def TAddrIA.storableHead (w : WriterEnv) (ia : TAddrIA) : Prop :=
  ia.T1 < 2 ^ 31 ∧ ia.T2 < 2 ^ 31 ∧ ia.IAID < 2 ^ 31 ∧ 0 ≤ ia.Iface ∧ ia.Iface < 2 ^ 31 ∧
    ∀ c ∈ w.printDUID ia.DUID, c ≠ '<'

/-- An IA the snapshot can carry. -/
def TAddrIA.storableIA (w : WriterEnv) (ia : TAddrIA) : Prop :=
  ia.storableHead w ∧ ∀ a ∈ ia.AddrLst, plainText (w.printAddr a.Addr) ∧ a.storable

/-- The IA the reader makes from the lines of `ia`. -/
def TAddrIA.restoredIA (env : ReaderEnv) (w : WriterEnv) (ia : TAddrIA) : TAddrIA :=
  { Iface := ia.Iface, IAType := TIAType.TYPE_IA, SrvAddr := none,
    DUID := env.parseDUID (w.printDUID ia.DUID), T1 := ia.T1, T2 := ia.T2, IAID := ia.IAID,
    State := EState.STATE_CONFIRMME, Tentative := ETentative.TENTATIVE_NO,
    Timestamp := env.now, AddrLst := ia.AddrLst.map (TAddrAddr.restored env w),
    PrefixLst := [] }

theorem iaOpenLine_tags (ia : TAddrIA) :
    hasTag (iaOpenLine ia) "<duid" = false ∧ hasTag (iaOpenLine ia) "<AddrIA " = true ∧
    hasTag (iaOpenLine ia) "<AddrTA " = false ∧ hasTag (iaOpenLine ia) "<AddrPD " = false ∧
    hasTag (iaOpenLine ia) "</AddrClient>" = false := by
  refine ⟨?_, ?_, ?_, ?_, ?_⟩ <;>
    simp [hasTag, iaOpenLine, strstr_cons, strstr_nil, isPrefixOf_cons_cons, strstr_skip_dec]

theorem iaOpenLine_T1 (ia : TAddrIA) (h : ia.T1 < 2 ^ 31) :
    attrInt (iaOpenLine ia) "T1" 4 0 = .ok (ia.T1 : Int) := by
  simp [attrInt, iaOpenLine, strstr_cons, strstr_nil, isPrefixOf_cons_cons, strstr_skip_dec,
    ptrAdd, atoi_dec _ _ _ h, bind, Except.bind, pure, Except.pure]

theorem iaOpenLine_T2 (ia : TAddrIA) (h : ia.T2 < 2 ^ 31) :
    attrInt (iaOpenLine ia) "T2" 4 0 = .ok (ia.T2 : Int) := by
  simp [attrInt, iaOpenLine, strstr_cons, strstr_nil, isPrefixOf_cons_cons, strstr_skip_dec,
    ptrAdd, atoi_dec _ _ _ h, bind, Except.bind, pure, Except.pure]

theorem iaOpenLine_IAID (ia : TAddrIA) (h : ia.IAID < 2 ^ 31) :
    attrInt (iaOpenLine ia) "IAID" 6 0 = .ok (ia.IAID : Int) := by
  simp [attrInt, iaOpenLine, strstr_cons, strstr_nil, isPrefixOf_cons_cons, strstr_skip_dec,
    ptrAdd, atoi_dec _ _ _ h, bind, Except.bind, pure, Except.pure]

theorem iaOpenLine_iface (ia : TAddrIA) (h0 : 0 ≤ ia.Iface) (h : ia.Iface < 2 ^ 31) :
    attrInt (iaOpenLine ia) "iface" 7 0 = .ok ia.Iface := by
  have hn : ia.Iface.toNat < 2 ^ 31 := by omega
  have he : (ia.Iface.toNat : Int) = ia.Iface := Int.toNat_of_nonneg h0
  simp [attrInt, iaOpenLine, strstr_cons, strstr_nil, isPrefixOf_cons_cons, strstr_skip_dec,
    ptrAdd, atoi_dec _ _ _ hn, he, bind, Except.bind, pure, Except.pure]

theorem closeIA_tags :
    hasTag "</AddrIA>\n".toList "duid" = false ∧
    hasTag "</AddrIA>\n".toList "<AddrAddr" = false ∧
    hasTag "</AddrIA>\n".toList "</AddrIA>" = true := by
  decide

theorem any_restored (env : ReaderEnv) (w : WriterEnv) (l : List TAddrAddr) :
    (l.map (TAddrAddr.restored env w)).any
      (fun a => a.Tentative == ETentative.TENTATIVE_YES) = false := by
  induction l with
  | nil => rfl
  | cons a as ih =>
    rw [List.map_cons, List.any_cons, ih]
    rfl

theorem foldLines_closeIA (env : ReaderEnv) (t1 t2 iaid iface : Int) (st : Option TAddrIA) :
    foldLines (pureOf (iaBody env t1 t2 iaid iface)) st ["</AddrIA>\n".toList] = .ok st := by
  have hb : pureOf (iaBody env t1 t2 iaid iface) st "</AddrIA>\n".toList =
      .ok (Ctl.brk, st, "</AddrIA>\n".toList) := by
    unfold pureOf
    rw [iaBody_brk env _ _ _ _ _ closeIA_tags.1 closeIA_tags.2.1 closeIA_tags.2.2]
    rfl
  rw [foldLines_cons_ok _ _ _ _ _ hb]
  rfl

/-- What `parseAddrIA` returns for the lines of an IA the snapshot can carry. -/
theorem iaOfBlock_iaItem (env : ReaderEnv) (w : WriterEnv) (ia : TAddrIA)
    (h : ia.storableIA w) :
    iaOfBlock env ia.T1 ia.T2 ia.IAID ia.Iface
      ((duidLine (w.printDUID ia.DUID) :: ia.AddrLst.map (addrLine w)) ++
        ["</AddrIA>\n".toList]) = .ok (some (ia.restoredIA env w)) := by
  obtain ⟨⟨h1, h2, h3, h4, h5, h6⟩, ha⟩ := h
  unfold iaOfBlock
  rw [List.cons_append, foldLines_cons_ok _ _ _ _ _ (iaBody_duidLine env _ _ _ _ none _ h6)]
  dsimp only
  rw [foldLines_addrLines env w _ _ _ _ _ _ ha]
  rw [foldLines_closeIA]
  have u1 : toULong (ia.T1 : Int) = ia.T1 := toULong_natCast _ (by unfold ULONG_MAX; omega)
  have u2 : toULong (ia.T2 : Int) = ia.T2 := toULong_natCast _ (by unfold ULONG_MAX; omega)
  have u3 : toULong (ia.IAID : Int) = ia.IAID := toULong_natCast _ (by unfold ULONG_MAX; omega)
  simp only [foldLines, Except.map, Option.map, TAddrIA.recomputeTentative, TAddrIA.new,
    TAddrIA.setState, List.nil_append, any_restored, u1, u2, u3, TAddrIA.restoredIA,
    List.any_nil, Bool.or_self, Bool.false_eq_true, if_false]

theorem prefixLine_no_duid (w : WriterEnv) (a : TAddrPrefix)
    (h : plainText (w.printAddr a.Prefix)) : hasTag (prefixLine w a) "duid" = false := by
  simp [hasTag, prefixLine, strstr_cons, strstr_nil, isPrefixOf_cons_cons, strstr_skip_dec,
    strstr_skip_second _ _ _ _ _ h.2]

/-- The IA_PD loop on a `<duid>` line: a new IA_PD replaces the one being read. -/
theorem pdBody_duidLine (env : ReaderEnv) (t1 t2 iaid iface : Int) (st : Option TAddrIA)
    (txt : List Char) (h : ∀ c ∈ txt, c ≠ '<') :
    pureOf (pdBody env true t1 t2 iaid iface) st (duidLine txt) =
      .ok (Ctl.next, some ((TAddrIA.new env.now iface TIAType.TYPE_PD none (env.parseDUID txt)
        (toULong t1) (toULong t2) (toULong iaid)).setState EState.STATE_CONFIRMME),
        "<duid>".toList ++ txt) := by
  unfold pureOf pdBody
  rw [if_pos (duidLine_has_duid txt), readDuid_duidLine env txt h]
  rfl

/-- The IA_PD loop on a prefix line: the record is appended to the IA_PD. -/
theorem pdBody_prefixLine (env : ReaderEnv) (w : WriterEnv) (t1 t2 iaid iface : Int)
    (i : TAddrIA) (a : TAddrPrefix) (h : plainText (w.printAddr a.Prefix)) (hs : a.storable) :
    ∃ b, pureOf (pdBody env true t1 t2 iaid iface) (some i) (prefixLine w a) =
      .ok (Ctl.next, some (i.addPrefixRecord (a.restored env w)), b) := by
  obtain ⟨b, hb⟩ := parseAddrPrefix_prefixLine env w a h hs
  obtain ⟨k, hk⟩ := parseAddrPrefix_take _ _ _ _ hb
  have hc : hasTag b "</AddrPD>" = false := by
    have hk2 : b = (prefixLine w a).take k := hk
    rw [hk2]
    exact hasTag_take _ _ _ (prefixLine_no_close w a h)
  refine ⟨b, ?_⟩
  have h1 := prefixLine_no_duid w a h
  have h2 : (a.restored env w).setTentative ETentative.TENTATIVE_NO = a.restored env w := rfl
  have h3 := prefixLine_has_AddrPrefix w a
  generalize prefixLine w a = l at *
  simp only [pureOf, pdBody, h1, h3, if_true, hb, bind, Except.bind, pure,
    Except.pure, hc, Bool.false_eq_true, if_false, Except.map, h2]
theorem foldLines_prefixLines (env : ReaderEnv) (w : WriterEnv) (t1 t2 iaid iface : Int)
    (close : Line) (pfxs : List TAddrPrefix) :
    (∀ a ∈ pfxs, plainText (w.printAddr a.Prefix) ∧ a.storable) →
    ∀ i : TAddrIA, foldLines (pureOf (pdBody env true t1 t2 iaid iface)) (some i)
        (pfxs.map (prefixLine w) ++ [close]) =
      foldLines (pureOf (pdBody env true t1 t2 iaid iface))
        (some { i with PrefixLst := i.PrefixLst ++ pfxs.map (TAddrPrefix.restored env w) }) [close] := by
  induction pfxs with
  | nil =>
    intro _ i
    simp
  | cons a as ih =>
    intro h i
    obtain ⟨b, hb⟩ := pdBody_prefixLine env w t1 t2 iaid iface i a (h a (List.mem_cons_self _ _)).1
      (h a (List.mem_cons_self _ _)).2
    rw [List.map_cons, List.cons_append, foldLines_cons_ok _ _ _ _ _ hb]
    dsimp only
    rw [ih (fun x hx => h x (List.mem_cons_of_mem _ hx))]
    simp [TAddrIA.addPrefixRecord]

/-- Modelled from the spec: the opening line of `pd` in the snapshot grammar
(spec §6), written by `operator<<` for `TAddrIA`, which is not in the sources
at hand. -/
def pdOpenLine (ia : TAddrIA) : Line :=
  "<AddrPD T1=\"".toList ++ dec ia.T1 ++ "\" T2=\"".toList ++ dec ia.T2 ++
    "\" PDID=\"".toList ++ dec ia.IAID ++ "\" iface=\"".toList ++ dec ia.Iface.toNat ++
    "\">\n".toList

/-- The element of a client section the writer emits for an IA_PD: opening
line, `<duid>` line, one line per prefix, closing line. -/
def pdItem (w : WriterEnv) (ia : TAddrIA) : Item :=
  Item.pd (pdOpenLine ia) (duidLine (w.printDUID ia.DUID) :: ia.PrefixLst.map (prefixLine w))
    "</AddrPD>\n".toList

/-- An IA_PD the snapshot can carry. -/
def TAddrIA.storablePD (w : WriterEnv) (ia : TAddrIA) : Prop :=
  ia.storableHead w ∧ ∀ a ∈ ia.PrefixLst, plainText (w.printAddr a.Prefix) ∧ a.storable

/-- The IA_PD the reader makes from the lines of `ia`. -/
def TAddrIA.restoredPD (env : ReaderEnv) (w : WriterEnv) (ia : TAddrIA) : TAddrIA :=
  { Iface := ia.Iface, IAType := TIAType.TYPE_PD, SrvAddr := none,
    DUID := env.parseDUID (w.printDUID ia.DUID), T1 := ia.T1, T2 := ia.T2, IAID := ia.IAID,
    State := EState.STATE_CONFIRMME, Tentative := ETentative.TENTATIVE_NO,
    Timestamp := env.now, AddrLst := [],
    PrefixLst := ia.PrefixLst.map (TAddrPrefix.restored env w) }

theorem pdOpenLine_tags (ia : TAddrIA) :
    hasTag (pdOpenLine ia) "<duid" = false ∧ hasTag (pdOpenLine ia) "<AddrIA " = false ∧
    hasTag (pdOpenLine ia) "<AddrTA " = false ∧ hasTag (pdOpenLine ia) "<AddrPD " = true ∧
    hasTag (pdOpenLine ia) "</AddrClient>" = false := by
  refine ⟨?_, ?_, ?_, ?_, ?_⟩ <;>
    simp [hasTag, pdOpenLine, strstr_cons, strstr_nil, isPrefixOf_cons_cons, strstr_skip_dec]

theorem pdOpenLine_T1 (ia : TAddrIA) (h : ia.T1 < 2 ^ 31) :
    attrInt (pdOpenLine ia) "T1" 4 0 = .ok (ia.T1 : Int) := by
  simp [attrInt, pdOpenLine, strstr_cons, strstr_nil, isPrefixOf_cons_cons, strstr_skip_dec,
    ptrAdd, atoi_dec _ _ _ h, bind, Except.bind, pure, Except.pure]

theorem pdOpenLine_T2 (ia : TAddrIA) (h : ia.T2 < 2 ^ 31) :
    attrInt (pdOpenLine ia) "T2" 4 0 = .ok (ia.T2 : Int) := by
  simp [attrInt, pdOpenLine, strstr_cons, strstr_nil, isPrefixOf_cons_cons, strstr_skip_dec,
    ptrAdd, atoi_dec _ _ _ h, bind, Except.bind, pure, Except.pure]

theorem pdOpenLine_IAID (ia : TAddrIA) (h : ia.IAID < 2 ^ 31) :
    attrInt (pdOpenLine ia) "PDID" 6 0 = .ok (ia.IAID : Int) := by
  simp [attrInt, pdOpenLine, strstr_cons, strstr_nil, isPrefixOf_cons_cons, strstr_skip_dec,
    ptrAdd, atoi_dec _ _ _ h, bind, Except.bind, pure, Except.pure]

theorem pdOpenLine_iface (ia : TAddrIA) (h0 : 0 ≤ ia.Iface) (h : ia.Iface < 2 ^ 31) :
    attrInt (pdOpenLine ia) "iface" 7 0 = .ok ia.Iface := by
  have hn : ia.Iface.toNat < 2 ^ 31 := by omega
  have he : (ia.Iface.toNat : Int) = ia.Iface := Int.toNat_of_nonneg h0
  simp [attrInt, pdOpenLine, strstr_cons, strstr_nil, isPrefixOf_cons_cons, strstr_skip_dec,
    ptrAdd, atoi_dec _ _ _ hn, he, bind, Except.bind, pure, Except.pure]

theorem closePD_tags :
    hasTag "</AddrPD>\n".toList "duid" = false ∧
    hasTag "</AddrPD>\n".toList "<AddrPrefix" = false ∧
    hasTag "</AddrPD>\n".toList "</AddrPD>" = true := by
  decide

theorem any_restoredPrefix (env : ReaderEnv) (w : WriterEnv) (l : List TAddrPrefix) :
    (l.map (TAddrPrefix.restored env w)).any
      (fun a => a.Tentative == ETentative.TENTATIVE_YES) = false := by
  induction l with
  | nil => rfl
  | cons a as ih =>
    rw [List.map_cons, List.any_cons, ih]
    rfl

theorem foldLines_closePD (env : ReaderEnv) (t1 t2 iaid iface : Int) (st : Option TAddrIA) :
    foldLines (pureOf (pdBody env true t1 t2 iaid iface)) st ["</AddrPD>\n".toList] = .ok st := by
  have hb : pureOf (pdBody env true t1 t2 iaid iface) st "</AddrPD>\n".toList =
      .ok (Ctl.brk, st, "</AddrPD>\n".toList) := by
    unfold pureOf
    rw [pdBody_brk env true _ _ _ _ _ closePD_tags.1 closePD_tags.2.1 closePD_tags.2.2]
    rfl
  rw [foldLines_cons_ok _ _ _ _ _ hb]
  rfl

/-- What `parseAddrPD` returns for the lines of an IA_PD the snapshot can carry. -/
theorem pdOfBlock_pdItem (env : ReaderEnv) (w : WriterEnv) (ia : TAddrIA)
    (h : ia.storablePD w) :
    pdOfBlock env ia.T1 ia.T2 ia.IAID ia.Iface
      ((duidLine (w.printDUID ia.DUID) :: ia.PrefixLst.map (prefixLine w)) ++
        ["</AddrPD>\n".toList]) = .ok (some (ia.restoredPD env w)) := by
  obtain ⟨⟨h1, h2, h3, h4, h5, h6⟩, ha⟩ := h
  unfold pdOfBlock
  rw [List.cons_append, foldLines_cons_ok _ _ _ _ _ (pdBody_duidLine env _ _ _ _ none _ h6)]
  dsimp only
  rw [foldLines_prefixLines env w _ _ _ _ _ _ ha]
  rw [foldLines_closePD]
  have u1 : toULong (ia.T1 : Int) = ia.T1 := toULong_natCast _ (by unfold ULONG_MAX; omega)
  have u2 : toULong (ia.T2 : Int) = ia.T2 := toULong_natCast _ (by unfold ULONG_MAX; omega)
  have u3 : toULong (ia.IAID : Int) = ia.IAID := toULong_natCast _ (by unfold ULONG_MAX; omega)
  simp only [foldLines, Except.map, Option.map, TAddrIA.recomputeTentative, TAddrIA.new,
    TAddrIA.setState, List.nil_append, any_restoredPrefix, u1, u2, u3, TAddrIA.restoredPD,
    List.any_nil, Bool.or_self, Bool.false_eq_true, if_false]

/-! ## A client section of the writer -/

/-- The elements the writer emits between `<AddrClient>` and `</AddrClient>`
for a client whose DUID is written as `txt`: the `<duid>` line, the IAs, the
IA_PDs (spec §6). -/
def clientItems (w : WriterEnv) (txt : List Char) (c : TAddrClient) : List Item :=
  Item.line (duidLine txt) :: (c.IAsLst.map (iaItem w) ++ c.PDLst.map (pdItem w))

/-- A client whose IAs and IA_PDs the snapshot can carry. -/
def TAddrClient.storable (w : WriterEnv) (c : TAddrClient) : Prop :=
  (∀ ia ∈ c.IAsLst, ia.storableIA w) ∧ (∀ pd ∈ c.PDLst, pd.storablePD w)

/-- The client the reader makes from the section of `c` with the DUID written
as `txt`. -/
def TAddrClient.restored (env : ReaderEnv) (w : WriterEnv) (txt : List Char) (c : TAddrClient) :
    TAddrClient :=
  { DUID := env.parseDUID txt, SPI := 0, IAsLst := c.IAsLst.map (TAddrIA.restoredIA env w),
    TALst := [], PDLst := c.PDLst.map (TAddrIA.restoredPD env w) }

theorem iaItem_wellFormed (w : WriterEnv) (ia : TAddrIA) (h : ia.storableIA w) :
    (iaItem w ia).wellFormed = true := by
  obtain ⟨⟨-, -, -, -, -, h6⟩, ha⟩ := h
  obtain ⟨t0, t1, t2, t3, t4⟩ := iaOpenLine_tags ia
  obtain ⟨c1, c2, c3⟩ := closeIA_tags
  have hb : ∀ l ∈ duidLine (w.printDUID ia.DUID) :: ia.AddrLst.map (addrLine w),
      hasTag l "</AddrIA>" = false := by
    intro l hl
    rcases List.mem_cons.mp hl with rfl | hl
    · exact duidLine_no_closeIA _ h6
    · obtain ⟨a, ha1, rfl⟩ := List.mem_map.mp hl
      exact addrLine_no_close w a (ha a ha1).1
  unfold iaItem Item.wellFormed
  generalize iaOpenLine ia = o at *
  generalize duidLine (w.printDUID ia.DUID) :: ia.AddrLst.map (addrLine w) = b at *
  generalize "</AddrIA>\n".toList = c at *
  simp only [t0, t1, t2, t3, t4, c1, c2, c3, Bool.not_false, Bool.not_true, Bool.and_true,
    Bool.true_and, List.all_eq_true, Bool.not_eq_true']
  exact hb

theorem pdItem_wellFormed (w : WriterEnv) (ia : TAddrIA) (h : ia.storablePD w) :
    (pdItem w ia).wellFormed = true := by
  obtain ⟨⟨-, -, -, -, -, h6⟩, ha⟩ := h
  obtain ⟨t0, t1, t2, t3, t4⟩ := pdOpenLine_tags ia
  obtain ⟨c1, c2, c3⟩ := closePD_tags
  have hb : ∀ l ∈ duidLine (w.printDUID ia.DUID) :: ia.PrefixLst.map (prefixLine w),
      hasTag l "</AddrPD>" = false := by
    intro l hl
    rcases List.mem_cons.mp hl with rfl | hl
    · exact duidLine_no_closePD _ h6
    · obtain ⟨a, ha1, rfl⟩ := List.mem_map.mp hl
      exact prefixLine_no_close w a (ha a ha1).1
  unfold pdItem Item.wellFormed
  generalize pdOpenLine ia = o at *
  generalize duidLine (w.printDUID ia.DUID) :: ia.PrefixLst.map (prefixLine w) = b at *
  generalize "</AddrPD>\n".toList = c at *
  simp only [t0, t1, t2, t3, t4, c1, c2, c3, Bool.not_false, Bool.not_true, Bool.and_true,
    Bool.true_and, List.all_eq_true, Bool.not_eq_true']
  exact hb

theorem itemStep_iaItem (env : ReaderEnv) (w : WriterEnv) (cl : TAddrClient) (ia : TAddrIA)
    (h : ia.storableIA w) :
    itemStep env (some cl) (iaItem w ia) = .ok (some (cl.addIA (ia.restoredIA env w))) := by
  have hb := iaOfBlock_iaItem env w ia h
  obtain ⟨⟨h1, h2, h3, h4, h5, -⟩, -⟩ := h
  have a1 := iaOpenLine_T1 ia h1
  have a2 := iaOpenLine_T2 ia h2
  have a3 := iaOpenLine_IAID ia h3
  have a4 := iaOpenLine_iface ia h4 h5
  unfold iaItem
  rw [itemStep]
  generalize iaOpenLine ia = o at *
  generalize duidLine (w.printDUID ia.DUID) :: ia.AddrLst.map (addrLine w) ++
    ["</AddrIA>\n".toList] = b at *
  simp only [a1, a2, a3, a4, hb, bind, Except.bind, pure, Except.pure]

theorem itemStep_pdItem (env : ReaderEnv) (w : WriterEnv) (cl : TAddrClient) (ia : TAddrIA)
    (h : ia.storablePD w) :
    itemStep env (some cl) (pdItem w ia) = .ok (some (cl.addPD (ia.restoredPD env w))) := by
  have hb := pdOfBlock_pdItem env w ia h
  obtain ⟨⟨h1, h2, h3, h4, h5, -⟩, -⟩ := h
  have a1 := pdOpenLine_T1 ia h1
  have a2 := pdOpenLine_T2 ia h2
  have a3 := pdOpenLine_IAID ia h3
  have a4 := pdOpenLine_iface ia h4 h5
  unfold pdItem
  rw [itemStep]
  generalize pdOpenLine ia = o at *
  generalize duidLine (w.printDUID ia.DUID) :: ia.PrefixLst.map (prefixLine w) ++
    ["</AddrPD>\n".toList] = b at *
  simp only [a1, a2, a3, a4, hb, bind, Except.bind, pure, Except.pure]

theorem foldItems_append (env : ReaderEnv) (xs ys : List Item) :
    ∀ c, foldItems env c (xs ++ ys) =
      match foldItems env c xs with
      | .error e => .error e
      | .ok c1 => foldItems env c1 ys := by
  induction xs with
  | nil => intro c; rfl
  | cons x xs ih =>
    intro c
    rw [List.cons_append, foldItems, foldItems]
    cases itemStep env c x with
    | error e => rfl
    | ok c1 => exact ih c1

theorem foldItems_ias (env : ReaderEnv) (w : WriterEnv) (ias : List TAddrIA) :
    (∀ ia ∈ ias, ia.storableIA w) → ∀ cl : TAddrClient,
    foldItems env (some cl) (ias.map (iaItem w)) =
      .ok (some { cl with IAsLst := cl.IAsLst ++ ias.map (TAddrIA.restoredIA env w) }) := by
  induction ias with
  | nil => intro _ cl; simp [foldItems]
  | cons ia ias ih =>
    intro h cl
    rw [List.map_cons, foldItems, itemStep_iaItem env w cl ia (h ia (List.mem_cons_self _ _))]
    dsimp only
    rw [ih (fun x hx => h x (List.mem_cons_of_mem _ hx))]
    simp [TAddrClient.addIA]

theorem foldItems_pds (env : ReaderEnv) (w : WriterEnv) (pds : List TAddrIA) :
    (∀ pd ∈ pds, pd.storablePD w) → ∀ cl : TAddrClient,
    foldItems env (some cl) (pds.map (pdItem w)) =
      .ok (some { cl with PDLst := cl.PDLst ++ pds.map (TAddrIA.restoredPD env w) }) := by
  induction pds with
  | nil => intro _ cl; simp [foldItems]
  | cons pd pds ih =>
    intro h cl
    rw [List.map_cons, foldItems, itemStep_pdItem env w cl pd (h pd (List.mem_cons_self _ _))]
    dsimp only
    rw [ih (fun x hx => h x (List.mem_cons_of_mem _ hx))]
    simp [TAddrClient.addPD]

theorem itemStep_duidLine (env : ReaderEnv) (clnt : Option TAddrClient) (txt : List Char)
    (h : ∀ c ∈ txt, c ≠ '<') :
    itemStep env clnt (Item.line (duidLine txt)) =
      .ok (some (TAddrClient.new (env.parseDUID txt))) := by
  rw [itemStep, if_pos (duidLine_has_lt_duid txt), readDuid_duidLine env txt h]
  rfl

/-- The client the elements of a section of the writer build. -/
theorem foldItems_clientItems (env : ReaderEnv) (w : WriterEnv) (txt : List Char)
    (c : TAddrClient) (h : ∀ x ∈ txt, x ≠ '<') (hc : c.storable w) :
    foldItems env none (clientItems w txt c) = .ok (some (c.restored env w txt)) := by
  unfold clientItems
  rw [foldItems, itemStep_duidLine env none txt h]
  dsimp only
  rw [foldItems_append, foldItems_ias env w _ hc.1]
  dsimp only
  rw [foldItems_pds env w _ hc.2]
  simp [TAddrClient.new, TAddrClient.restored]

theorem clientItems_wellFormed (w : WriterEnv) (txt : List Char) (c : TAddrClient)
    (hc : c.storable w) : ∀ i ∈ clientItems w txt c, i.wellFormed = true := by
  intro i hi
  unfold clientItems at hi
  rcases List.mem_cons.mp hi with rfl | hi
  · rw [Item.wellFormed, duidLine_has_lt_duid]
    rfl
  · rcases List.mem_append.mp hi with hi | hi
    · obtain ⟨ia, h1, rfl⟩ := List.mem_map.mp hi
      exact iaItem_wellFormed w ia (hc.1 ia h1)
    · obtain ⟨pd, h1, rfl⟩ := List.mem_map.mp hi
      exact pdItem_wellFormed w pd (hc.2 pd h1)

/-- `parseAddrClient` on the section the writer emits for a client, after the
`<AddrClient>` line has been read: the restored client, and the file after the
`</AddrClient>` line. -/
theorem parseAddrClient_section (env : ReaderEnv) (w : WriterEnv) (txt : List Char)
    (c : TAddrClient) (h : ∀ x ∈ txt, x ≠ '<') (hc : c.storable w) (rest : List Line)
    (eaf : Bool) (fuel : Nat) (hfuel : (linesOf (clientItems w txt c)).length + 1 ≤ fuel) :
    parseAddrClient env fuel
        ⟨linesOf (clientItems w txt c) ++ "</AddrClient>\n".toList :: rest, eaf, false⟩ =
      .ok (some (c.restored env w txt), fileAfter rest eaf) := by
  unfold parseAddrClient
  rw [clientLoop_section env _ rest eaf (by decide) _ (clientItems_wellFormed w txt c hc) fuel
    none none hfuel, foldItems_clientItems env w txt c h hc]
  rfl

/-! ## The whole snapshot -/

/-- Modelled from the spec: the lines the writer emits for a client whose DUID
is written as `txt` (spec §6, `client`), by `operator<<` for `TAddrClient`,
which is not in the sources at hand. -/
def clientLines (w : WriterEnv) (txt : List Char) (c : TAddrClient) : List Line :=
  "<AddrClient>\n".toList :: (linesOf (clientItems w txt c) ++ ["</AddrClient>\n".toList])

/-- The lines of a list of client sections, each given by the text of the DUID
and the client. -/
def sectionLines (w : WriterEnv) (secs : List (List Char × TAddrClient)) : List Line :=
  (secs.map (fun s => clientLines w s.1 s.2)).flatten

/-- The state of the loop of `xmlLoadBuiltIn` after the given clients have been
read, one after the other. -/
def afterClients : LoadState → List TAddrClient → LoadState
  | st, [] => st
  | st, c :: cs => afterClients { st with clnt := some c, mgr := st.mgr.addClient c } cs

theorem loadBody_client (env : ReaderEnv) (w : WriterEnv) (txt : List Char) (c : TAddrClient)
    (h : ∀ x ∈ txt, x ≠ '<') (hc : c.storable w) (rest : List Line) (hrest : rest ≠ [])
    (eaf : Bool) (fuel : Nat) (hfuel : (linesOf (clientItems w txt c)).length + 1 ≤ fuel)
    (st : LoadState) (hst : st.AddrClient = true) :
    loadBody env fuel st "<AddrClient>\n".toList
        ⟨linesOf (clientItems w txt c) ++ "</AddrClient>\n".toList :: rest, eaf, false⟩ =
      .ok (Ctl.next, { st with clnt := some (c.restored env w txt),
                               mgr := st.mgr.addClient (c.restored env w txt) },
        "<AddrClient>\n".toList, ⟨rest, eaf, false⟩) := by
  have h1 : hasTag "<AddrClient>\n".toList "<AddrMgr>" = false := by decide
  have h2 : hasTag "<AddrClient>\n".toList "<AddrClient" = true := by decide
  have hp := parseAddrClient_section env w txt c h hc rest eaf fuel hfuel
  rw [fileAfter_ne rest eaf hrest] at hp
  unfold loadBody
  generalize "<AddrClient>\n".toList = l at *
  simp only [h1, h2, hst, hp, Bool.false_eq_true, if_false, Bool.and_self, if_true, bind,
    Except.bind, pure, Except.pure]

theorem loadBody_end (env : ReaderEnv) (fuel : Nat) (st : LoadState) (f : FILE) :
    loadBody env fuel st "</AddrMgr>\n".toList f =
      .ok (Ctl.brk, st, "</AddrMgr>\n".toList, f) := by
  have h1 : hasTag "</AddrMgr>\n".toList "<AddrMgr>" = false := by decide
  have h2 : hasTag "</AddrMgr>\n".toList "<AddrClient" = false := by decide
  have h3 : hasTag "</AddrMgr>\n".toList "</AddrMgr>" = true := by decide
  unfold loadBody
  generalize "</AddrMgr>\n".toList = l at *
  simp only [h1, h2, h3, Bool.false_eq_true, if_false, Bool.and_false, if_true, pure,
    Except.pure]

theorem sectionLines_cons (w : WriterEnv) (s : List Char × TAddrClient)
    (secs : List (List Char × TAddrClient)) (tail : List Line) :
    sectionLines w (s :: secs) ++ tail =
      "<AddrClient>\n".toList ::
        (linesOf (clientItems w s.1 s.2) ++
          "</AddrClient>\n".toList :: (sectionLines w secs ++ tail)) := by
  simp [sectionLines, clientLines]

theorem sectionLines_length_cons (w : WriterEnv) (s : List Char × TAddrClient)
    (secs : List (List Char × TAddrClient)) :
    (sectionLines w (s :: secs)).length =
      (linesOf (clientItems w s.1 s.2)).length + 2 + (sectionLines w secs).length := by
  simp [sectionLines, clientLines]
  omega

/-- The loop of `xmlLoadBuiltIn`, past the `<AddrMgr>` line, on the sections of
the writer followed by the `</AddrMgr>` line: every section adds its restored
client. -/
theorem loadLoop_sections (env : ReaderEnv) (w : WriterEnv) (eaf : Bool) :
    ∀ secs : List (List Char × TAddrClient),
    (∀ s ∈ secs, (∀ x ∈ s.1, x ≠ '<') ∧ s.2.storable w) →
    ∀ fuel st buf, st.AddrClient = true → (sectionLines w secs).length + 1 ≤ fuel →
      feofLoop (loadBody env) fuel st buf
          ⟨sectionLines w secs ++ ["</AddrMgr>\n".toList], eaf, false⟩ =
        .ok (afterClients st (secs.map (fun s => s.2.restored env w s.1)), fileAfter [] eaf) := by
  intro secs
  induction secs with
  | nil =>
    intro _ fuel st buf _ hfuel
    obtain ⟨n, rfl⟩ : ∃ n, fuel = n + 1 := ⟨fuel - 1, by omega⟩
    have e : sectionLines w [] ++ ["</AddrMgr>\n".toList] = ["</AddrMgr>\n".toList] := rfl
    rw [e, feofLoop_cons, loadBody_end]
    rfl
  | cons s secs ih =>
    intro hs fuel st buf hst hfuel
    obtain ⟨n, rfl⟩ : ∃ n, fuel = n + 1 := ⟨fuel - 1, by omega⟩
    rw [sectionLines_length_cons] at hfuel
    rw [sectionLines_cons, feofLoop_cons]
    have hflag : ((linesOf (clientItems w s.1 s.2) ++ "</AddrClient>\n".toList ::
        (sectionLines w secs ++ ["</AddrMgr>\n".toList])).isEmpty && eaf) = false := by
      cases h : linesOf (clientItems w s.1 s.2) ++ "</AddrClient>\n".toList ::
          (sectionLines w secs ++ ["</AddrMgr>\n".toList]) with
      | nil => simp at h
      | cons a b => rfl
    rw [hflag, loadBody_client env w s.1 s.2 (hs s (List.mem_cons_self _ _)).1
      (hs s (List.mem_cons_self _ _)).2 _ (by simp) eaf n (by omega) st hst]
    dsimp only
    exact ih (fun x hx => hs x (List.mem_cons_of_mem _ hx)) n
      { st with clnt := some (s.2.restored env w s.1),
                mgr := st.mgr.addClient (s.2.restored env w s.1) }
      (some "<AddrClient>\n".toList) hst (by omega)

theorem afterClients_mgr (cs : List TAddrClient) :
    ∀ st, (afterClients st cs).mgr = { st.mgr with ClntsLst := st.mgr.ClntsLst ++ cs } := by
  induction cs with
  | nil => intro st; simp [afterClients]
  | cons c cs ih =>
    intro st
    rw [afterClients, ih]
    simp [TAddrMgr.addClient]

theorem afterClients_clnt (cs : List TAddrClient) :
    ∀ st, (afterClients st cs).clnt.isSome = (st.clnt.isSome || !cs.isEmpty) := by
  induction cs with
  | nil => intro st; simp [afterClients]
  | cons c cs ih =>
    intro st
    rw [afterClients, ih]
    simp

/-! ## Reading a text line by line -/

/-- A line `fgets(buf, 255, f)` reads in one piece: it ends with a newline, has
no other newline and no NUL, and fits the buffer. -/
def oneLine (l : Line) : Prop :=
  ∃ body, l = body ++ ['\n'] ∧ (∀ c ∈ body, c ≠ '\n' ∧ c ≠ '\x00') ∧ body.length + 1 ≤ 254

theorem chunks_line (body : List Char) (rest : List Char) :
    ∀ acc : List Char, (∀ c ∈ body, c ≠ '\n') → acc.length + body.length + 1 ≤ 254 →
      chunks (body ++ '\n' :: rest) acc = (acc.reverse ++ body ++ ['\n']) :: chunks rest [] := by
  induction body with
  | nil =>
    intro acc _ _
    simp [chunks]
  | cons c cs ih =>
    intro acc h hl
    have hc : c ≠ '\n' := h c (List.mem_cons_self _ _)
    simp only [List.length_cons] at hl
    have h1 : (c == '\n' || acc.length + 1 == 254) = false := by
      simp only [Bool.or_eq_false_iff, beq_eq_false_iff_ne, ne_eq]
      exact ⟨hc, by omega⟩
    rw [List.cons_append, chunks, h1]
    simp only [Bool.false_eq_true, if_false]
    rw [ih (c :: acc) (fun x hx => h x (List.mem_cons_of_mem _ hx))
      (by simp only [List.length_cons]; omega)]
    simp

theorem chunks_flatten (lines : List Line) (h : ∀ l ∈ lines, oneLine l) :
    chunks lines.flatten [] = lines := by
  induction lines with
  | nil => rfl
  | cons l ls ih =>
    obtain ⟨body, rfl, hb, hlen⟩ := h l (List.mem_cons_self _ _)
    rw [List.flatten_cons, List.append_assoc, List.singleton_append,
      chunks_line body _ [] (fun c hc => (hb c hc).1) (by simpa using hlen),
      ih (fun x hx => h x (List.mem_cons_of_mem _ hx))]
    simp

theorem cstr_oneLine (l : Line) (h : oneLine l) : cstr l = l := by
  obtain ⟨body, rfl, hb, -⟩ := h
  unfold cstr
  rw [List.takeWhile_eq_self_iff]
  intro c hc
  rcases List.mem_append.mp hc with hc | hc
  · simpa using (hb c hc).2
  · rw [List.mem_singleton.mp hc]
    decide

/-- A text made of lines that each fit the buffer is read line by line, and
reading the last line does not hit the end of the file. -/
theorem fopen_flatten (lines : List Line) (h : ∀ l ∈ lines, oneLine l) :
    fopen lines.flatten = ⟨lines, false, false⟩ := by
  unfold fopen
  rw [chunks_flatten lines h]
  have h1 : lines.map cstr = lines := by
    conv_rhs => rw [← List.map_id lines]
    exact List.map_congr_left (fun l hl => cstr_oneLine l (h l hl))
  rw [h1]
  congr 1
  split
  · rfl
  · rename_i l hl
    obtain ⟨body, rfl, -, -⟩ := h l (List.mem_of_getLast?_eq_some hl)
    simp

/-- The line is read by one `fgets(buf, 255, f)`: at most 254 characters, the
last one a newline, before it neither a newline nor a NUL. -/
def fitsLine (l : Line) : Bool :=
  decide (l.length ≤ 254) && l.getLast? == some '\n' &&
    l.dropLast.all (fun c => c != '\n' && c != '\x00')

theorem oneLine_of_fitsLine (l : Line) (h : fitsLine l = true) : oneLine l := by
  simp only [fitsLine, Bool.and_eq_true, decide_eq_true_eq, beq_iff_eq, List.all_eq_true,
    bne_iff_ne, ne_eq] at h
  obtain ⟨⟨h1, h2⟩, h3⟩ := h
  have e : l = l.dropLast ++ ['\n'] := (List.dropLast_append_getLast? '\n' h2).symm
  refine ⟨l.dropLast, e, h3, ?_⟩
  have : l.length = l.dropLast.length + 1 := by
    conv_lhs => rw [e]
    simp
  omega

/-- The second line of a snapshot (AddrMgr.cpp:1125). -/
def tsLine (now : Nat) : Line := "  <timestamp>".toList ++ dec now ++ "</timestamp>\n".toList

/-- The lines of a snapshot with the given client sections: the lines
`operator<<(ostream&, TAddrMgr&)` writes itself (AddrMgr.cpp:1123-1137) around
the lines of the clients. -/
def snapshotLines (w : WriterEnv) (now : Nat) (secs : List (List Char × TAddrClient)) :
    List Line :=
  "<AddrMgr>\n".toList :: tsLine now :: (sectionLines w secs ++ ["</AddrMgr>\n".toList])

theorem loadBody_start (env : ReaderEnv) (fuel : Nat) (st : LoadState) (f : FILE) :
    loadBody env fuel st "<AddrMgr>\n".toList f =
      .ok (Ctl.next, { st with AddrClient := true }, "<AddrMgr>\n".toList, f) := by
  have h1 : hasTag "<AddrMgr>\n".toList "<AddrMgr>" = true := by decide
  unfold loadBody
  rw [if_pos h1]
  rfl

theorem loadBody_tsLine (env : ReaderEnv) (fuel : Nat) (st : LoadState) (f : FILE) (now : Nat) :
    loadBody env fuel st (tsLine now) f = .ok (Ctl.next, st, tsLine now, f) := by
  have h1 : hasTag (tsLine now) "<AddrMgr>" = false := by
    simp [hasTag, tsLine, strstr_cons, strstr_nil, isPrefixOf_cons_cons, strstr_skip_dec]
  have h2 : hasTag (tsLine now) "<AddrClient" = false := by
    simp [hasTag, tsLine, strstr_cons, strstr_nil, isPrefixOf_cons_cons, strstr_skip_dec]
  have h3 : hasTag (tsLine now) "</AddrMgr>" = false := by
    simp [hasTag, tsLine, strstr_cons, strstr_nil, isPrefixOf_cons_cons, strstr_skip_dec]
  unfold loadBody
  generalize tsLine now = l at *
  simp only [h1, h2, h3, Bool.false_eq_true, if_false, Bool.and_false, pure, Except.pure]

/-- The reader on a snapshot of the writer whose lines each fit the buffer:
every section adds its restored client to the list, in file order, and the
return value tells whether there was a section. -/
theorem xmlLoadBuiltIn_snapshot (env : ReaderEnv) (w : WriterEnv) (now : Nat) (m : TAddrMgr)
    (secs : List (List Char × TAddrClient))
    (hs : ∀ s ∈ secs, (∀ x ∈ s.1, x ≠ '<') ∧ s.2.storable w)
    (hl : ∀ l ∈ snapshotLines w now secs, fitsLine l = true) :
    m.xmlLoadBuiltIn env (some (snapshotLines w now secs).flatten) =
      .ok (!secs.isEmpty,
        { m with ClntsLst := m.ClntsLst ++ secs.map (fun s => s.2.restored env w s.1) }) := by
  unfold TAddrMgr.xmlLoadBuiltIn
  dsimp only
  rw [fopen_flatten _ (fun l h => oneLine_of_fitsLine l (hl l h))]
  dsimp only
  have hlen : (snapshotLines w now secs).length = (sectionLines w secs).length + 3 := by
    simp [snapshotLines]
  rw [hlen]
  unfold snapshotLines
  rw [feofLoop_cons, loadBody_start]
  simp only [Bool.and_false]
  rw [feofLoop_cons, loadBody_tsLine]
  simp only [Bool.and_false]
  rw [loadLoop_sections env w false secs hs _ _ _ rfl (by omega)]
  simp only [bind, Except.bind, pure, Except.pure, afterClients_mgr, afterClients_clnt]
  simp
  cases secs <;> rfl

/-! ## The round trip -/

/-- The text `operator<<(ostream&, TAddrMgr&)` (AddrMgr.cpp:1123-1137) writes:
the snapshot.  `x.print(strum)` is virtual and not in the sources at hand; by the
grammar of spec §6 nothing stands between the `<timestamp>` line and the first
client.  Each client is written with its own DUID. -/
def TAddrMgr.streamOut (w : WriterEnv) (now : Nat) (x : TAddrMgr) : List Char :=
  (snapshotLines w now (x.ClntsLst.map (fun c => (w.printDUID c.DUID, c)))).flatten

/-- An address record after a round trip: the reader marks it not tentative. -/
def TAddrAddr.reloaded (a : TAddrAddr) : TAddrAddr :=
  { a with Tentative := ETentative.TENTATIVE_NO }

/-- A prefix record after a round trip: the reader marks it not tentative. -/
def TAddrPrefix.reloaded (p : TAddrPrefix) : TAddrPrefix :=
  { p with Tentative := ETentative.TENTATIVE_NO }

/-- An IA after a round trip at time `now`: T1, T2, IAID, interface, DUID and
the addresses are kept; the state is `STATE_CONFIRMME`, the server address is
unset, the time stamp is `now`. -/
def TAddrIA.reloadedIA (now : Nat) (ia : TAddrIA) : TAddrIA :=
  { ia with
    IAType := TIAType.TYPE_IA, SrvAddr := none, State := EState.STATE_CONFIRMME,
    Tentative := ETentative.TENTATIVE_NO, Timestamp := now,
    AddrLst := ia.AddrLst.map TAddrAddr.reloaded, PrefixLst := [] }

/-- An IA_PD after a round trip at time `now`. -/
def TAddrIA.reloadedPD (now : Nat) (pd : TAddrIA) : TAddrIA :=
  { pd with
    IAType := TIAType.TYPE_PD, SrvAddr := none, State := EState.STATE_CONFIRMME,
    Tentative := ETentative.TENTATIVE_NO, Timestamp := now,
    AddrLst := [], PrefixLst := pd.PrefixLst.map TAddrPrefix.reloaded }

/-- A client after a round trip at time `now`: the DUID, the IAs and the IA_PDs
are kept, in order; there are no IA_TA records. -/
def TAddrClient.reloaded (now : Nat) (c : TAddrClient) : TAddrClient :=
  { c with
    SPI := 0, IAsLst := c.IAsLst.map (TAddrIA.reloadedIA now), TALst := [],
    PDLst := c.PDLst.map (TAddrIA.reloadedPD now) }

/-- The constructors `TDUID(const char*)` and `TIPv6Addr(const char*, true)`
read back what `getPlain()` writes, for every DUID and address of the
client. -/
def TAddrClient.readsBack (env : ReaderEnv) (w : WriterEnv) (c : TAddrClient) : Prop :=
  env.parseDUID (w.printDUID c.DUID) = c.DUID ∧
  (∀ ia ∈ c.IAsLst, env.parseDUID (w.printDUID ia.DUID) = ia.DUID ∧
    ∀ a ∈ ia.AddrLst, env.parseAddr (w.printAddr a.Addr) = a.Addr) ∧
  (∀ pd ∈ c.PDLst, env.parseDUID (w.printDUID pd.DUID) = pd.DUID ∧
    ∀ p ∈ pd.PrefixLst, env.parseAddr (w.printAddr p.Prefix) = p.Prefix)

theorem restored_eq_reloaded (env : ReaderEnv) (w : WriterEnv) (c : TAddrClient)
    (h : c.readsBack env w) :
    c.restored env w (w.printDUID c.DUID) = c.reloaded env.now := by
  obtain ⟨h1, h2, h3⟩ := h
  have e2 : c.IAsLst.map (TAddrIA.restoredIA env w) =
      c.IAsLst.map (TAddrIA.reloadedIA env.now) := by
    apply List.map_congr_left
    intro ia hia
    obtain ⟨d, ha⟩ := h2 ia hia
    have e : ia.AddrLst.map (TAddrAddr.restored env w) = ia.AddrLst.map TAddrAddr.reloaded := by
      apply List.map_congr_left
      intro a haa
      simp [TAddrAddr.restored, TAddrAddr.reloaded, ha a haa]
    simp [TAddrIA.restoredIA, TAddrIA.reloadedIA, d, e]
  have e3 : c.PDLst.map (TAddrIA.restoredPD env w) =
      c.PDLst.map (TAddrIA.reloadedPD env.now) := by
    apply List.map_congr_left
    intro pd hpd
    obtain ⟨d, ha⟩ := h3 pd hpd
    have e : pd.PrefixLst.map (TAddrPrefix.restored env w) =
        pd.PrefixLst.map TAddrPrefix.reloaded := by
      apply List.map_congr_left
      intro a haa
      simp [TAddrPrefix.restored, TAddrPrefix.reloaded, ha a haa]
    simp [TAddrIA.restoredPD, TAddrIA.reloadedPD, d, e]
  simp [TAddrClient.restored, TAddrClient.reloaded, h1, e2, e3]

/-- C18 (amended): for every tree of clients with IA and IA_PD records and no
IA_TA records, whose T1, T2, IAID, interface and lengths are below 2^31 and
whose time stamps and lifetimes lie between 1 and 2^31 - 1, written with a
DUID and address format the constructors read back and that avoids `<` (and
`u` in addresses), each line fitting the reader's buffer: reading the text
the writer emits returns true for a non-empty tree and appends the clients in
order, each with its DUID, its IAs and IA_PDs with the same T1, T2, IAID,
interface and DUID, and their addresses and prefixes with the same time
stamp, lifetimes and length; the IA state is `STATE_CONFIRMME`. -/
theorem snapshot_round_trip (env : ReaderEnv) (w : WriterEnv) (now : Nat) (m T : TAddrMgr)
    (hT : ∀ c ∈ T.ClntsLst, c.TALst = [] ∧ c.storable w ∧
      (∀ x ∈ w.printDUID c.DUID, x ≠ '<') ∧ c.readsBack env w)
    (hl : ∀ l ∈ snapshotLines w now (T.ClntsLst.map (fun c => (w.printDUID c.DUID, c))),
      fitsLine l = true) :
    m.xmlLoadBuiltIn env (some (T.streamOut w now)) =
      .ok (!T.ClntsLst.isEmpty,
        { m with ClntsLst := m.ClntsLst ++ T.ClntsLst.map (TAddrClient.reloaded env.now) }) := by
  unfold TAddrMgr.streamOut
  rw [xmlLoadBuiltIn_snapshot env w now m _ (by
    intro s hs
    obtain ⟨c, hc, rfl⟩ := List.mem_map.mp hs
    exact ⟨(hT c hc).2.2.1, (hT c hc).2.1⟩) hl]
  have e : (T.ClntsLst.map (fun c => (w.printDUID c.DUID, c))).map
      (fun s => s.2.restored env w s.1) = T.ClntsLst.map (TAddrClient.reloaded env.now) := by
    rw [List.map_map]
    apply List.map_congr_left
    intro c hc
    exact restored_eq_reloaded env w c (hT c hc).2.2.2
  rw [e]
  cases T.ClntsLst <;> rfl

/-! ## Example trees -/

/-- Bytes written as pairs of hexadecimal digits separated by colons. -/
def printHex : List Nat → List Char
  | [] => []
  | [b] => [Nat.digitChar (b / 16), Nat.digitChar (b % 16)]
  | b :: bs => Nat.digitChar (b / 16) :: Nat.digitChar (b % 16) :: ':' :: printHex bs

/-- An example writer environment: DUIDs and addresses are written as hex
pairs separated by colons. -/
def exW : WriterEnv :=
  { printDUID := fun d => printHex d.DUID, printAddr := fun a => printHex a.Addr }

/-- The address `2001:db8::1`. -/
def addr1 : TIPv6Addr := ⟨[0x20, 0x01, 0x0d, 0xb8, 0, 0, 0, 0, 0, 0, 0, 0, 0, 0, 0, 1]⟩

/-- The address `2001:db8::1` leased at time 100 with preferred lifetime
`pref` and valid lifetime 3600. -/
def exAddr (pref : Nat) : TAddrAddr :=
  { Addr := addr1, Prefered := pref, Valid := 3600, Timestamp := 100,
    Tentative := ETentative.TENTATIVE_NO, PrefixLen := 64 }

/-- The prefix `2001:db8:1::/48` leased at time 100. -/
def exPrefix : TAddrPrefix :=
  { Prefix := pfx1, Prefered := 1800, Valid := 3600, Timestamp := 100,
    Tentative := ETentative.TENTATIVE_NO, Length := 48 }

/-- IA 5 on interface 2 holding `exAddr pref`. -/
def exIA (pref : Nat) : TAddrIA :=
  { Iface := 2, IAType := TIAType.TYPE_IA, SrvAddr := none, DUID := duidB,
    T1 := 1000, T2 := 1600, IAID := 5, State := EState.STATE_CONFIGURED,
    Tentative := ETentative.TENTATIVE_NO, Timestamp := 90,
    AddrLst := [exAddr pref], PrefixLst := [] }

/-- IA_PD 7 on interface 2 holding `exPrefix`. -/
def exPD : TAddrIA :=
  { Iface := 2, IAType := TIAType.TYPE_PD, SrvAddr := none, DUID := duidB,
    T1 := 1000, T2 := 1600, IAID := 7, State := EState.STATE_CONFIGURED,
    Tentative := ETentative.TENTATIVE_NO, Timestamp := 90,
    AddrLst := [], PrefixLst := [exPrefix] }

/-- Client A with `exIA pref` and `exPD`. -/
def exClient (pref : Nat) : TAddrClient :=
  { DUID := duidA, SPI := 0, IAsLst := [exIA pref], TALst := [], PDLst := [exPD] }

/-- The tree with the one client `exClient pref`. -/
def exTree (pref : Nat) : TAddrMgr := { store0 with ClntsLst := [exClient pref] }

theorem exClient_storable : (exClient 1800).storable exW := by
  constructor
  · intro ia hia
    rw [List.mem_singleton.mp hia]
    refine ⟨⟨by decide, by decide, by decide, by decide, by decide, by decide⟩, ?_⟩
    intro a ha
    rw [List.mem_singleton.mp ha]
    exact ⟨⟨by decide, by decide⟩,
      ⟨by decide, by decide, by decide, by decide, by decide, by decide, by decide,
        by decide⟩⟩
  · intro pd hpd
    rw [List.mem_singleton.mp hpd]
    refine ⟨⟨by decide, by decide, by decide, by decide, by decide, by decide⟩, ?_⟩
    intro a ha
    rw [List.mem_singleton.mp ha]
    exact ⟨⟨by decide, by decide⟩,
      ⟨by decide, by decide, by decide, by decide, by decide, by decide, by decide,
        by decide⟩⟩

theorem exClient_readsBack : (exClient 1800).readsBack exEnv exW := by
  refine ⟨rfl, ?_, ?_⟩
  · intro ia hia
    rw [List.mem_singleton.mp hia]
    refine ⟨rfl, ?_⟩
    intro a ha
    rw [List.mem_singleton.mp ha]
    rfl
  · intro pd hpd
    rw [List.mem_singleton.mp hpd]
    refine ⟨rfl, ?_⟩
    intro a ha
    rw [List.mem_singleton.mp ha]
    rfl

set_option maxRecDepth 100000 in
theorem exTree_fits :
    ((snapshotLines exW 100 ((exTree 1800).ClntsLst.map
      (fun c => (exW.printDUID c.DUID, c)))).all fitsLine) = true := by
  decide

theorem snapshot_round_trip_witness :
    store0.xmlLoadBuiltIn exEnv (some ((exTree 1800).streamOut exW 100)) =
      .ok (!(exTree 1800).ClntsLst.isEmpty,
        { store0 with
          ClntsLst := store0.ClntsLst ++
            (exTree 1800).ClntsLst.map (TAddrClient.reloaded exEnv.now) }) :=
  snapshot_round_trip exEnv exW 100 store0 (exTree 1800)
    (fun c hc => by
      rw [List.mem_singleton.mp hc]
      exact ⟨rfl, exClient_storable, by decide, exClient_readsBack⟩)
    (fun l hl => List.all_eq_true.mp exTree_fits l hl)

set_option maxRecDepth 100000 in
/-- C18 (counterexample): an address with preferred lifetime 0 is written to
the snapshot but not restored: the IA of the tree holds one address, the IA
read back holds none. -/
theorem round_trip_zero_lifetime_counterexample :
    (store0.xmlLoadBuiltIn exEnv (some ((exTree 0).streamOut exW 100))).map
        (fun r => r.2.ClntsLst.map (fun c => c.IAsLst.map (fun ia => ia.AddrLst))) =
      .ok [[[]]] ∧
    (exTree 0).ClntsLst.map (fun c => c.IAsLst.map (fun ia => ia.AddrLst)) = [[[exAddr 0]]] :=
  ⟨rfl, rfl⟩

/-- A snapshot of three client sections; the `<duid>` line of the second
carries text that is no DUID. -/
def snapMalformedDuid : List Char :=
  ("<AddrMgr>\n" ++
   "  <timestamp>100</timestamp>\n" ++
   "<AddrClient>\n" ++
   "<duid>00:01:00:01:aa</duid>\n" ++
   "</AddrClient>\n" ++
   "<AddrClient>\n" ++
   "<duid>zz!</duid>\n" ++
   "</AddrClient>\n" ++
   "<AddrClient>\n" ++
   "<duid>00:01:00:01:bb</duid>\n" ++
   "</AddrClient>\n" ++
   "</AddrMgr>\n").toList

/-- C17 (counterexample): on a snapshot whose second client has a malformed
`<duid>` text the reader returns true and the store holds three clients, one
of them made from the malformed text, not only the first and the third. -/
theorem malformed_duid_counterexample :
    (store0.xmlLoadBuiltIn exEnv (some snapMalformedDuid)).map
        (fun r => (r.1, r.2.ClntsLst.map (fun c => c.DUID))) =
      .ok (true, [duidA, exEnv.parseDUID "zz!".toList, duidB]) :=
  rfl

/-- C17 (amended): in a snapshot of the writer's form the text on a client's
`<duid>` line is not validated: whatever text without `<` stands there, the
reader returns true and the store gets a record for every client section, in
file order, the one with the malformed text included; its DUID is what the
DUID constructor makes of the text. -/
theorem malformed_duid_text_loaded (env : ReaderEnv) (w : WriterEnv) (now : Nat) (m : TAddrMgr)
    (pre post : List (List Char × TAddrClient)) (bad : List Char) (c : TAddrClient)
    (hs : ∀ s ∈ pre ++ (bad, c) :: post, (∀ x ∈ s.1, x ≠ '<') ∧ s.2.storable w)
    (hl : ∀ l ∈ snapshotLines w now (pre ++ (bad, c) :: post), fitsLine l = true) :
    m.xmlLoadBuiltIn env (some (snapshotLines w now (pre ++ (bad, c) :: post)).flatten) =
        .ok (true,
          { m with
            ClntsLst := m.ClntsLst ++
              (pre.map (fun s => s.2.restored env w s.1) ++
                c.restored env w bad :: post.map (fun s => s.2.restored env w s.1)) }) ∧
      (c.restored env w bad).DUID = env.parseDUID bad := by
  refine ⟨?_, rfl⟩
  rw [xmlLoadBuiltIn_snapshot env w now m _ hs hl]
  simp

/-- The three sections of `snapMalformedDuid`. -/
def exSections : List (List Char × TAddrClient) × (List Char × TAddrClient) ×
    List (List Char × TAddrClient) :=
  ([("00:01:00:01:aa".toList, TAddrClient.new duidA)],
   ("zz!".toList, TAddrClient.new duidA),
   [("00:01:00:01:bb".toList, TAddrClient.new duidB)])

theorem exSections_ok : ∀ s ∈ exSections.1 ++ exSections.2.1 :: exSections.2.2,
    (∀ x ∈ s.1, x ≠ '<') ∧ s.2.storable exW := by
  intro s hs
  have hst : ∀ d, (TAddrClient.new d).storable exW := fun d =>
    ⟨fun ia hia => (by cases hia), fun pd hpd => (by cases hpd)⟩
  simp only [exSections, List.singleton_append, List.mem_cons, List.mem_singleton,
    List.not_mem_nil, or_false] at hs
  rcases hs with rfl | rfl | rfl
  · exact ⟨by decide, hst _⟩
  · exact ⟨by decide, hst _⟩
  · exact ⟨by decide, hst _⟩

set_option maxRecDepth 100000 in
theorem exSections_fit :
    (snapshotLines exW 100 (exSections.1 ++ exSections.2.1 :: exSections.2.2)).all fitsLine =
      true := by
  decide

theorem malformed_duid_text_loaded_witness :
    store0.xmlLoadBuiltIn exEnv (some (snapshotLines exW 100
        (exSections.1 ++ ("zz!".toList, TAddrClient.new duidA) :: exSections.2.2)).flatten) =
        .ok (true,
          { store0 with
            ClntsLst := store0.ClntsLst ++
              (exSections.1.map (fun s => s.2.restored exEnv exW s.1) ++
                (TAddrClient.new duidA).restored exEnv exW "zz!".toList ::
                  exSections.2.2.map (fun s => s.2.restored exEnv exW s.1)) }) ∧
      ((TAddrClient.new duidA).restored exEnv exW "zz!".toList).DUID =
        exEnv.parseDUID "zz!".toList :=
  malformed_duid_text_loaded exEnv exW 100 store0 exSections.1 exSections.2.2 "zz!".toList
    (TAddrClient.new duidA) exSections_ok (fun l hl => List.all_eq_true.mp exSections_fit l hl)

/-! ## `addPrefix` with a null prefix -/

/-- What `addPrefix` does with a null prefix: a client with the DUID is looked
up and, if there is none, created and added before the inner overload rejects
the null prefix (AddrMgr.cpp:279-285, 292-295). -/
theorem addPrefix_null (m : TAddrMgr) (now : Nat) (d : TDUID) (addr : Option TIPv6Addr)
    (iface : Int) (i T1 T2 : Nat) (pref valid : Nat) (len : Int) (quiet : Bool) :
    ((∀ y ∈ m.ClntsLst, y.DUID ≠ d) ∧
      m.addPrefix now d addr iface i T1 T2 none pref valid len quiet =
        (false, m.addClient (TAddrClient.new d))) ∨
    ((∃ y ∈ m.ClntsLst, y.DUID = d) ∧
      m.addPrefix now d addr iface i T1 T2 none pref valid len quiet = (false, m)) := by
  cases hf : m.findClient d with
  | none =>
    left
    refine ⟨findClient_eq_none.mp hf, ?_⟩
    simp only [TAddrMgr.addPrefix, hf, TAddrMgr.addPrefixClient, TAddrMgr.addClient]
    have := set_last m.ClntsLst (TAddrClient.new d) (TAddrClient.new d)
    simp [this]
  | some r =>
    obtain ⟨k, c⟩ := r
    right
    obtain ⟨pre, post, hl, hk, hd, hpre⟩ := findClient_eq_some.mp hf
    refine ⟨⟨c, by rw [hl]; simp, hd⟩, ?_⟩
    simp only [TAddrMgr.addPrefix, hf, TAddrMgr.addPrefixClient]
    have : m.ClntsLst.set k c = m.ClntsLst := by
      rw [hl, hk, set_mid]
    rw [this]

/-- C29 (code at the failing input): `addPrefix` with a null prefix for a DUID
the store does not know returns false but leaves a new client without any IA
in the store, so that `countClient` goes from 0 to 1; for a DUID the store
knows the store is unchanged. -/
theorem addPrefix_null_unknown_client :
    store0.addPrefix 100 duidA none 2 7 1000 1600 none 1800 3600 48 false =
      (false, { store0 with ClntsLst := [TAddrClient.new duidA] }) ∧
    store0.countClient = 0 ∧
    (store0.addPrefix 100 duidA none 2 7 1000 1600 none 1800 3600 48 false).2.countClient = 1 ∧
    storeA.addPrefix 100 duidA none 2 7 1000 1600 none 1800 3600 48 false = (false, storeA) := by
  decide

/-! ## Well-formedness across the three prefix operations -/

theorem updatePrefix_null (m : TAddrMgr) (now : Nat) (d : TDUID) (addr : Option TIPv6Addr)
    (iface : Int) (i T1 T2 : Nat) (pref valid : Nat) (len : Int) (quiet : Bool)
    (r : Bool × TAddrMgr)
    (h : m.updatePrefix now d addr iface i T1 T2 none pref valid len quiet = some r) :
    r = (false, m) := by
  unfold TAddrMgr.updatePrefix at h
  cases hf : m.findClient d with
  | none => rw [hf] at h; cases h
  | some q =>
    obtain ⟨k, c⟩ := q
    obtain ⟨pre, post, hl, hk, hd, hpre⟩ := findClient_eq_some.mp hf
    rw [hf] at h
    simp only [TAddrMgr.updatePrefixClient] at h
    have : m.ClntsLst.set k c = m.ClntsLst := by rw [hl, hk, set_mid]
    rw [this] at h
    cases h
    rfl

theorem addPrefix_any_WF (m : TAddrMgr) (now : Nat) (d : TDUID) (addr : Option TIPv6Addr)
    (iface : Int) (i T1 T2 : Nat) (pfx : Option TIPv6Addr) (pref valid : Nat) (len : Int)
    (quiet : Bool) (hwf : m.WF) :
    (m.addPrefix now d addr iface i T1 T2 pfx pref valid len quiet).2.WF := by
  cases pfx with
  | some p => exact addPrefix_WF m now d addr iface i T1 T2 p pref valid len quiet hwf
  | none =>
    rcases addPrefix_null m now d addr iface i T1 T2 pref valid len quiet with
      ⟨hall, hr⟩ | ⟨_, hr⟩
    · rw [hr]
      refine ⟨nodup_map_snoc hwf.1 (fun y hy => hall y hy), forall_mem_snoc hwf.2 ?_⟩
      exact ⟨by simp [TAddrClient.new], fun pd hpd => by simp [TAddrClient.new] at hpd⟩
    · rw [hr]
      exact hwf

theorem updatePrefix_WF (m : TAddrMgr) (now : Nat) (d : TDUID) (addr : Option TIPv6Addr)
    (iface : Int) (i T1 T2 : Nat) (pfx : Option TIPv6Addr) (pref valid : Nat) (len : Int)
    (quiet : Bool) (hwf : m.WF) (r : Bool × TAddrMgr)
    (h : m.updatePrefix now d addr iface i T1 T2 pfx pref valid len quiet = some r) :
    r.2.WF := by
  cases pfx with
  | none =>
    rw [updatePrefix_null m now d addr iface i T1 T2 pref valid len quiet r h]
    exact hwf
  | some p =>
    rcases updatePrefix_cases m now d addr iface i T1 T2 p pref valid len quiet with
      ⟨_, hr⟩ | ⟨pre, c, post, hl, hpre, hd, ⟨_, hr⟩ |
        ⟨ppre, pd, ppost, hl2, hppre, hi, ⟨_, hr⟩ | ⟨xpre, x, xpost, hl3, hxpre, hx, hr⟩⟩⟩
    · rw [hr] at h; cases h; exact hwf
    · rw [hr] at h; cases h; exact hwf
    · rw [hr] at h
      cases h
      have hcwf : c.WF := hwf.2 c (by simp [hl])
      obtain ⟨h1, h2⟩ := hwf
      rw [hl] at h1 h2
      obtain ⟨h3, h4⟩ := hcwf
      rw [hl2] at h3 h4
      refine ⟨nodup_map_mid_congr h1 rfl, forall_mem_mid h2 ?_⟩
      refine ⟨nodup_map_mid_congr h3 rfl, forall_mem_mid h4 ?_⟩
      exact h4 pd (by simp)
    · rw [hr] at h
      cases h
      have hcwf : c.WF := hwf.2 c (by simp [hl])
      obtain ⟨h1, h2⟩ := hwf
      rw [hl] at h1 h2
      obtain ⟨h3, h4⟩ := hcwf
      rw [hl2] at h3 h4
      refine ⟨nodup_map_mid_congr h1 rfl, forall_mem_mid h2 ?_⟩
      refine ⟨nodup_map_mid_congr h3 rfl, forall_mem_mid h4 ?_⟩
      have hpd : pd.WF := h4 pd (by simp)
      rw [TAddrIA.WF, hl3] at hpd
      exact nodup_map_mid_congr hpd rfl

/-- C26: each of `addPrefix`, `updatePrefix` and `delPrefix` keeps the store
well-formed (DUIDs pairwise distinct across clients, IAIDs among the IA_PDs of
a client, bases within an IA_PD), whatever it returns; for `updatePrefix`,
whenever it returns at all. -/
theorem prefix_operations_keep_WF (m : TAddrMgr) (hwf : m.WF) (now : Nat) (d : TDUID)
    (addr : Option TIPv6Addr) (iface : Int) (i T1 T2 : Nat) (pfx : Option TIPv6Addr)
    (p : TIPv6Addr) (pref valid : Nat) (len : Int) (quiet : Bool) :
    (m.addPrefix now d addr iface i T1 T2 pfx pref valid len quiet).2.WF ∧
    (∀ r, m.updatePrefix now d addr iface i T1 T2 pfx pref valid len quiet = some r → r.2.WF) ∧
    (pfx ≠ none ∨ (m.getClient d).isSome = true →
      ∃ r, m.updatePrefix now d addr iface i T1 T2 pfx pref valid len quiet = some r) ∧
    (m.delPrefix d i p quiet).2.WF := by
  refine ⟨addPrefix_any_WF m now d addr iface i T1 T2 pfx pref valid len quiet hwf,
    fun r h => updatePrefix_WF m now d addr iface i T1 T2 pfx pref valid len quiet hwf r h, ?_,
    delPrefix_WF m d i p quiet hwf⟩
  intro h
  unfold TAddrMgr.updatePrefix
  cases hf : m.findClient d with
  | none =>
    cases pfx with
    | none =>
      rcases h with h | h
      · exact absurd rfl h
      · simp [TAddrMgr.getClient, hf] at h
    | some p => exact ⟨_, rfl⟩
  | some q =>
    obtain ⟨k, c⟩ := q
    dsimp only
    split <;> exact ⟨_, rfl⟩

theorem prefix_operations_keep_WF_witness :
    (storeA.addPrefix 200 duidA none 2 7 1000 1600 (some pfx2) 1800 3600 48 false).2.WF ∧
    (∀ r, storeA.updatePrefix 200 duidA none 2 7 1000 1600 (some pfx2) 1800 3600 48 false =
      some r → r.2.WF) ∧
    (some pfx2 ≠ none ∨ (storeA.getClient duidA).isSome = true →
      ∃ r, storeA.updatePrefix 200 duidA none 2 7 1000 1600 (some pfx2) 1800 3600 48 false =
        some r) ∧
    (storeA.delPrefix duidA 7 pfx1 false).2.WF :=
  prefix_operations_keep_WF storeA
    (by
      refine ⟨by decide, ?_⟩
      intro c hc
      rw [List.mem_singleton.mp hc]
      refine ⟨by decide, ?_⟩
      intro pd hpd
      rw [List.mem_singleton.mp hpd]
      unfold TAddrIA.WF
      decide)
    200 duidA none 2 7 1000 1600 (some pfx2) pfx1 1800 3600 48 false

/-! ## Stores reachable by the three prefix operations -/

/-- One call of `addPrefix`, `updatePrefix` or `delPrefix`, with its arguments
and, for the first two, the clock reading during the call. -/
inductive PrefixOp where
  | add (now : Nat) (duid : TDUID) (addr : Option TIPv6Addr) (iface : Int) (IAID T1 T2 : Nat)
      (pfx : Option TIPv6Addr) (pref valid : Nat) (length : Int) (quiet : Bool)
  | update (now : Nat) (duid : TDUID) (addr : Option TIPv6Addr) (iface : Int) (IAID T1 T2 : Nat)
      (pfx : Option TIPv6Addr) (pref valid : Nat) (length : Int) (quiet : Bool)
  | del (duid : TDUID) (IAID : Nat) (pfx : TIPv6Addr) (quiet : Bool)
deriving DecidableEq, Repr

/-- The store after one call; `none` when the call dereferences a null pointer
(`updatePrefix` with a null prefix for an unknown client). -/
def runOp (m : TAddrMgr) : PrefixOp → Option TAddrMgr
  | .add now d addr iface i T1 T2 pfx pref valid len quiet =>
    some (m.addPrefix now d addr iface i T1 T2 pfx pref valid len quiet).2
  | .update now d addr iface i T1 T2 pfx pref valid len quiet =>
    (m.updatePrefix now d addr iface i T1 T2 pfx pref valid len quiet).map Prod.snd
  | .del d i p quiet => some (m.delPrefix d i p quiet).2

/-- The store after a sequence of calls. -/
def runOps : TAddrMgr → List PrefixOp → Option TAddrMgr
  | m, [] => some m
  | m, op :: rest =>
    match runOp m op with
    | none => none
    | some m1 => runOps m1 rest

/-- No client holds an IA_PD without prefixes. -/
def TAddrMgr.noEmptyPD (m : TAddrMgr) : Prop :=
  ∀ c ∈ m.ClntsLst, ∀ pd ∈ c.PDLst, pd.PrefixLst ≠ []

theorem addPrefix_noEmptyPD (m : TAddrMgr) (now : Nat) (d : TDUID) (addr : Option TIPv6Addr)
    (iface : Int) (i T1 T2 : Nat) (pfx : Option TIPv6Addr) (pref valid : Nat) (len : Int)
    (quiet : Bool) (h : m.noEmptyPD) :
    (m.addPrefix now d addr iface i T1 T2 pfx pref valid len quiet).2.noEmptyPD := by
  cases pfx with
  | none =>
    rcases addPrefix_null m now d addr iface i T1 T2 pref valid len quiet with
      ⟨_, hr⟩ | ⟨_, hr⟩
    · rw [hr]
      exact forall_mem_snoc h (fun pd hpd => by simp [TAddrClient.new] at hpd)
    · rw [hr]
      exact h
  | some p =>
    rcases addPrefix_cases m now d addr iface i T1 T2 p pref valid len quiet with
      ⟨hall, hr⟩ | ⟨pre, c, post, hl, hpre, hd, ⟨hno, hr⟩ |
        ⟨ppre, pd, ppost, hl2, hppre, hi, ⟨hnop, hr⟩ | ⟨hex, hr⟩⟩⟩
    · rw [hr]
      refine forall_mem_snoc h ?_
      intro pd hpd
      rw [List.mem_singleton.mp hpd]
      simp
    · rw [hr]
      have hc := h c (by simp [hl])
      unfold TAddrMgr.noEmptyPD at h
      rw [hl] at h
      refine forall_mem_mid h ?_
      refine forall_mem_snoc hc ?_
      simp
    · rw [hr]
      have hc := h c (by simp [hl])
      unfold TAddrMgr.noEmptyPD at h
      rw [hl] at h
      rw [hl2] at hc
      refine forall_mem_mid h ?_
      refine forall_mem_mid hc ?_
      simp
    · rw [hr]
      exact h

theorem updatePrefix_noEmptyPD (m : TAddrMgr) (now : Nat) (d : TDUID)
    (addr : Option TIPv6Addr) (iface : Int) (i T1 T2 : Nat) (pfx : Option TIPv6Addr)
    (pref valid : Nat) (len : Int) (quiet : Bool) (h : m.noEmptyPD) (r : Bool × TAddrMgr)
    (hr0 : m.updatePrefix now d addr iface i T1 T2 pfx pref valid len quiet = some r) :
    r.2.noEmptyPD := by
  cases pfx with
  | none =>
    rw [updatePrefix_null m now d addr iface i T1 T2 pref valid len quiet r hr0]
    exact h
  | some p =>
    rcases updatePrefix_cases m now d addr iface i T1 T2 p pref valid len quiet with
      ⟨_, hr⟩ | ⟨pre, c, post, hl, hpre, hd, ⟨_, hr⟩ |
        ⟨ppre, pd, ppost, hl2, hppre, hi, ⟨_, hr⟩ | ⟨xpre, x, xpost, hl3, hxpre, hx, hr⟩⟩⟩
    · rw [hr] at hr0; cases hr0; exact h
    · rw [hr] at hr0; cases hr0; exact h
    · rw [hr] at hr0
      cases hr0
      have hc := h c (by simp [hl])
      unfold TAddrMgr.noEmptyPD at h
      rw [hl] at h
      rw [hl2] at hc
      refine forall_mem_mid h ?_
      refine forall_mem_mid hc ?_
      exact hc pd (by simp)
    · rw [hr] at hr0
      cases hr0
      have hc := h c (by simp [hl])
      unfold TAddrMgr.noEmptyPD at h
      rw [hl] at h
      rw [hl2] at hc
      refine forall_mem_mid h ?_
      refine forall_mem_mid hc ?_
      simp

theorem delPrefix_noEmptyPD (m : TAddrMgr) (d : TDUID) (i : Nat) (p : TIPv6Addr)
    (quiet : Bool) (h : m.noEmptyPD) : (m.delPrefix d i p quiet).2.noEmptyPD := by
  rcases delPrefix_cases m d i p quiet with
    ⟨_, hr⟩ | ⟨pre, c, post, hl, hpre, hd, ⟨_, hr⟩ |
      ⟨ppre, pd, ppost, hl2, hppre, hi, ⟨_, hr⟩ | ⟨xpre, x, xpost, hl3, hxpre, hx, hr⟩⟩⟩
  · rw [hr]; exact h
  · rw [hr]; exact h
  · rw [hr]; exact h
  · rw [hr]
    have hc := h c (by simp [hl])
    unfold TAddrMgr.noEmptyPD at h
    rw [hl] at h
    rw [hl2] at hc
    have hpds : ∀ q ∈ pdLstAfterDel ppre ppost pd xpre xpost, q.PrefixLst ≠ [] := by
      by_cases hempty : xpre ++ xpost = []
      · simp only [pdLstAfterDel, if_pos hempty]
        exact forall_mem_erase hc
      · simp only [pdLstAfterDel, if_neg hempty]
        exact forall_mem_mid hc hempty
    unfold TAddrMgr.noEmptyPD
    by_cases hgone : c.IAsLst = [] ∧ c.TALst = [] ∧
        pdLstAfterDel ppre ppost pd xpre xpost = [] ∧ m.DeleteEmptyClient = true
    · simp only [clntsLstAfterDel, if_pos hgone]
      exact forall_mem_erase h
    · simp only [clntsLstAfterDel, if_neg hgone]
      exact forall_mem_mid h hpds

theorem runOps_noEmptyPD (ops : List PrefixOp) :
    ∀ m m2 : TAddrMgr, m.noEmptyPD → runOps m ops = some m2 → m2.noEmptyPD := by
  induction ops with
  | nil =>
    intro m m2 h hr
    cases hr
    exact h
  | cons op rest ih =>
    intro m m2 h hr
    unfold runOps at hr
    cases hop : runOp m op with
    | none => rw [hop] at hr; cases hr
    | some m1 =>
      rw [hop] at hr
      refine ih m1 m2 ?_ hr
      cases op with
      | add now d addr iface i T1 T2 pfx pref valid len quiet =>
        cases hop
        exact addPrefix_noEmptyPD m now d addr iface i T1 T2 pfx pref valid len quiet h
      | update now d addr iface i T1 T2 pfx pref valid len quiet =>
        simp only [runOp] at hop
        cases hu : m.updatePrefix now d addr iface i T1 T2 pfx pref valid len quiet with
        | none => rw [hu] at hop; cases hop
        | some r =>
          rw [hu] at hop
          cases hop
          exact updatePrefix_noEmptyPD m now d addr iface i T1 T2 pfx pref valid len quiet h r hu
      | del d i p quiet =>
        cases hop
        exact delPrefix_noEmptyPD m d i p quiet h

/-- The calls of the example: two prefixes are added to IA_PD 7 of client A,
one is refreshed, both are deleted. -/
def exOps : List PrefixOp :=
  [ PrefixOp.add 100 duidA none 2 7 1000 1600 (some pfx1) 1800 3600 48 false,
    PrefixOp.add 110 duidA none 2 7 1000 1600 (some pfx2) 1800 3600 48 false,
    PrefixOp.update 120 duidA none 2 7 1100 1700 (some pfx1) 1900 3700 48 false,
    PrefixOp.del duidA 7 pfx1 false,
    PrefixOp.add 130 duidB none 2 9 1000 1600 none 1800 3600 48 false,
    PrefixOp.del duidA 7 pfx2 false ]

/-- C27: in every store the empty store is taken to by a sequence of
`addPrefix`, `updatePrefix` and `delPrefix` calls, whatever their arguments and
return values, no client holds an IA_PD without prefixes. -/
theorem reachable_noEmptyPD (flag : Bool) (xmlFile : String) (ops : List PrefixOp)
    (m : TAddrMgr) (h : runOps (emptyStore flag xmlFile) ops = some m) : m.noEmptyPD :=
  runOps_noEmptyPD ops (emptyStore flag xmlFile) m
    (fun c hc => by simp [emptyStore, TAddrMgr.new] at hc) h

theorem reachable_noEmptyPD_witness :
    runOps (emptyStore true "db.xml") exOps =
        some { store0 with ClntsLst := [TAddrClient.new duidB] } ∧
      ({ store0 with ClntsLst := [TAddrClient.new duidB] } : TAddrMgr).noEmptyPD :=
  ⟨by decide, reachable_noEmptyPD true "db.xml" exOps _ (by decide)⟩

/-! ## The walks find one place -/

/-- A list splits in one way at the first element with a property. -/
theorem split_unique {α : Type} (P : α → Prop) :
    ∀ (pre pre2 post post2 : List α) (x x2 : α), pre ++ x :: post = pre2 ++ x2 :: post2 →
      P x → P x2 → (∀ y ∈ pre, ¬ P y) → (∀ y ∈ pre2, ¬ P y) →
      pre = pre2 ∧ x = x2 ∧ post = post2 := by
  intro pre
  induction pre with
  | nil =>
    intro pre2 post post2 x x2 h hx hx2 _ hpre2
    cases pre2 with
    | nil =>
      simp only [List.nil_append, List.cons.injEq] at h
      exact ⟨rfl, h.1, h.2⟩
    | cons a as =>
      simp only [List.nil_append, List.cons_append, List.cons.injEq] at h
      exact absurd (h.1 ▸ hx) (hpre2 a (List.mem_cons_self _ _))
  | cons a as ih =>
    intro pre2 post post2 x x2 h hx hx2 hpre hpre2
    cases pre2 with
    | nil =>
      simp only [List.nil_append, List.cons_append, List.cons.injEq] at h
      exact absurd (h.1 ▸ hx2) (hpre a (List.mem_cons_self _ _))
    | cons b bs =>
      simp only [List.cons_append, List.cons.injEq] at h
      obtain ⟨e1, e2, e3⟩ := ih bs post post2 x x2 h.2 hx hx2
        (fun y hy => hpre y (List.mem_cons_of_mem _ hy))
        (fun y hy => hpre2 y (List.mem_cons_of_mem _ hy))
      exact ⟨by rw [h.1, e1], e2, e3⟩

/-- The store after `delPrefix`, when client, IA_PD and prefix record are
found at the given places. -/
theorem delPrefix_at (m : TAddrMgr) (d : TDUID) (i : Nat) (p : TIPv6Addr) (quiet : Bool)
    (pre post : List TAddrClient) (c : TAddrClient) (ppre ppost : List TAddrIA) (pd : TAddrIA)
    (xpre xpost : List TAddrPrefix) (x : TAddrPrefix)
    (hl : m.ClntsLst = pre ++ c :: post) (hpre : ∀ y ∈ pre, y.DUID ≠ d) (hd : c.DUID = d)
    (hl2 : c.PDLst = ppre ++ pd :: ppost) (hppre : ∀ y ∈ ppre, y.IAID ≠ i) (hi : pd.IAID = i)
    (hl3 : pd.PrefixLst = xpre ++ x :: xpost) (hxpre : ∀ y ∈ xpre, y.Prefix ≠ p)
    (hx : x.Prefix = p) :
    m.delPrefix d i p quiet =
      (true, { m with ClntsLst := (clntsLstAfterDel m.DeleteEmptyClient pre post c
        (pdLstAfterDel ppre ppost pd xpre xpost)) }) := by
  rcases delPrefix_cases m d i p quiet with
    ⟨hall, _⟩ | ⟨pre2, c2, post2, hl', hpre', hd', hrest⟩
  · exact absurd hd (hall c (by rw [hl]; simp))
  · obtain ⟨e1, e2, e3⟩ := split_unique (fun y : TAddrClient => y.DUID = d) pre pre2 post post2
      c c2 (hl.symm.trans hl') hd hd' hpre hpre'
    subst e1 e2 e3
    rcases hrest with ⟨hno, _⟩ | ⟨ppre2, pd2, ppost2, hl2', hppre', hi', hrest2⟩
    · exact absurd hi (hno pd (by rw [hl2]; simp))
    · obtain ⟨e1, e2, e3⟩ := split_unique (fun y : TAddrIA => y.IAID = i) ppre ppre2 ppost ppost2
        pd pd2 (hl2.symm.trans hl2') hi hi' hppre hppre'
      subst e1 e2 e3
      rcases hrest2 with ⟨hno, _⟩ | ⟨xpre2, x2, xpost2, hl3', hxpre', hx', hr⟩
      · exact absurd hx (hno x (by rw [hl3]; simp))
      · obtain ⟨e1, e2, e3⟩ := split_unique (fun y : TAddrPrefix => y.Prefix = p) xpre xpre2
          xpost xpost2 x x2 (hl3.symm.trans hl3') hx hx' hxpre hxpre'
        subst e1 e2 e3
        exact hr

/-! ## `addPrefix` followed by `delPrefix` -/

theorem with_ClntsLst_self (m : TAddrMgr) : { m with ClntsLst := m.ClntsLst } = m := by
  cases m
  rfl

/-- Client A holds IA_PD 7 without any prefix, as the snapshot reader leaves
it for an `<AddrPD ...>` block without prefix lines. -/
def storeEmptyPD : TAddrMgr :=
  { ClntsLst := [
      { DUID := duidA, SPI := 0, IAsLst := [], TALst := [],
        PDLst := [
          { Iface := 2, IAType := TIAType.TYPE_PD, SrvAddr := none, DUID := duidA,
            T1 := 1000, T2 := 1600, IAID := 7, State := EState.STATE_CONFIRMME,
            Tentative := ETentative.TENTATIVE_NO, Timestamp := 100, AddrLst := [],
            PrefixLst := [] }] }],
    DeleteEmptyClient := true, XmlFile := "db.xml", IsDone := false }

/-- C28 (counterexample): in a store with the flag set and no client without
IAs, where IA_PD (A, 7) exists but holds no prefix, adding a prefix to it and
deleting the prefix again both return true, but the IA_PD and with it the
client are gone: the store is not the original one. -/
theorem add_then_del_counterexample :
    storeEmptyPD.DeleteEmptyClient = true ∧
    (∀ c ∈ storeEmptyPD.ClntsLst, ¬ (c.IAsLst = [] ∧ c.TALst = [] ∧ c.PDLst = [])) ∧
    storeEmptyPD.getPrefix duidA 7 pfx1 = none ∧
    (storeEmptyPD.addPrefix 200 duidA none 2 7 1000 1600 (some pfx1) 1800 3600 48 false).1 =
      true ∧
    (storeEmptyPD.addPrefix 200 duidA none 2 7 1000 1600 (some pfx1) 1800 3600 48 false).2.delPrefix
        duidA 7 pfx1 false = (true, { storeEmptyPD with ClntsLst := [] }) ∧
    ({ storeEmptyPD with ClntsLst := [] } : TAddrMgr) ≠ storeEmptyPD := by
  decide

/-- C28 (amended): in a store with `DeleteEmptyClient` set in which no client
has all three IA collections empty and in which the IA_PD the pair (d, i)
resolves to, if there is one, holds at least one prefix: for a non-null prefix
p not in that IA_PD, `addPrefix` returns true, and `delPrefix(d, i, p)` right
after it returns true and gives back the original store. -/
theorem add_then_del (m : TAddrMgr) (hflag : m.DeleteEmptyClient = true)
    (hne : ∀ c ∈ m.ClntsLst, ¬ (c.IAsLst = [] ∧ c.TALst = [] ∧ c.PDLst = []))
    (now : Nat) (d : TDUID) (addr : Option TIPv6Addr) (iface : Int) (i T1 T2 : Nat)
    (p : TIPv6Addr) (pref valid : Nat) (len : Int) (quiet quiet2 : Bool)
    (hfree : m.getPrefix d i p = none)
    (hlive : ∀ pd, m.getPD d i = some pd → pd.PrefixLst ≠ []) :
    (m.addPrefix now d addr iface i T1 T2 (some p) pref valid len quiet).1 = true ∧
    (m.addPrefix now d addr iface i T1 T2 (some p) pref valid len quiet).2.delPrefix d i p
      quiet2 = (true, m) := by
  rcases addPrefix_cases m now d addr iface i T1 T2 p pref valid len quiet with
    ⟨hall, hr⟩ | ⟨pre, c, post, hl, hpre, hd, ⟨hno, hr⟩ |
      ⟨ppre, pd, ppost, hl2, hppre, hi, ⟨hnop, hr⟩ | ⟨hex, hr⟩⟩⟩
  · rw [hr]
    refine ⟨rfl, ?_⟩
    rw [delPrefix_at _ d i p quiet2 m.ClntsLst [] _ [] [] _ [] [] _ rfl hall rfl rfl
      (by simp) rfl rfl (by simp) rfl]
    simp only [clntsLstAfterDel, pdLstAfterDel, TAddrClient.new, hflag, List.append_nil,
      and_self, if_true]
    rw [← hflag]
  · rw [hr]
    refine ⟨rfl, ?_⟩
    rw [delPrefix_at _ d i p quiet2 pre post
      { c with PDLst := c.PDLst ++
        [{ TAddrIA.new now iface TIAType.TYPE_PD addr d T1 T2 i with
            PrefixLst := [TAddrPrefix.new now p pref valid len] }] }
      c.PDLst [] _ [] [] _ rfl hpre hd rfl hno rfl rfl (by simp) rfl]
    have hc := hne c (by rw [hl]; simp)
    have hc2 : ¬ (c.IAsLst = [] ∧ c.TALst = [] ∧ c.PDLst = [] ∧ m.DeleteEmptyClient = true) :=
      fun h => hc ⟨h.1, h.2.1, h.2.2.1⟩
    simp only [clntsLstAfterDel, pdLstAfterDel, List.append_nil, if_true, hc2, if_false]
    rw [← hl]
  · rw [hr]
    refine ⟨rfl, ?_⟩
    rw [delPrefix_at _ d i p quiet2 pre post
      { c with PDLst := ppre ++
        { pd with PrefixLst := pd.PrefixLst ++ [TAddrPrefix.new now p pref valid len] }
          :: ppost }
      ppre ppost _ pd.PrefixLst [] _ rfl hpre hd rfl hppre hi rfl hnop rfl]
    have hpdne : pd.PrefixLst ≠ [] := hlive pd (getPD_split hl hpre hd hl2 hppre hi)
    have hpds : ¬ (ppre ++ pd :: ppost = []) := by simp
    simp only [clntsLstAfterDel, pdLstAfterDel, List.append_nil, hpdne, if_false]
    rw [← hl2]
    have hc2 : ¬ (c.IAsLst = [] ∧ c.TALst = [] ∧ c.PDLst = [] ∧ m.DeleteEmptyClient = true) := by
      rw [hl2]
      exact fun h => hpds h.2.2.1
    simp only [hc2, if_false]
    rw [← hl]
  · exfalso
    obtain ⟨x, hx, hxp⟩ := hex
    have hpdm : m.getPD d i = some pd := getPD_split hl hpre hd hl2 hppre hi
    have := getPrefix_of_getPD (p := p) hpdm
    rw [hfree] at this
    have hs : (pd.findPrefix p).isSome = true := findPrefix_isSome_iff.mpr ⟨x, hx, hxp⟩
    cases hfp : pd.findPrefix p with
    | none => rw [hfp] at hs; cases hs
    | some q => rw [hfp] at this; cases this

theorem add_then_del_witness :
    (storeA.addPrefix 200 duidA none 2 7 1000 1600 (some pfx2) 1800 3600 48 false).1 = true ∧
    (storeA.addPrefix 200 duidA none 2 7 1000 1600 (some pfx2) 1800 3600 48 false).2.delPrefix
      duidA 7 pfx2 false = (true, storeA) :=
  add_then_del storeA rfl (by decide) 200 duidA none 2 7 1000 1600 pfx2 1800 3600 48 false false
    (by decide) (by decide)

/-! ## `delPrefix` followed by `addPrefix` -/

theorem nodup_mid_ne {α β : Type} {f : α → β} {pre post : List α} {x : α}
    (h : ((pre ++ x :: post).map f).Nodup) : ∀ y ∈ pre ++ post, f y ≠ f x := by
  intro y hy e
  rw [List.map_append, List.map_cons] at h
  have h2 := (List.nodup_cons.mp (List.nodup_middle.mp h)).1
  apply h2
  rw [← e, ← List.map_append]
  exact List.mem_map_of_mem f hy

/-- The store after `addPrefix`, when client and IA_PD are found at the given
places and the IA_PD has no record with the base. -/
theorem addPrefix_at (m : TAddrMgr) (now : Nat) (d : TDUID) (addr : Option TIPv6Addr)
    (iface : Int) (i T1 T2 : Nat) (p : TIPv6Addr) (pref valid : Nat) (len : Int) (quiet : Bool)
    (pre post : List TAddrClient) (c : TAddrClient) (ppre ppost : List TAddrIA) (pd : TAddrIA)
    (hl : m.ClntsLst = pre ++ c :: post) (hpre : ∀ y ∈ pre, y.DUID ≠ d) (hd : c.DUID = d)
    (hl2 : c.PDLst = ppre ++ pd :: ppost) (hppre : ∀ y ∈ ppre, y.IAID ≠ i) (hi : pd.IAID = i)
    (hfree : ∀ y ∈ pd.PrefixLst, y.Prefix ≠ p) :
    m.addPrefix now d addr iface i T1 T2 (some p) pref valid len quiet =
      (true, { m with ClntsLst := pre ++ { c with PDLst := ppre ++
        { pd with PrefixLst := pd.PrefixLst ++ [TAddrPrefix.new now p pref valid len] }
          :: ppost } :: post }) := by
  rcases addPrefix_cases m now d addr iface i T1 T2 p pref valid len quiet with
    ⟨hall, _⟩ | ⟨pre2, c2, post2, hl', hpre', hd', hrest⟩
  · exact absurd hd (hall c (by rw [hl]; simp))
  · obtain ⟨e1, e2, e3⟩ := split_unique (fun y : TAddrClient => y.DUID = d) pre pre2 post post2
      c c2 (hl.symm.trans hl') hd hd' hpre hpre'
    subst e1 e2 e3
    rcases hrest with ⟨hno, _⟩ | ⟨ppre2, pd2, ppost2, hl2', hppre', hi', hrest2⟩
    · exact absurd hi (hno pd (by rw [hl2]; simp))
    · obtain ⟨e1, e2, e3⟩ := split_unique (fun y : TAddrIA => y.IAID = i) ppre ppre2 ppost ppost2
        pd pd2 (hl2.symm.trans hl2') hi hi' hppre hppre'
      subst e1 e2 e3
      rcases hrest2 with ⟨_, hr⟩ | ⟨⟨x, hx, hxp⟩, _⟩
      · exact hr
      · exact absurd hxp (hfree x hx)

theorem addPrefix_true_of_free (m : TAddrMgr) (now : Nat) (d : TDUID)
    (addr : Option TIPv6Addr) (iface : Int) (i T1 T2 : Nat) (p : TIPv6Addr) (pref valid : Nat)
    (len : Int) (quiet : Bool) (hfree : m.getPrefix d i p = none) :
    (m.addPrefix now d addr iface i T1 T2 (some p) pref valid len quiet).1 = true := by
  rcases addPrefix_cases m now d addr iface i T1 T2 p pref valid len quiet with
    ⟨hall, hr⟩ | ⟨pre, c, post, hl, hpre, hd, ⟨hno, hr⟩ |
      ⟨ppre, pd, ppost, hl2, hppre, hi, ⟨hnop, hr⟩ | ⟨hex, hr⟩⟩⟩
  · rw [hr]
  · rw [hr]
  · rw [hr]
  · exfalso
    obtain ⟨x, hx, hxp⟩ := hex
    have hpdm : m.getPD d i = some pd := getPD_split hl hpre hd hl2 hppre hi
    have := getPrefix_of_getPD (p := p) hpdm
    rw [hfree] at this
    have hs : (pd.findPrefix p).isSome = true := findPrefix_isSome_iff.mpr ⟨x, hx, hxp⟩
    cases hfp : pd.findPrefix p with
    | none => rw [hfp] at hs; cases hs
    | some q => rw [hfp] at this; cases this

/-- In a well-formed store the lease `delPrefix` removed is not found again. -/
theorem getPrefix_after_del (flag : Bool) (m : TAddrMgr) (hwf : m.WF) (d : TDUID) (i : Nat)
    (p : TIPv6Addr) (pre post : List TAddrClient) (c : TAddrClient)
    (ppre ppost : List TAddrIA) (pd : TAddrIA) (xpre xpost : List TAddrPrefix) (x : TAddrPrefix)
    (hl : m.ClntsLst = pre ++ c :: post) (hpre : ∀ y ∈ pre, y.DUID ≠ d) (hd : c.DUID = d)
    (hl2 : c.PDLst = ppre ++ pd :: ppost) (hppre : ∀ y ∈ ppre, y.IAID ≠ i) (hi : pd.IAID = i)
    (hl3 : pd.PrefixLst = xpre ++ x :: xpost) (hx : x.Prefix = p) :
    ({ m with ClntsLst := (clntsLstAfterDel flag pre post c
      (pdLstAfterDel ppre ppost pd xpre xpost)) } : TAddrMgr).getPrefix d i p = none := by
  have hcwf : c.WF := hwf.2 c (by simp [hl])
  obtain ⟨h1, _⟩ := hwf
  rw [hl] at h1
  obtain ⟨h3, h4⟩ := hcwf
  rw [hl2] at h3 h4
  have hpd : pd.WF := h4 pd (by simp)
  rw [TAddrIA.WF, hl3] at hpd
  have hx2 : ∀ y ∈ xpre ++ xpost, y.Prefix ≠ p := fun y hy => hx ▸ nodup_mid_ne hpd y hy
  have hp2 : ∀ y ∈ ppre ++ ppost, y.IAID ≠ i := fun y hy => hi ▸ nodup_mid_ne h3 y hy
  have hc2 : ∀ y ∈ pre ++ post, y.DUID ≠ d := fun y hy => hd ▸ nodup_mid_ne h1 y hy
  by_cases hgone : c.IAsLst = [] ∧ c.TALst = [] ∧
      pdLstAfterDel ppre ppost pd xpre xpost = [] ∧ flag = true
  · simp only [clntsLstAfterDel, if_pos hgone]
    exact getPrefix_of_getPD_none (getPD_of_getClient_none (getClient_eq_none.mpr hc2))
  · simp only [clntsLstAfterDel, if_neg hgone]
    by_cases hempty : xpre ++ xpost = []
    · simp only [pdLstAfterDel, if_pos hempty]
      exact getPrefix_of_getPD_none (getPD_noPD (c := { c with PDLst := ppre ++ ppost }) rfl hpre
        hd hp2)
    · simp only [pdLstAfterDel, if_neg hempty]
      have hg : ({ m with ClntsLst := pre ++
          { c with PDLst := ppre ++ { pd with PrefixLst := xpre ++ xpost } :: ppost } :: post } :
            TAddrMgr).getPD d i = some { pd with PrefixLst := xpre ++ xpost } :=
        getPD_split rfl hpre hd rfl hppre hi
      rw [getPrefix_of_getPD hg, findPrefix_eq_none.mpr hx2]
      rfl

/-- The store with every time stamp (of IAs, addresses and prefixes) set to
zero: what two stores that are equal modulo timestamps have in common. -/
def TAddrMgr.eraseTimestamps (m : TAddrMgr) : TAddrMgr :=
  let ia (x : TAddrIA) : TAddrIA :=
    { x with
      Timestamp := 0
      AddrLst := x.AddrLst.map (fun a => { a with Timestamp := 0 })
      PrefixLst := x.PrefixLst.map (fun q => { q with Timestamp := 0 }) }
  { m with
    ClntsLst := m.ClntsLst.map (fun c =>
      { c with IAsLst := c.IAsLst.map ia, TALst := c.TALst.map ia, PDLst := c.PDLst.map ia }) }

theorem getPrefix_some_split {m : TAddrMgr} {d : TDUID} {i : Nat} {p : TIPv6Addr}
    {x : TAddrPrefix} (h : m.getPrefix d i p = some x) :
    ∃ pre c post ppre pd ppost xpre xpost,
      m.ClntsLst = pre ++ c :: post ∧ (∀ y ∈ pre, y.DUID ≠ d) ∧ c.DUID = d ∧
      c.PDLst = ppre ++ pd :: ppost ∧ (∀ y ∈ ppre, y.IAID ≠ i) ∧ pd.IAID = i ∧
      pd.PrefixLst = xpre ++ x :: xpost ∧ (∀ y ∈ xpre, y.Prefix ≠ p) ∧ x.Prefix = p := by
  unfold TAddrMgr.getPrefix TAddrMgr.getPD TAddrMgr.getClient at h
  cases hf : m.findClient d with
  | none => simp [hf] at h
  | some r =>
    obtain ⟨k, c⟩ := r
    cases hf2 : c.findPD i with
    | none => simp [hf, hf2] at h
    | some r2 =>
      obtain ⟨k2, pd⟩ := r2
      cases hf3 : pd.findPrefix p with
      | none => simp [hf, hf2, hf3] at h
      | some r3 =>
        obtain ⟨k3, x3⟩ := r3
        simp only [hf, hf2, hf3, Option.some.injEq] at h
        subst h
        obtain ⟨pre, post, hl, _, hd, hpre⟩ := findClient_eq_some.mp hf
        obtain ⟨ppre, ppost, hl2, _, hi, hppre⟩ := findPD_eq_some.mp hf2
        obtain ⟨xpre, xpost, hl3, _, hx, hxpre⟩ := findPrefix_eq_some.mp hf3
        exact ⟨pre, c, post, ppre, pd, ppost, xpre, xpost, hl, hpre, hd, hl2, hppre, hi, hl3,
          hxpre, hx⟩

/-- Client A holds `2001:db8:1::/48` and `2001:db8:2::/48`, in this order, in
IA_PD 7. -/
def storeTwo : TAddrMgr :=
  { ClntsLst := [
      { DUID := duidA, SPI := 0, IAsLst := [], TALst := [],
        PDLst := [
          { Iface := 2, IAType := TIAType.TYPE_PD, SrvAddr := none, DUID := duidA,
            T1 := 1000, T2 := 1600, IAID := 7, State := EState.STATE_NOTCONFIGURED,
            Tentative := ETentative.TENTATIVE_UNKNOWN, Timestamp := 100, AddrLst := [],
            PrefixLst := [
              { Prefix := pfx1, Prefered := 1800, Valid := 3600, Timestamp := 100,
                Tentative := ETentative.TENTATIVE_NO, Length := 48 },
              { Prefix := pfx2, Prefered := 1800, Valid := 3600, Timestamp := 100,
                Tentative := ETentative.TENTATIVE_NO, Length := 48 }] }] }],
    DeleteEmptyClient := true, XmlFile := "db.xml", IsDone := false }

/-- C25 (counterexample): deleting the first of the two prefixes of an IA_PD
and adding it again with the same arguments puts it behind the other one: the
store is not the original one, time stamps set aside. -/
theorem del_then_add_counterexample :
    storeTwo.getPrefix duidA 7 pfx1 =
      some { Prefix := pfx1, Prefered := 1800, Valid := 3600, Timestamp := 100,
             Tentative := ETentative.TENTATIVE_NO, Length := 48 } ∧
    (storeTwo.delPrefix duidA 7 pfx1 false).1 = true ∧
    ((storeTwo.delPrefix duidA 7 pfx1 false).2.addPrefix 200 duidA none 2 7 1000 1600
      (some pfx1) 1800 3600 48 false).1 = true ∧
    ((storeTwo.delPrefix duidA 7 pfx1 false).2.addPrefix 200 duidA none 2 7 1000 1600
      (some pfx1) 1800 3600 48 false).2.eraseTimestamps ≠ storeTwo.eraseTimestamps := by
  decide

/-- C25 (amended): in a well-formed store, for a prefix p held by client d in
IA_PD i, `delPrefix` and then `addPrefix` with the same DUID, IAID and prefix
both return true and the store holds the same leases as before.  The prefix
is added at the end of the prefix list (an IA_PD or client that went with the
prefix is created anew at the end of its list): the store equals the original
one modulo timestamps when p was the last of two or more prefixes of its
IA_PD, its record was not tentative, and lifetimes and length are those of the
record. -/
theorem del_then_add (m : TAddrMgr) (hwf : m.WF) (d : TDUID) (i : Nat) (p : TIPv6Addr)
    (x : TAddrPrefix) (hx : m.getPrefix d i p = some x) (now : Nat)
    (addr : Option TIPv6Addr) (iface : Int) (T1 T2 pref valid : Nat) (len : Int)
    (quiet quiet2 : Bool) :
    (m.delPrefix d i p quiet).1 = true ∧
    ((m.delPrefix d i p quiet).2.addPrefix now d addr iface i T1 T2 (some p) pref valid len
      quiet2).1 = true ∧
    ((m.delPrefix d i p quiet).2.addPrefix now d addr iface i T1 T2 (some p) pref valid len
      quiet2).2.keys.Perm m.keys ∧
    (∀ pd xpre, m.getPD d i = some pd → pd.PrefixLst = xpre ++ [x] → xpre ≠ [] →
      x.Tentative = ETentative.TENTATIVE_NO → pref = x.Prefered → valid = x.Valid →
      len = x.Length →
      ((m.delPrefix d i p quiet).2.addPrefix now d addr iface i T1 T2 (some p) pref valid len
        quiet2).2.eraseTimestamps = m.eraseTimestamps) := by
  obtain ⟨pre, c, post, ppre, pd, ppost, xpre, xpost, hl, hpre, hd, hl2, hppre, hi, hl3, hxpre,
    hxp⟩ := getPrefix_some_split hx
  have hdel := delPrefix_at m d i p quiet pre post c ppre ppost pd xpre xpost x hl hpre hd hl2
    hppre hi hl3 hxpre hxp
  have hfree := getPrefix_after_del m.DeleteEmptyClient m hwf d i p pre post c ppre ppost pd
    xpre xpost x hl hpre hd hl2 hppre hi hl3 hxp
  rw [hdel]
  have hadd := addPrefix_true_of_free _ now d addr iface i T1 T2 p pref valid len quiet2 hfree
  refine ⟨rfl, hadd, ?_, ?_⟩
  · obtain ⟨A, B, hAB, hk⟩ := addPrefix_keys _ now d addr iface i T1 T2 p pref valid len quiet2
      hadd
    obtain ⟨k1, k2⟩ := keys_after_del m.DeleteEmptyClient pre post c ppre ppost pd xpre xpost x
      hl2 hl3
    rw [hk]
    have e1 : m.keys = clientsKeys (pre ++ c :: post) := by rw [TAddrMgr.keys, hl]
    rw [e1, k1, hd, hi, hxp]
    have e2 : A ++ B = _ := hAB.symm.trans k2
    rw [hd, hi] at e2
    refine (List.perm_middle.trans ?_).trans List.perm_middle.symm
    rw [e2]
  · intro pd2 xpre2 hpd2 hlast hne hten hpref hvalid hlen
    have hpdm : m.getPD d i = some pd := getPD_split hl hpre hd hl2 hppre hi
    rw [hpdm] at hpd2
    cases hpd2
    have hpdwf : pd.WF := (hwf.2 c (by simp [hl])).2 pd (by simp [hl2])
    have hx2 : ∀ y ∈ xpre2, y.Prefix ≠ p := by
      intro y hy
      rw [TAddrIA.WF, hlast] at hpdwf
      have := nodup_mid_ne hpdwf y (by simpa using hy)
      rwa [hxp] at this
    obtain ⟨e1, -, e3⟩ := split_unique (fun y : TAddrPrefix => y.Prefix = p) xpre xpre2 xpost []
      x x (hl3.symm.trans hlast) hxp hxp hxpre hx2
    subst e1 e3
    have hne2 : ¬ (xpre ++ [] = []) := by simpa using hne
    have hgone : ¬ (c.IAsLst = [] ∧ c.TALst = [] ∧
        ppre ++ { pd with PrefixLst := xpre ++ [] } :: ppost = [] ∧
        m.DeleteEmptyClient = true) := by simp
    simp only [pdLstAfterDel, if_neg hne2, clntsLstAfterDel, if_neg hgone]
    rw [addPrefix_at _ now d addr iface i T1 T2 p pref valid len quiet2 pre post
      { c with PDLst := ppre ++ { pd with PrefixLst := xpre ++ [] } :: ppost } ppre ppost
      { pd with PrefixLst := xpre ++ [] } rfl hpre hd rfl hppre hi
      (by simpa using hxpre)]
    have hrec : ({ TAddrPrefix.new now p pref valid len with Timestamp := 0 } : TAddrPrefix) =
        { x with Timestamp := 0 } := by
      cases x
      simp only [TAddrPrefix.new] at *
      subst hxp hten hpref hvalid hlen
      rfl
    simp only [TAddrMgr.eraseTimestamps, hl, hl2, hl3, List.map_append, List.map_cons,
      List.map_nil, List.append_nil, hrec]

/-- The record of `2001:db8:2::/48` in `storeTwo`. -/
def recPfx2 : TAddrPrefix :=
  { Prefix := pfx2, Prefered := 1800, Valid := 3600, Timestamp := 100,
    Tentative := ETentative.TENTATIVE_NO, Length := 48 }

theorem del_then_add_witness :
    (storeTwo.delPrefix duidA 7 pfx2 false).1 = true ∧
    ((storeTwo.delPrefix duidA 7 pfx2 false).2.addPrefix 200 duidA none 2 7 1000 1600
      (some pfx2) 1800 3600 48 false).1 = true ∧
    ((storeTwo.delPrefix duidA 7 pfx2 false).2.addPrefix 200 duidA none 2 7 1000 1600
      (some pfx2) 1800 3600 48 false).2.keys.Perm storeTwo.keys ∧
    (∀ pd xpre, storeTwo.getPD duidA 7 = some pd →
      pd.PrefixLst = xpre ++ [recPfx2] → xpre ≠ [] →
      ETentative.TENTATIVE_NO = ETentative.TENTATIVE_NO → 1800 = 1800 → 3600 = 3600 →
      (48 : Int) = 48 →
      ((storeTwo.delPrefix duidA 7 pfx2 false).2.addPrefix 200 duidA none 2 7 1000 1600
        (some pfx2) 1800 3600 48 false).2.eraseTimestamps = storeTwo.eraseTimestamps) :=
  del_then_add storeTwo
    (by
      refine ⟨by decide, ?_⟩
      intro c hc
      rw [List.mem_singleton.mp hc]
      refine ⟨by decide, ?_⟩
      intro pd hpd
      rw [List.mem_singleton.mp hpd]
      unfold TAddrIA.WF
      decide)
    duidA 7 pfx2 recPfx2 (by decide) 200 none 2 1000 1600 1800 3600 48 false false

/-! ## Snapshots cut short, and numbers beyond `int` -/

/-- A snapshot of one client with one IA holding one address. -/
def snapFull : List Char :=
  ("<AddrMgr>\n" ++
   "  <timestamp>100</timestamp>\n" ++
   "<AddrClient>\n" ++
   "<duid>00:01:00:01:aa</duid>\n" ++
   "<AddrIA T1=\"1000\" T2=\"1600\" IAID=\"5\" iface=\"2\">\n" ++
   "<duid>00:01:00:01:bb</duid>\n" ++
   "<AddrAddr timestamp=\"100\" pref=\"1800\" valid=\"3600\" prefix=\"64\">2001:db8::1</AddrAddr>\n" ++
   "</AddrIA>\n" ++
   "</AddrClient>\n" ++
   "</AddrMgr>\n").toList

/-- The snapshot `snapFull` without its last line `</AddrMgr>`. -/
def snapCutMgr : List Char :=
  ("<AddrMgr>\n" ++
   "  <timestamp>100</timestamp>\n" ++
   "<AddrClient>\n" ++
   "<duid>00:01:00:01:aa</duid>\n" ++
   "<AddrIA T1=\"1000\" T2=\"1600\" IAID=\"5\" iface=\"2\">\n" ++
   "<duid>00:01:00:01:bb</duid>\n" ++
   "<AddrAddr timestamp=\"100\" pref=\"1800\" valid=\"3600\" prefix=\"64\">2001:db8::1</AddrAddr>\n" ++
   "</AddrIA>\n" ++
   "</AddrClient>\n").toList

/-- The snapshot `snapFull` without its last three lines `</AddrIA>`,
`</AddrClient>`, `</AddrMgr>`. -/
def snapCutIA : List Char :=
  ("<AddrMgr>\n" ++
   "  <timestamp>100</timestamp>\n" ++
   "<AddrClient>\n" ++
   "<duid>00:01:00:01:aa</duid>\n" ++
   "<AddrIA T1=\"1000\" T2=\"1600\" IAID=\"5\" iface=\"2\">\n" ++
   "<duid>00:01:00:01:bb</duid>\n" ++
   "<AddrAddr timestamp=\"100\" pref=\"1800\" valid=\"3600\" prefix=\"64\">2001:db8::1</AddrAddr>\n").toList

/-- The number of addresses of each IA of each client of the store a load
returns. -/
def addrCounts (r : Except Fault (Bool × TAddrMgr)) : Except Fault (List (List Nat)) :=
  r.map (fun x => x.2.ClntsLst.map (fun c => c.IAsLst.map (fun ia => ia.AddrLst.length)))

/-- C22 (code at the failing inputs): the full snapshot loads one client with
one IA with one address.  Cut before `</AddrMgr>`, the loop of `xmlLoadBuiltIn`
runs once more on the stale `<AddrClient>` line after `fgets` has failed, gets
a null client and dereferences it.  Cut before `</AddrIA>`, the loop of
`parseAddrIA` runs once more on the stale address line and the address is
restored twice. -/
theorem eof_before_closing_tags :
    addrCounts (store0.xmlLoadBuiltIn exEnv (some snapFull)) = .ok [[1]] ∧
    store0.xmlLoadBuiltIn exEnv (some snapCutMgr) = .error Fault.nullDeref ∧
    addrCounts (store0.xmlLoadBuiltIn exEnv (some snapCutIA)) = .ok [[2]] :=
  ⟨rfl, rfl, rfl⟩

/-- A snapshot of one client with one IA whose T1 is `t1`, written as the
writer writes it. -/
def snapT1 (t1 : String) : List Char :=
  ("<AddrMgr>\n" ++
   "  <timestamp>100</timestamp>\n" ++
   "<AddrClient>\n" ++
   "<duid>00:01:00:01:aa</duid>\n" ++
   "<AddrIA T1=\"" ++ t1 ++ "\" T2=\"1600\" IAID=\"5\" iface=\"2\">\n" ++
   "<duid>00:01:00:01:bb</duid>\n" ++
   "</AddrIA>\n" ++
   "</AddrClient>\n" ++
   "</AddrMgr>\n").toList

/-- T1, T2, IAID and interface of each IA of each client of the store a load
returns. -/
def iaHeaders (r : Except Fault (Bool × TAddrMgr)) :
    Except Fault (List (List (Nat × Nat × Nat × Int))) :=
  r.map (fun x => x.2.ClntsLst.map (fun c =>
    c.IAsLst.map (fun ia => (ia.T1, ia.T2, ia.IAID, ia.Iface))))

/-- C23 (code at the failing input): T1 = 4294967295 is in the unsigned 32-bit
range, but `t1 = atoi(x+4)` reads it into an `int`, which cannot hold it: the
IA does not get T1 = 4294967295 (a fault in the model).  The largest `int`
is read back exactly. -/
theorem attr_beyond_int :
    iaHeaders (store0.xmlLoadBuiltIn exEnv (some (snapT1 "4294967295"))) =
      .error Fault.intOverflow ∧
    iaHeaders (store0.xmlLoadBuiltIn exEnv (some (snapT1 "2147483647"))) =
      .ok [[(2147483647, 1600, 5, 2)]] :=
  ⟨rfl, rfl⟩

/-- An address line as the writer writes it, with preferred lifetime `pref`. -/
def addrLineText (pref : String) : Line :=
  ("<AddrAddr timestamp=\"100\" pref=\"" ++ pref ++
    "\" valid=\"3600\" prefix=\"64\">2001:db8::1</AddrAddr>\n").toList

/-- C30 (code at the failing input): a resource line whose preferred lifetime
is `DHCPV6_INFINITY` = 4294967295, non-zero like time stamp and valid
lifetime, is not restored with that lifetime: `pref = atoi(x+6)` cannot return
the number (a fault in the model).  With 1800 the record is restored with
exactly the values of the line, and with 0 it is dropped. -/
theorem resource_line_infinity :
    (parseAddrAddr exEnv (addrLineText "4294967295") false).map Prod.fst =
      .error Fault.intOverflow ∧
    (parseAddrAddr exEnv (addrLineText "1800") false).map Prod.fst =
      .ok (some { Addr := exEnv.parseAddr "2001:db8::1".toList, Prefered := 1800,
                  Valid := 3600, Timestamp := 100, Tentative := ETentative.TENTATIVE_NO,
                  PrefixLen := 64 }) ∧
    (parseAddrAddr exEnv (addrLineText "0") false).map Prod.fst = .ok none :=
  ⟨rfl, rfl, rfl⟩

/-! ## What holds of everything the reader builds -/

/-- A property of the locals that every run of the body keeps is kept by the
loop. -/
theorem feofLoop_inv {σ : Type}
    (body : Nat → σ → Line → FILE → Except Fault (Ctl × σ × Line × FILE)) (I : σ → Prop)
    (hb : ∀ n st b f r, I st → body n st b f = .ok r → I r.2.1) :
    ∀ n st buf f r, I st → feofLoop body n st buf f = .ok r → I r.1 := by
  intro n
  induction n with
  | zero =>
    intro st buf f r _ h
    simp [feofLoop] at h
  | succ n ih =>
    intro st buf f r hst h
    rw [feofLoop] at h
    split at h
    · cases h
      exact hst
    · split at h
      · cases h
      · rename_i b hb0
        split at h
        · cases h
        · rename_i st1 b1 f1 hbody
          cases h
          exact hb _ _ _ _ _ hst hbody
        · rename_i st1 b1 f1 hbody
          exact ih st1 (some b1) f1 r (hb _ _ _ _ _ hst hbody) h

/-- The IA is in state `STATE_CONFIRMME`, if there is one. -/
def confirmMe (ia : Option TAddrIA) : Prop :=
  ∀ x, ia = some x → x.State = EState.STATE_CONFIRMME

theorem iaBody_confirmMe (env : ReaderEnv) (t1 t2 iaid iface : Int) (n : Nat)
    (st : Option TAddrIA) (b : Line) (f : FILE) (r : Ctl × Option TAddrIA × Line × FILE)
    (hst : confirmMe st) (h : iaBody env t1 t2 iaid iface n st b f = .ok r) :
    confirmMe r.2.1 := by
  unfold iaBody at h
  split at h
  · obtain ⟨d, -, h⟩ := bind_ok _ _ _ h
    cases h
    intro x hx
    cases hx
    rfl
  · dsimp only at h
    split at h
    · obtain ⟨a, -, h⟩ := bind_ok _ _ _ h
      split at h
      · rename_i i0 addr0 hi0 ha0
        simp only [pure, Except.pure, bind, Except.bind] at h
        split at h <;>
          (cases h
           intro x hx
           cases hx
           have h0 := hst _ rfl
           exact h0)
      · simp only [pure, Except.pure, bind, Except.bind] at h
        split at h <;> (cases h; exact hst)
    · simp only [pure, Except.pure, bind, Except.bind] at h
      split at h <;> (cases h; exact hst)

theorem pdBody_confirmMe (env : ReaderEnv) (AddrPD : Bool) (t1 t2 iaid iface : Int) (n : Nat)
    (st : Option TAddrIA) (b : Line) (f : FILE) (r : Ctl × Option TAddrIA × Line × FILE)
    (hst : confirmMe st) (h : pdBody env AddrPD t1 t2 iaid iface n st b f = .ok r) :
    confirmMe r.2.1 := by
  unfold pdBody at h
  split at h
  · obtain ⟨d, -, h⟩ := bind_ok _ _ _ h
    cases h
    intro x hx
    cases hx
    rfl
  · dsimp only at h
    split at h
    · obtain ⟨a, -, h⟩ := bind_ok _ _ _ h
      split at h
      · rename_i i0 addr0 hi0 ha0
        simp only [pure, Except.pure, bind, Except.bind] at h
        split at h <;>
          (cases h
           intro x hx
           cases hx
           have h0 := hst _ rfl
           exact h0)
      · simp only [pure, Except.pure, bind, Except.bind] at h
        split at h <;> (cases h; exact hst)
    · simp only [pure, Except.pure, bind, Except.bind] at h
      split at h <;> (cases h; exact hst)

theorem confirmMe_recompute (s : Option TAddrIA) (h : confirmMe s) :
    confirmMe (s.map TAddrIA.recomputeTentative) := by
  intro x hx
  cases s with
  | none => cases hx
  | some y =>
    cases hx
    exact h y rfl

theorem parseAddrIA_confirmMe (env : ReaderEnv) (fuel : Nat) (f : FILE) (a : Bool)
    (t1 t2 iaid iface : Int) (r : Option TAddrIA × FILE)
    (h : parseAddrIA env fuel f a t1 t2 iaid iface = .ok r) : confirmMe r.1 := by
  unfold parseAddrIA at h
  obtain ⟨q, hq, h⟩ := bind_ok _ _ _ h
  cases h
  exact confirmMe_recompute _ (feofLoop_inv _ confirmMe
    (fun n st b f r => iaBody_confirmMe env t1 t2 iaid iface n st b f r) fuel none none f q
    (fun x hx => by cases hx) hq)

theorem parseAddrPD_confirmMe (env : ReaderEnv) (fuel : Nat) (f : FILE) (a : Bool)
    (t1 t2 iaid iface : Int) (r : Option TAddrIA × FILE)
    (h : parseAddrPD env fuel f a t1 t2 iaid iface = .ok r) : confirmMe r.1 := by
  unfold parseAddrPD at h
  split at h
  · obtain ⟨q, hq, h⟩ := bind_ok _ _ _ h
    cases h
    exact confirmMe_recompute _ (feofLoop_inv _ confirmMe
      (fun n st b f r => pdBody_confirmMe env a t1 t2 iaid iface n st b f r) fuel none none f q
      (fun x hx => by cases hx) hq)
  · cases h
    intro x hx
    cases hx

/-- Every IA and IA_PD of the client is in state `STATE_CONFIRMME`. -/
def TAddrClient.allConfirmMe (c : TAddrClient) : Prop :=
  (∀ ia ∈ c.IAsLst, ia.State = EState.STATE_CONFIRMME) ∧
  (∀ pd ∈ c.PDLst, pd.State = EState.STATE_CONFIRMME)

/-- The client being read, if there is one, has all its IAs and IA_PDs in state
`STATE_CONFIRMME`. -/
def clntConfirmMe (clnt : Option TAddrClient) : Prop := ∀ c, clnt = some c → c.allConfirmMe

theorem clientIA_confirmMe (env : ReaderEnv) (n : Nat) (clnt : Option TAddrClient) (b : Line)
    (f : FILE) (r : Option TAddrClient × FILE) (hst : clntConfirmMe clnt)
    (h : clientIA env n clnt b f = .ok r) : clntConfirmMe r.1 := by
  unfold clientIA at h
  split at h
  · obtain ⟨t1, -, h⟩ := bind_ok _ _ _ h
    obtain ⟨t2, -, h⟩ := bind_ok _ _ _ h
    obtain ⟨iaid, -, h⟩ := bind_ok _ _ _ h
    obtain ⟨iface, -, h⟩ := bind_ok _ _ _ h
    obtain ⟨q, hq, h⟩ := bind_ok _ _ _ h
    have hia := parseAddrIA_confirmMe env n f true t1 t2 iaid iface q hq
    split at h
    · cases h
      exact hst
    · rename_i ia hia2
      split at h
      · cases h
      · cases h
        intro x hx
        cases hx
        have hc := hst _ rfl
        refine ⟨?_, hc.2⟩
        intro y hy
        simp only [TAddrClient.addIA, List.mem_append, List.mem_singleton] at hy
        rcases hy with hy | rfl
        · exact hc.1 y hy
        · exact hia y hia2
  · cases h
    exact hst

theorem clientPD_confirmMe (env : ReaderEnv) (n : Nat) (clnt : Option TAddrClient) (b : Line)
    (f : FILE) (r : Option TAddrClient × FILE) (hst : clntConfirmMe clnt)
    (h : clientPD env n clnt b f = .ok r) : clntConfirmMe r.1 := by
  unfold clientPD at h
  split at h
  · obtain ⟨t1, -, h⟩ := bind_ok _ _ _ h
    obtain ⟨t2, -, h⟩ := bind_ok _ _ _ h
    obtain ⟨iaid, -, h⟩ := bind_ok _ _ _ h
    obtain ⟨iface, -, h⟩ := bind_ok _ _ _ h
    obtain ⟨q, hq, h⟩ := bind_ok _ _ _ h
    have hia := parseAddrPD_confirmMe env n f true t1 t2 iaid iface q hq
    split at h
    · cases h
      exact hst
    · rename_i ia hia2
      split at h
      · cases h
      · cases h
        intro x hx
        cases hx
        have hc := hst _ rfl
        refine ⟨hc.1, ?_⟩
        intro y hy
        simp only [TAddrClient.addPD, List.mem_append, List.mem_singleton] at hy
        rcases hy with hy | rfl
        · exact hc.2 y hy
        · exact hia y hia2
  · cases h
    exact hst

theorem clientBody_confirmMe (env : ReaderEnv) (n : Nat) (clnt : Option TAddrClient) (b : Line)
    (f : FILE) (r : Ctl × Option TAddrClient × Line × FILE) (hst : clntConfirmMe clnt)
    (h : clientBody env n clnt b f = .ok r) : clntConfirmMe r.2.1 := by
  unfold clientBody at h
  split at h
  · obtain ⟨d, -, h⟩ := bind_ok _ _ _ h
    cases h
    intro x hx
    cases hx
    exact ⟨fun y hy => (by cases hy), fun y hy => (by cases hy)⟩
  · obtain ⟨r1, h1, h⟩ := bind_ok _ _ _ h
    obtain ⟨f2, -, h⟩ := bind_ok _ _ _ h
    obtain ⟨r3, h3, h⟩ := bind_ok _ _ _ h
    have i1 := clientIA_confirmMe env n clnt b f r1 hst h1
    have i3 := clientPD_confirmMe env n r1.1 b f2 r3 i1 h3
    split at h <;> (cases h; exact i3)

theorem parseAddrClient_confirmMe (env : ReaderEnv) (fuel : Nat) (f : FILE)
    (r : Option TAddrClient × FILE) (h : parseAddrClient env fuel f = .ok r) :
    clntConfirmMe r.1 :=
  feofLoop_inv _ clntConfirmMe (fun n st b f r => clientBody_confirmMe env n st b f r) fuel none
    none f r (fun x hx => by cases hx) h

/-- The clients the loop of `xmlLoadBuiltIn` has added to those of `m` all
have their IAs and IA_PDs in state `STATE_CONFIRMME`. -/
def addedConfirmMe (m : TAddrMgr) (st : LoadState) : Prop :=
  ∃ added, st.mgr.ClntsLst = m.ClntsLst ++ added ∧ ∀ c ∈ added, c.allConfirmMe

theorem loadBody_confirmMe (env : ReaderEnv) (m : TAddrMgr) (n : Nat) (st : LoadState)
    (b : Line) (f : FILE) (r : Ctl × LoadState × Line × FILE) (hst : addedConfirmMe m st)
    (h : loadBody env n st b f = .ok r) : addedConfirmMe m r.2.1 := by
  unfold loadBody at h
  split at h
  · cases h
    exact hst
  · split at h
    · obtain ⟨q, hq, h⟩ := bind_ok _ _ _ h
      have hc := parseAddrClient_confirmMe env n f q hq
      split at h
      · cases h
      · rename_i c hc2
        cases h
        obtain ⟨added, ha, hall⟩ := hst
        refine ⟨added ++ [c], ?_, ?_⟩
        · simp [TAddrMgr.addClient, ha]
        · intro y hy
          rcases List.mem_append.mp hy with hy | hy
          · exact hall y hy
          · rw [List.mem_singleton.mp hy]
            exact hc c hc2
    · split at h <;> (cases h; exact hst)

/-- C21: whenever the reader returns, the client list is the one before the
call followed by the clients read, and every IA and every IA_PD of a client
read is in state `STATE_CONFIRMME`. -/
theorem restored_IAs_confirmMe (env : ReaderEnv) (m : TAddrMgr) (text : List Char)
    (r : Bool × TAddrMgr) (h : m.xmlLoadBuiltIn env (some text) = .ok r) :
    ∃ added, r.2.ClntsLst = m.ClntsLst ++ added ∧
      ∀ c ∈ added, (∀ ia ∈ c.IAsLst, ia.State = EState.STATE_CONFIRMME) ∧
        (∀ pd ∈ c.PDLst, pd.State = EState.STATE_CONFIRMME) := by
  unfold TAddrMgr.xmlLoadBuiltIn at h
  obtain ⟨q, hq, h⟩ := bind_ok _ _ _ h
  cases h
  exact feofLoop_inv _ (addedConfirmMe m)
    (fun n st b f r => loadBody_confirmMe env m n st b f r) _ _ none _ q
    ⟨[], by simp, fun c hc => by cases hc⟩ hq

set_option maxRecDepth 100000 in
theorem restored_IAs_confirmMe_witness :
    store0.xmlLoadBuiltIn exEnv (some ((exTree 1800).streamOut exW 100)) =
        .ok (true, { store0 with
          ClntsLst := (exTree 1800).ClntsLst.map (TAddrClient.reloaded exEnv.now) }) ∧
      ∃ added, (true, ({ store0 with
          ClntsLst := (exTree 1800).ClntsLst.map (TAddrClient.reloaded exEnv.now) } :
            TAddrMgr)).2.ClntsLst = store0.ClntsLst ++ added ∧
        ∀ c ∈ added, (∀ ia ∈ c.IAsLst, ia.State = EState.STATE_CONFIRMME) ∧
          (∀ pd ∈ c.PDLst, pd.State = EState.STATE_CONFIRMME) :=
  ⟨rfl, restored_IAs_confirmMe exEnv store0 ((exTree 1800).streamOut exW 100) _ rfl⟩

/-! ## The loops do not depend on the fuel -/

/-- Fuel that is enough for a loop on the file: one test if the indicator is
set, else one iteration per string left, one for the failing `fgets` and one
for the last test. -/
def need (f : FILE) : Nat := if f.eof then 1 else f.lines.length + 2

/-- A loop body that behaves the same with any fuel that is enough for the
file, and hands back a file that needs no more fuel. -/
def GoodBody {σ : Type} (body : Nat → σ → Line → FILE → Except Fault (Ctl × σ × Line × FILE)) :
    Prop :=
  ∀ n m st b f, need f ≤ n → need f ≤ m →
    body n st b f = body m st b f ∧ ∀ r, body n st b f = .ok r → need r.2.2.2 ≤ need f

/-- A reader function that behaves the same with any fuel that is enough for
the file, and hands back a file that needs no more fuel. -/
def GoodFn {α : Type} (fn : Nat → FILE → Except Fault (α × FILE)) : Prop :=
  ∀ n m f, need f ≤ n → need f ≤ m →
    fn n f = fn m f ∧ ∀ r, fn n f = .ok r → need r.2 ≤ need f

theorem need_fgets (f : FILE) (h : f.eof = false) : need (fgets f).2 + 1 ≤ need f := by
  cases hl : f.lines with
  | nil => simp [fgets, hl, need, h]
  | cons l ls =>
    have e : need f = ls.length + 1 + 2 := by simp [need, h, hl]
    have e2 : need (fgets f).2 ≤ ls.length + 2 := by
      simp only [fgets, hl, need]
      split <;> simp
    omega

theorem need_pos (f : FILE) : 1 ≤ need f := by
  unfold need
  split <;> omega

/-- With enough fuel the loop does not depend on the fuel and returns a file
that needs no more. -/
theorem feofLoop_good {σ : Type}
    (body : Nat → σ → Line → FILE → Except Fault (Ctl × σ × Line × FILE))
    (hb : GoodBody body) :
    ∀ n m st buf f, need f ≤ n → need f ≤ m →
      feofLoop body n st buf f = feofLoop body m st buf f ∧
      ∀ r, feofLoop body n st buf f = .ok r → need r.2 ≤ need f := by
  intro n
  induction n with
  | zero =>
    intro m st buf f hn
    have := need_pos f
    omega
  | succ n ih =>
    intro m st buf f hn hm
    cases m with
    | zero =>
      have := need_pos f
      omega
    | succ m =>
      by_cases he : f.eof = true
      · simp only [feofLoop, he, if_true]
        refine ⟨trivial, ?_⟩
        intro r hr
        cases hr
        exact Nat.le_refl _
      · have he2 : f.eof = false := by simpa using he
        have hf := need_fgets f he2
        simp only [feofLoop, he2, Bool.false_eq_true, if_false]
        cases hbuf : ((fgets f).1 <|> buf) with
        | none => exact ⟨rfl, by intro r hr; cases hr⟩
        | some b =>
          obtain ⟨hb1, hb3⟩ := hb n m st b (fgets f).2 (by omega) (by omega)
          dsimp only
          rw [← hb1]
          cases hres : body n st b (fgets f).2 with
          | error e => exact ⟨rfl, by intro r hr; cases hr⟩
          | ok r =>
            obtain ⟨c, st1, b1, f1⟩ := r
            have hneed := hb3 _ hres
            dsimp only at hneed
            cases c with
            | brk =>
              refine ⟨rfl, ?_⟩
              intro r hr
              cases hr
              dsimp only
              omega
            | next =>
              obtain ⟨i1, i3⟩ := ih m st1 (some b1) f1 (by omega) (by omega)
              refine ⟨i1, ?_⟩
              intro r hr
              have := i3 r hr
              omega

theorem fileFree_good {σ : Type}
    (body : Nat → σ → Line → FILE → Except Fault (Ctl × σ × Line × FILE))
    (h : FileFree body) : GoodBody body := by
  intro n m st b f _ _
  rw [h n st b f, h m st b f]
  refine ⟨rfl, ?_⟩
  intro r hr
  cases hp : pureOf body st b with
  | error e => rw [hp] at hr; cases hr
  | ok q =>
    rw [hp] at hr
    cases hr
    exact Nat.le_refl _

theorem parseAddrTA_good : GoodFn (fun n f => parseAddrTA n f) := by
  intro n m f hn hm
  obtain ⟨h1, h2⟩ := feofLoop_good taBody (fileFree_good _ taBody_fileFree) n m () none f hn hm
  dsimp only
  unfold parseAddrTA
  rw [← h1]
  refine ⟨rfl, ?_⟩
  intro r hr
  obtain ⟨q, hq, hr⟩ := bind_ok _ _ _ hr
  cases hr
  exact h2 q hq

theorem parseAddrIA_good (env : ReaderEnv) (a : Bool) (t1 t2 iaid iface : Int) :
    GoodFn (fun n f => parseAddrIA env n f a t1 t2 iaid iface) := by
  intro n m f hn hm
  obtain ⟨h1, h2⟩ := feofLoop_good _ (fileFree_good _ (iaBody_fileFree env t1 t2 iaid iface))
    n m none none f hn hm
  dsimp only
  unfold parseAddrIA
  rw [← h1]
  refine ⟨rfl, ?_⟩
  intro r hr
  obtain ⟨q, hq, hr⟩ := bind_ok _ _ _ hr
  cases hr
  exact h2 q hq

theorem parseAddrPD_good (env : ReaderEnv) (a : Bool) (t1 t2 iaid iface : Int) :
    GoodFn (fun n f => parseAddrPD env n f a t1 t2 iaid iface) := by
  intro n m f hn hm
  obtain ⟨h1, h2⟩ := feofLoop_good _ (fileFree_good _ (pdBody_fileFree env a t1 t2 iaid iface))
    n m none none f hn hm
  dsimp only
  unfold parseAddrPD
  split
  · rw [← h1]
    refine ⟨rfl, ?_⟩
    intro r hr
    obtain ⟨q, hq, hr⟩ := bind_ok _ _ _ hr
    cases hr
    exact h2 q hq
  · refine ⟨rfl, ?_⟩
    intro r hr
    cases hr
    exact Nat.le_refl _

/-! ## A line the reader passes over -/

/-- The file `f2` is the file `f` with the string `L` put in before one of
its strings. -/
def InsF (L : Line) (f2 f : FILE) : Prop :=
  ∃ a M b eaf, f2 = ⟨a ++ L :: M :: b, eaf, false⟩ ∧ f = ⟨a ++ M :: b, eaf, false⟩

/-- The two files are the same, or the first has the string `L` put in. -/
def RelF (L : Line) (f2 f : FILE) : Prop := f2 = f ∨ InsF L f2 f

/-- Two runs of a reader function end alike: with the same fault, or with the
same value and files that still are related. -/
def OutRel {α : Type} (L : Line) (x y : Except Fault (α × FILE)) : Prop :=
  (∃ e, x = .error e ∧ y = .error e) ∨
  (∃ v g2 g, x = .ok (v, g2) ∧ y = .ok (v, g) ∧ RelF L g2 g)

/-- Two runs of a loop body end alike. -/
def BodyRel {σ : Type} (L : Line) (x y : Except Fault (Ctl × σ × Line × FILE)) : Prop :=
  (∃ e, x = .error e ∧ y = .error e) ∨
  (∃ c st b g2 g, x = .ok (c, st, b, g2) ∧ y = .ok (c, st, b, g) ∧ RelF L g2 g)

theorem OutRel_refl {α : Type} (L : Line) (x : Except Fault (α × FILE)) : OutRel L x x := by
  cases x with
  | error e => exact Or.inl ⟨e, rfl, rfl⟩
  | ok r => exact Or.inr ⟨r.1, r.2, r.2, rfl, rfl, Or.inl rfl⟩

theorem need_InsF {L : Line} {f2 f : FILE} (h : InsF L f2 f) : need f2 = need f + 1 := by
  obtain ⟨a, M, b, eaf, rfl, rfl⟩ := h
  simp [need]
  omega

/-- The buffer does not matter to a loop on a file that has a string left. -/
theorem feofLoop_buf {σ : Type}
    (body : Nat → σ → Line → FILE → Except Fault (Ctl × σ × Line × FILE)) (n : Nat) (st : σ)
    (buf buf2 : Option Line) (l : Line) (ls : List Line) (eaf e : Bool) :
    feofLoop body n st buf ⟨l :: ls, eaf, e⟩ = feofLoop body n st buf2 ⟨l :: ls, eaf, e⟩ := by
  cases n with
  | zero => rfl
  | succ n =>
    rw [feofLoop, feofLoop]
    simp [fgets]

/-- A loop whose body passes over the string `L`, on a file and on the file
with `L` put in, ends alike. -/
theorem feofLoop_ins {σ : Type} (L : Line)
    (body : Nat → σ → Line → FILE → Except Fault (Ctl × σ × Line × FILE))
    (hgood : GoodBody body)
    (hskip : ∀ n st f, body n st L f = .ok (Ctl.next, st, L, f))
    (hins : ∀ n2 n st b f2 f, need f2 ≤ n2 → need f ≤ n → InsF L f2 f →
      BodyRel L (body n2 st b f2) (body n st b f)) :
    ∀ n2 n st buf f2 f, need f2 ≤ n2 → need f ≤ n → InsF L f2 f →
      OutRel L (feofLoop body n2 st buf f2) (feofLoop body n st buf f) := by
  intro n2
  induction n2 with
  | zero =>
    intro n st buf f2 f h2
    have := need_pos f2
    omega
  | succ n2 ih =>
    intro n st buf f2 f h2 h1 hI
    have hneed := need_InsF hI
    obtain ⟨a, M, b, eaf, rfl, rfl⟩ := hI
    cases n with
    | zero =>
      have := need_pos (⟨a ++ M :: b, eaf, false⟩ : FILE)
      omega
    | succ n =>
      cases a with
      | nil =>
        rw [List.nil_append, feofLoop_cons, hskip]
        dsimp only
        have e : ((M :: b).isEmpty && eaf) = false := rfl
        rw [e, feofLoop_buf body n2 st (some L) buf M b eaf false]
        rw [(feofLoop_good body hgood n2 (n + 1) st buf ⟨M :: b, eaf, false⟩
          (by simp only [List.nil_append] at hneed h2; omega) h1).1]
        exact OutRel_refl L _
      | cons x a =>
        rw [List.cons_append, List.cons_append, feofLoop_cons, feofLoop_cons]
        have e2 : ((a ++ L :: M :: b).isEmpty && eaf) = false := by cases a <;> rfl
        have e1 : ((a ++ M :: b).isEmpty && eaf) = false := by cases a <;> rfl
        rw [e2, e1]
        have hI2 : InsF L ⟨a ++ L :: M :: b, eaf, false⟩ ⟨a ++ M :: b, eaf, false⟩ :=
          ⟨a, M, b, eaf, rfl, rfl⟩
        have hn2 : need (⟨a ++ L :: M :: b, eaf, false⟩ : FILE) ≤ n2 := by
          simp only [need, List.cons_append, List.length_cons] at h2 ⊢
          simp only [Bool.false_eq_true, if_false] at h2 ⊢
          omega
        have hn1 : need (⟨a ++ M :: b, eaf, false⟩ : FILE) ≤ n := by
          simp only [need, List.cons_append, List.length_cons] at h1 ⊢
          simp only [Bool.false_eq_true, if_false] at h1 ⊢
          omega
        have g2 := (hgood n2 n2 st x ⟨a ++ L :: M :: b, eaf, false⟩ hn2 hn2).2
        have g1 := (hgood n n st x ⟨a ++ M :: b, eaf, false⟩ hn1 hn1).2
        rcases hins n2 n st x _ _ hn2 hn1 hI2 with ⟨e, hx, hy⟩ | ⟨c, st1, b1, k2, k, hx, hy, hrel⟩
        · rw [hx, hy]
          exact Or.inl ⟨e, rfl, rfl⟩
        · have gk2 := g2 _ hx
          have gk := g1 _ hy
          dsimp only at gk2 gk
          rw [hx, hy]
          cases c with
          | brk => exact Or.inr ⟨st1, k2, k, rfl, rfl, hrel⟩
          | next =>
            dsimp only
            rcases hrel with rfl | hrel
            · rw [(feofLoop_good body hgood n2 n st1 (some b1) k2 (by omega) (by omega)).1]
              exact OutRel_refl L _
            · exact ih n st1 (some b1) k2 k (by omega) (by omega) hrel

/-- The substrings the five reader functions search a line for. -/
def searched : List String :=
  ["<AddrMgr>", "<AddrClient", "</AddrMgr>", "<duid", "<AddrIA ", "<AddrTA ", "<AddrPD ",
   "</AddrClient>", "duid", "<AddrAddr", "<AddrPrefix", "</AddrIA>", "</AddrPD>", "</AddrTA>"]

/-- The line has none of the substrings the reader searches for. -/
def noTag (L : Line) : Bool := searched.all (fun t => !hasTag L t)

theorem noTag_hasTag {L : Line} (h : noTag L = true) (t : String) (ht : t ∈ searched) :
    hasTag L t = false := by
  unfold noTag at h
  rw [List.all_eq_true] at h
  simpa using h t ht

theorem taBody_skip (L : Line) (h : noTag L = true) (n : Nat) (st : Unit) (f : FILE) :
    taBody n st L f = .ok (Ctl.next, st, L, f) := by
  unfold taBody
  rw [noTag_hasTag h "</AddrTA>" (by decide)]
  rfl

theorem iaBody_skip (env : ReaderEnv) (t1 t2 iaid iface : Int) (L : Line) (h : noTag L = true)
    (n : Nat) (st : Option TAddrIA) (f : FILE) :
    iaBody env t1 t2 iaid iface n st L f = .ok (Ctl.next, st, L, f) := by
  unfold iaBody
  simp [noTag_hasTag h "duid" (by decide), noTag_hasTag h "<AddrAddr" (by decide),
    noTag_hasTag h "</AddrIA>" (by decide), bind, Except.bind, pure, Except.pure]

theorem pdBody_skip (env : ReaderEnv) (a : Bool) (t1 t2 iaid iface : Int) (L : Line)
    (h : noTag L = true) (n : Nat) (st : Option TAddrIA) (f : FILE) :
    pdBody env a t1 t2 iaid iface n st L f = .ok (Ctl.next, st, L, f) := by
  unfold pdBody
  simp [noTag_hasTag h "duid" (by decide), noTag_hasTag h "<AddrPrefix" (by decide),
    noTag_hasTag h "</AddrPD>" (by decide), bind, Except.bind, pure, Except.pure]

theorem clientBody_skip (env : ReaderEnv) (L : Line) (h : noTag L = true) (n : Nat)
    (st : Option TAddrClient) (f : FILE) :
    clientBody env n st L f = .ok (Ctl.next, st, L, f) := by
  unfold clientBody clientIA clientTA clientPD
  simp [noTag_hasTag h "<duid" (by decide), noTag_hasTag h "<AddrIA " (by decide),
    noTag_hasTag h "<AddrTA " (by decide), noTag_hasTag h "<AddrPD " (by decide),
    noTag_hasTag h "</AddrClient>" (by decide), bind, Except.bind, pure, Except.pure]

theorem loadBody_skip (env : ReaderEnv) (L : Line) (h : noTag L = true) (n : Nat)
    (st : LoadState) (f : FILE) : loadBody env n st L f = .ok (Ctl.next, st, L, f) := by
  unfold loadBody
  simp [noTag_hasTag h "<AddrMgr>" (by decide), noTag_hasTag h "<AddrClient" (by decide),
    noTag_hasTag h "</AddrMgr>" (by decide), pure, Except.pure]

theorem fileFree_ins {σ : Type} (L : Line)
    (body : Nat → σ → Line → FILE → Except Fault (Ctl × σ × Line × FILE)) (h : FileFree body)
    (n2 n : Nat) (st : σ) (b : Line) (f2 f : FILE) (hI : InsF L f2 f) :
    BodyRel L (body n2 st b f2) (body n st b f) := by
  rw [h n2 st b f2, h n st b f]
  cases pureOf body st b with
  | error e => exact Or.inl ⟨e, rfl, rfl⟩
  | ok q => exact Or.inr ⟨q.1, q.2.1, q.2.2, f2, f, rfl, rfl, Or.inr hI⟩

/-- A reader function that ends alike on a file and on the file with `L` put
in, whatever fuel it gets, as long as that is enough. -/
def RelFn {α : Type} (L : Line) (fn : Nat → FILE → Except Fault (α × FILE)) : Prop :=
  ∀ n2 n f2 f, need f2 ≤ n2 → need f ≤ n → RelF L f2 f → OutRel L (fn n2 f2) (fn n f)

theorem RelFn_of {α : Type} (L : Line) (fn : Nat → FILE → Except Fault (α × FILE))
    (hgood : GoodFn fn)
    (hins : ∀ n2 n f2 f, need f2 ≤ n2 → need f ≤ n → InsF L f2 f →
      OutRel L (fn n2 f2) (fn n f)) : RelFn L fn := by
  intro n2 n f2 f h2 h1 hrel
  rcases hrel with rfl | hI
  · rw [(hgood n2 n f2 h2 h1).1]
    exact OutRel_refl L _
  · exact hins n2 n f2 f h2 h1 hI

theorem OutRel_map {α β : Type} (L : Line) (g : α → β) (x y : Except Fault (α × FILE))
    (h : OutRel L x y) :
    OutRel L (x >>= fun r => pure (g r.1, r.2)) (y >>= fun r => pure (g r.1, r.2)) := by
  rcases h with ⟨e, rfl, rfl⟩ | ⟨v, g2, g1, rfl, rfl, hrel⟩
  · exact Or.inl ⟨e, rfl, rfl⟩
  · exact Or.inr ⟨g v, g2, g1, rfl, rfl, hrel⟩

theorem parseAddrTA_rel (L : Line) (h : noTag L = true) :
    RelFn L (fun n f => parseAddrTA n f) := by
  refine RelFn_of L _ parseAddrTA_good ?_
  intro n2 n f2 f h2 h1 hI
  have := feofLoop_ins L taBody (fileFree_good _ taBody_fileFree) (taBody_skip L h)
    (fun n2 n st b f2 f _ _ hI => fileFree_ins L _ taBody_fileFree n2 n st b f2 f hI)
    n2 n () none f2 f h2 h1 hI
  exact OutRel_map L (fun _ => (none : Option TAddrIA)) _ _ this

theorem parseAddrIA_rel (env : ReaderEnv) (L : Line) (h : noTag L = true) (a : Bool)
    (t1 t2 iaid iface : Int) :
    RelFn L (fun n f => parseAddrIA env n f a t1 t2 iaid iface) := by
  refine RelFn_of L _ (parseAddrIA_good env a t1 t2 iaid iface) ?_
  intro n2 n f2 f h2 h1 hI
  have := feofLoop_ins L _ (fileFree_good _ (iaBody_fileFree env t1 t2 iaid iface))
    (iaBody_skip env t1 t2 iaid iface L h)
    (fun n2 n st b f2 f _ _ hI =>
      fileFree_ins L _ (iaBody_fileFree env t1 t2 iaid iface) n2 n st b f2 f hI)
    n2 n none none f2 f h2 h1 hI
  exact OutRel_map L (fun s : Option TAddrIA => s.map TAddrIA.recomputeTentative) _ _ this

theorem parseAddrPD_rel (env : ReaderEnv) (L : Line) (h : noTag L = true) (a : Bool)
    (t1 t2 iaid iface : Int) :
    RelFn L (fun n f => parseAddrPD env n f a t1 t2 iaid iface) := by
  refine RelFn_of L _ (parseAddrPD_good env a t1 t2 iaid iface) ?_
  intro n2 n f2 f h2 h1 hI
  dsimp only
  unfold parseAddrPD
  split
  · have := feofLoop_ins L _ (fileFree_good _ (pdBody_fileFree env a t1 t2 iaid iface))
      (pdBody_skip env a t1 t2 iaid iface L h)
      (fun n2 n st b f2 f _ _ hI =>
        fileFree_ins L _ (pdBody_fileFree env a t1 t2 iaid iface) n2 n st b f2 f hI)
      n2 n none none f2 f h2 h1 hI
    exact OutRel_map L (fun s : Option TAddrIA => s.map TAddrIA.recomputeTentative) _ _ this
  · exact Or.inr ⟨none, f2, f, rfl, rfl, Or.inr hI⟩

/-- A reader function that does not depend on the fuel and ends alike on a
file and on the file with `L` put in. -/
def Nice {α : Type} (L : Line) (fn : Nat → FILE → Except Fault (α × FILE)) : Prop :=
  GoodFn fn ∧ RelFn L fn

theorem Nice_pure {α : Type} (L : Line) (v : α) :
    Nice L (fun _ f => (pure (v, f) : Except Fault (α × FILE))) := by
  refine ⟨?_, ?_⟩
  · intro n m f _ _
    refine ⟨rfl, ?_⟩
    intro r hr
    cases hr
    exact Nat.le_refl _
  · intro n2 n f2 f _ _ hrel
    exact Or.inr ⟨v, f2, f, rfl, rfl, hrel⟩

theorem Nice_throw {α : Type} (L : Line) (e : Fault) :
    Nice L (fun _ _ => (throw e : Except Fault (α × FILE))) := by
  refine ⟨?_, ?_⟩
  · intro n m f _ _
    refine ⟨rfl, ?_⟩
    intro r hr
    cases hr
  · intro n2 n f2 f _ _ _
    exact Or.inl ⟨e, rfl, rfl⟩

theorem Nice_ite {α : Type} (L : Line) (c : Bool)
    (fn gn : Nat → FILE → Except Fault (α × FILE)) (h1 : Nice L fn) (h2 : Nice L gn) :
    Nice L (fun n f => if c then fn n f else gn n f) := by
  cases c
  · simpa using h2
  · simpa using h1

theorem Nice_bindPure {α β : Type} (L : Line) (x : Except Fault β)
    (fn : β → Nat → FILE → Except Fault (α × FILE)) (h : ∀ v, Nice L (fn v)) :
    Nice L (fun n f => x >>= fun v => fn v n f) := by
  cases x with
  | error e => exact Nice_throw L e
  | ok v => exact h v

theorem Nice_seq {α β : Type} (L : Line) (A : Nat → FILE → Except Fault (α × FILE))
    (B : α × FILE → Nat → Except Fault (β × FILE)) (hA : Nice L A)
    (hB : ∀ v, Nice L (fun n f => B (v, f) n)) :
    Nice L (fun n f => A n f >>= fun r => B r n) := by
  refine ⟨?_, ?_⟩
  · intro n m f hn hm
    obtain ⟨e, hneed⟩ := hA.1 n m f hn hm
    dsimp only
    rw [← e]
    cases hr : A n f with
    | error err => exact ⟨rfl, by intro r h; cases h⟩
    | ok q =>
      obtain ⟨v, g⟩ := q
      have hg := hneed _ hr
      dsimp only at hg
      obtain ⟨e2, hneed2⟩ := (hB v).1 n m g (by omega) (by omega)
      refine ⟨e2, ?_⟩
      intro r h
      have := hneed2 r h
      omega
  · intro n2 n f2 f h2 h1 hrel
    rcases hA.2 n2 n f2 f h2 h1 hrel with ⟨e, hx, hy⟩ | ⟨v, g2, g, hx, hy, hr⟩
    · dsimp only
      rw [hx, hy]
      exact Or.inl ⟨e, rfl, rfl⟩
    · have b2 := (hA.1 n2 n2 f2 h2 h2).2 _ hx
      have b1 := (hA.1 n n f h1 h1).2 _ hy
      dsimp only at b2 b1
      dsimp only
      rw [hx, hy]
      exact (hB v).2 n2 n g2 g (by omega) (by omega) hr

theorem Nice_loop {σ : Type} (L : Line)
    (body : Nat → σ → Line → FILE → Except Fault (Ctl × σ × Line × FILE))
    (hgood : GoodBody body)
    (hskip : ∀ n st f, body n st L f = .ok (Ctl.next, st, L, f))
    (hins : ∀ n2 n st b f2 f, need f2 ≤ n2 → need f ≤ n → InsF L f2 f →
      BodyRel L (body n2 st b f2) (body n st b f))
    (st : σ) (buf : Option Line) : Nice L (fun n f => feofLoop body n st buf f) :=
  ⟨fun n m f hn hm => feofLoop_good body hgood n m st buf f hn hm,
   RelFn_of L _ (fun n m f hn hm => feofLoop_good body hgood n m st buf f hn hm)
     (fun n2 n f2 f h2 h1 hI => feofLoop_ins L body hgood hskip hins n2 n st buf f2 f h2 h1 hI)⟩

/-- The loop body with its result regrouped as a value and a file. -/
def regroup {σ : Type} (x : Except Fault (Ctl × σ × Line × FILE)) :
    Except Fault ((Ctl × σ × Line) × FILE) :=
  x >>= fun r => pure ((r.1, r.2.1, r.2.2.1), r.2.2.2)

theorem GoodBody_of_Nice {σ : Type} (L : Line)
    (body : Nat → σ → Line → FILE → Except Fault (Ctl × σ × Line × FILE))
    (h : ∀ st b, Nice L (fun n f => regroup (body n st b f))) : GoodBody body := by
  intro n m st b f hn hm
  obtain ⟨e, hneed⟩ := (h st b).1 n m f hn hm
  dsimp only [regroup] at e hneed
  cases h1 : body n st b f with
  | error e1 =>
    rw [h1] at e
    cases h2 : body m st b f with
    | error e2 => rw [h2] at e; cases e; exact ⟨rfl, by intro r hr; cases hr⟩
    | ok r2 => rw [h2] at e; cases e
  | ok r1 =>
    rw [h1] at e hneed
    cases h2 : body m st b f with
    | error e2 => rw [h2] at e; cases e
    | ok r2 =>
      rw [h2] at e
      obtain ⟨c1, s1, b1, g1⟩ := r1
      obtain ⟨c2, s2, b2, g2⟩ := r2
      cases e
      refine ⟨rfl, ?_⟩
      intro r hr
      cases hr
      exact hneed _ rfl

theorem BodyRel_of_Nice {σ : Type} (L : Line)
    (body : Nat → σ → Line → FILE → Except Fault (Ctl × σ × Line × FILE))
    (h : ∀ st b, Nice L (fun n f => regroup (body n st b f))) :
    ∀ n2 n st b f2 f, need f2 ≤ n2 → need f ≤ n → InsF L f2 f →
      BodyRel L (body n2 st b f2) (body n st b f) := by
  intro n2 n st b f2 f h2 h1 hI
  have hr := (h st b).2 n2 n f2 f h2 h1 (Or.inr hI)
  dsimp only [regroup] at hr
  cases e2 : body n2 st b f2 with
  | error x2 =>
    rw [e2] at hr
    cases e1 : body n st b f with
    | error x1 =>
      rw [e1] at hr
      rcases hr with ⟨e, hx, hy⟩ | ⟨v, g2, g, hx, hy, hr⟩
      · cases hx; cases hy; exact Or.inl ⟨_, rfl, rfl⟩
      · cases hx
    | ok r1 =>
      rw [e1] at hr
      rcases hr with ⟨e, hx, hy⟩ | ⟨v, g2, g, hx, hy, hr⟩
      · cases hy
      · cases hx
  | ok r2 =>
    rw [e2] at hr
    cases e1 : body n st b f with
    | error x1 =>
      rw [e1] at hr
      rcases hr with ⟨e, hx, hy⟩ | ⟨v, g2, g, hx, hy, hr⟩
      · cases hx
      · cases hy
    | ok r1 =>
      rw [e1] at hr
      obtain ⟨c1, s1, b1, g1⟩ := r1
      obtain ⟨c2, s2, b2, g2⟩ := r2
      rcases hr with ⟨e, hx, hy⟩ | ⟨v, k2, k, hx, hy, hr⟩
      · cases hx
      · cases hx
        cases hy
        exact Or.inr ⟨_, _, _, _, _, rfl, rfl, hr⟩

theorem parseAddrIA_nice (env : ReaderEnv) (L : Line) (h : noTag L = true) (a : Bool)
    (t1 t2 iaid iface : Int) :
    Nice L (fun n f => parseAddrIA env n f a t1 t2 iaid iface) :=
  ⟨parseAddrIA_good env a t1 t2 iaid iface, parseAddrIA_rel env L h a t1 t2 iaid iface⟩

theorem parseAddrPD_nice (env : ReaderEnv) (L : Line) (h : noTag L = true) (a : Bool)
    (t1 t2 iaid iface : Int) :
    Nice L (fun n f => parseAddrPD env n f a t1 t2 iaid iface) :=
  ⟨parseAddrPD_good env a t1 t2 iaid iface, parseAddrPD_rel env L h a t1 t2 iaid iface⟩

theorem parseAddrTA_nice (L : Line) (h : noTag L = true) :
    Nice L (fun n f => parseAddrTA n f) :=
  ⟨parseAddrTA_good, parseAddrTA_rel L h⟩

theorem clientIA_nice (env : ReaderEnv) (L : Line) (h : noTag L = true)
    (clnt : Option TAddrClient) (b : Line) :
    Nice L (fun n f => clientIA env n clnt b f) := by
  unfold clientIA
  refine Nice_ite L _ _ _ ?_ (Nice_pure L clnt)
  refine Nice_bindPure L _ _ (fun t1 => ?_)
  refine Nice_bindPure L _ _ (fun t2 => ?_)
  refine Nice_bindPure L _ _ (fun iaid => ?_)
  refine Nice_bindPure L _ _ (fun iface => ?_)
  refine Nice_seq L _ _ (parseAddrIA_nice env L h true t1 t2 iaid iface) (fun v => ?_)
  dsimp only
  cases v with
  | none => exact Nice_pure L clnt
  | some ia =>
    cases clnt with
    | none => exact Nice_throw L Fault.nullDeref
    | some c => exact Nice_pure L (some (c.addIA ia))

theorem clientPD_nice (env : ReaderEnv) (L : Line) (h : noTag L = true)
    (clnt : Option TAddrClient) (b : Line) :
    Nice L (fun n f => clientPD env n clnt b f) := by
  unfold clientPD
  refine Nice_ite L _ _ _ ?_ (Nice_pure L clnt)
  refine Nice_bindPure L _ _ (fun t1 => ?_)
  refine Nice_bindPure L _ _ (fun t2 => ?_)
  refine Nice_bindPure L _ _ (fun iaid => ?_)
  refine Nice_bindPure L _ _ (fun iface => ?_)
  refine Nice_seq L _ _ (parseAddrPD_nice env L h true t1 t2 iaid iface) (fun v => ?_)
  dsimp only
  cases v with
  | none => exact Nice_pure L clnt
  | some ia =>
    cases clnt with
    | none => exact Nice_throw L Fault.nullDeref
    | some c => exact Nice_pure L (some (c.addPD ia))

theorem clientBody_regroup (env : ReaderEnv) (clnt : Option TAddrClient) (b : Line) (n : Nat)
    (f : FILE) :
    regroup (clientBody env n clnt b f) =
      if hasTag b "<duid" then
        readDuid env b >>= fun r => pure ((Ctl.next, some (TAddrClient.new r.1), r.2), f)
      else
        clientIA env n clnt b f >>= fun r1 =>
          (if hasTag b "<AddrTA " then parseAddrTA n r1.2 else pure (none, r1.2)) >>= fun r2 =>
            clientPD env n r1.1 b r2.2 >>= fun r3 =>
              pure ((if hasTag b "</AddrClient>" then Ctl.brk else Ctl.next, r3.1, b), r3.2) := by
  unfold regroup clientBody clientTA
  by_cases hd : hasTag b "<duid" = true
  · simp only [hd, if_true]
    cases readDuid env b <;> rfl
  · simp only [hd, Bool.false_eq_true, if_false]
    cases clientIA env n clnt b f with
    | error e => rfl
    | ok r1 =>
      by_cases ht : hasTag b "<AddrTA " = true
      · simp only [ht, if_true, bind, Except.bind, pure, Except.pure]
        cases parseAddrTA n r1.2 with
        | error e => rfl
        | ok r2 =>
          dsimp only
          cases clientPD env n r1.1 b r2.2 with
          | error e => rfl
          | ok r3 =>
            dsimp only
            by_cases hc : hasTag b "</AddrClient>" = true
            · simp only [hc, if_true]
            · simp only [hc, Bool.false_eq_true, if_false]
      · simp only [ht, Bool.false_eq_true, if_false, bind, Except.bind, pure, Except.pure]
        cases clientPD env n r1.1 b r1.2 with
        | error e => rfl
        | ok r3 =>
          dsimp only
          by_cases hc : hasTag b "</AddrClient>" = true
          · simp only [hc, if_true]
          · simp only [hc, Bool.false_eq_true, if_false]

theorem clientBody_nice (env : ReaderEnv) (L : Line) (h : noTag L = true)
    (clnt : Option TAddrClient) (b : Line) :
    Nice L (fun n f => regroup (clientBody env n clnt b f)) := by
  simp only [clientBody_regroup]
  refine Nice_ite L _ _ _ ?_ ?_
  · exact Nice_bindPure L _ _ (fun r => Nice_pure L _)
  · refine Nice_seq L _ _ (clientIA_nice env L h clnt b) (fun v1 => ?_)
    dsimp only
    refine Nice_seq L _ _ (Nice_ite L _ _ _ (parseAddrTA_nice L h) (Nice_pure L none))
      (fun v2 => ?_)
    dsimp only
    refine Nice_seq L _ _ (clientPD_nice env L h v1 b) (fun v3 => ?_)
    dsimp only
    exact Nice_pure L _

theorem parseAddrClient_nice (env : ReaderEnv) (L : Line) (h : noTag L = true) :
    Nice L (fun n f => parseAddrClient env n f) := by
  unfold parseAddrClient
  exact Nice_loop L _ (GoodBody_of_Nice L _ (clientBody_nice env L h))
    (clientBody_skip env L h) (BodyRel_of_Nice L _ (clientBody_nice env L h)) none none

theorem loadBody_regroup (env : ReaderEnv) (st : LoadState) (b : Line) (n : Nat) (f : FILE) :
    regroup (loadBody env n st b f) =
      if hasTag b "<AddrMgr>" then pure ((Ctl.next, { st with AddrClient := true }, b), f)
      else if st.AddrClient && hasTag b "<AddrClient" then
        parseAddrClient env n f >>= fun r =>
          match r.1 with
          | none => throw Fault.nullDeref
          | some c =>
            pure ((Ctl.next, { st with clnt := some c, mgr := st.mgr.addClient c }, b), r.2)
      else if hasTag b "</AddrMgr>" then pure ((Ctl.brk, st, b), f)
      else pure ((Ctl.next, st, b), f) := by
  unfold regroup loadBody
  split
  · rfl
  · split
    · cases parseAddrClient env n f with
      | error e => rfl
      | ok r =>
        obtain ⟨v, g⟩ := r
        cases v <;> rfl
    · split <;> rfl

theorem loadBody_nice (env : ReaderEnv) (L : Line) (h : noTag L = true) (st : LoadState)
    (b : Line) : Nice L (fun n f => regroup (loadBody env n st b f)) := by
  simp only [loadBody_regroup]
  refine Nice_ite L _ _ _ (Nice_pure L _) ?_
  refine Nice_ite L _ _ _ ?_ ?_
  · refine Nice_seq L _ _ (parseAddrClient_nice env L h) (fun v => ?_)
    dsimp only
    cases v with
    | none => exact Nice_throw L Fault.nullDeref
    | some c => exact Nice_pure L _
  · exact Nice_ite L _ _ _ (Nice_pure L _) (Nice_pure L _)

/-- The loop of `xmlLoadBuiltIn` ends alike on a file and on the file with a
string put in that has none of the searched substrings. -/
theorem loadLoop_ins (env : ReaderEnv) (L : Line) (h : noTag L = true) (st : LoadState)
    (f2 f : FILE) (hI : InsF L f2 f) :
    OutRel L (feofLoop (loadBody env) (need f2) st none f2)
      (feofLoop (loadBody env) (need f) st none f) :=
  feofLoop_ins L _ (GoodBody_of_Nice L _ (loadBody_nice env L h)) (loadBody_skip env L h)
    (BodyRel_of_Nice L _ (loadBody_nice env L h)) (need f2) (need f) st none f2 f
    (Nat.le_refl _) (Nat.le_refl _) hI

/-! ## Putting a line into a text -/

theorem chunks_ne_nil : ∀ (B acc : List Char), B ≠ [] ∨ acc ≠ [] → chunks B acc ≠ []
  | [], acc, h => by
    have ha : acc ≠ [] := by
      rcases h with h | h
      · exact absurd rfl h
      · exact h
    cases acc with
    | nil => exact absurd rfl ha
    | cons a as => simp [chunks]
  | c :: cs, acc, _ => by
    rw [chunks]
    split
    · simp
    · exact chunks_ne_nil cs (c :: acc) (Or.inr (by simp))

theorem chunks_append (rest : List Char) :
    ∀ (A acc : List Char), A.getLast? = some '\n' →
      chunks (A ++ rest) acc = chunks A acc ++ chunks rest []
  | [], _, h => by simp at h
  | [c], acc, h => by
    have hc : c = '\n' := by simpa using h
    subst hc
    simp [chunks]
  | c :: d :: cs, acc, h => by
    have h2 : (d :: cs).getLast? = some '\n' := by
      rw [List.getLast?_cons_cons] at h
      exact h
    rw [List.cons_append, chunks, chunks]
    split
    · rw [chunks_append rest (d :: cs) [] h2]
      simp
    · exact chunks_append rest (d :: cs) (c :: acc) h2

theorem chunks_append_start (rest A : List Char) (h : A = [] ∨ A.getLast? = some '\n') :
    chunks (A ++ rest) [] = chunks A [] ++ chunks rest [] := by
  rcases h with rfl | h
  · simp [chunks]
  · exact chunks_append rest A [] h

/-- The file of a text with a line put in before the text `B`, after the
text `A` that is empty or ends with a newline, is the file of the text with
that string put in. -/
theorem fopen_ins (A L B : List Char) (hA : A = [] ∨ A.getLast? = some '\n')
    (hL : fitsLine L = true) (hB : B ≠ []) :
    InsF L (fopen (A ++ L ++ B)) (fopen (A ++ B)) := by
  have hone := oneLine_of_fitsLine L hL
  have hc := cstr_oneLine L hone
  obtain ⟨body, rfl, hb, hlen⟩ := hone
  have h1 : chunks (A ++ (body ++ ['\n']) ++ B) [] =
      chunks A [] ++ (body ++ ['\n']) :: chunks B [] := by
    rw [List.append_assoc, chunks_append_start _ A hA, List.append_assoc,
      List.singleton_append,
      chunks_line body B [] (fun c hc => (hb c hc).1) (by simpa using hlen)]
    simp
  have h2 : chunks (A ++ B) [] = chunks A [] ++ chunks B [] := chunks_append_start _ A hA
  have h3 := chunks_ne_nil B [] (Or.inl hB)
  unfold fopen
  rw [h1, h2]
  cases hB2 : chunks B [] with
  | nil => exact absurd hB2 h3
  | cons M b =>
    refine ⟨(chunks A []).map cstr, cstr M, b.map cstr, (fopen B).endsAtEOF, ?_, ?_⟩
    · simp only [fopen, hB2, List.map_append, List.map_cons, hc]
      congr 1
      rw [List.getLast?_append_cons, List.getLast?_cons_cons]
    · simp only [fopen, hB2, List.map_append, List.map_cons]
      congr 1
      rw [List.getLast?_append_cons]

theorem need_fopen (text : List Char) : need (fopen text) = (fopen text).lines.length + 2 := rfl

/-- The lines of `snapFull` up to its address line. -/
def snapUpToAddr : List Char :=
  ("<AddrMgr>\n" ++
   "  <timestamp>100</timestamp>\n" ++
   "<AddrClient>\n" ++
   "<duid>00:01:00:01:aa</duid>\n" ++
   "<AddrIA T1=\"1000\" T2=\"1600\" IAID=\"5\" iface=\"2\">\n" ++
   "<duid>00:01:00:01:bb</duid>\n" ++
   "<AddrAddr timestamp=\"100\" pref=\"1800\" valid=\"3600\" prefix=\"64\">2001:db8::1</AddrAddr>\n").toList

/-- The closing lines of `snapFull`. -/
def snapClosing : List Char := ("</AddrIA>\n" ++ "</AddrClient>\n" ++ "</AddrMgr>\n").toList

/-- A line with a tag the writer does not emit, whose text is `duid`. -/
def noteDuidLine : Line := "<note>duid</note>\n".toList

/-- A line with a tag the writer does not emit and none of the substrings the
reader searches for. -/
def noteLine : Line := "<note>lease of the lab</note>\n".toList

/-- C24 (counterexample): the line `<note>duid</note>` has a tag the writer
does not emit.  Put between the address line and `</AddrIA>` of a snapshot it
changes the store: the reader finds the substring `duid` in it and replaces
the IA it was filling by a new one, so the client ends with an IA without
addresses instead of an IA with one address. -/
theorem unknown_tag_with_duid_text :
    fitsLine noteDuidLine = true ∧
    addrCounts (store0.xmlLoadBuiltIn exEnv (some (snapUpToAddr ++ snapClosing))) = .ok [[1]] ∧
    addrCounts (store0.xmlLoadBuiltIn exEnv
      (some (snapUpToAddr ++ noteDuidLine ++ snapClosing))) = .ok [[0]] :=
  ⟨rfl, rfl, rfl⟩

/-- C24 (amended): a line that `fgets` reads in one piece and that has none of
the substrings the reader searches for, put into a snapshot text before any
of its lines (at the start or after a newline, with text following), does not
change what `xmlLoadBuiltIn` returns: the same fault, or the same return value
and the same store. -/
theorem unknown_line_skipped (env : ReaderEnv) (m : TAddrMgr) (A L B : List Char)
    (hA : A = [] ∨ A.getLast? = some '\n') (hL : fitsLine L = true) (hT : noTag L = true)
    (hB : B ≠ []) :
    m.xmlLoadBuiltIn env (some (A ++ L ++ B)) = m.xmlLoadBuiltIn env (some (A ++ B)) := by
  have hI := fopen_ins A L B hA hL hB
  have h := loadLoop_ins env L hT { clnt := none, AddrClient := false, mgr := m } _ _ hI
  rw [need_fopen, need_fopen] at h
  unfold TAddrMgr.xmlLoadBuiltIn
  dsimp only
  rcases h with ⟨e, hx, hy⟩ | ⟨v, g2, g, hx, hy, -⟩
  · rw [hx, hy]
  · rw [hx, hy]
    rfl

theorem unknown_line_skipped_witness :
    fitsLine noteLine = true ∧ noTag noteLine = true ∧
    store0.xmlLoadBuiltIn exEnv (some (snapUpToAddr ++ noteLine ++ snapClosing)) =
      store0.xmlLoadBuiltIn exEnv (some (snapUpToAddr ++ snapClosing)) :=
  ⟨rfl, rfl, unknown_line_skipped exEnv store0 snapUpToAddr noteLine snapClosing
    (Or.inr rfl) rfl rfl (by decide)⟩

/-- One client section that has no `<duid>` line. -/
def snapNoDuid : List Char :=
  ("<AddrMgr>\n" ++
   "  <timestamp>100</timestamp>\n" ++
   "<AddrClient>\n" ++
   "</AddrClient>\n" ++
   "</AddrMgr>\n").toList

/-- The lines of a client section after its `<AddrClient>` line, with the
`<AddrIA ` block before the `<duid>` line of the client. -/
def sectionIAFirst : List Char :=
  ("<AddrIA T1=\"1000\" T2=\"1600\" IAID=\"5\" iface=\"2\">\n" ++
   "<duid>00:01:00:01:bb</duid>\n" ++
   "</AddrIA>\n" ++
   "<duid>00:01:00:01:aa</duid>\n" ++
   "</AddrClient>\n").toList

/-- The same lines with the `<duid>` line of the client first. -/
def sectionDuidFirst : List Char :=
  ("<duid>00:01:00:01:aa</duid>\n" ++
   "<AddrIA T1=\"1000\" T2=\"1600\" IAID=\"5\" iface=\"2\">\n" ++
   "<duid>00:01:00:01:bb</duid>\n" ++
   "</AddrIA>\n" ++
   "</AddrClient>\n").toList

/-- The lines of a client section after its `<AddrClient>` line, with an
`<AddrPD ` block and no `<duid>` line of the client. -/
def sectionPDOnly : List Char :=
  ("<AddrPD T1=\"1000\" T2=\"1600\" PDID=\"7\" iface=\"2\">\n" ++
   "<duid>00:01:00:01:bb</duid>\n" ++
   "</AddrPD>\n" ++
   "</AddrClient>\n").toList

/-- The IAIDs of the IA_NA records of the client a section gives, if any. -/
def sectionIAIDs (r : Except Fault (Option TAddrClient × FILE)) :
    Except Fault (Option (List Nat)) :=
  r.map (fun x => x.1.map (fun c => c.IAsLst.map (fun ia => ia.IAID)))

/-- C31 (code at the failing inputs): the reader uses an absent client record.
A section without a `<duid>` line makes `parseAddrClient` return null, and
`xmlLoadBuiltIn` appends it and reads its DUID.  A section whose `<AddrIA `
block comes before the `<duid>` line makes `parseAddrClient` call `addIA` on
the null client, and likewise `addPD` for an `<AddrPD ` block.  With the
`<duid>` line first the same section is read. -/
theorem reader_uses_null_client :
    store0.xmlLoadBuiltIn exEnv (some snapNoDuid) = .error Fault.nullDeref ∧
    parseAddrClient exEnv 10 (fopen sectionIAFirst) = .error Fault.nullDeref ∧
    parseAddrClient exEnv 10 (fopen sectionPDOnly) = .error Fault.nullDeref ∧
    sectionIAIDs (parseAddrClient exEnv 10 (fopen sectionDuidFirst)) = .ok (some [5]) :=
  ⟨rfl, rfl, rfl, rfl⟩

/-! ## The address-parameters option (SrvOptAddrParams.cpp) -/

/-- The bits of an `int` in two's complement, as an unsigned number. -/
def intBits (x : Int) : Nat := (x % 2 ^ 32).toNat

/-- The option `TSrvOptAddrParams`: the field `Value` it inherits from
`TOptInteger`, an unsigned integer. -/
structure TSrvOptAddrParams where
  Value : Nat
deriving DecidableEq, Repr

/-- `TSrvOptAddrParams::TSrvOptAddrParams(int prefix, int bitfield, TMsg*)`
(SrvOptAddrParams.cpp:15-25).  The declaration of `Value` is in
`OptInteger.h`, which is not part of the sources at hand: `valueBits` is its
width.  `bitfield & 0xff` is taken on the bits of `bitfield`; `prefix << 8` is
a product, `prefix` being between 0 and 128 there. -/
def TSrvOptAddrParams.new (valueBits : Nat) (pfx bitfield : Int) : TSrvOptAddrParams :=
  let pfx1 := if pfx > 128 then 128 else pfx
  let pfx2 := if pfx1 < 0 then 0 else pfx1
  let value : Int := pfx2 * 2 ^ 8 + ((intBits bitfield &&& 0xff : Nat) : Int)
  { Value := (value % 2 ^ valueBits).toNat }

/-- `TSrvOptAddrParams::getPrefix()` (SrvOptAddrParams.cpp:34-37). -/
def TSrvOptAddrParams.getPrefix (o : TSrvOptAddrParams) : Int :=
  (((o.Value >>> 8) &&& 0xff : Nat) : Int)

/-- `TSrvOptAddrParams::getBitfield()` (SrvOptAddrParams.cpp:39-42). -/
def TSrvOptAddrParams.getBitfield (o : TSrvOptAddrParams) : Int :=
  ((o.Value &&& 0xff : Nat) : Int)

theorem and_0xff (n : Nat) : n &&& 0xff = n % 256 := by
  rw [show (0xff : Nat) = 2 ^ 8 - 1 from rfl, Nat.and_pow_two_sub_one_eq_mod]

theorem intBits_low (b : Int) : ((intBits b &&& 0xff : Nat) : Int) = b % 256 := by
  rw [and_0xff]
  unfold intBits
  have h0 : (0 : Int) ≤ b % 2 ^ 32 := Int.emod_nonneg _ (by norm_num)
  rw [Int.natCast_mod, Int.toNat_of_nonneg h0]
  exact Int.emod_emod_of_dvd b (by norm_num)

/-- The value the constructor stores. -/
theorem new_Value (valueBits : Nat) (h : 16 ≤ valueBits) (pfx bitfield : Int) :
    ((TSrvOptAddrParams.new valueBits pfx bitfield).Value : Int) =
      max 0 (min pfx 128) * 256 + bitfield % 256 := by
  have hb0 : 0 ≤ bitfield % 256 := Int.emod_nonneg _ (by norm_num)
  have hb1 : bitfield % 256 < 256 := Int.emod_lt_of_pos _ (by norm_num)
  have hp : (2 : Int) ^ 16 ≤ 2 ^ valueBits := pow_le_pow_right₀ (by norm_num) h
  have hclamp : (if (if pfx > 128 then 128 else pfx) < 0 then 0
      else (if pfx > 128 then 128 else pfx)) = max 0 (min pfx 128) := by
    split_ifs <;> omega
  unfold TSrvOptAddrParams.new
  simp only [intBits_low, hclamp]
  have hc0 : 0 ≤ max 0 (min pfx 128) := by omega
  have hc1 : max 0 (min pfx 128) ≤ 128 := by omega
  generalize max 0 (min pfx 128) = c at *
  have hv0 : 0 ≤ c * 2 ^ 8 + bitfield % 256 := by norm_num; omega
  have hv1 : c * 2 ^ 8 + bitfield % 256 < 2 ^ valueBits := by
    have : c * 2 ^ 8 + bitfield % 256 < 2 ^ 16 := by norm_num; omega
    omega
  rw [Int.emod_eq_of_lt hv0 hv1, Int.toNat_of_nonneg hv0]
  norm_num

/-- C32: for every `prefix` and `bitfield`, the option the constructor builds
has `getPrefix()` equal to `prefix` clamped into 0..128 and `getBitfield()`
equal to `bitfield` mod 256, and its value is clamp(prefix)*256 +
(bitfield mod 256), which fits 16 bits; `Value` has at least 16 bits. -/
theorem addrParams_fields (valueBits : Nat) (h : 16 ≤ valueBits) (pfx bitfield : Int) :
    (TSrvOptAddrParams.new valueBits pfx bitfield).getPrefix = max 0 (min pfx 128) ∧
    (TSrvOptAddrParams.new valueBits pfx bitfield).getBitfield = bitfield % 256 ∧
    ((TSrvOptAddrParams.new valueBits pfx bitfield).Value : Int) =
      max 0 (min pfx 128) * 256 + bitfield % 256 ∧
    (TSrvOptAddrParams.new valueBits pfx bitfield).Value < 2 ^ 16 := by
  have hv := new_Value valueBits h pfx bitfield
  have hb0 : 0 ≤ bitfield % 256 := Int.emod_nonneg _ (by norm_num)
  have hb1 : bitfield % 256 < 256 := Int.emod_lt_of_pos _ (by norm_num)
  have hc0 : 0 ≤ max 0 (min pfx 128) := by omega
  have hc1 : max 0 (min pfx 128) ≤ 128 := by omega
  unfold TSrvOptAddrParams.getPrefix TSrvOptAddrParams.getBitfield
  rw [and_0xff, and_0xff, Nat.shiftRight_eq_div_pow]
  generalize (TSrvOptAddrParams.new valueBits pfx bitfield).Value = v at *
  generalize max 0 (min pfx 128) = c at *
  generalize bitfield % 256 = r at *
  refine ⟨?_, ?_, hv, ?_⟩
  · push_cast
    omega
  · push_cast
    omega
  · norm_num
    omega

theorem addrParams_fields_witness :
    (16 : Nat) ≤ 32 ∧
    (TSrvOptAddrParams.new 32 200 (-1)).getPrefix = max 0 (min 200 128) ∧
    (TSrvOptAddrParams.new 32 200 (-1)).getBitfield = (-1) % 256 ∧
    ((TSrvOptAddrParams.new 32 200 (-1)).Value : Int) = max 0 (min 200 128) * 256 + (-1) % 256 ∧
    (TSrvOptAddrParams.new 32 200 (-1)).Value < 2 ^ 16 :=
  ⟨by decide, addrParams_fields 32 (by decide) 200 (-1)⟩

end Dibbler
